import Mathlib

/-!
# Stabilizer tableau engine: bit layout, Pauli products and Clifford gate updates

A shallow embedding of `src/tableau.cc`.  Packed bit storage is a function from
bit index to `Bool`; views into the storage (`PauliStringPtr`) are records of
indices, and an in-place update through a view is a load, a pure computation on
the loaded value and a store.  Loops are folds over their counter.  `size_t`
arithmetic is done in `Nat`: every address computed below is smaller than the
allocation size `4 * ceil256 n * ceil256 n`, so no wrap-around occurs for a
tableau that can be allocated.  `assert` statements are debug-only checks and do
not change the computed state; they are not part of the state transformers.
-/

set_option linter.unusedTactic false
set_option linter.unreachableTactic false
set_option linter.unnecessarySeqFocus false
set_option linter.unusedVariables false

namespace Stim


/-! ## Control flow -/

/-- The loop `for (k = 0; k < n; k++) s = body(k, s)`. -/
def for_loop {σ : Type} (body : Nat → σ → σ) : Nat → σ → σ
  | 0, s => s
  | k + 1, s => body k (for_loop body k s)

/-- Number of set bits among positions `0 .. n-1` (a population count). -/
def popcount_below (f : Nat → Bool) : Nat → Nat
  | 0 => 0
  | k + 1 => popcount_below f k + (f k).toNat

/-! ## Bit storage -/

/-- Modelled from the spec: `ceil256` is declared in a header outside the given
sources; it rounds a bit count up to a multiple of 256
(`ceil(nbits / 256) * 256`). -/
def ceil256 (n : Nat) : Nat := (n + 255) / 256 * 256

/-- Modelled from the spec: bit-granularity read of a packed bit vector. -/
def get_bit (d : Nat → Bool) (k : Nat) : Bool := d k

/-- Modelled from the spec: bit-granularity write of a packed bit vector. -/
def set_bit (d : Nat → Bool) (k : Nat) (v : Bool) : Nat → Bool :=
  fun a => if a = k then v else d a

/-- Writes `v 0 .. v (m-1)` to the bit positions `addr 0 .. addr (m-1)`. -/
def write_bits (addr : Nat → Nat) (v : Nat → Bool) (m : Nat) (d : Nat → Bool) : Nat → Bool :=
  for_loop (fun k d => set_bit d (addr k) (v k)) m d

/-- Modelled from the spec: 256-bit word `w` of a packed bit vector (`u256[w]`),
as the function giving its 256 bits. -/
def u256_load (d : Nat → Bool) (w : Nat) : Nat → Bool := fun b => d (256 * w + b)

/-- Modelled from the spec: store to the 256-bit word `w` (`u256[w] = v`). -/
def u256_store (d : Nat → Bool) (w : Nat) (v : Nat → Bool) : Nat → Bool :=
  fun a => if a / 256 = w then v (a % 256) else d a

def X2X_QUAD : Nat := 0
def Z2X_QUAD : Nat := 1
def X2Z_QUAD : Nat := 2
def Z2Z_QUAD : Nat := 3

def row_stride256 (_num_qubits : Nat) : Nat := 256

def column_stride256 (num_qubits : Nat) : Nat := ceil256 num_qubits

def bit_address (input_qubit output_qubit num_qubits quadrant : Nat) (transposed : Bool) : Nat :=
  let col_low := input_qubit &&& 0xFF
  let row_low := output_qubit &&& 0xFF
  let swapped := if transposed then (row_low, col_low) else (col_low, row_low)
  let col_low := swapped.1
  let row_low := swapped.2
  let bit_offset := row_low ||| (col_low <<< 8)
  let col_block := input_qubit >>> 8
  let row_block := output_qubit >>> 8
  let m := ceil256 num_qubits
  let block_index := row_block + col_block * (m >>> 8)
  bit_offset + (block_index <<< 16) + quadrant * m * m

/-! ## Pauli strings -/

/-- A Pauli string held by value (`PauliStringVal`): sign bit (true is minus) and
the x and z bits by qubit position. -/
structure PauliStringVal where
  size : Nat
  val_sign : Bool
  x_data : Nat → Bool
  z_data : Nat → Bool

/-- A view of a Pauli string inside packed storage (`PauliStringPtr`): the index
of its sign bit, the 64-bit word indices where its x and z bits start, and the
stride, in 256-bit words, between consecutive 256-bit chunks of the string. -/
structure PauliStringPtr where
  size : Nat
  bit_ptr_sign : Nat
  ptr_x : Nat
  ptr_z : Nat
  stride256 : Nat

/-- Modelled from the spec: position in the storage of bit `k` of a view that
starts at 64-bit word `base`: chunk `k / 256` of the string is `stride256` 256-bit
words after the previous one, and `k % 256` is the position inside the chunk. -/
def PauliStringPtr.bit_index (stride256 base k : Nat) : Nat :=
  64 * base + (k / 256 * 256 * stride256 + k % 256)

/-- Modelled from the spec: `PauliStringVal::identity(n)`: all zero, sign false. -/
def PauliStringVal.identity (n : Nat) : PauliStringVal :=
  { size := n, val_sign := false, x_data := fun _ => false, z_data := fun _ => false }

def PauliStringVal.get_x_bit (p : PauliStringVal) (k : Nat) : Bool := p.x_data k

def PauliStringVal.get_z_bit (p : PauliStringVal) (k : Nat) : Bool := p.z_data k

def PauliStringVal.set_x_bit (p : PauliStringVal) (k : Nat) (b : Bool) : PauliStringVal :=
  { p with x_data := set_bit p.x_data k b }

def PauliStringVal.set_z_bit (p : PauliStringVal) (k : Nat) (b : Bool) : PauliStringVal :=
  { p with z_data := set_bit p.z_data k b }

/-- Modelled from the spec: the two bit-vectors of the phase accounting of a
product `p1 * p2` at one qubit, with (x,z) = (1,0) X, (0,1) Z, (1,1) Y.  The
positive one marks a factor `+i` (X*Y, Y*Z, Z*X), the negative one a factor `-i`
(X*Z, Y*X, Z*Y); this is the convention `Y = i*X*Z` that `scatter_eval` states.
On every pair other than X*Z and Z*X the difference of the two is
`(x1 ∧ z2) - (z1 ∧ x2)`. -/
def log_i_positive (x1 z1 x2 z2 : Bool) : Bool :=
  (x1 && !z1 && x2 && z2) || (x1 && z1 && !x2 && z2) || (!x1 && z1 && x2 && !z2)

def log_i_negative (x1 z1 x2 z2 : Bool) : Bool :=
  (x1 && !z1 && !x2 && z2) || (x1 && z1 && x2 && !z2) || (!x1 && z1 && x2 && z2)

/-- Modelled from the spec: `inplace_right_mul_returning_log_i_scalar`: multiplies
`p` on the right by `rhs`: componentwise XOR of the x and z bits over all
256-bit words of the string, XOR of the sign bits, and the returned `log_i`, the
positive contributions minus the negative ones modulo 4. -/
def PauliStringVal.inplace_right_mul_returning_log_i_scalar
    (p rhs : PauliStringVal) : PauliStringVal × Nat :=
  let m := ceil256 p.size
  let pos := popcount_below (fun k => log_i_positive (p.x_data k) (p.z_data k) (rhs.x_data k) (rhs.z_data k)) m
  let neg := popcount_below (fun k => log_i_negative (p.x_data k) (p.z_data k) (rhs.x_data k) (rhs.z_data k)) m
  ({ size := p.size,
     val_sign := p.val_sign ^^ rhs.val_sign,
     x_data := fun k => p.x_data k ^^ rhs.x_data k,
     z_data := fun k => p.z_data k ^^ rhs.z_data k },
   (pos + 3 * neg) % 4)

/-- Modelled from the spec: the multiplication operator `*=`: the in-place right
multiplication, with the sign accumulating the phase `log_i` (whose parity is
asserted to be even). -/
def PauliStringVal.mul_assign (p rhs : PauliStringVal) : PauliStringVal :=
  let r := p.inplace_right_mul_returning_log_i_scalar rhs
  { r.1 with val_sign := r.1.val_sign ^^ (r.2 &&& 2 != 0) }

/-- Modelled from the spec: `commutes`: parity of `x1*z2 + z1*x2` is zero,
computed over all 256-bit words of the strings. -/
def PauliStringVal.commutes (p other : PauliStringVal) : Bool :=
  popcount_below (fun k => (p.x_data k && other.z_data k) ^^ (p.z_data k && other.x_data k))
    (ceil256 p.size) % 2 == 0

/-- Modelled from the spec: one character of `from_str`. -/
def pauli_char (c : Char) : Option (Bool × Bool) :=
  if c = 'I' ∨ c = '_' then some (false, false)
  else if c = 'X' then some (true, false)
  else if c = 'Y' then some (true, true)
  else if c = 'Z' then some (false, true)
  else none

/-- Modelled from the spec: the body of `from_str` after the sign character. -/
def from_chars : List Char → Option (List (Bool × Bool))
  | [] => some []
  | c :: cs =>
    match pauli_char c, from_chars cs with
    | some b, some bs => some (b :: bs)
    | _, _ => none

/-- Modelled from the spec: `PauliStringVal::from_str`: parses an optional sign
and a sequence of the letters I, X, Y, Z; `none` is the parse error. -/
def PauliStringVal.from_str (s : String) : Option PauliStringVal :=
  let cs := s.toList
  let neg := cs.head? == some '-'
  let body := if cs.head? == some '-' ∨ cs.head? == some '+' then cs.tail else cs
  match from_chars body with
  | some bs =>
    some { size := bs.length, val_sign := neg,
           x_data := fun k => (bs.getD k (false, false)).1,
           z_data := fun k => (bs.getD k (false, false)).2 }
  | none => none

/-! ## Tableau -/

structure Tableau where
  num_qubits : Nat
  data_x2x_z2x_x2z_z2z : Nat → Bool
  data_sign_x_z : Nat → Bool

/-- Size in bits of `data_x2x_z2x_x2z_z2z`, fixed by the constructor. -/
def Tableau.data_num_bits (t : Tableau) : Nat :=
  ceil256 t.num_qubits * ceil256 t.num_qubits * 4

/-- Size in bits of `data_sign_x_z`, fixed by the constructor. -/
def Tableau.sign_num_bits (t : Tableau) : Nat :=
  ceil256 t.num_qubits * 2

def Tableau.x_obs_ptr (t : Tableau) (qubit : Nat) : PauliStringPtr :=
  { size := t.num_qubits,
    bit_ptr_sign := qubit,
    ptr_x := bit_address qubit 0 t.num_qubits X2X_QUAD false >>> 6,
    ptr_z := bit_address qubit 0 t.num_qubits X2Z_QUAD false >>> 6,
    stride256 := row_stride256 t.num_qubits }

def Tableau.z_obs_ptr (t : Tableau) (qubit : Nat) : PauliStringPtr :=
  { size := t.num_qubits,
    bit_ptr_sign := ceil256 t.num_qubits + qubit,
    ptr_x := bit_address qubit 0 t.num_qubits Z2X_QUAD false >>> 6,
    ptr_z := bit_address qubit 0 t.num_qubits Z2Z_QUAD false >>> 6,
    stride256 := row_stride256 t.num_qubits }

def Tableau.z_sign (t : Tableau) (a : Nat) : Bool :=
  get_bit t.data_sign_x_z (a + ceil256 t.num_qubits)

/-- Reads the Pauli string a view points at (all 256-bit words of it). -/
def Tableau.load (t : Tableau) (p : PauliStringPtr) : PauliStringVal :=
  { size := p.size,
    val_sign := get_bit t.data_sign_x_z p.bit_ptr_sign,
    x_data := fun k => decide (k < ceil256 p.size) &&
      get_bit t.data_x2x_z2x_x2z_z2z (PauliStringPtr.bit_index p.stride256 p.ptr_x k),
    z_data := fun k => decide (k < ceil256 p.size) &&
      get_bit t.data_x2x_z2x_x2z_z2z (PauliStringPtr.bit_index p.stride256 p.ptr_z k) }

/-- Writes a Pauli string through a view (`overwrite_with`, and the write-back
of every in-place operation on a view). -/
def Tableau.store (t : Tableau) (p : PauliStringPtr) (v : PauliStringVal) : Tableau :=
  { t with
    data_sign_x_z := set_bit t.data_sign_x_z p.bit_ptr_sign v.val_sign,
    data_x2x_z2x_x2z_z2z :=
      write_bits (PauliStringPtr.bit_index p.stride256 p.ptr_z) v.z_data (ceil256 p.size)
        (write_bits (PauliStringPtr.bit_index p.stride256 p.ptr_x) v.x_data (ceil256 p.size)
          t.data_x2x_z2x_x2z_z2z) }

/-- The call `p.bit_ptr_sign.toggle()`. -/
def Tableau.toggle_sign (t : Tableau) (p : PauliStringPtr) : Tableau :=
  { t with data_sign_x_z :=
      set_bit t.data_sign_x_z p.bit_ptr_sign (!get_bit t.data_sign_x_z p.bit_ptr_sign) }

/-- Modelled from the spec: `a.swap_with(b)` for two views of one tableau. -/
def Tableau.swap_with (t : Tableau) (a b : PauliStringPtr) : Tableau :=
  let va := t.load a
  let vb := t.load b
  (t.store a vb).store b va

/-- The call `a.inplace_right_mul_returning_log_i_scalar(b)` on two views of one
tableau: the new tableau and the returned `log_i`. -/
def Tableau.inplace_right_mul (t : Tableau) (a b : PauliStringPtr) : Tableau × Nat :=
  let r := (t.load a).inplace_right_mul_returning_log_i_scalar (t.load b)
  (t.store a r.1, r.2)

/-- The statement `a *= b` on two views of one tableau. -/
def Tableau.mul_assign (t : Tableau) (a b : PauliStringPtr) : Tableau :=
  t.store a ((t.load a).mul_assign (t.load b))

def Tableau.eval_y_obs (t : Tableau) (qubit : Nat) : PauliStringVal :=
  let result := t.load (t.x_obs_ptr qubit)
  let r := result.inplace_right_mul_returning_log_i_scalar (t.load (t.z_obs_ptr qubit))
  let log_i := (r.2 + 1) % 256
  if log_i &&& 2 != 0 then { r.1 with val_sign := r.1.val_sign ^^ true } else r.1

/-- The constructor `Tableau::Tableau(num_qubits)`. -/
def Tableau.ctor (num_qubits : Nat) : Tableau :=
  { num_qubits := num_qubits,
    data_x2x_z2x_x2z_z2z :=
      for_loop (fun q d =>
        set_bit (set_bit d (bit_address q q num_qubits X2X_QUAD false) true)
          (bit_address q q num_qubits Z2Z_QUAD false) true) num_qubits (fun _ => false),
    data_sign_x_z := fun _ => false }

def Tableau.identity (num_qubits : Nat) : Tableau := Tableau.ctor num_qubits

def Tableau.prepend_SQRT_X (t : Tableau) (q : Nat) : Tableau :=
  let z := t.z_obs_ptr q
  let r := t.inplace_right_mul z (t.x_obs_ptr q)
  let m := (1 + r.2) % 256
  if m &&& 2 != 0 then r.1.toggle_sign z else r.1

def Tableau.prepend_SQRT_X_DAG (t : Tableau) (q : Nat) : Tableau :=
  let z := t.z_obs_ptr q
  let r := t.inplace_right_mul z (t.x_obs_ptr q)
  let m := (3 + r.2) % 256
  if m &&& 2 != 0 then r.1.toggle_sign z else r.1

def Tableau.prepend_SQRT_Y (t : Tableau) (q : Nat) : Tableau :=
  let z := t.z_obs_ptr q
  let t1 := t.toggle_sign z
  t1.swap_with (t1.x_obs_ptr q) z

def Tableau.prepend_SQRT_Y_DAG (t : Tableau) (q : Nat) : Tableau :=
  let z := t.z_obs_ptr q
  let t1 := t.swap_with (t.x_obs_ptr q) z
  t1.toggle_sign z

def Tableau.prepend_SQRT_Z (t : Tableau) (q : Nat) : Tableau :=
  let x := t.x_obs_ptr q
  let r := t.inplace_right_mul x (t.z_obs_ptr q)
  let m := (1 + r.2) % 256
  if m &&& 2 != 0 then r.1.toggle_sign x else r.1

def Tableau.prepend_SQRT_Z_DAG (t : Tableau) (q : Nat) : Tableau :=
  let x := t.x_obs_ptr q
  let r := t.inplace_right_mul x (t.z_obs_ptr q)
  let m := (3 + r.2) % 256
  if m &&& 2 != 0 then r.1.toggle_sign x else r.1

def Tableau.prepend_CX (t : Tableau) (control target : Nat) : Tableau :=
  let t1 := t.mul_assign (t.z_obs_ptr target) (t.z_obs_ptr control)
  t1.mul_assign (t1.x_obs_ptr control) (t1.x_obs_ptr target)

def Tableau.prepend_CZ (t : Tableau) (control target : Nat) : Tableau :=
  let t1 := t.mul_assign (t.x_obs_ptr target) (t.z_obs_ptr control)
  t1.mul_assign (t1.x_obs_ptr control) (t1.z_obs_ptr target)

def Tableau.prepend_H (t : Tableau) (q : Nat) : Tableau :=
  let z := t.z_obs_ptr q
  t.swap_with (t.x_obs_ptr q) z

def Tableau.prepend_H_YZ (t : Tableau) (q : Nat) : Tableau :=
  let x := t.x_obs_ptr q
  let z := t.z_obs_ptr q
  let r := t.inplace_right_mul z x
  let m := (3 + r.2) % 256
  let t1 := r.1.toggle_sign x
  if m &&& 2 != 0 then t1.toggle_sign z else t1

def Tableau.prepend_H_XY (t : Tableau) (q : Nat) : Tableau :=
  let x := t.x_obs_ptr q
  let z := t.z_obs_ptr q
  let r := t.inplace_right_mul x z
  let m := (1 + r.2) % 256
  let t1 := r.1.toggle_sign z
  if m &&& 2 != 0 then t1.toggle_sign x else t1

def Tableau.prepend_CY (t : Tableau) (control target : Nat) : Tableau :=
  let t1 := t.prepend_H_YZ target
  let t2 := t1.prepend_CZ control target
  t2.prepend_H_YZ target

def Tableau.prepend_X (t : Tableau) (q : Nat) : Tableau :=
  t.toggle_sign (t.z_obs_ptr q)

def Tableau.prepend_Y (t : Tableau) (q : Nat) : Tableau :=
  let t1 := t.toggle_sign (t.x_obs_ptr q)
  t1.toggle_sign (t1.z_obs_ptr q)

def Tableau.prepend_Z (t : Tableau) (q : Nat) : Tableau :=
  t.toggle_sign (t.x_obs_ptr q)

/-- One iteration of the loop of `scatter_eval`. -/
def Tableau.scatter_eval_step (t : Tableau) (gathered_input : PauliStringVal)
    (scattered_indices : List Nat) (k_gathered : Nat) (result : PauliStringVal) : PauliStringVal :=
  let k_scattered := scattered_indices.getD k_gathered 0
  let x := gathered_input.get_x_bit k_gathered
  let z := gathered_input.get_z_bit k_gathered
  if x then
    if z then
      let r1 := result.inplace_right_mul_returning_log_i_scalar (t.load (t.x_obs_ptr k_scattered))
      let r2 := r1.1.inplace_right_mul_returning_log_i_scalar (t.load (t.z_obs_ptr k_scattered))
      let log_i := (1 + r1.2 + r2.2) % 256
      { r2.1 with val_sign := r2.1.val_sign ^^ (log_i &&& 2 != 0) }
    else
      result.mul_assign (t.load (t.x_obs_ptr k_scattered))
  else if z then
    result.mul_assign (t.load (t.z_obs_ptr k_scattered))
  else
    result

def Tableau.scatter_eval (t : Tableau) (gathered_input : PauliStringVal)
    (scattered_indices : List Nat) : PauliStringVal :=
  let result := { PauliStringVal.identity t.num_qubits with val_sign := gathered_input.val_sign }
  for_loop (t.scatter_eval_step gathered_input scattered_indices) gathered_input.size result

/-- The call operator `Tableau::operator()`. -/
def Tableau.call (t : Tableau) (p : PauliStringVal) : PauliStringVal :=
  t.scatter_eval p (for_loop (fun k indices => indices ++ [k]) p.size [])

def Tableau.inplace_scatter_prepend (t operation : Tableau) (target_qubits : List Nat) : Tableau :=
  let new_x := for_loop (fun q acc =>
    acc ++ [t.scatter_eval (operation.load (operation.x_obs_ptr q)) target_qubits])
    operation.num_qubits []
  let new_z := for_loop (fun q acc =>
    acc ++ [t.scatter_eval (operation.load (operation.z_obs_ptr q)) target_qubits])
    operation.num_qubits []
  for_loop (fun q t1 =>
    let t2 := t1.store (t1.x_obs_ptr (target_qubits.getD q 0))
      (new_x.getD q (PauliStringVal.identity 0))
    t2.store (t2.z_obs_ptr (target_qubits.getD q 0)) (new_z.getD q (PauliStringVal.identity 0)))
    operation.num_qubits t

def Tableau.satisfies_invariants (t : Tableau) : Bool :=
  (List.range t.num_qubits).all fun q1 =>
    let x1 := t.load (t.x_obs_ptr q1)
    let z1 := t.load (t.z_obs_ptr q1)
    !(x1.commutes z1) &&
    (List.range' (q1 + 1) (t.num_qubits - (q1 + 1))).all fun q2 =>
      let x2 := t.load (t.x_obs_ptr q2)
      let z2 := t.load (t.z_obs_ptr q2)
      x1.commutes x2 && x1.commutes z2 && z1.commutes x2 && z1.commutes z2


/-! ## Gate table -/

def Tableau.gate1 (x z : String) : Option Tableau :=
  match PauliStringVal.from_str x, PauliStringVal.from_str z with
  | some px, some pz =>
    let result := Tableau.ctor 1
    let result := result.store (result.x_obs_ptr 0) px
    let result := result.store (result.z_obs_ptr 0) pz
    some result
  | _, _ => none

def Tableau.gate2 (x1 z1 x2 z2 : String) : Option Tableau :=
  match PauliStringVal.from_str x1, PauliStringVal.from_str z1,
      PauliStringVal.from_str x2, PauliStringVal.from_str z2 with
  | some px1, some pz1, some px2, some pz2 =>
    let result := Tableau.ctor 2
    let result := result.store (result.x_obs_ptr 0) px1
    let result := result.store (result.z_obs_ptr 0) pz1
    let result := result.store (result.x_obs_ptr 1) px2
    let result := result.store (result.z_obs_ptr 1) pz2
    some result
  | _, _, _, _ => none

/-- The entries of the map `GATE_TABLEAUS`; `none` stands for an entry whose
strings do not parse. -/
def GATE_TABLEAUS_entries : List (String × Option Tableau) :=
  [ ("I", Tableau.gate1 "+X" "+Z"),
    ("X", Tableau.gate1 "+X" "-Z"),
    ("Y", Tableau.gate1 "-X" "-Z"),
    ("Z", Tableau.gate1 "-X" "+Z"),
    ("H", Tableau.gate1 "+Z" "+X"),
    ("H_XY", Tableau.gate1 "+Y" "-Z"),
    ("H_XZ", Tableau.gate1 "+Z" "+X"),
    ("H_YZ", Tableau.gate1 "-X" "+Y"),
    ("SQRT_X", Tableau.gate1 "+X" "-Y"),
    ("SQRT_X_DAG", Tableau.gate1 "+X" "+Y"),
    ("SQRT_Y", Tableau.gate1 "-Z" "+X"),
    ("SQRT_Y_DAG", Tableau.gate1 "+Z" "-X"),
    ("SQRT_Z", Tableau.gate1 "+Y" "+Z"),
    ("SQRT_Z_DAG", Tableau.gate1 "-Y" "+Z"),
    ("S", Tableau.gate1 "+Y" "+Z"),
    ("S_DAG", Tableau.gate1 "-Y" "+Z"),
    ("CNOT", Tableau.gate2 "+XX" "+ZI" "+IX" "+ZZ"),
    ("CX", Tableau.gate2 "+XX" "+ZI" "+IX" "+ZZ"),
    ("CY", Tableau.gate2 "+XY" "+ZI" "+ZX" "+ZZ"),
    ("CZ", Tableau.gate2 "+XZ" "+ZI" "+ZX" "+IZ"),
    ("SWAP", Tableau.gate2 "+IX" "+IZ" "+XI" "+ZI") ]

/-- The lookup `GATE_TABLEAUS.at(name)`; `none` when there is no such entry. -/
def GATE_TABLEAUS (name : String) : Option Tableau :=
  match GATE_TABLEAUS_entries.lookup name with
  | some (some g) => some g
  | _ => none


/-! ## Block-transposed tableau -/

/-- Modelled from the spec: `transpose_bit_matrix_256x256blocks`, the kernel that
transposes each 256x256 bit tile of a flat array of tiles in place: inside every
tile of 65536 bits, the bit at row `r`, column `c` becomes the bit that was at
row `c`, column `r`; the arrangement of the tiles is unchanged. -/
def transpose_bit_matrix_256x256blocks (d : Nat → Bool) (num_bits : Nat) : Nat → Bool :=
  fun a => if a < num_bits then d (a / 65536 * 65536 + a % 256 * 256 + a / 256 % 256) else d a

structure BlockTransposedTableau where
  tableau : Tableau

def BlockTransposedTableau.blockwise_transpose (b : BlockTransposedTableau) :
    BlockTransposedTableau :=
  { tableau := { b.tableau with
      data_x2x_z2x_x2z_z2z :=
        transpose_bit_matrix_256x256blocks b.tableau.data_x2x_z2x_x2z_z2z
          b.tableau.data_num_bits } }

/-- The constructor `BlockTransposedTableau(Tableau &tableau)`. -/
def BlockTransposedTableau.ctor (tableau : Tableau) : BlockTransposedTableau :=
  BlockTransposedTableau.blockwise_transpose { tableau := tableau }

/-- The destructor: the tableau the scope leaves behind. -/
def BlockTransposedTableau.dtor (b : BlockTransposedTableau) : Tableau :=
  b.blockwise_transpose.tableau

/-- Two columns of 256-bit words (`TransposedPauliStringPtr`): indices into the
`u256` array of the storage. -/
structure TransposedPauliStringPtr where
  x : Nat
  z : Nat

def BlockTransposedTableau.transposed_double_col_obs_ptr (b : BlockTransposedTableau)
    (qubit : Nat) : TransposedPauliStringPtr :=
  { x := bit_address 0 qubit b.tableau.num_qubits X2X_QUAD true >>> 8,
    z := bit_address 0 qubit b.tableau.num_qubits X2Z_QUAD true >>> 8 }

/-- State of the loops of the append operations: the moving pointers, the index
of the current 256-bit word of the signs, and the two bit vectors. -/
structure AppendState where
  pc : TransposedPauliStringPtr
  pt : TransposedPauliStringPtr
  s : Nat
  data : Nat → Bool
  sign : Nat → Bool

def append_CX_body (stride256 : Nat) (st : AppendState) : AppendState :=
  let sign := u256_store st.sign st.s (fun b =>
    u256_load st.sign st.s b ^^
      (!(u256_load st.data st.pc.z b ^^ u256_load st.data st.pt.x b) &&
        (u256_load st.data st.pc.x b && u256_load st.data st.pt.z b)))
  let data := u256_store st.data st.pc.z (fun b =>
    u256_load st.data st.pc.z b ^^ u256_load st.data st.pt.z b)
  let data := u256_store data st.pt.x (fun b =>
    u256_load data st.pt.x b ^^ u256_load data st.pc.x b)
  { pc := { x := st.pc.x + stride256, z := st.pc.z + stride256 },
    pt := { x := st.pt.x + stride256, z := st.pt.z + stride256 },
    s := st.s + 1, data := data, sign := sign }

def append_H_YZ_body (stride256 : Nat) (st : AppendState) : AppendState :=
  let sign := u256_store st.sign st.s (fun b =>
    u256_load st.sign st.s b ^^ (!(u256_load st.data st.pt.z b) && u256_load st.data st.pt.x b))
  let data := u256_store st.data st.pt.x (fun b =>
    u256_load st.data st.pt.x b ^^ u256_load st.data st.pt.z b)
  { st with
    pt := { x := st.pt.x + stride256, z := st.pt.z + stride256 },
    s := st.s + 1, data := data, sign := sign }

def append_H_body (stride256 : Nat) (st : AppendState) : AppendState :=
  let vx := u256_load st.data st.pt.x
  let vz := u256_load st.data st.pt.z
  let data := u256_store (u256_store st.data st.pt.x vz) st.pt.z vx
  let sign := u256_store st.sign st.s (fun b =>
    u256_load st.sign st.s b ^^ (u256_load data st.pt.x b && u256_load data st.pt.z b))
  { st with
    pt := { x := st.pt.x + stride256, z := st.pt.z + stride256 },
    s := st.s + 1, data := data, sign := sign }

def append_X_body (stride256 : Nat) (st : AppendState) : AppendState :=
  let sign := u256_store st.sign st.s (fun b =>
    u256_load st.sign st.s b ^^ u256_load st.data st.pt.z b)
  { st with
    pt := { x := st.pt.x, z := st.pt.z + stride256 },
    s := st.s + 1, sign := sign }

/-- Runs a loop `while (s != end)` whose body advances `s` by one: `end - s`
iterations. -/
def BlockTransposedTableau.run_loop (b : BlockTransposedTableau)
    (body : Nat → AppendState → AppendState) (pc pt : TransposedPauliStringPtr) :
    BlockTransposedTableau :=
  let st := for_loop (fun _ st => body (column_stride256 b.tableau.num_qubits) st)
    (b.tableau.sign_num_bits >>> 8)
    { pc := pc, pt := pt, s := 0, data := b.tableau.data_x2x_z2x_x2z_z2z,
      sign := b.tableau.data_sign_x_z }
  { tableau := { b.tableau with data_x2x_z2x_x2z_z2z := st.data, data_sign_x_z := st.sign } }

def BlockTransposedTableau.append_CX (b : BlockTransposedTableau) (control target : Nat) :
    BlockTransposedTableau :=
  b.run_loop append_CX_body (b.transposed_double_col_obs_ptr control)
    (b.transposed_double_col_obs_ptr target)

def BlockTransposedTableau.append_H_YZ (b : BlockTransposedTableau) (target : Nat) :
    BlockTransposedTableau :=
  b.run_loop append_H_YZ_body (b.transposed_double_col_obs_ptr target)
    (b.transposed_double_col_obs_ptr target)

def BlockTransposedTableau.append_H (b : BlockTransposedTableau) (target : Nat) :
    BlockTransposedTableau :=
  b.run_loop append_H_body (b.transposed_double_col_obs_ptr target)
    (b.transposed_double_col_obs_ptr target)

def BlockTransposedTableau.append_X (b : BlockTransposedTableau) (target : Nat) :
    BlockTransposedTableau :=
  b.run_loop append_X_body (b.transposed_double_col_obs_ptr target)
    (b.transposed_double_col_obs_ptr target)

def BlockTransposedTableau.z_sign (b : BlockTransposedTableau) (a : Nat) : Bool :=
  b.tableau.z_sign a

def BlockTransposedTableau.z_obs_x_bit (b : BlockTransposedTableau)
    (input_qubit output_qubit : Nat) : Bool :=
  get_bit b.tableau.data_x2x_z2x_x2z_z2z
    (bit_address input_qubit output_qubit b.tableau.num_qubits Z2X_QUAD true)

def BlockTransposedTableau.z_obs_z_bit (b : BlockTransposedTableau)
    (input_qubit output_qubit : Nat) : Bool :=
  get_bit b.tableau.data_x2x_z2x_x2z_z2z
    (bit_address input_qubit output_qubit b.tableau.num_qubits Z2Z_QUAD true)

/-! ## The generic append -/

/-- Modelled from the spec: `gather_into` (declared in the Pauli string header,
outside the given sources): copies the bits found at positions
`in_indices[k]` of the source into positions `k` of `out`, for every `k` below
the size of `out`; the sign of `out` is left alone. -/
def PauliStringVal.gather_into (src out : PauliStringVal) (in_indices : List Nat) :
    PauliStringVal :=
  for_loop (fun k_out o =>
    (o.set_x_bit k_out (src.get_x_bit (in_indices.getD k_out 0))).set_z_bit k_out
      (src.get_z_bit (in_indices.getD k_out 0))) out.size out

/-- Modelled from the spec: `scatter_into` (declared in the Pauli string header,
outside the given sources): copies the bit at position `k` of the source to
position `out_indices[k]` of `out`, for every `k` below the size of the source,
and toggles the sign of `out` when the sign of the source is set. -/
def PauliStringVal.scatter_into (src out : PauliStringVal) (out_indices : List Nat) :
    PauliStringVal :=
  let r := for_loop (fun k_in o =>
    (o.set_x_bit (out_indices.getD k_in 0) (src.get_x_bit k_in)).set_z_bit
      (out_indices.getD k_in 0) (src.get_z_bit k_in)) src.size out
  { r with val_sign := r.val_sign ^^ src.val_sign }

/-- The call `operation.apply_within(target, target_qubits)` on a view `target`
of the tableau `t`. -/
def Tableau.apply_within (operation t : Tableau) (target : PauliStringPtr)
    (target_qubits : List Nat) : Tableau :=
  let inp := PauliStringVal.identity operation.num_qubits
  let inp := (t.load target).gather_into inp target_qubits
  let out := operation.call inp
  t.store target (out.scatter_into (t.load target) target_qubits)

def Tableau.inplace_scatter_append (t operation : Tableau) (target_qubits : List Nat) : Tableau :=
  for_loop (fun q t1 =>
    let t2 := operation.apply_within t1 (t1.x_obs_ptr q) target_qubits
    operation.apply_within t2 (t2.z_obs_ptr q) target_qubits) t.num_qubits t

/-! ## The debug assertions

The `assert` statements do not change the state; they are written here as
predicates of the state at the point where the source checks them. -/

/-- Modelled from the spec: the assertion of the multiplication operator `*=`: the
`log_i` returned by the in-place multiplication has its low bit zero. -/
def PauliStringVal.mul_assign_assertion (p rhs : PauliStringVal) : Bool :=
  (p.inplace_right_mul_returning_log_i_scalar rhs).2 &&& 1 == 0

/-- The assertion of the statement `a *= b` on two views of one tableau. -/
def Tableau.mul_assign_assertion (t : Tableau) (a b : PauliStringPtr) : Bool :=
  (t.load a).mul_assign_assertion (t.load b)

/-- The statement `assert((log_i & 1) == 0)` of `eval_y_obs`. -/
def Tableau.eval_y_obs_assertion (t : Tableau) (qubit : Nat) : Bool :=
  let result := t.load (t.x_obs_ptr qubit)
  let r := result.inplace_right_mul_returning_log_i_scalar (t.load (t.z_obs_ptr qubit))
  let log_i := (r.2 + 1) % 256
  log_i &&& 1 == 0

/-- The assertion that one iteration of the loop of `scatter_eval` checks: the
one of the Y branch, or the one of `*=`. -/
def Tableau.scatter_eval_step_assertion (t : Tableau) (gathered_input : PauliStringVal)
    (scattered_indices : List Nat) (k_gathered : Nat) (result : PauliStringVal) : Bool :=
  let k_scattered := scattered_indices.getD k_gathered 0
  let x := gathered_input.get_x_bit k_gathered
  let z := gathered_input.get_z_bit k_gathered
  if x then
    if z then
      let r1 := result.inplace_right_mul_returning_log_i_scalar (t.load (t.x_obs_ptr k_scattered))
      let r2 := r1.1.inplace_right_mul_returning_log_i_scalar (t.load (t.z_obs_ptr k_scattered))
      let log_i := (1 + r1.2 + r2.2) % 256
      log_i &&& 1 == 0
    else
      result.mul_assign_assertion (t.load (t.x_obs_ptr k_scattered))
  else if z then
    result.mul_assign_assertion (t.load (t.z_obs_ptr k_scattered))
  else
    true

/-- All assertions of one call of `scatter_eval`: the one of every iteration, on
the accumulator that iteration starts from. -/
def Tableau.scatter_eval_assertions (t : Tableau) (gathered_input : PauliStringVal)
    (scattered_indices : List Nat) : Bool :=
  (List.range gathered_input.size).all fun k =>
    t.scatter_eval_step_assertion gathered_input scattered_indices k
      (for_loop (t.scatter_eval_step gathered_input scattered_indices) k
        { PauliStringVal.identity t.num_qubits with val_sign := gathered_input.val_sign })

/-- The value `m = c + a.inplace_right_mul_returning_log_i_scalar(b)` (a `uint8_t`)
that `prepend_SQRT_X`, `prepend_SQRT_X_DAG`, `prepend_SQRT_Z`, `prepend_SQRT_Z_DAG`,
`prepend_H_XY` and `prepend_H_YZ` compute, for their constant `c` and views `a`, `b`. -/
def Tableau.phase_m (t : Tableau) (c : Nat) (a b : PauliStringPtr) : Nat :=
  (c + (t.inplace_right_mul a b).2) % 256

/-! ## Command line (`src/main.cc`) -/

inductive SampleFormat where
  | SAMPLE_FORMAT_01
  | SAMPLE_FORMAT_B8
  | SAMPLE_FORMAT_PTB64
  deriving DecidableEq, Repr

def format_names : List String := ["01", "b8", "ptb64"]

def format_values : List SampleFormat :=
  [SampleFormat.SAMPLE_FORMAT_01, SampleFormat.SAMPLE_FORMAT_B8, SampleFormat.SAMPLE_FORMAT_PTB64]

/-- The text given for an integer flag on the command line. -/
inductive IntText where
  | absent
  | value (v : Int)
  | malformed
  deriving DecidableEq, Repr

/-- What the command line holds for the flags `main` reads (the flags of
`known_arguments`), and whether the file named by `-out` can be opened. -/
structure CommandLine where
  format : Option String
  repl : Bool
  frame0 : Bool
  shots : IntText
  out_path : Option String
  out_opens : Bool

/-- Modelled from the spec: `find_enum_argument` (argument parsing is outside the
given sources): the index of the given text among the names, the default index
when the flag is absent, and failure (`none`, the process exits) for a text
that is not one of the names. -/
def find_enum_argument (default_index : Nat) (names : List String) (given : Option String) :
    Option Nat :=
  match given with
  | none => some default_index
  | some s => if names.indexOf s < names.length then some (names.indexOf s) else none

/-- Modelled from the spec: `find_int_argument(name, default_value, min_value,
max_value, argc, argv)` (argument parsing is outside the given sources): the
given integer when it lies in `min_value .. max_value`, the default when the
flag is absent, and failure (`none`, the process exits) otherwise. -/
def find_int_argument (default_value min_value max_value : Int) (given : IntText) : Option Int :=
  match given with
  | .absent =>
    if default_value < min_value ∨ max_value < default_value then none else some default_value
  | .value v => if v < min_value ∨ max_value < v then none else some v
  | .malformed => none

/-- How `main` ends: with `exit(EXIT_FAILURE)` for one of its reasons, or by
running one of the three sampling paths. -/
inductive Outcome where
  | bad_argument
  | failed_to_open
  | multiple_samples_and_interactive
  | binary_format_and_repl
  | repl_and_frame0
  | frame_sample_out (samples : Int) (format : SampleFormat)
  | sample_stream (interactive : Bool)
  | reference_sample_out (samples : Int) (format : SampleFormat)
  deriving DecidableEq, Repr

def Outcome.is_failure : Outcome → Bool
  | .frame_sample_out _ _ => false
  | .sample_stream _ => false
  | .reference_sample_out _ _ => false
  | _ => true

/-- The number of shots `main` reads: `find_int_argument("-shots", 1, 0, 1 << 30, ...)`. -/
def main_samples (c : CommandLine) : Option Int :=
  find_int_argument 1 0 ((1 <<< 30 : Nat) : Int) c.shots

/-- The function `main` of `src/main.cc`, up to the call of a sampler. -/
def main (c : CommandLine) : Outcome :=
  match find_enum_argument 0 format_names c.format with
  | none => .bad_argument
  | some index =>
    let format := format_values.getD index SampleFormat.SAMPLE_FORMAT_01
    let interactive := c.repl
    let frame0 := c.frame0
    match main_samples c with
    | none => .bad_argument
    | some samples =>
      if c.out_path.isSome && !c.out_opens then .failed_to_open
      else if samples != 1 && interactive then .multiple_samples_and_interactive
      else if interactive && format != SampleFormat.SAMPLE_FORMAT_01 then .binary_format_and_repl
      else if interactive && frame0 then .repl_and_frame0
      else if frame0 then .frame_sample_out samples format
      else if samples == 1 && format == SampleFormat.SAMPLE_FORMAT_01 then
        .sample_stream interactive
      else .reference_sample_out samples format

/-! ## Auxiliary definitions used in the proofs -/

/-- The part of a row-major address below the quadrant offset. -/
def tile_offset (i o n : Nat) : Nat :=
  o % 256 + 256 * (i % 256) + 65536 * (o / 256 + i / 256 * (ceil256 n / 256))


/-- The view of one of the `2n` observables: the Z observable of `q` when `is_z`,
the X observable otherwise. -/
def Tableau.obs_ptr (t : Tableau) (is_z : Bool) (q : Nat) : PauliStringPtr :=
  if is_z then t.z_obs_ptr q else t.x_obs_ptr q

/-- The stored Pauli string of an observable, read through its view. -/
def Tableau.obs (t : Tableau) (is_z : Bool) (q : Nat) : PauliStringVal :=
  t.load (t.obs_ptr is_z q)

/-- A Pauli string cut to the storage of an `n`-qubit string. -/
def PauliStringVal.clip (v : PauliStringVal) (n : Nat) : PauliStringVal :=
  { size := n, val_sign := v.val_sign,
    x_data := fun k => decide (k < ceil256 n) && v.x_data k,
    z_data := fun k => decide (k < ceil256 n) && v.z_data k }

/-- A Pauli string of size `n` with no bit set outside its storage. -/
def PauliStringVal.wf (v : PauliStringVal) (n : Nat) : Prop :=
  v.size = n ∧ ∀ k, ceil256 n ≤ k → v.x_data k = false ∧ v.z_data k = false

/-- The part of the storage of a tableau that lies outside the two allocations. -/
def Tableau.outside (t : Tableau) : Tableau :=
  { num_qubits := t.num_qubits,
    data_x2x_z2x_x2z_z2z := fun a =>
      decide (ceil256 t.num_qubits * ceil256 t.num_qubits * 4 ≤ a) && t.data_x2x_z2x_x2z_z2z a,
    data_sign_x_z := fun a => decide (ceil256 t.num_qubits * 2 ≤ a) && t.data_sign_x_z a }

/-- Sum of `f 0 .. f (n-1)`. -/
def sum_below (f : Nat → Nat) : Nat → Nat
  | 0 => 0
  | k + 1 => sum_below f k + f k

/-- Power of `i` contributed by one qubit to a product: 1 for `+i`, 3 for `-i`. -/
def log_i_term (x1 z1 x2 z2 : Bool) : Nat :=
  (log_i_positive x1 z1 x2 z2).toNat + 3 * (log_i_negative x1 z1 x2 z2).toNat

/-- An element of the Pauli group on `m` bit positions: `i ^ ph` times the
Hermitian Pauli string with the given x and z bits. -/
structure PhasedPauli (m : Nat) where
  ph : ZMod 4
  x : Nat → Bool
  z : Nat → Bool

/-- Power of `i` produced by multiplying the Hermitian parts of two elements. -/
def PhasedPauli.phase {m : Nat} (a b : PhasedPauli m) : ZMod 4 :=
  ((sum_below (fun k => log_i_term (a.x k) (a.z k) (b.x k) (b.z k)) m : Nat) : ZMod 4)

/-- Product in the Pauli group. -/
def PhasedPauli.mul {m : Nat} (a b : PhasedPauli m) : PhasedPauli m :=
  { ph := a.ph + b.ph + a.phase b,
    x := fun k => a.x k ^^ b.x k,
    z := fun k => a.z k ^^ b.z k }

/-- The scalar `i ^ e`. -/
def PhasedPauli.scalar (m : Nat) (e : ZMod 4) : PhasedPauli m :=
  { ph := e, x := fun _ => false, z := fun _ => false }

/-- Whether two elements anticommute: the symplectic product of their bits. -/
def PhasedPauli.anti {m : Nat} (a b : PhasedPauli m) : Bool :=
  popcount_below (fun k => (a.x k && b.z k) ^^ (a.z k && b.x k)) m % 2 == 1

/-- A signed Pauli string as an element of the Pauli group. -/
def PauliStringVal.embed (m : Nat) (v : PauliStringVal) : PhasedPauli m :=
  { ph := if v.val_sign then 2 else 0, x := v.x_data, z := v.z_data }

/-- Bit 1 of a phase exponent: whether `i ^ e` is `-1` or `-i`. -/
def phase_hi (e : ZMod 4) : Bool := decide (e = 2 ∨ e = 3)

/-- The stored result of an in-place right multiplication followed by a sign
toggle when bit 1 of `c + log_i` is set: the string `i ^ c * a * b`. -/
def PauliStringVal.mul_phase (c : Nat) (a b : PauliStringVal) : PauliStringVal :=
  let r := a.inplace_right_mul_returning_log_i_scalar b
  { r.1 with val_sign := r.1.val_sign ^^ ((c + r.2) % 256 &&& 2 != 0) }

/-- The string with its sign toggled. -/
def PauliStringVal.neg (a : PauliStringVal) : PauliStringVal :=
  { a with val_sign := !a.val_sign }

/-- The gates that have a specialised row-major operation. -/
inductive Gate where
  | H | H_XY | H_YZ | X | Y | Z
  | SQRT_X | SQRT_X_DAG | SQRT_Y | SQRT_Y_DAG | SQRT_Z | SQRT_Z_DAG
  | CX | CY | CZ
  deriving DecidableEq, Repr

/-- Key of a gate in `GATE_TABLEAUS`. -/
def Gate.name : Gate → String
  | .H => "H" | .H_XY => "H_XY" | .H_YZ => "H_YZ" | .X => "X" | .Y => "Y" | .Z => "Z"
  | .SQRT_X => "SQRT_X" | .SQRT_X_DAG => "SQRT_X_DAG" | .SQRT_Y => "SQRT_Y"
  | .SQRT_Y_DAG => "SQRT_Y_DAG" | .SQRT_Z => "SQRT_Z" | .SQRT_Z_DAG => "SQRT_Z_DAG"
  | .CX => "CX" | .CY => "CY" | .CZ => "CZ"

/-- Number of target qubits of a gate. -/
def Gate.arity : Gate → Nat
  | .CX => 2 | .CY => 2 | .CZ => 2 | _ => 1

/-- The adjoint of a gate. -/
def Gate.adjoint : Gate → Gate
  | .SQRT_X => .SQRT_X_DAG | .SQRT_X_DAG => .SQRT_X
  | .SQRT_Y => .SQRT_Y_DAG | .SQRT_Y_DAG => .SQRT_Y
  | .SQRT_Z => .SQRT_Z_DAG | .SQRT_Z_DAG => .SQRT_Z
  | g => g

/-- Targets a gate may be applied to: as many as its arity, all below `n`, and
distinct. -/
def Gate.valid_targets (g : Gate) (n : Nat) (targets : List Nat) : Prop :=
  targets.length = g.arity ∧ (∀ q ∈ targets, q < n) ∧ targets.Nodup

instance (g : Gate) (n : Nat) (targets : List Nat) : Decidable (g.valid_targets n targets) := by
  unfold Gate.valid_targets; infer_instance

/-- The specialised row-major operation of a gate, called on its targets. -/
def Tableau.prepend_gate (t : Tableau) (g : Gate) (targets : List Nat) : Tableau :=
  let a := targets.getD 0 0
  let b := targets.getD 1 0
  match g with
  | .H => t.prepend_H a
  | .H_XY => t.prepend_H_XY a
  | .H_YZ => t.prepend_H_YZ a
  | .X => t.prepend_X a
  | .Y => t.prepend_Y a
  | .Z => t.prepend_Z a
  | .SQRT_X => t.prepend_SQRT_X a
  | .SQRT_X_DAG => t.prepend_SQRT_X_DAG a
  | .SQRT_Y => t.prepend_SQRT_Y a
  | .SQRT_Y_DAG => t.prepend_SQRT_Y_DAG a
  | .SQRT_Z => t.prepend_SQRT_Z a
  | .SQRT_Z_DAG => t.prepend_SQRT_Z_DAG a
  | .CX => t.prepend_CX a b
  | .CY => t.prepend_CY a b
  | .CZ => t.prepend_CZ a b

/-- A sequence of gate applications, each with its targets, in order. -/
def Tableau.prepend_all (t : Tableau) : List (Gate × List Nat) → Tableau
  | [] => t
  | (g, targets) :: rest => (t.prepend_gate g targets).prepend_all rest

/-- The tableau with one observable overwritten. -/
def Tableau.with_obs (t : Tableau) (is_z : Bool) (q : Nat) (v : PauliStringVal) : Tableau :=
  t.store (t.obs_ptr is_z q) v

/-- The accumulator of `scatter_eval` after its Y branch: `i * r * x * z`. -/
def PauliStringVal.mul_y (r x z : PauliStringVal) : PauliStringVal :=
  let r1 := r.inplace_right_mul_returning_log_i_scalar x
  let r2 := r1.1.inplace_right_mul_returning_log_i_scalar z
  { r2.1 with val_sign := r2.1.val_sign ^^ ((1 + r1.2 + r2.2) % 256 &&& 2 != 0) }

/-- A stored observable as an element of the Pauli group. -/
def Tableau.row (t : Tableau) (is_z : Bool) (q : Nat) : PhasedPauli (ceil256 t.num_qubits) :=
  (t.obs is_z q).embed (ceil256 t.num_qubits)

/-- The commutation relations that `satisfies_invariants` checks, for all pairs
of qubits below `n`. -/
def Tableau.valid (t : Tableau) : Prop :=
  ∀ q1 q2, q1 < t.num_qubits → q2 < t.num_qubits →
    (t.row false q1).anti (t.row false q2) = false ∧
    (t.row true q1).anti (t.row true q2) = false ∧
    (t.row false q1).anti (t.row true q2) = decide (q1 = q2)

/-- A one-qubit Pauli string literal with the given sign and bits. -/
def pauli_lit1 (s x z : Bool) : PauliStringVal :=
  { size := 1, val_sign := s,
    x_data := fun k => ([(x, z)].getD k (false, false)).1,
    z_data := fun k => ([(x, z)].getD k (false, false)).2 }

/-- A two-qubit Pauli string literal with the given sign and bits. -/
def pauli_lit2 (s x0 z0 x1 z1 : Bool) : PauliStringVal :=
  { size := 2, val_sign := s,
    x_data := fun k => ([(x0, z0), (x1, z1)].getD k (false, false)).1,
    z_data := fun k => ([(x0, z0), (x1, z1)].getD k (false, false)).2 }

/-- The one-qubit tableau with the given X and Z observables. -/
def tableau1 (px pz : PauliStringVal) : Tableau :=
  ((Tableau.ctor 1).with_obs false 0 px).with_obs true 0 pz

/-- The two-qubit tableau with the given observables. -/
def tableau2 (px0 pz0 px1 pz1 : PauliStringVal) : Tableau :=
  ((((Tableau.ctor 2).with_obs false 0 px0).with_obs true 0 pz0).with_obs false 1 px1).with_obs
    true 1 pz1

/-- The accumulator `scatter_eval` starts from. -/
def PauliStringVal.start (n : Nat) (s : Bool) : PauliStringVal :=
  { PauliStringVal.identity n with val_sign := s }

/-- A string with sign `s` times its own sign. -/
def PauliStringVal.signed (s : Bool) (v : PauliStringVal) : PauliStringVal :=
  if s then v.neg else v

/-- The first `k` qubits of a string. -/
def PauliStringVal.take (p : PauliStringVal) (n k : Nat) : PauliStringVal :=
  { size := n, val_sign := p.val_sign,
    x_data := fun j => decide (j < k) && p.x_data j,
    z_data := fun j => decide (j < k) && p.z_data j }

/-- The image of a one-qubit Pauli, given by its x and z bit, at qubit `j`: the X
observable, the Z observable, or `i` times their product. -/
def Tableau.factor (t : Tableau) (x z : Bool) (j : Nat) : PhasedPauli (ceil256 t.num_qubits) :=
  if x then
    (if z then (PhasedPauli.scalar _ 1).mul ((t.row false j).mul (t.row true j))
      else t.row false j)
  else if z then t.row true j else PhasedPauli.scalar _ 0

/-- The product of the images of the first `k` qubits of a string. -/
def Tableau.image (t : Tableau) (xs zs : Nat → Bool) : Nat → PhasedPauli (ceil256 t.num_qubits)
  | 0 => PhasedPauli.scalar _ 0
  | k + 1 => (t.image xs zs k).mul (t.factor (xs k) (zs k) k)

/-- A Pauli string of length `n`: size `n` and no bit set at a position from `n` on. -/
def PauliStringVal.is_string (p : PauliStringVal) (n : Nat) : Prop :=
  p.size = n ∧ ∀ k, n ≤ k → p.x_data k = false ∧ p.z_data k = false

/-- Address, in the transposed layout, of bit `b` of the 256-bit word that holds
column `o` for the block of rows `kk`. -/
def col_addr (n o kk b : Nat) : Nat := 256 * (o + kk * ceil256 n) + b

/-- One iteration of the loop of a column operation on one target: `f` maps the
sign, x and z bit of a row to the new sign, x and z bit; `K` is the number of
iterations. -/
def col_step1 (f : Bool → Bool → Bool → Bool × Bool × Bool) (n q K k : Nat)
    (st : (Nat → Bool) × (Nat → Bool)) : (Nat → Bool) × (Nat → Bool) :=
  (fun a =>
    if a / 256 = q + k * ceil256 n then
      (f (st.2 (256 * k + a % 256)) (st.1 (col_addr n q k (a % 256)))
        (st.1 (col_addr n q (K + k) (a % 256)))).2.1
    else if a / 256 = q + (K + k) * ceil256 n then
      (f (st.2 (256 * k + a % 256)) (st.1 (col_addr n q k (a % 256)))
        (st.1 (col_addr n q (K + k) (a % 256)))).2.2
    else st.1 a,
   fun a =>
    if a / 256 = k then
      (f (st.2 (256 * k + a % 256)) (st.1 (col_addr n q k (a % 256)))
        (st.1 (col_addr n q (K + k) (a % 256)))).1
    else st.2 a)

/-- The column operation on one target, on a stored row. -/
def PauliStringVal.col1 (f : Bool → Bool → Bool → Bool × Bool × Bool) (q : Nat)
    (v : PauliStringVal) : PauliStringVal :=
  { size := v.size,
    val_sign := (f v.val_sign (v.x_data q) (v.z_data q)).1,
    x_data := fun o => if o = q then (f v.val_sign (v.x_data q) (v.z_data q)).2.1 else v.x_data o,
    z_data := fun o => if o = q then (f v.val_sign (v.x_data q) (v.z_data q)).2.2 else v.z_data o }

/-- Sign, x and z bit of a row after `H` on the column. -/
def col_H (s x z : Bool) : Bool × Bool × Bool := (s ^^ (z && x), z, x)

/-- Sign, x and z bit of a row after `H_YZ` on the column. -/
def col_H_YZ (s x z : Bool) : Bool × Bool × Bool := (s ^^ (!z && x), x ^^ z, z)

/-- Sign, x and z bit of a row after `X` on the column. -/
def col_X (s x z : Bool) : Bool × Bool × Bool := (s ^^ z, x, z)

/-- One iteration of the loop of a column operation on two columns `c` and `tg`:
`f` maps the sign and the x and z bits of a row at the two columns to their new
values. -/
def col_step2 (f : Bool → Bool → Bool → Bool → Bool → Bool × Bool × Bool × Bool × Bool)
    (n c tg K k : Nat) (st : (Nat → Bool) × (Nat → Bool)) : (Nat → Bool) × (Nat → Bool) :=
  (fun a =>
    if a / 256 = c + k * ceil256 n then
      (f (st.2 (256 * k + a % 256)) (st.1 (col_addr n c k (a % 256)))
        (st.1 (col_addr n c (K + k) (a % 256))) (st.1 (col_addr n tg k (a % 256)))
        (st.1 (col_addr n tg (K + k) (a % 256)))).2.1
    else if a / 256 = c + (K + k) * ceil256 n then
      (f (st.2 (256 * k + a % 256)) (st.1 (col_addr n c k (a % 256)))
        (st.1 (col_addr n c (K + k) (a % 256))) (st.1 (col_addr n tg k (a % 256)))
        (st.1 (col_addr n tg (K + k) (a % 256)))).2.2.1
    else if a / 256 = tg + k * ceil256 n then
      (f (st.2 (256 * k + a % 256)) (st.1 (col_addr n c k (a % 256)))
        (st.1 (col_addr n c (K + k) (a % 256))) (st.1 (col_addr n tg k (a % 256)))
        (st.1 (col_addr n tg (K + k) (a % 256)))).2.2.2.1
    else if a / 256 = tg + (K + k) * ceil256 n then
      (f (st.2 (256 * k + a % 256)) (st.1 (col_addr n c k (a % 256)))
        (st.1 (col_addr n c (K + k) (a % 256))) (st.1 (col_addr n tg k (a % 256)))
        (st.1 (col_addr n tg (K + k) (a % 256)))).2.2.2.2
    else st.1 a,
   fun a =>
    if a / 256 = k then
      (f (st.2 (256 * k + a % 256)) (st.1 (col_addr n c k (a % 256)))
        (st.1 (col_addr n c (K + k) (a % 256))) (st.1 (col_addr n tg k (a % 256)))
        (st.1 (col_addr n tg (K + k) (a % 256)))).1
    else st.2 a)

/-- The column operation on two columns, on a stored row. -/
def PauliStringVal.col2 (f : Bool → Bool → Bool → Bool → Bool → Bool × Bool × Bool × Bool × Bool)
    (c tg : Nat) (v : PauliStringVal) : PauliStringVal :=
  { size := v.size,
    val_sign := (f v.val_sign (v.x_data c) (v.z_data c) (v.x_data tg) (v.z_data tg)).1,
    x_data := fun o =>
      if o = c then (f v.val_sign (v.x_data c) (v.z_data c) (v.x_data tg) (v.z_data tg)).2.1
      else if o = tg then
        (f v.val_sign (v.x_data c) (v.z_data c) (v.x_data tg) (v.z_data tg)).2.2.2.1
      else v.x_data o,
    z_data := fun o =>
      if o = c then (f v.val_sign (v.x_data c) (v.z_data c) (v.x_data tg) (v.z_data tg)).2.2.1
      else if o = tg then
        (f v.val_sign (v.x_data c) (v.z_data c) (v.x_data tg) (v.z_data tg)).2.2.2.2
      else v.z_data o }

/-- Sign and bits of a row after `CX` on the columns of control and target. -/
def col_CX (s cx cz tx tz : Bool) : Bool × Bool × Bool × Bool × Bool :=
  (s ^^ (!(cz ^^ tx) && (cx && tz)), cx, cz ^^ tz, tx ^^ cx, tz)

/-- The symplectic product of two two-qubit strings given by their bits. -/
def sym2 (p q : Bool × Bool × Bool × Bool) : Bool :=
  ((p.1 && q.2.1) ^^ (p.2.1 && q.1)) ^^ ((p.2.2.1 && q.2.2.2) ^^ (p.2.2.2 && q.2.2.1))

/-- The single-qubit rows of the gate table of the spec: name, image of X and
image of Z, each as sign (true is minus), x bit and z bit; X is (1,0), Z is
(0,1) and Y is (1,1). -/
def single_qubit_table : List (String × (Bool × Bool × Bool) × (Bool × Bool × Bool)) :=
  [ ("H", (false, false, true), (false, true, false)),
    ("H_YZ", (true, true, false), (false, true, true)),
    ("H_XY", (false, true, true), (true, false, true)),
    ("X", (false, true, false), (true, false, true)),
    ("Y", (true, true, false), (true, false, true)),
    ("Z", (true, true, false), (false, false, true)),
    ("SQRT_X", (false, true, false), (true, true, true)),
    ("SQRT_X_DAG", (false, true, false), (false, true, true)),
    ("SQRT_Y", (true, false, true), (false, true, false)),
    ("SQRT_Y_DAG", (false, false, true), (true, true, false)),
    ("SQRT_Z", (false, true, true), (false, false, true)),
    ("SQRT_Z_DAG", (true, true, true), (false, false, true)) ]

/-! ## Random tableaux -/

/-- The loop `for (k = lo; k < hi; k++) s = body(k, s)`. -/
def for_loop_from {σ : Type} (body : Nat → σ → σ) (lo hi : Nat) (s : σ) : σ :=
  for_loop (fun j s => body (lo + j) s) (hi - lo) s

/-- Modelled from the spec: the expression `ceil(log2(x))` of `<cmath>` on an
exact argument: the least integer `z` with `x <= 2^z`.  The draws are rational
numbers and the arithmetic on them is exact; the rounding of `double` is not
modelled. -/
def ceil_log2 (x : ℚ) : Int := Int.clog 2 x

/-- The index `k` that one iteration of `sample_qmallows` computes from the draw
`u` when `m` indices remain: `(size_t)-ceil(log2(u + (1 - u) * eps))` with
`eps = pow(4, -(int)m)`, a 64-bit `size_t`. -/
def qmallows_k (m : Nat) (u : ℚ) : Nat :=
  let eps : ℚ := (4 : ℚ) ^ (-(m : Int))
  (-(ceil_log2 (u + (1 - u) * eps))).toNat % 2 ^ 64

/-- The index finally used to select from `remaining_indices`: `k`, replaced by
`2 * m - k - 1` in `size_t` arithmetic when `k >= m`. -/
def qmallows_index (m : Nat) (u : ℚ) : Nat :=
  let k := qmallows_k m u
  if k ≥ m then (2 * m + 2 ^ 64 - k - 1) % 2 ^ 64 else k

/-- The three vectors of `sample_qmallows`. -/
structure QMallowsState where
  hada : List Bool
  permutation : List Nat
  remaining_indices : List Nat

/-- One iteration of the main loop of `sample_qmallows` with the draw `u`;
`none` when `remaining_indices[k]` is out of range. -/
def sample_qmallows_step (u : ℚ) (s : QMallowsState) : Option QMallowsState :=
  let m := s.remaining_indices.length
  let k := qmallows_k m u
  let hada := s.hada ++ [decide (k < m)]
  let k := if k ≥ m then (2 * m + 2 ^ 64 - k - 1) % 2 ^ 64 else k
  match s.remaining_indices.get? k with
  | some v =>
    some { hada := hada, permutation := s.permutation ++ [v],
           remaining_indices := s.remaining_indices.eraseIdx k }
  | none => none

/-- The function `sample_qmallows(n, gen)`, where `uni i` is the value that
`uni(gen)` returns in iteration `i`. -/
def sample_qmallows (n : Nat) (uni : Nat → ℚ) : Option (List Bool × List Nat) :=
  let remaining_indices := for_loop (fun k l => l ++ [k]) n []
  let final := for_loop (fun i s => s.bind (sample_qmallows_step (uni i))) n
    (some { hada := [], permutation := [], remaining_indices := remaining_indices })
  final.map fun s => (s.hada, s.permutation)

/-- Modelled from the spec: a square bit matrix (`BitMat` of bit_mat.h) with `n`
rows and columns; `data row col` is the bit at that row and column. -/
structure BitMat where
  n : Nat
  data : Nat → Nat → Bool

/-- Modelled from the spec: `BitMat(n)`, the zero matrix. -/
def BitMat.ctor (n : Nat) : BitMat := { n := n, data := fun _ _ => false }

/-- Modelled from the spec: `BitMat::identity(n)`. -/
def BitMat.identity (n : Nat) : BitMat :=
  { n := n, data := fun row col => decide (row = col ∧ row < n) }

/-- Modelled from the spec: `get(row, col)`. -/
def BitMat.get (m : BitMat) (row col : Nat) : Bool := m.data row col

/-- Modelled from the spec: `set(row, col, b)`. -/
def BitMat.set (m : BitMat) (row col : Nat) (b : Bool) : BitMat :=
  { m with data := fun r c => if r = row ∧ c = col then b else m.data r c }

/-- Sum over GF(2) of `f 0 .. f (n-1)`. -/
def xor_below (f : Nat → Bool) : Nat → Bool
  | 0 => false
  | k + 1 => xor_below f k ^^ f k

/-- Modelled from the spec: the matrix product over GF(2) (`operator*`). -/
def BitMat.mul (a b : BitMat) : BitMat :=
  { n := a.n, data := fun row col => xor_below (fun k => a.data row k && b.data k col) a.n }

/-- Modelled from the spec: `transposed()`. -/
def BitMat.transposed (m : BitMat) : BitMat :=
  { n := m.n, data := fun row col => m.data col row }

/-- Modelled from the spec: `inv_lower_triangular()`, the inverse over GF(2) of a
lower triangular matrix with unit diagonal, by forward substitution: row `r` of
the inverse is the unit vector `r` plus the rows `k < r` of the inverse at which
row `r` of the matrix has a bit set. -/
def BitMat.inv_lower_triangular (m : BitMat) : BitMat :=
  for_loop (fun r inv =>
    { inv with data := fun row col =>
        if row = r then
          decide (r = col) ^^ xor_below (fun k => m.data r k && inv.data k col) r
        else inv.data row col })
    m.n (BitMat.ctor m.n)

/-- Modelled from the spec: `from_quadrants`, the matrix of twice the size with
the four given blocks. -/
def BitMat.from_quadrants (upper_left upper_right lower_left lower_right : BitMat) : BitMat :=
  let n := upper_left.n
  { n := 2 * n,
    data := fun row col =>
      if row < n then
        if col < n then upper_left.data row col else upper_right.data row (col - n)
      else
        if col < n then lower_left.data (row - n) col else lower_right.data (row - n) (col - n) }

/-- The outcomes of the calls of the random generator during one call of
`Tableau::random`.  The calls are made in an order that does not depend on the
values drawn, so an outcome assigns a value to each call, named here by the
statement that makes it and the loop counters at that moment: `uni i` is the
draw of iteration `i` of `sample_qmallows`; `symmetric row col` is the bit drawn
for the entry `(row, col)`, `row >= col`, of `symmetric` (and in the same way for
`symmetric_m`, `lower`, `lower_m`); `sign_x row` and `sign_z row` are the two
bits drawn for the signs in `Tableau::random`. -/
structure Draws where
  uni : Nat → ℚ
  symmetric : Nat → Nat → Bool
  symmetric_m : Nat → Nat → Bool
  lower : Nat → Nat → Bool
  lower_m : Nat → Nat → Bool
  sign_x : Nat → Bool
  sign_z : Nat → Bool

/-- The mask rule of the specification for the entry `(row, col)`, `row > col`,
of `S'`: enabled iff `(h[r] and h[c])` or `(h[r] and not h[c] and pi[r] < pi[c])`
or `(not h[r] and h[c] and pi[r] > pi[c])`. -/
def mask_symmetric_m (hada : List Bool) (perm : List Nat) (row col : Nat) : Bool :=
  (hada.getD row false && hada.getD col false)
  || (hada.getD row false && !hada.getD col false && decide (perm.getD row 0 < perm.getD col 0))
  || (!hada.getD row false && hada.getD col false && decide (perm.getD row 0 > perm.getD col 0))

/-- The mask rule of the specification for the entry `(row, col)`, `row > col`,
of `L'`: enabled iff `(not h[r] and h[c])` or `(h[r] and h[c] and pi[r] > pi[c])`
or `(not h[r] and not h[c] and pi[r] < pi[c])`. -/
def mask_lower_m (hada : List Bool) (perm : List Nat) (row col : Nat) : Bool :=
  (!hada.getD row false && hada.getD col false)
  || (hada.getD row false && hada.getD col false && decide (perm.getD row 0 > perm.getD col 0))
  || (!hada.getD row false && !hada.getD col false
      && decide (perm.getD row 0 < perm.getD col 0))

/-- The matrix `symmetric` of `random_stabilizer_tableau_raw`. -/
def raw_symmetric (n : Nat) (d : Draws) : BitMat :=
  for_loop (fun col symmetric =>
    let symmetric := symmetric.set col col (d.symmetric col col)
    for_loop_from (fun row symmetric =>
      let b := d.symmetric row col
      let symmetric := symmetric.set row col b
      symmetric.set col row b) (col + 1) n symmetric) n (BitMat.ctor n)

/-- The matrix `symmetric_m` of `random_stabilizer_tableau_raw`. -/
def raw_symmetric_m (n : Nat) (hada : List Bool) (perm : List Nat) (d : Draws) : BitMat :=
  for_loop (fun col symmetric_m =>
    let symmetric_m := symmetric_m.set col col (d.symmetric_m col col && hada.getD col false)
    for_loop_from (fun row symmetric_m =>
      let b := hada.getD row false && hada.getD col false
      let b := b || (decide (hada.getD row false > hada.getD col false)
        && decide (perm.getD row 0 < perm.getD col 0))
      let b := b || (decide (hada.getD row false < hada.getD col false)
        && decide (perm.getD row 0 > perm.getD col 0))
      let b := b && d.symmetric_m row col
      let symmetric_m := symmetric_m.set row col b
      symmetric_m.set col row b) (col + 1) n symmetric_m) n (BitMat.ctor n)

/-- The matrix `lower` of `random_stabilizer_tableau_raw`. -/
def raw_lower (n : Nat) (d : Draws) : BitMat :=
  for_loop (fun col lower =>
    for_loop_from (fun row lower => lower.set row col (d.lower row col)) (col + 1) n lower)
    n (BitMat.identity n)

/-- The matrix `lower_m` of `random_stabilizer_tableau_raw`. -/
def raw_lower_m (n : Nat) (hada : List Bool) (perm : List Nat) (d : Draws) : BitMat :=
  for_loop (fun col lower_m =>
    for_loop_from (fun row lower_m =>
      let b := decide (hada.getD row false < hada.getD col false)
      let b := b || (hada.getD row false && hada.getD col false
        && decide (perm.getD row 0 > perm.getD col 0))
      let b := b || (!hada.getD row false && !hada.getD col false
        && decide (perm.getD row 0 < perm.getD col 0))
      let b := b && d.lower_m row col
      lower_m.set row col b) (col + 1) n lower_m)
    n (BitMat.identity n)

/-- The matrix `u` of `random_stabilizer_tableau_raw` after the permutation has
been applied. -/
def raw_permuted (n : Nat) (perm : List Nat) (fused : BitMat) : BitMat :=
  for_loop (fun row u =>
    for_loop (fun col u =>
      let u := u.set row col (fused.get (perm.getD row 0) col)
      u.set (row + n) col (fused.get (perm.getD row 0 + n) col)) (2 * n) u)
    n (BitMat.ctor (2 * n))

/-- The matrix `u` of `random_stabilizer_tableau_raw` after the Hadamards have
been applied. -/
def raw_hadamards (n : Nat) (hada : List Bool) (u : BitMat) : BitMat :=
  for_loop (fun row u =>
    if hada.getD row false then
      for_loop (fun col u =>
        let t := u.get row col
        let u := u.set row col (u.get (row + n) col)
        u.set (row + n) col t) (2 * n) u
    else u) n u

/-- The body of `random_stabilizer_tableau_raw` after the call of
`sample_qmallows`, for the Hadamard vector and the permutation it returned. -/
def random_stabilizer_tableau_raw_of (n : Nat) (hada : List Bool) (perm : List Nat)
    (d : Draws) : BitMat :=
  let symmetric := raw_symmetric n d
  let symmetric_m := raw_symmetric_m n hada perm d
  let lower := raw_lower n d
  let lower_m := raw_lower_m n hada perm d
  let prod := symmetric.mul lower
  let prod_m := symmetric_m.mul lower_m
  let inv := lower.inv_lower_triangular.transposed
  let inv_m := lower_m.inv_lower_triangular.transposed
  let fused := BitMat.from_quadrants lower (BitMat.ctor n) prod inv
  let fused_m := BitMat.from_quadrants lower_m (BitMat.ctor n) prod_m inv_m
  let u := raw_permuted n perm fused
  let u := raw_hadamards n hada u
  fused_m.mul u

/-- The function `random_stabilizer_tableau_raw(n, gen)`; `none` when
`sample_qmallows` fails. -/
def random_stabilizer_tableau_raw (n : Nat) (d : Draws) : Option BitMat :=
  (sample_qmallows n d.uni).map fun hs_pair =>
    random_stabilizer_tableau_raw_of n hs_pair.1 hs_pair.2 d

/-- Modelled from the spec: `set_x_bit(k, b)` on a view of the storage. -/
def Tableau.set_x_bit (t : Tableau) (p : PauliStringPtr) (k : Nat) (b : Bool) : Tableau :=
  { t with data_x2x_z2x_x2z_z2z :=
      set_bit t.data_x2x_z2x_x2z_z2z (PauliStringPtr.bit_index p.stride256 p.ptr_x k) b }

/-- Modelled from the spec: `set_z_bit(k, b)` on a view of the storage. -/
def Tableau.set_z_bit (t : Tableau) (p : PauliStringPtr) (k : Nat) (b : Bool) : Tableau :=
  { t with data_x2x_z2x_x2z_z2z :=
      set_bit t.data_x2x_z2x_x2z_z2z (PauliStringPtr.bit_index p.stride256 p.ptr_z k) b }

/-- The body of `Tableau::random` after the call of
`random_stabilizer_tableau_raw`, for the matrix `raw` it returned. -/
def Tableau.random_of (num_qubits : Nat) (raw : BitMat) (d : Draws) : Tableau :=
  for_loop (fun row result =>
    let result := for_loop (fun col result =>
      let result := result.set_x_bit (result.x_obs_ptr row) col (raw.get row col)
      let result := result.set_z_bit (result.x_obs_ptr row) col (raw.get row (col + num_qubits))
      let result := result.set_x_bit (result.z_obs_ptr row) col (raw.get (row + num_qubits) col)
      result.set_z_bit (result.z_obs_ptr row) col
        (raw.get (row + num_qubits) (col + num_qubits))) num_qubits result
    let sign := set_bit result.data_sign_x_z row (d.sign_x row)
    let sign := set_bit sign (ceil256 num_qubits + row) (d.sign_z row)
    { result with data_sign_x_z := sign })
    num_qubits (Tableau.ctor num_qubits)

/-- The function `Tableau::random(num_qubits)`; `none` when
`random_stabilizer_tableau_raw` fails. -/
def Tableau.random (num_qubits : Nat) (d : Draws) : Option Tableau :=
  (random_stabilizer_tableau_raw num_qubits d).map fun raw =>
    Tableau.random_of num_qubits raw d

/-- The row sense of "symplectic" that `Tableau::random` uses for a matrix with
`2n` rows, each an `x` half (columns below `n`) followed by a `z` half: the
symplectic product of the rows `a` and `b`. -/
def BitMat.row_product (m : BitMat) (n a b : Nat) : Bool :=
  xor_below (fun k => (m.data a k && m.data b (k + n)) ^^ (m.data a (k + n) && m.data b k)) n

/-- Rows `r` and `r + n` have symplectic product 1, every other pair of rows has
symplectic product 0. -/
def BitMat.symplectic (m : BitMat) (n : Nat) : Prop :=
  ∀ a b, a < 2 * n → b < 2 * n → m.row_product n a b = decide (a + n = b ∨ b + n = a)

/-- Every padding bit of the tableau is zero: each quadrant bit whose input or
output index is at least `n`, and each sign bit at an index at least `n` within
the X half and within the Z half of the sign vector. -/
def Tableau.zero_padding (t : Tableau) : Prop :=
  (∀ i o quad, i < ceil256 t.num_qubits → o < ceil256 t.num_qubits → quad < 4 →
    (t.num_qubits ≤ i ∨ t.num_qubits ≤ o) →
    t.data_x2x_z2x_x2z_z2z (bit_address i o t.num_qubits quad false) = false) ∧
  (∀ q, t.num_qubits ≤ q → q < ceil256 t.num_qubits →
    t.data_sign_x_z q = false ∧ t.data_sign_x_z (ceil256 t.num_qubits + q) = false)

/-- A bit as an element of GF(2). -/
def bit_val (b : Bool) : ZMod 2 := if b then 1 else 0

/-- The leading `N` rows and columns of a bit matrix as a matrix over GF(2). -/
def BitMat.mat (m : BitMat) (N : Nat) : Matrix (Fin N) (Fin N) (ZMod 2) :=
  Matrix.of fun i j => bit_val (m.data i j)

/-- The row of `fused` that ends up as row `a` of `u` after the permutation and
the Hadamards. -/
def raw_row (n : Nat) (hada : List Bool) (perm : List Nat) (a : Nat) : Nat :=
  if a < n then
    (if hada.getD a false then perm.getD a 0 + n else perm.getD a 0)
  else
    (if hada.getD (a - n) false then perm.getD (a - n) 0 else perm.getD (a - n) 0 + n)

/-- The symplectic form on `2n` rows as a matrix over GF(2): the entry `(i, j)`
is 1 exactly when `i` and `j` are `n` apart. -/
def symplectic_form (n : Nat) : Matrix (Fin (2 * n)) (Fin (2 * n)) (ZMod 2) :=
  Matrix.of fun i j => if (i : Nat) + n = j ∨ (j : Nat) + n = i then 1 else 0

/-- The four writes of one iteration of the inner loop of `Tableau::random`. -/
def random_cell (n : Nat) (raw : BitMat) (row col : Nat) (result : Tableau) : Tableau :=
  let result := result.set_x_bit (result.x_obs_ptr row) col (raw.get row col)
  let result := result.set_z_bit (result.x_obs_ptr row) col (raw.get row (col + n))
  let result := result.set_x_bit (result.z_obs_ptr row) col (raw.get (row + n) col)
  result.set_z_bit (result.z_obs_ptr row) col (raw.get (row + n) (col + n))

/-- One iteration of the outer loop of `Tableau::random`. -/
def random_row (n : Nat) (raw : BitMat) (d : Draws) (row : Nat) (result : Tableau) : Tableau :=
  let result := for_loop (random_cell n raw row) n result
  let sign := set_bit result.data_sign_x_z row (d.sign_x row)
  let sign := set_bit sign (ceil256 n + row) (d.sign_z row)
  { result with data_sign_x_z := sign }

/-- No bit set at a position from `n` on. -/
def PauliStringVal.padded (v : PauliStringVal) (n : Nat) : Prop :=
  ∀ k, n ≤ k → v.x_data k = false ∧ v.z_data k = false

/-- Sign, x and z bit of a row after the loop body of `append_CX` when control
and target are the same column. -/
def col_CX_same (s x z : Bool) : Bool × Bool × Bool :=
  (s ^^ (!(z ^^ x) && (x && z)), x ^^ x, z ^^ z)

/-- The image under a one-qubit gate, given by the images `px` of X and `pz` of
Z, of the one-qubit Pauli with bits `x` and `z` (Y being `i` times X times Z). -/
def lit_out1 (px pz : PauliStringVal) (x z : Bool) : PauliStringVal :=
  if x then (if z then px.mul_phase 1 pz else px)
  else if z then pz else PauliStringVal.identity 1

/-- The effect on a row of applying a one-qubit gate within it: the Pauli at the
target is replaced by its image and the sign of the image is multiplied in. -/
def gate_col1 (px pz : PauliStringVal) (s x z : Bool) : Bool × Bool × Bool :=
  (s ^^ (lit_out1 px pz x z).val_sign, (lit_out1 px pz x z).x_data 0,
    (lit_out1 px pz x z).z_data 0)

/-- The image under a two-qubit gate, given by the images `a`, `b` of X and Z on
its first qubit and `c`, `d` of X and Z on its second, of the two-qubit Pauli
with the given bits. -/
def lit_out2 (a b c d : PauliStringVal) (x0 z0 x1 z1 : Bool) : PauliStringVal :=
  (fun r : PauliStringVal =>
    if x1 then (if z1 then r.mul_y c d else r.mul_phase 0 c)
    else if z1 then r.mul_phase 0 d else r)
  (if x0 then (if z0 then a.mul_phase 1 b else a)
    else if z0 then b else PauliStringVal.identity 2)

/-- The effect on a row of applying a two-qubit gate within it. -/
def gate_col2 (a b c d : PauliStringVal) (s cx cz tx tz : Bool) :
    Bool × Bool × Bool × Bool × Bool :=
  (s ^^ (lit_out2 a b c d cx cz tx tz).val_sign,
    (lit_out2 a b c d cx cz tx tz).x_data 0, (lit_out2 a b c d cx cz tx tz).z_data 0,
    (lit_out2 a b c d cx cz tx tz).x_data 1, (lit_out2 a b c d cx cz tx tz).z_data 1)

/-! ## Definitions for the dual-layout law -/

/-- Bit 1 of `c + l`, as the row-major operations test it (`m & 2`). -/
def phase_bit (c l : Nat) : Bool := (c + l) % 256 &&& 2 != 0

/-- A function on sign, x and z bit of a row that respects products: applied to
the product of two rows at one column it gives the product of the results.
`c` is the constant added to the phase and `r` the phase contributed by the
other columns. -/
def col_respects_mul (f : Bool → Bool → Bool → Bool × Bool × Bool) : Prop :=
  ∀ (c r : Fin 4) (sa xa za sb xb zb : Bool),
    f ((sa ^^ sb) ^^ phase_bit c ((r + log_i_term xa za xb zb) % 4)) (xa ^^ xb) (za ^^ zb)
      = (((f sa xa za).1 ^^ (f sb xb zb).1) ^^
          phase_bit c ((r + log_i_term (f sa xa za).2.1 (f sa xa za).2.2
            (f sb xb zb).2.1 (f sb xb zb).2.2) % 4),
         (f sa xa za).2.1 ^^ (f sb xb zb).2.1, (f sa xa za).2.2 ^^ (f sb xb zb).2.2)

instance (f : Bool → Bool → Bool → Bool × Bool × Bool) : Decidable (col_respects_mul f) := by
  unfold col_respects_mul; infer_instance

/-- A function on sign, x and z bit of a row that respects the toggling of the
sign. -/
def col_respects_neg (f : Bool → Bool → Bool → Bool × Bool × Bool) : Prop :=
  ∀ (s x z : Bool), f (!s) x z = (!(f s x z).1, (f s x z).2.1, (f s x z).2.2)

instance (f : Bool → Bool → Bool → Bool × Bool × Bool) : Decidable (col_respects_neg f) := by
  unfold col_respects_neg; infer_instance

/-- A function on the sign and the bits of a row at two columns whose sign
output is the sign input times a function of the bits. -/
def col2_sign_linear (f : Bool → Bool → Bool → Bool → Bool → Bool × Bool × Bool × Bool × Bool) :
    Prop :=
  ∀ (s x z u w : Bool), f s x z u w = (s ^^ (f false x z u w).1, (f false x z u w).2)

instance (f : Bool → Bool → Bool → Bool → Bool → Bool × Bool × Bool × Bool × Bool) :
    Decidable (col2_sign_linear f) := by
  unfold col2_sign_linear; infer_instance

/-- A function on the sign and the bits of a row at two columns that respects
products of rows with sign bit 0; `c` is the phase contributed by the constant
and the other columns. -/
def col2_respects_mul (f : Bool → Bool → Bool → Bool → Bool → Bool × Bool × Bool × Bool × Bool) :
    Prop :=
  ∀ (c : Fin 4) (xa za ua wa xb zb ub wb : Bool),
    f (phase_bit c ((log_i_term xa za xb zb + log_i_term ua wa ub wb) % 4))
        (xa ^^ xb) (za ^^ zb) (ua ^^ ub) (wa ^^ wb)
      = (((f false xa za ua wa).1 ^^ (f false xb zb ub wb).1) ^^
          phase_bit c ((log_i_term (f false xa za ua wa).2.1 (f false xa za ua wa).2.2.1
              (f false xb zb ub wb).2.1 (f false xb zb ub wb).2.2.1
            + log_i_term (f false xa za ua wa).2.2.2.1 (f false xa za ua wa).2.2.2.2
              (f false xb zb ub wb).2.2.2.1 (f false xb zb ub wb).2.2.2.2) % 4),
         (f false xa za ua wa).2.1 ^^ (f false xb zb ub wb).2.1,
         (f false xa za ua wa).2.2.1 ^^ (f false xb zb ub wb).2.2.1,
         (f false xa za ua wa).2.2.2.1 ^^ (f false xb zb ub wb).2.2.2.1,
         (f false xa za ua wa).2.2.2.2 ^^ (f false xb zb ub wb).2.2.2.2)

instance (f : Bool → Bool → Bool → Bool → Bool → Bool × Bool × Bool × Bool × Bool) :
    Decidable (col2_respects_mul f) := by
  unfold col2_respects_mul; infer_instance

/-- The gates that have both a row-major operation and a column-major operation
inside a `BlockTransposedTableau` scope. -/
inductive ColumnGate where
  | CX | H_YZ | H | X
  deriving DecidableEq, Repr

/-- The gate of a column-major operation. -/
def ColumnGate.gate : ColumnGate → Gate
  | .CX => .CX | .H_YZ => .H_YZ | .H => .H | .X => .X

/-- The column-major operation of a gate, called on its targets. -/
def BlockTransposedTableau.append_gate (b : BlockTransposedTableau) (g : ColumnGate)
    (targets : List Nat) : BlockTransposedTableau :=
  let a := targets.getD 0 0
  let c := targets.getD 1 0
  match g with
  | .CX => b.append_CX a c
  | .H_YZ => b.append_H_YZ a
  | .H => b.append_H a
  | .X => b.append_X a

/-- A sequence of column-major operations inside one scope, in order. -/
def BlockTransposedTableau.append_all (b : BlockTransposedTableau) :
    List (ColumnGate × List Nat) → BlockTransposedTableau
  | [] => b
  | (g, targets) :: rest => (b.append_gate g targets).append_all rest

/-- What a column-major operation does to one stored row. -/
def ColumnGate.col (g : ColumnGate) (targets : List Nat) : PauliStringVal → PauliStringVal :=
  match g with
  | .CX => PauliStringVal.col2 col_CX (targets.getD 0 0) (targets.getD 1 0)
  | .H_YZ => PauliStringVal.col1 col_H_YZ (targets.getD 0 0)
  | .H => PauliStringVal.col1 col_H (targets.getD 0 0)
  | .X => PauliStringVal.col1 col_X (targets.getD 0 0)

/-- A function on rows of `n`-qubit tableaus that keeps rows inside their
storage and respects the products and sign toggles the row-major operations are
made of. -/
def row_hom (C : PauliStringVal → PauliStringVal) (n : Nat) : Prop :=
  (∀ v, v.wf n → (C v).wf n) ∧
  (∀ c, c < 4 → ∀ a b : PauliStringVal, a.wf n →
    C (a.mul_phase c b) = (C a).mul_phase c (C b)) ∧
  (∀ a, C a.neg = (C a).neg)

/-- An operation on `n`-qubit tableaus that applies `C` to every stored row and
leaves the rest of the storage alone. -/
def acts_on_rows (A : Tableau → Tableau) (C : PauliStringVal → PauliStringVal) (n : Nat) : Prop :=
  ∀ t : Tableau, t.num_qubits = n →
    (A t).outside = t.outside ∧
    ∀ (h : Bool) (i : Nat), i < ceil256 n → (A t).obs h i = C (t.obs h i)

/-- The row of the identity tableau for observable `i`: X or Z on qubit `i`,
and nothing for a row of the padding. -/
def unit_row (n : Nat) (is_z : Bool) (i : Nat) : PauliStringVal :=
  { size := n, val_sign := false,
    x_data := fun k => decide (k = i) && !is_z && decide (i < n),
    z_data := fun k => decide (k = i) && is_z && decide (i < n) }

/-! ## Machine arithmetic and computed values -/

/-- The function `bit_address` in the arithmetic the code runs: every argument
and every intermediate value is a 64-bit `size_t`, so every shift, product and
sum is reduced modulo `2^64`. -/
def bit_address_size_t (input_qubit output_qubit num_qubits quadrant : Nat) (transposed : Bool) :
    Nat :=
  let col_low := input_qubit &&& 0xFF
  let row_low := output_qubit &&& 0xFF
  let swapped := if transposed then (row_low, col_low) else (col_low, row_low)
  let col_low := swapped.1
  let row_low := swapped.2
  let bit_offset := row_low ||| (col_low <<< 8) % 2 ^ 64
  let col_block := input_qubit >>> 8
  let row_block := output_qubit >>> 8
  let m := ceil256 num_qubits % 2 ^ 64
  let block_index := (row_block + col_block * (m >>> 8) % 2 ^ 64) % 2 ^ 64
  ((bit_offset + (block_index <<< 16) % 2 ^ 64) % 2 ^ 64 + quadrant * m % 2 ^ 64 * m % 2 ^ 64)
    % 2 ^ 64

/-- The number of bits the constructor `Tableau::Tableau(num_qubits)` allocates
for `data_x2x_z2x_x2z_z2z`: `ceil256(num_qubits) * ceil256(num_qubits) * 4` in
the 64-bit arithmetic of `size_t`. -/
def data_num_bits_size_t (num_qubits : Nat) : Nat :=
  ceil256 num_qubits % 2 ^ 64 * (ceil256 num_qubits % 2 ^ 64) % 2 ^ 64 * 4 % 2 ^ 64

/-- The statement `auto k = (size_t)-ceil(log2(u + (1 - u) * eps))` of
`sample_qmallows`, from the value `l` that the call of `log2` returned.  That
value is a `double`; the rounding of `pow`, of the sum and the product and of
`log2` is not modelled, so `l` is an input.  `ceil` of a double, the negation
and the conversion of a non-negative integer below `2^64` to `size_t` are
exact. -/
def qmallows_k_of_log (l : ℚ) : Nat := (-(Int.ceil l)).toNat % 2 ^ 64

/-- One iteration of the main loop of `sample_qmallows`, from the value `l`
that `log2(u + (1 - u) * eps)` evaluated to; `none` when `remaining_indices[k]`
is out of range. -/
def sample_qmallows_step_of_log (l : ℚ) (s : QMallowsState) : Option QMallowsState :=
  let m := s.remaining_indices.length
  let k := qmallows_k_of_log l
  let hada := s.hada ++ [decide (k < m)]
  let k := if k ≥ m then (2 * m + 2 ^ 64 - k - 1) % 2 ^ 64 else k
  match s.remaining_indices.get? k with
  | some v =>
    some { hada := hada, permutation := s.permutation ++ [v],
           remaining_indices := s.remaining_indices.eraseIdx k }
  | none => none

/-! ## Address arithmetic -/

theorem and_ff (a : Nat) : a &&& 0xFF = a % 256 := by
  have := Nat.and_pow_two_sub_one_eq_mod a 8
  simpa using this

theorem lor_shl8 (a b : Nat) (h : a < 256) : a ||| (b <<< 8) = a + 256 * b := by
  rw [Nat.shiftLeft_eq, Nat.lor_comm, Nat.mul_comm]
  have := Nat.mul_add_lt_is_or (i := 8) (b := a) (by simpa using h) b
  rw [← this]
  norm_num
  omega

theorem ceil256_eq (n : Nat) : ceil256 n = 256 * ((n + 255) / 256) := by
  unfold ceil256; omega

theorem le_ceil256 (n : Nat) : n ≤ ceil256 n := by
  unfold ceil256; omega

theorem bit_address_false (i o n quad : Nat) :
    bit_address i o n quad false
      = o % 256 + 256 * (i % 256) + 65536 * (o / 256 + i / 256 * (ceil256 n / 256))
        + quad * ceil256 n * ceil256 n := by
  simp only [bit_address, and_ff, Bool.false_eq_true, if_false]
  rw [lor_shl8 _ _ (Nat.mod_lt _ (by norm_num))]
  simp only [Nat.shiftRight_eq_div_pow, Nat.shiftLeft_eq]
  norm_num
  ring

theorem bit_address_true (i o n quad : Nat) :
    bit_address i o n quad true
      = i % 256 + 256 * (o % 256) + 65536 * (o / 256 + i / 256 * (ceil256 n / 256))
        + quad * ceil256 n * ceil256 n := by
  simp only [bit_address, and_ff, if_true]
  rw [lor_shl8 _ _ (Nat.mod_lt _ (by norm_num))]
  simp only [Nat.shiftRight_eq_div_pow, Nat.shiftLeft_eq]
  norm_num
  ring


theorem ceil256_div (n : Nat) : ceil256 n / 256 * 256 = ceil256 n := by
  unfold ceil256; omega

theorem ceil256_sq (n : Nat) :
    ceil256 n * ceil256 n = 65536 * (ceil256 n / 256 * (ceil256 n / 256)) := by
  have h := ceil256_div n
  generalize ceil256 n / 256 = b at h
  rw [← h]; ring

theorem div256_lt {k n : Nat} (h : k < ceil256 n) : k / 256 < ceil256 n / 256 := by
  have := ceil256_div n
  omega

/-- Uniqueness of a two-digit representation in base `m`. -/
theorem digits_unique {a b a1 b1 m : Nat} (ha : a < m) (ha1 : a1 < m)
    (h : a + b * m = a1 + b1 * m) : a = a1 ∧ b = b1 := by
  have h1 : (a + b * m) % m = a := by
    rw [Nat.add_mul_mod_self_right, Nat.mod_eq_of_lt ha]
  have h2 : (a1 + b1 * m) % m = a1 := by
    rw [Nat.add_mul_mod_self_right, Nat.mod_eq_of_lt ha1]
  have e : a = a1 := by rw [← h1, ← h2, h]
  subst e
  have hm : 0 < m := by omega
  refine ⟨rfl, ?_⟩
  have : b * m = b1 * m := by omega
  exact Nat.eq_of_mul_eq_mul_right hm this

theorem bit_address_false_eq (i o n quad : Nat) :
    bit_address i o n quad false = tile_offset i o n + quad * (ceil256 n * ceil256 n) := by
  rw [bit_address_false, tile_offset, Nat.mul_assoc]

theorem tile_offset_lt {i o n : Nat} (hi : i < ceil256 n) (ho : o < ceil256 n) :
    tile_offset i o n < ceil256 n * ceil256 n := by
  have hi1 := div256_lt hi
  have ho1 := div256_lt ho
  rw [ceil256_sq, tile_offset]
  generalize ceil256 n / 256 = b at *
  have h1 : o / 256 + i / 256 * b < b * b := by
    have : (i / 256 + 1) * b ≤ b * b := Nat.mul_le_mul_right b hi1
    have e : (i / 256 + 1) * b = i / 256 * b + b := by ring
    omega
  generalize o / 256 + i / 256 * b = blk at *
  generalize b * b = bb at *
  omega

theorem tile_offset_inj {i o i1 o1 n : Nat} (hi : i < ceil256 n) (ho : o < ceil256 n)
    (hi1 : i1 < ceil256 n) (ho1 : o1 < ceil256 n)
    (h : tile_offset i o n = tile_offset i1 o1 n) : i = i1 ∧ o = o1 := by
  have a1 := div256_lt hi
  have a2 := div256_lt ho
  have a3 := div256_lt hi1
  have a4 := div256_lt ho1
  unfold tile_offset at h
  generalize ceil256 n / 256 = b at *
  have key : o / 256 + i / 256 * b = o1 / 256 + i1 / 256 * b := by
    generalize o / 256 + i / 256 * b = u at *
    generalize o1 / 256 + i1 / 256 * b = v at *
    omega
  obtain ⟨e1, e2⟩ := digits_unique a2 a4 key
  omega

theorem bit_address_lt {i o n quad : Nat} (hi : i < ceil256 n) (ho : o < ceil256 n)
    (hq : quad < 4) : bit_address i o n quad false < ceil256 n * ceil256 n * 4 := by
  rw [bit_address_false_eq]
  have := tile_offset_lt hi ho
  generalize ceil256 n * ceil256 n = mm at *
  have : quad * mm ≤ 3 * mm := Nat.mul_le_mul_right mm (by omega)
  omega

theorem bit_address_inj {i o i1 o1 n quad quad1 : Nat} (hi : i < ceil256 n) (ho : o < ceil256 n)
    (hi1 : i1 < ceil256 n) (ho1 : o1 < ceil256 n)
    (h : bit_address i o n quad false = bit_address i1 o1 n quad1 false) :
    i = i1 ∧ o = o1 ∧ quad = quad1 := by
  rw [bit_address_false_eq, bit_address_false_eq] at h
  obtain ⟨e1, e2⟩ := digits_unique (tile_offset_lt hi ho) (tile_offset_lt hi1 ho1) h
  obtain ⟨e3, e4⟩ := tile_offset_inj hi ho hi1 ho1 e1
  exact ⟨e3, e4, e2⟩

/-- Every bit of the allocation is the row-major address of exactly one
(input, output, quadrant). -/
theorem bit_address_surj {a n : Nat} (h : a < ceil256 n * ceil256 n * 4) :
    ∃ i o quad, i < ceil256 n ∧ o < ceil256 n ∧ quad < 4 ∧
      bit_address i o n quad false = a := by
  have hsq := ceil256_sq n
  have hdiv := ceil256_div n
  generalize hb : ceil256 n / 256 = b at *
  generalize hm : ceil256 n = m at *
  have hmm : 0 < m * m := by
    rcases Nat.eq_zero_or_pos (m * m) with h0 | h0
    · rw [h0] at h; omega
    · exact h0
  have hbpos : 0 < b := by
    rcases Nat.eq_zero_or_pos b with h0 | h0
    · subst h0; omega
    · exact h0
  let r := a % (m * m)
  have hr : r < m * m := Nat.mod_lt _ hmm
  let blk := r / 65536
  have hblk : blk < b * b := by
    show r / 65536 < b * b
    omega
  let cb := blk / b
  let rb := blk % b
  have hrb : rb < b := Nat.mod_lt _ hbpos
  have hcb : cb < b := by
    show blk / b < b
    exact Nat.div_lt_of_lt_mul hblk
  have hblk_eq : rb + cb * b = blk := by
    show blk % b + blk / b * b = blk
    have := Nat.div_add_mod blk b
    rw [Nat.mul_comm] at this; omega
  refine ⟨cb * 256 + r % 65536 / 256, rb * 256 + r % 256, a / (m * m), ?_, ?_, ?_, ?_⟩
  · omega
  · omega
  · exact Nat.div_lt_of_lt_mul h
  · rw [bit_address_false_eq, tile_offset, hm, hb]
    have e1 : (rb * 256 + r % 256) % 256 = r % 256 := by omega
    have e2 : (cb * 256 + r % 65536 / 256) % 256 = r % 65536 / 256 := by omega
    have e3 : (rb * 256 + r % 256) / 256 = rb := by omega
    have e4 : (cb * 256 + r % 65536 / 256) / 256 = cb := by omega
    rw [e1, e2, e3, e4, hblk_eq]
    have e5 : r % 256 + 256 * (r % 65536 / 256) + 65536 * blk = r := by
      show r % 256 + 256 * (r % 65536 / 256) + 65536 * (r / 65536) = r
      omega
    rw [e5]
    show a % (m * m) + a / (m * m) * (m * m) = a
    have := Nat.mod_add_div a (m * m)
    rw [Nat.mul_comm (m * m) (a / (m * m))] at this; exact this

theorem bit_index_x_obs (q k n quad : Nat) :
    PauliStringPtr.bit_index (row_stride256 n) (bit_address q 0 n quad false >>> 6) k
      = bit_address q k n quad false := by
  have hsq := ceil256_sq n
  simp only [PauliStringPtr.bit_index, row_stride256, Nat.shiftRight_eq_div_pow,
    bit_address_false]
  have e : quad * ceil256 n * ceil256 n = 65536 * (quad * (ceil256 n / 256 * (ceil256 n / 256))) := by
    rw [Nat.mul_assoc, hsq]; ring
  rw [e]
  generalize quad * (ceil256 n / 256 * (ceil256 n / 256)) = u
  have e2 : 65536 * (k / 256 + q / 256 * (ceil256 n / 256))
      = 65536 * (k / 256) + 65536 * (q / 256 * (ceil256 n / 256)) := by ring
  rw [e2]
  generalize q / 256 * (ceil256 n / 256) = w
  norm_num
  omega

/-! ## Loads and stores through views -/

theorem for_loop_succ {σ : Type} (body : Nat → σ → σ) (k : Nat) (s : σ) :
    for_loop body (k + 1) s = body k (for_loop body k s) := rfl

theorem write_bits_of_ne (addr : Nat → Nat) (v : Nat → Bool) (d : Nat → Bool) (a : Nat) :
    ∀ m, (∀ k, k < m → addr k ≠ a) → write_bits addr v m d a = d a := by
  intro m
  induction m with
  | zero => intro _; rfl
  | succ m ih =>
    intro h
    have h1 : a ≠ addr m := fun e => h m (Nat.lt_succ_self m) e.symm
    show set_bit (write_bits addr v m d) (addr m) (v m) a = d a
    simp only [set_bit, h1, if_false]
    exact ih (fun k hk => h k (Nat.lt_succ_of_lt hk))

theorem write_bits_at (addr : Nat → Nat) (v : Nat → Bool) (d : Nat → Bool) :
    ∀ m, (∀ j k, j < m → k < m → addr j = addr k → j = k) →
      ∀ k, k < m → write_bits addr v m d (addr k) = v k := by
  intro m
  induction m with
  | zero => intro _ k hk; omega
  | succ m ih =>
    intro hinj k hk
    show set_bit (write_bits addr v m d) (addr m) (v m) (addr k) = v k
    by_cases e : k = m
    · subst e; simp [set_bit]
    · have hk1 : k < m := by omega
      have hne : addr k ≠ addr m := fun h => e (hinj k m hk (Nat.lt_succ_self m) h)
      simp only [set_bit, hne, if_false]
      exact ih (fun j k hj hk h => hinj j k (Nat.lt_succ_of_lt hj) (Nat.lt_succ_of_lt hk) h) k hk1

/-- Quadrant holding the x bits of an observable. -/
theorem x_obs_ptr_eq (t : Tableau) (q : Nat) : t.x_obs_ptr q = t.obs_ptr false q := rfl

theorem z_obs_ptr_eq (t : Tableau) (q : Nat) : t.z_obs_ptr q = t.obs_ptr true q := rfl

theorem load_obs_ptr (t t0 : Tableau) (h : t0.num_qubits = t.num_qubits) (is_z : Bool) (q : Nat) :
    t.load (t0.obs_ptr is_z q) = t.obs is_z q := by
  unfold Tableau.obs Tableau.obs_ptr Tableau.x_obs_ptr Tableau.z_obs_ptr
  rw [h]

theorem obs_ptr_size (t : Tableau) (is_z : Bool) (q : Nat) :
    (t.obs_ptr is_z q).size = t.num_qubits := by
  cases is_z <;> rfl

theorem obs_ptr_sign (t : Tableau) (is_z : Bool) (q : Nat) :
    (t.obs_ptr is_z q).bit_ptr_sign = is_z.toNat * ceil256 t.num_qubits + q := by
  cases is_z <;> simp [Tableau.obs_ptr, Tableau.x_obs_ptr, Tableau.z_obs_ptr]

theorem obs_ptr_x (t : Tableau) (is_z : Bool) (q k : Nat) :
    PauliStringPtr.bit_index (t.obs_ptr is_z q).stride256 (t.obs_ptr is_z q).ptr_x k
      = bit_address q k t.num_qubits is_z.toNat false := by
  cases is_z
  · exact bit_index_x_obs q k t.num_qubits X2X_QUAD
  · exact bit_index_x_obs q k t.num_qubits Z2X_QUAD

theorem obs_ptr_z (t : Tableau) (is_z : Bool) (q k : Nat) :
    PauliStringPtr.bit_index (t.obs_ptr is_z q).stride256 (t.obs_ptr is_z q).ptr_z k
      = bit_address q k t.num_qubits (2 + is_z.toNat) false := by
  cases is_z
  · exact bit_index_x_obs q k t.num_qubits X2Z_QUAD
  · exact bit_index_x_obs q k t.num_qubits Z2Z_QUAD

theorem obs_size (t : Tableau) (is_z : Bool) (q : Nat) : (t.obs is_z q).size = t.num_qubits := by
  simp [Tableau.obs, Tableau.load, obs_ptr_size]

theorem obs_sign (t : Tableau) (is_z : Bool) (q : Nat) :
    (t.obs is_z q).val_sign = t.data_sign_x_z (is_z.toNat * ceil256 t.num_qubits + q) := by
  simp [Tableau.obs, Tableau.load, obs_ptr_sign, get_bit]

theorem obs_x (t : Tableau) (is_z : Bool) (q k : Nat) :
    (t.obs is_z q).x_data k = (decide (k < ceil256 t.num_qubits) &&
      t.data_x2x_z2x_x2z_z2z (bit_address q k t.num_qubits is_z.toNat false)) := by
  simp [Tableau.obs, Tableau.load, obs_ptr_size, obs_ptr_x, get_bit]

theorem obs_z (t : Tableau) (is_z : Bool) (q k : Nat) :
    (t.obs is_z q).z_data k = (decide (k < ceil256 t.num_qubits) &&
      t.data_x2x_z2x_x2z_z2z (bit_address q k t.num_qubits (2 + is_z.toNat) false)) := by
  simp [Tableau.obs, Tableau.load, obs_ptr_size, obs_ptr_z, get_bit]

theorem PauliStringVal.ext_iff4 (a b : PauliStringVal) (h1 : a.size = b.size)
    (h2 : a.val_sign = b.val_sign) (h3 : ∀ k, a.x_data k = b.x_data k)
    (h4 : ∀ k, a.z_data k = b.z_data k) : a = b := by
  cases a; cases b
  simp only at h1 h2
  have e3 := funext h3
  have e4 := funext h4
  simp only at e3 e4
  subst h1; subst h2; subst e3; subst e4
  rfl

theorem obs_wf (t : Tableau) (is_z : Bool) (q : Nat) : (t.obs is_z q).wf t.num_qubits := by
  refine ⟨obs_size t is_z q, fun k hk => ?_⟩
  have : ¬ k < ceil256 t.num_qubits := by omega
  simp [obs_x, obs_z, this]

theorem clip_of_wf {v : PauliStringVal} {n : Nat} (h : v.wf n) : v.clip n = v := by
  apply PauliStringVal.ext_iff4
  · exact h.1.symm
  · rfl
  · intro k
    by_cases hk : k < ceil256 n
    · simp [PauliStringVal.clip, hk]
    · have := (h.2 k (by omega)).1
      simp [PauliStringVal.clip, hk, this]
  · intro k
    by_cases hk : k < ceil256 n
    · simp [PauliStringVal.clip, hk]
    · have := (h.2 k (by omega)).2
      simp [PauliStringVal.clip, hk, this]

theorem clip_wf (v : PauliStringVal) (n : Nat) : (v.clip n).wf n := by
  refine ⟨rfl, fun k hk => ?_⟩
  have : ¬ k < ceil256 n := by omega
  simp [PauliStringVal.clip, this]

/-! ### Effect of the primitive updates on the storage -/

theorem store_num_qubits (t : Tableau) (p : PauliStringPtr) (v : PauliStringVal) :
    (t.store p v).num_qubits = t.num_qubits := rfl

theorem toggle_sign_num_qubits (t : Tableau) (p : PauliStringPtr) :
    (t.toggle_sign p).num_qubits = t.num_qubits := rfl

theorem obs_ptr_congr {t t0 : Tableau} (h : t0.num_qubits = t.num_qubits) (is_z : Bool) (q : Nat) :
    t0.obs_ptr is_z q = t.obs_ptr is_z q := by
  unfold Tableau.obs_ptr Tableau.x_obs_ptr Tableau.z_obs_ptr
  rw [h]

theorem store_data_at (t : Tableau) (is_z : Bool) (q : Nat) (v : PauliStringVal)
    (hq : q < ceil256 t.num_qubits) (i o quad : Nat) (hi : i < ceil256 t.num_qubits)
    (ho : o < ceil256 t.num_qubits) :
    (t.store (t.obs_ptr is_z q) v).data_x2x_z2x_x2z_z2z (bit_address i o t.num_qubits quad false)
      = if i = q ∧ quad = 2 + is_z.toNat then v.z_data o
        else if i = q ∧ quad = is_z.toNat then v.x_data o
        else t.data_x2x_z2x_x2z_z2z (bit_address i o t.num_qubits quad false) := by
  have ez : PauliStringPtr.bit_index (t.obs_ptr is_z q).stride256 (t.obs_ptr is_z q).ptr_z
      = fun k => bit_address q k t.num_qubits (2 + is_z.toNat) false := funext (obs_ptr_z t is_z q)
  have ex : PauliStringPtr.bit_index (t.obs_ptr is_z q).stride256 (t.obs_ptr is_z q).ptr_x
      = fun k => bit_address q k t.num_qubits is_z.toNat false := funext (obs_ptr_x t is_z q)
  simp only [Tableau.store, obs_ptr_size, ez, ex]
  have injz : ∀ j k, j < ceil256 t.num_qubits → k < ceil256 t.num_qubits →
      bit_address q j t.num_qubits (2 + is_z.toNat) false
        = bit_address q k t.num_qubits (2 + is_z.toNat) false → j = k :=
    fun j k hj hk h => (bit_address_inj hq hj hq hk h).2.1
  have injx : ∀ j k, j < ceil256 t.num_qubits → k < ceil256 t.num_qubits →
      bit_address q j t.num_qubits is_z.toNat false
        = bit_address q k t.num_qubits is_z.toNat false → j = k :=
    fun j k hj hk h => (bit_address_inj hq hj hq hk h).2.1
  by_cases c1 : i = q ∧ quad = 2 + is_z.toNat
  · rw [if_pos c1]
    obtain ⟨e1, e2⟩ := c1
    subst e1; subst e2
    exact write_bits_at _ _ _ _ injz o ho
  · rw [if_neg c1]
    rw [write_bits_of_ne]
    · by_cases c2 : i = q ∧ quad = is_z.toNat
      · rw [if_pos c2]
        obtain ⟨e1, e2⟩ := c2
        subst e1; subst e2
        exact write_bits_at _ _ _ _ injx o ho
      · rw [if_neg c2]
        rw [write_bits_of_ne]
        intro k hk h
        obtain ⟨a1, a2, a3⟩ := bit_address_inj hq hk hi ho h
        exact c2 ⟨a1.symm, a3.symm⟩
    · intro k hk h
      obtain ⟨a1, a2, a3⟩ := bit_address_inj hq hk hi ho h
      exact c1 ⟨a1.symm, a3.symm⟩

theorem store_data_outside (t : Tableau) (is_z : Bool) (q : Nat) (v : PauliStringVal)
    (hq : q < ceil256 t.num_qubits) (a : Nat)
    (ha : ceil256 t.num_qubits * ceil256 t.num_qubits * 4 ≤ a) :
    (t.store (t.obs_ptr is_z q) v).data_x2x_z2x_x2z_z2z a = t.data_x2x_z2x_x2z_z2z a := by
  have ez : PauliStringPtr.bit_index (t.obs_ptr is_z q).stride256 (t.obs_ptr is_z q).ptr_z
      = fun k => bit_address q k t.num_qubits (2 + is_z.toNat) false := funext (obs_ptr_z t is_z q)
  have ex : PauliStringPtr.bit_index (t.obs_ptr is_z q).stride256 (t.obs_ptr is_z q).ptr_x
      = fun k => bit_address q k t.num_qubits is_z.toNat false := funext (obs_ptr_x t is_z q)
  simp only [Tableau.store, obs_ptr_size, ez, ex]
  have hz : is_z.toNat < 2 := by cases is_z <;> simp
  rw [write_bits_of_ne, write_bits_of_ne]
  · intro k hk h
    have := @bit_address_lt q k t.num_qubits is_z.toNat hq hk (by omega)
    omega
  · intro k hk h
    have := @bit_address_lt q k t.num_qubits (2 + is_z.toNat) hq hk (by omega)
    omega

/-! ### Observables after a primitive update -/

theorem sign_index_inj {n q q1 : Nat} {h h1 : Bool} (hq : q < ceil256 n) (hq1 : q1 < ceil256 n)
    (e : h.toNat * ceil256 n + q = h1.toNat * ceil256 n + q1) : h = h1 ∧ q = q1 := by
  cases h <;> cases h1 <;> simp at e <;> simp <;> omega

theorem obs_store (t : Tableau) (is_z : Bool) (q : Nat) (v : PauliStringVal)
    (hq : q < ceil256 t.num_qubits) (h1 : Bool) (q1 : Nat) (hq1 : q1 < ceil256 t.num_qubits) :
    (t.store (t.obs_ptr is_z q) v).obs h1 q1
      = if h1 = is_z ∧ q1 = q then v.clip t.num_qubits else t.obs h1 q1 := by
  have hn : (t.store (t.obs_ptr is_z q) v).num_qubits = t.num_qubits := rfl
  apply PauliStringVal.ext_iff4
  · rw [obs_size]; split <;> simp [PauliStringVal.clip, obs_size, hn]
  · rw [obs_sign, hn]
    simp only [Tableau.store, obs_ptr_sign, set_bit]
    by_cases c : h1 = is_z ∧ q1 = q
    · obtain ⟨e1, e2⟩ := c
      subst e1; subst e2
      simp [PauliStringVal.clip]
    · have : ¬ (h1.toNat * ceil256 t.num_qubits + q1 = is_z.toNat * ceil256 t.num_qubits + q) :=
        fun e => c (sign_index_inj hq1 hq e)
      rw [if_neg this, if_neg c, obs_sign]
  · intro k
    rw [obs_x, hn]
    by_cases hk : k < ceil256 t.num_qubits
    · rw [store_data_at t is_z q v hq q1 k h1.toNat hq1 hk]
      by_cases c : h1 = is_z ∧ q1 = q
      · obtain ⟨e1, e2⟩ := c
        subst e1; subst e2
        have : ¬ (h1.toNat = 2 + h1.toNat) := by omega
        simp [PauliStringVal.clip, this]
      · have c1 : ¬ (q1 = q ∧ h1.toNat = 2 + is_z.toNat) := by
          cases h1 <;> cases is_z <;> simp
        have c2 : ¬ (q1 = q ∧ h1.toNat = is_z.toNat) := by
          intro ⟨a, b⟩
          apply c
          refine ⟨?_, a⟩
          cases h1 <;> cases is_z <;> simp_all
        rw [if_neg c1, if_neg c2, if_neg c, obs_x]
    · split <;> simp [PauliStringVal.clip, obs_x, hk]
  · intro k
    rw [obs_z, hn]
    by_cases hk : k < ceil256 t.num_qubits
    · rw [store_data_at t is_z q v hq q1 k (2 + h1.toNat) hq1 hk]
      by_cases c : h1 = is_z ∧ q1 = q
      · obtain ⟨e1, e2⟩ := c
        subst e1; subst e2
        simp [PauliStringVal.clip]
      · have c1 : ¬ (q1 = q ∧ 2 + h1.toNat = 2 + is_z.toNat) := by
          intro ⟨a, b⟩
          apply c
          refine ⟨?_, a⟩
          cases h1 <;> cases is_z <;> simp_all
        have c2 : ¬ (q1 = q ∧ 2 + h1.toNat = is_z.toNat) := by
          cases h1 <;> cases is_z <;> simp
        rw [if_neg c1, if_neg c2, if_neg c, obs_z]
    · split <;> simp [PauliStringVal.clip, obs_z, hk]

theorem obs_toggle_sign (t : Tableau) (is_z : Bool) (q : Nat)
    (hq : q < ceil256 t.num_qubits) (h1 : Bool) (q1 : Nat) (hq1 : q1 < ceil256 t.num_qubits) :
    (t.toggle_sign (t.obs_ptr is_z q)).obs h1 q1
      = if h1 = is_z ∧ q1 = q then { t.obs h1 q1 with val_sign := !(t.obs h1 q1).val_sign }
        else t.obs h1 q1 := by
  have hn : (t.toggle_sign (t.obs_ptr is_z q)).num_qubits = t.num_qubits := rfl
  apply PauliStringVal.ext_iff4
  · rw [obs_size]; split <;> simp [obs_size, hn]
  · rw [obs_sign, hn]
    simp only [Tableau.toggle_sign, obs_ptr_sign, set_bit, get_bit]
    by_cases c : h1 = is_z ∧ q1 = q
    · obtain ⟨e1, e2⟩ := c
      subst e1; subst e2
      simp [obs_sign]
    · have : ¬ (h1.toNat * ceil256 t.num_qubits + q1 = is_z.toNat * ceil256 t.num_qubits + q) :=
        fun e => c (sign_index_inj hq1 hq e)
      rw [if_neg this, if_neg c, obs_sign]
  · intro k
    rw [obs_x, hn]
    split <;> simp [obs_x, Tableau.toggle_sign]
  · intro k
    rw [obs_z, hn]
    split <;> simp [obs_z, Tableau.toggle_sign]

/-! ### Extensionality: a tableau is its `2 * ceil256 n` observables and what lies
outside the allocation -/

theorem Tableau.ext_obs (t1 t2 : Tableau) (hout : t1.outside = t2.outside)
    (hobs : ∀ (is_z : Bool) (q : Nat), q < ceil256 t1.num_qubits → t1.obs is_z q = t2.obs is_z q) :
    t1 = t2 := by
  have hn0 : t1.outside.num_qubits = t2.outside.num_qubits := by rw [hout]
  have hn : t1.num_qubits = t2.num_qubits := hn0
  have hd : t1.outside.data_x2x_z2x_x2z_z2z = t2.outside.data_x2x_z2x_x2z_z2z := by rw [hout]
  have hs : t1.outside.data_sign_x_z = t2.outside.data_sign_x_z := by rw [hout]
  simp only [Tableau.outside] at hd hs
  cases t1 with
  | mk n1 d1 s1 =>
  cases t2 with
  | mk n2 d2 s2 =>
  simp only at hn hd hs hobs
  subst hn
  have ed : d1 = d2 := by
    funext a
    by_cases ha : a < ceil256 n1 * ceil256 n1 * 4
    · obtain ⟨i, o, quad, hi, ho, hquad, rfl⟩ := bit_address_surj ha
      have hx0 := congrArg (fun v => v.x_data o) (hobs false i hi)
      have hx1 := congrArg (fun v => v.x_data o) (hobs true i hi)
      have hz0 := congrArg (fun v => v.z_data o) (hobs false i hi)
      have hz1 := congrArg (fun v => v.z_data o) (hobs true i hi)
      simp only [obs_x, obs_z, ho, decide_True, Bool.true_and, Bool.toNat_false,
        Bool.toNat_true] at hx0 hx1 hz0 hz1
      have : quad = 0 ∨ quad = 1 ∨ quad = 2 ∨ quad = 3 := by omega
      rcases this with e | e | e | e <;> subst e
      · exact hx0
      · exact hx1
      · exact hz0
      · exact hz1
    · have := congrFun hd a
      have hb : ceil256 n1 * ceil256 n1 * 4 ≤ a := by omega
      simpa [hb] using this
  have es : s1 = s2 := by
    funext a
    by_cases ha : a < ceil256 n1 * 2
    · by_cases hb : a < ceil256 n1
      · have := congrArg (fun v => v.val_sign) (hobs false a hb)
        simpa [obs_sign] using this
      · have := congrArg (fun v => v.val_sign) (hobs true (a - ceil256 n1) (by omega))
        simp only [obs_sign, Bool.toNat_true, Nat.one_mul] at this
        have e : ceil256 n1 + (a - ceil256 n1) = a := by omega
        rw [e] at this
        exact this
    · have := congrFun hs a
      have hb : ceil256 n1 * 2 ≤ a := by omega
      simpa [hb] using this
  subst ed; subst es
  rfl

theorem outside_store (t : Tableau) (is_z : Bool) (q : Nat) (v : PauliStringVal)
    (hq : q < ceil256 t.num_qubits) :
    (t.store (t.obs_ptr is_z q) v).outside = t.outside := by
  unfold Tableau.outside
  have hn : (t.store (t.obs_ptr is_z q) v).num_qubits = t.num_qubits := rfl
  rw [hn]
  congr 1
  · funext a
    by_cases ha : ceil256 t.num_qubits * ceil256 t.num_qubits * 4 ≤ a
    · rw [store_data_outside t is_z q v hq a ha]
    · simp [ha]
  · funext a
    by_cases ha : ceil256 t.num_qubits * 2 ≤ a
    · have hz : is_z.toNat < 2 := by cases is_z <;> simp
      have hne : a ≠ is_z.toNat * ceil256 t.num_qubits + q := by
        have : is_z.toNat * ceil256 t.num_qubits ≤ 1 * ceil256 t.num_qubits :=
          Nat.mul_le_mul_right _ (by omega)
        omega
      simp [Tableau.store, obs_ptr_sign, set_bit, hne]
    · simp [ha]

theorem outside_toggle_sign (t : Tableau) (is_z : Bool) (q : Nat)
    (hq : q < ceil256 t.num_qubits) :
    (t.toggle_sign (t.obs_ptr is_z q)).outside = t.outside := by
  unfold Tableau.outside
  have hn : (t.toggle_sign (t.obs_ptr is_z q)).num_qubits = t.num_qubits := rfl
  rw [hn]
  congr 1
  funext a
  by_cases ha : ceil256 t.num_qubits * 2 ≤ a
  · have hz : is_z.toNat < 2 := by cases is_z <;> simp
    have hne : a ≠ is_z.toNat * ceil256 t.num_qubits + q := by
      have : is_z.toNat * ceil256 t.num_qubits ≤ 1 * ceil256 t.num_qubits :=
        Nat.mul_le_mul_right _ (by omega)
      omega
    simp [Tableau.toggle_sign, obs_ptr_sign, set_bit, hne]
  · simp [ha]

theorem outside_num_qubits (t : Tableau) : t.outside.num_qubits = t.num_qubits := rfl

/-! ## Algebra of Pauli products -/

theorem popcount_eq_sum (f : Nat → Bool) (m : Nat) :
    popcount_below f m = sum_below (fun k => (f k).toNat) m := by
  induction m with
  | zero => rfl
  | succ m ih => simp [popcount_below, sum_below, ih]

theorem sum_below_add (f g : Nat → Nat) (m : Nat) :
    sum_below (fun k => f k + g k) m = sum_below f m + sum_below g m := by
  induction m with
  | zero => rfl
  | succ m ih => simp only [sum_below, ih]; omega

theorem sum_below_mul (c : Nat) (f : Nat → Nat) (m : Nat) :
    sum_below (fun k => c * f k) m = c * sum_below f m := by
  induction m with
  | zero => rfl
  | succ m ih => simp only [sum_below, ih]; ring

theorem sum_below_congr {f g : Nat → Nat} (m : Nat) (h : ∀ k, k < m → f k = g k) :
    sum_below f m = sum_below g m := by
  induction m with
  | zero => rfl
  | succ m ih =>
    simp only [sum_below]
    rw [ih (fun k hk => h k (Nat.lt_succ_of_lt hk)), h m (Nat.lt_succ_self m)]

theorem sum_below_mod_congr {f g : Nat → Nat} (d m : Nat)
    (h : ∀ k, k < m → f k % d = g k % d) : sum_below f m % d = sum_below g m % d := by
  induction m with
  | zero => rfl
  | succ m ih =>
    simp only [sum_below]
    rw [Nat.add_mod, ih (fun k hk => h k (Nat.lt_succ_of_lt hk)), h m (Nat.lt_succ_self m),
      ← Nat.add_mod]

theorem sum_below_zero (m : Nat) : sum_below (fun _ => 0) m = 0 := by
  induction m with
  | zero => rfl
  | succ m ih => simp [sum_below, ih]

/-- A sum whose terms vanish from `j` on stops at `j`. -/
theorem sum_below_support {f : Nat → Nat} {j m : Nat} (hjm : j ≤ m)
    (h : ∀ k, j ≤ k → f k = 0) : sum_below f m = sum_below f j := by
  induction m with
  | zero =>
    have : j = 0 := by omega
    subst this; rfl
  | succ m ih =>
    by_cases e : j = m + 1
    · subst e; rfl
    · simp only [sum_below]
      rw [ih (by omega), h m (by omega)]; rfl

/-- A sum with a single non-zero term. -/
theorem sum_below_single {f : Nat → Nat} {q m : Nat} (hq : q < m)
    (h : ∀ k, k ≠ q → f k = 0) : sum_below f m = f q := by
  induction m with
  | zero => omega
  | succ m ih =>
    simp only [sum_below]
    by_cases e : q = m
    · subst e
      have : sum_below f q = 0 := by
        rw [sum_below_congr q (fun k hk => h k (by omega)), sum_below_zero]
      omega
    · rw [ih (by omega), h m (fun e1 => e e1.symm)]; rfl

theorem log_i_eq_phase (a b : PauliStringVal) :
    ((a.inplace_right_mul_returning_log_i_scalar b).2 : ZMod 4)
      = (a.embed (ceil256 a.size)).phase (b.embed (ceil256 a.size)) := by
  simp only [PauliStringVal.inplace_right_mul_returning_log_i_scalar, PhasedPauli.phase,
    PauliStringVal.embed, log_i_term]
  rw [popcount_eq_sum, popcount_eq_sum, ← sum_below_mul, ← sum_below_add]
  rw [ZMod.natCast_mod]

theorem log_i_lt (a b : PauliStringVal) :
    (a.inplace_right_mul_returning_log_i_scalar b).2 < 4 := by
  simp only [PauliStringVal.inplace_right_mul_returning_log_i_scalar]
  omega

theorem mul_fst (a b : PauliStringVal) :
    (a.inplace_right_mul_returning_log_i_scalar b).1
      = { size := a.size, val_sign := a.val_sign ^^ b.val_sign,
          x_data := fun k => a.x_data k ^^ b.x_data k,
          z_data := fun k => a.z_data k ^^ b.z_data k } := rfl

theorem PhasedPauli.ext3 {m : Nat} (a b : PhasedPauli m) (h1 : a.ph = b.ph)
    (h2 : ∀ k, a.x k = b.x k) (h3 : ∀ k, a.z k = b.z k) : a = b := by
  cases a; cases b
  have e2 := funext h2
  have e3 := funext h3
  simp only at h1 e2 e3
  subst h1; subst e2; subst e3
  rfl

theorem natCast_eq_of_mod {a b : Nat} (h : a % 4 = b % 4) : (a : ZMod 4) = (b : ZMod 4) :=
  (ZMod.natCast_eq_natCast_iff a b 4).2 h

theorem log_i_term_cocycle (x1 z1 x2 z2 x3 z3 : Bool) :
    (log_i_term x1 z1 x2 z2 + log_i_term (x1 ^^ x2) (z1 ^^ z2) x3 z3) % 4
      = (log_i_term x2 z2 x3 z3 + log_i_term x1 z1 (x2 ^^ x3) (z2 ^^ z3)) % 4 := by
  revert x1 z1 x2 z2 x3 z3; decide

theorem log_i_term_antisymm (x1 z1 x2 z2 : Bool) :
    (log_i_term x1 z1 x2 z2 + log_i_term x2 z2 x1 z1) % 4 = 0 % 4 := by
  revert x1 z1 x2 z2; decide

theorem log_i_term_parity (x1 z1 x2 z2 : Bool) :
    log_i_term x1 z1 x2 z2 % 2 = ((x1 && z2) ^^ (z1 && x2)).toNat % 2 := by
  revert x1 z1 x2 z2; decide

theorem PhasedPauli.phase_cocycle {m : Nat} (a b c : PhasedPauli m) :
    a.phase b + (a.mul b).phase c = b.phase c + a.phase (b.mul c) := by
  simp only [PhasedPauli.phase, PhasedPauli.mul]
  rw [← Nat.cast_add, ← Nat.cast_add, ← sum_below_add, ← sum_below_add]
  apply natCast_eq_of_mod
  apply sum_below_mod_congr
  intro k _
  exact log_i_term_cocycle _ _ _ _ _ _

theorem PhasedPauli.phase_antisymm {m : Nat} (a b : PhasedPauli m) :
    a.phase b + b.phase a = 0 := by
  simp only [PhasedPauli.phase]
  rw [← Nat.cast_add, ← sum_below_add]
  have : ((0 : Nat) : ZMod 4) = 0 := Nat.cast_zero
  rw [← this]
  apply natCast_eq_of_mod
  rw [← sum_below_zero m]
  apply sum_below_mod_congr
  intro k _
  exact log_i_term_antisymm _ _ _ _

theorem PhasedPauli.mul_mul {m : Nat} (a b c : PhasedPauli m) :
    (a.mul b).mul c = a.mul (b.mul c) := by
  apply PhasedPauli.ext3
  · show a.ph + b.ph + a.phase b + c.ph + (a.mul b).phase c
      = a.ph + (b.ph + c.ph + b.phase c) + a.phase (b.mul c)
    have := PhasedPauli.phase_cocycle a b c
    linear_combination this
  · intro k; simp [PhasedPauli.mul, Bool.xor_assoc]
  · intro k; simp [PhasedPauli.mul, Bool.xor_assoc]

theorem PhasedPauli.phase_scalar_left {m : Nat} (e : ZMod 4) (a : PhasedPauli m) :
    (PhasedPauli.scalar m e).phase a = 0 := by
  simp only [PhasedPauli.phase, PhasedPauli.scalar]
  have : (fun k => log_i_term false false (a.x k) (a.z k)) = fun _ => 0 := by
    funext k; cases a.x k <;> cases a.z k <;> rfl
  rw [this, sum_below_zero]; rfl

theorem PhasedPauli.phase_scalar_right {m : Nat} (e : ZMod 4) (a : PhasedPauli m) :
    a.phase (PhasedPauli.scalar m e) = 0 := by
  simp only [PhasedPauli.phase, PhasedPauli.scalar]
  have : (fun k => log_i_term (a.x k) (a.z k) false false) = fun _ => 0 := by
    funext k; cases a.x k <;> cases a.z k <;> rfl
  rw [this, sum_below_zero]; rfl

theorem PhasedPauli.phase_self {m : Nat} (a : PhasedPauli m) : a.phase a = 0 := by
  simp only [PhasedPauli.phase]
  have : (fun k => log_i_term (a.x k) (a.z k) (a.x k) (a.z k)) = fun _ => 0 := by
    funext k; cases a.x k <;> cases a.z k <;> rfl
  rw [this, sum_below_zero]; rfl

instance PhasedPauli.instMonoid (m : Nat) : Monoid (PhasedPauli m) where
  mul := PhasedPauli.mul
  one := PhasedPauli.scalar m 0
  mul_assoc := PhasedPauli.mul_mul
  one_mul := by
    intro a
    apply PhasedPauli.ext3
    · show (0 : ZMod 4) + a.ph + (PhasedPauli.scalar m 0).phase a = a.ph
      rw [PhasedPauli.phase_scalar_left]; ring
    · intro k; show (false ^^ a.x k) = a.x k; simp
    · intro k; show (false ^^ a.z k) = a.z k; simp
  mul_one := by
    intro a
    apply PhasedPauli.ext3
    · show a.ph + (0 : ZMod 4) + a.phase (PhasedPauli.scalar m 0) = a.ph
      rw [PhasedPauli.phase_scalar_right]; ring
    · intro k; show (a.x k ^^ false) = a.x k; simp
    · intro k; show (a.z k ^^ false) = a.z k; simp


/-- The accumulator `scatter_eval` starts from. -/
theorem scatter_eval_one (t : Tableau) (v : PauliStringVal) (idx : List Nat) (h : v.size = 1) :
    t.scatter_eval v idx
      = t.scatter_eval_step v idx 0
          { PauliStringVal.identity t.num_qubits with val_sign := v.val_sign } := by
  simp only [Tableau.scatter_eval, h]; rfl

theorem scatter_eval_two (t : Tableau) (v : PauliStringVal) (idx : List Nat) (h : v.size = 2) :
    t.scatter_eval v idx
      = t.scatter_eval_step v idx 1 (t.scatter_eval_step v idx 0
          { PauliStringVal.identity t.num_qubits with val_sign := v.val_sign }) := by
  simp only [Tableau.scatter_eval, h]; rfl

theorem popcount_below_false (m : Nat) : popcount_below (fun _ => false) m = 0 := by
  induction m with
  | zero => rfl
  | succ m ih => simp [popcount_below, ih]

/-- Multiplying the signed identity by a string gives the string, with log_i 0. -/
theorem identity_mul (n : Nat) (s : Bool) (b : PauliStringVal) :
    ({ PauliStringVal.identity n with val_sign := s } : PauliStringVal).inplace_right_mul_returning_log_i_scalar b
      = ({ size := n, val_sign := s ^^ b.val_sign, x_data := b.x_data, z_data := b.z_data }, 0) := by
  simp only [PauliStringVal.inplace_right_mul_returning_log_i_scalar, PauliStringVal.identity,
    log_i_positive, log_i_negative, Bool.false_and, Bool.false_or, Bool.false_xor,
    Bool.and_false, Bool.not_false, Bool.true_and, Bool.or_false]
  have e1 : (fun k : Nat => (false && b.x_data k && !b.z_data k)) = fun _ => false := by
    funext k; simp
  have e2 : (fun k : Nat => (false && b.x_data k && b.z_data k)) = fun _ => false := by
    funext k; simp
  simp [popcount_below_false]

theorem signed (s : Bool) (b : PauliStringVal) :
    ({ b with val_sign := s ^^ b.val_sign } : PauliStringVal) = if s then b.neg else b := by
  cases s <;> simp [PauliStringVal.neg]


/-! ## The Pauli group -/

variable {m : Nat}

theorem PhasedPauli.mul_def (a b : PhasedPauli m) : a * b = a.mul b := rfl

theorem PhasedPauli.one_def : (1 : PhasedPauli m) = PhasedPauli.scalar m 0 := rfl

theorem PhasedPauli.scalar_mul (e : ZMod 4) (a : PhasedPauli m) :
    PhasedPauli.scalar m e * a = { ph := e + a.ph, x := a.x, z := a.z } := by
  apply PhasedPauli.ext3
  · show e + a.ph + (PhasedPauli.scalar m e).phase a = e + a.ph
    rw [PhasedPauli.phase_scalar_left]; ring
  · intro k; show (false ^^ a.x k) = a.x k; simp
  · intro k; show (false ^^ a.z k) = a.z k; simp

theorem PhasedPauli.mul_scalar (e : ZMod 4) (a : PhasedPauli m) :
    a * PhasedPauli.scalar m e = PhasedPauli.scalar m e * a := by
  rw [PhasedPauli.scalar_mul]
  apply PhasedPauli.ext3
  · show a.ph + e + a.phase (PhasedPauli.scalar m e) = e + a.ph
    rw [PhasedPauli.phase_scalar_right]; ring
  · intro k; show (a.x k ^^ false) = a.x k; simp
  · intro k; show (a.z k ^^ false) = a.z k; simp

theorem PhasedPauli.scalar_mul_scalar (e f : ZMod 4) :
    PhasedPauli.scalar m e * PhasedPauli.scalar m f = PhasedPauli.scalar m (e + f) := by
  rw [PhasedPauli.scalar_mul]; rfl

theorem PhasedPauli.scalar_zero : PhasedPauli.scalar m 0 = 1 := rfl

/-- A scalar can be pulled out of the right factor of a product. -/
theorem PhasedPauli.mul_scalar_mul (e : ZMod 4) (a b : PhasedPauli m) :
    a * (PhasedPauli.scalar m e * b) = PhasedPauli.scalar m e * (a * b) := by
  rw [← mul_assoc, PhasedPauli.mul_scalar, mul_assoc]

theorem popcount_parity_xor (f g : Nat → Bool) (n : Nat) :
    popcount_below (fun k => f k ^^ g k) n % 2
      = (popcount_below f n + popcount_below g n) % 2 := by
  induction n with
  | zero => rfl
  | succ n ih =>
    simp only [popcount_below]
    have : (f n ^^ g n).toNat % 2 = ((f n).toNat + (g n).toNat) % 2 := by
      cases f n <;> cases g n <;> rfl
    omega

theorem PhasedPauli.anti_mul_left (a b c : PhasedPauli m) :
    (a * b).anti c = (a.anti c ^^ b.anti c) := by
  simp only [PhasedPauli.anti, PhasedPauli.mul_def, PhasedPauli.mul]
  have e : (fun k => ((a.x k ^^ b.x k) && c.z k) ^^ ((a.z k ^^ b.z k) && c.x k))
      = fun k => ((a.x k && c.z k) ^^ (a.z k && c.x k)) ^^ ((b.x k && c.z k) ^^ (b.z k && c.x k)) := by
    funext k
    cases a.x k <;> cases b.x k <;> cases c.z k <;> cases a.z k <;> cases b.z k <;> cases c.x k <;> rfl
  rw [e]
  have := popcount_parity_xor (fun k => (a.x k && c.z k) ^^ (a.z k && c.x k))
    (fun k => (b.x k && c.z k) ^^ (b.z k && c.x k)) m
  generalize popcount_below (fun k => (a.x k && c.z k) ^^ (a.z k && c.x k)) m = u at *
  generalize popcount_below (fun k => (b.x k && c.z k) ^^ (b.z k && c.x k)) m = v at *
  generalize popcount_below _ m = w at *
  have hw : w % 2 = (u + v) % 2 := this
  have hu : u % 2 = 0 ∨ u % 2 = 1 := by omega
  have hv : v % 2 = 0 ∨ v % 2 = 1 := by omega
  have h3 : w % 2 = 0 ∨ w % 2 = 1 := by omega
  rcases hu with hu | hu <;> rcases hv with hv | hv <;> rcases h3 with h3 | h3 <;>
    simp [hu, hv, h3] <;> omega

theorem PhasedPauli.anti_symm (a b : PhasedPauli m) : a.anti b = b.anti a := by
  simp only [PhasedPauli.anti]
  have e : (fun k => (a.x k && b.z k) ^^ (a.z k && b.x k))
      = fun k => (b.x k && a.z k) ^^ (b.z k && a.x k) := by
    funext k
    cases a.x k <;> cases b.x k <;> cases a.z k <;> cases b.z k <;> rfl
  rw [e]

theorem PhasedPauli.anti_mul_right (a b c : PhasedPauli m) :
    a.anti (b * c) = (a.anti b ^^ a.anti c) := by
  rw [PhasedPauli.anti_symm, PhasedPauli.anti_mul_left, PhasedPauli.anti_symm b,
    PhasedPauli.anti_symm c]

theorem PhasedPauli.anti_self (a : PhasedPauli m) : a.anti a = false := by
  simp only [PhasedPauli.anti]
  have e : (fun k => (a.x k && a.z k) ^^ (a.z k && a.x k)) = fun _ => false := by
    funext k; cases a.x k <;> cases a.z k <;> rfl
  rw [e, popcount_below_false]; rfl

theorem PhasedPauli.anti_scalar_left (e : ZMod 4) (a : PhasedPauli m) :
    (PhasedPauli.scalar m e).anti a = false := by
  simp only [PhasedPauli.anti, PhasedPauli.scalar]
  have e : (fun k => (false && a.z k) ^^ (false && a.x k)) = fun _ => false := by
    funext k; simp
  rw [e, popcount_below_false]; rfl

theorem PhasedPauli.anti_scalar_right (e : ZMod 4) (a : PhasedPauli m) :
    a.anti (PhasedPauli.scalar m e) = false := by
  rw [PhasedPauli.anti_symm, PhasedPauli.anti_scalar_left]

/-- The phase of a product is odd exactly when the factors anticommute. -/
theorem PhasedPauli.phase_parity (a b : PhasedPauli m) :
    (a.phase b = 1 ∨ a.phase b = 3) ↔ a.anti b = true := by
  simp only [PhasedPauli.phase, PhasedPauli.anti]
  have h1 : sum_below (fun k => log_i_term (a.x k) (a.z k) (b.x k) (b.z k)) m % 2
      = popcount_below (fun k => (a.x k && b.z k) ^^ (a.z k && b.x k)) m % 2 := by
    rw [popcount_eq_sum]
    apply sum_below_mod_congr
    intro k _
    exact log_i_term_parity _ _ _ _
  generalize sum_below (fun k => log_i_term (a.x k) (a.z k) (b.x k) (b.z k)) m = u at *
  generalize popcount_below (fun k => (a.x k && b.z k) ^^ (a.z k && b.x k)) m = v at *
  have h4 : ((u : Nat) : ZMod 4) = ((u % 4 : Nat) : ZMod 4) := by
    rw [ZMod.natCast_mod]
  rw [h4]
  have : u % 4 = 0 ∨ u % 4 = 1 ∨ u % 4 = 2 ∨ u % 4 = 3 := by omega
  have z0 : ¬ ((0 : ZMod 4) = 1 ∨ (0 : ZMod 4) = 3) := by decide
  have z1 : ((1 : ZMod 4) = 1 ∨ (1 : ZMod 4) = 3) := by decide
  have z2 : ¬ ((2 : ZMod 4) = 1 ∨ (2 : ZMod 4) = 3) := by decide
  have z3 : ((3 : ZMod 4) = 1 ∨ (3 : ZMod 4) = 3) := by decide
  rcases this with h | h | h | h <;> rw [h]
  · simp only [Nat.cast_zero, z0, false_iff]; simp; omega
  · simp only [Nat.cast_one, z1, true_iff]; simp; omega
  · simp only [Nat.cast_ofNat, z2, false_iff]; simp; omega
  · simp only [Nat.cast_ofNat, z3, true_iff]; simp; omega


/-! ## Signed Pauli strings inside the Pauli group -/

theorem embed_inj (m : Nat) {a b : PauliStringVal} (hs : a.size = b.size)
    (h : a.embed m = b.embed m) : a = b := by
  apply PauliStringVal.ext_iff4 _ _ hs
  · have := congrArg PhasedPauli.ph h
    simp only [PauliStringVal.embed] at this
    cases ha : a.val_sign <;> cases hb : b.val_sign <;> simp [ha, hb] at this <;>
      first | rfl | (exfalso; revert this; decide)
  · intro k
    exact congrFun (congrArg PhasedPauli.x h) k
  · intro k
    exact congrFun (congrArg PhasedPauli.z h) k

theorem embed_neg (m : Nat) (a : PauliStringVal) :
    a.neg.embed m = PhasedPauli.scalar m 2 * a.embed m := by
  rw [PhasedPauli.scalar_mul]
  apply PhasedPauli.ext3
  · show (if (!a.val_sign) = true then (2 : ZMod 4) else 0)
      = 2 + (if a.val_sign = true then (2 : ZMod 4) else 0)
    rcases Bool.eq_false_or_eq_true a.val_sign with h | h <;> rw [h] <;> decide
  · intro k; rfl
  · intro k; rfl

theorem sign_xor_arith (s1 s2 : Bool) (e : ZMod 4) :
    e + (if (s1 ^^ s2) = true then (2 : ZMod 4) else 0)
      = (if s1 = true then (2 : ZMod 4) else 0) + (if s2 = true then 2 else 0) + e := by
  revert e
  cases s1 <;> cases s2 <;> decide

theorem embed_mul_fst (a b : PauliStringVal) :
    PhasedPauli.scalar (ceil256 a.size)
        ((a.inplace_right_mul_returning_log_i_scalar b).2 : ZMod 4)
      * (a.inplace_right_mul_returning_log_i_scalar b).1.embed (ceil256 a.size)
      = a.embed (ceil256 a.size) * b.embed (ceil256 a.size) := by
  rw [PhasedPauli.scalar_mul, log_i_eq_phase]
  apply PhasedPauli.ext3
  · exact sign_xor_arith _ _ _
  · intro k; rfl
  · intro k; rfl

theorem and_two_eq_hi (u : Nat) (hu : u < 8) :
    ((u % 256 &&& 2 != 0) = true) ↔ (u = 2 ∨ u = 3 ∨ u = 6 ∨ u = 7) := by
  interval_cases u <;> decide

theorem cast_odd_iff (l : Nat) (hl : l < 4) :
    ((l : ZMod 4) = 1 ∨ (l : ZMod 4) = 3) ↔ l % 2 = 1 := by
  interval_cases l <;> decide

theorem sign_phase_arith (c l : Nat) (hc : c < 5) (hl : l < 4) (s : Bool)
    (heven : (c + l) % 2 = 0) :
    (if (s ^^ ((c + l) % 256 &&& 2 != 0)) = true then (2 : ZMod 4) else 0)
      = (c : ZMod 4) + (l : ZMod 4) + (if s = true then 2 else 0) := by
  interval_cases c <;> interval_cases l <;> cases s <;> first | omega | decide

/-- When `c + log_i` is even, the stored result of the multiply-then-toggle
pattern is the group element `i ^ c * a * b`. -/
theorem embed_mul_phase (c : Nat) (hc : c < 5) (a b : PauliStringVal)
    (hpar : decide (c % 2 = 1)
      = (a.embed (ceil256 a.size)).anti (b.embed (ceil256 a.size))) :
    (a.mul_phase c b).embed (ceil256 a.size)
      = PhasedPauli.scalar (ceil256 a.size) (c : ZMod 4)
        * (a.embed (ceil256 a.size) * b.embed (ceil256 a.size)) := by
  rw [← embed_mul_fst, ← mul_assoc, PhasedPauli.scalar_mul_scalar, PhasedPauli.scalar_mul]
  have hl := log_i_lt a b
  have hp := PhasedPauli.phase_parity (a.embed (ceil256 a.size)) (b.embed (ceil256 a.size))
  rw [← log_i_eq_phase, ← hpar, cast_odd_iff _ hl] at hp
  have heven : (c + (a.inplace_right_mul_returning_log_i_scalar b).2) % 2 = 0 := by
    by_cases h : c % 2 = 1
    · have := hp.2 (by simpa using h); omega
    · have : ¬ ((a.inplace_right_mul_returning_log_i_scalar b).2 % 2 = 1) := by
        intro h2; have := hp.1 h2; simp at this; exact h this
      omega
  apply PhasedPauli.ext3
  · exact sign_phase_arith c _ hc hl _ heven
  · intro k; rfl
  · intro k; rfl

theorem two_mul_phase (e : ZMod 4) :
    e + e = if (e = 1 ∨ e = 3) then 2 else 0 := by
  revert e; decide

/-- Two group elements commute up to the sign given by their symplectic product. -/
theorem PhasedPauli.mul_comm_anti {m : Nat} (a b : PhasedPauli m) :
    a * b = PhasedPauli.scalar m (if a.anti b then 2 else 0) * (b * a) := by
  rw [PhasedPauli.scalar_mul]
  have hp := PhasedPauli.phase_parity a b
  have has := PhasedPauli.phase_antisymm a b
  apply PhasedPauli.ext3
  · show a.ph + b.ph + a.phase b = (if a.anti b = true then (2 : ZMod 4) else 0)
      + (b.ph + a.ph + b.phase a)
    have e1 : b.phase a = - a.phase b := by linear_combination has
    have e2 := two_mul_phase (a.phase b)
    have e3 : (if a.anti b = true then (2 : ZMod 4) else 0)
        = if (a.phase b = 1 ∨ a.phase b = 3) then 2 else 0 := by
      by_cases h : a.anti b = true
      · rw [if_pos h, if_pos (hp.2 h)]
      · rw [if_neg h, if_neg (fun h2 => h (hp.1 h2))]
    rw [e3, ← e2, e1]; ring
  · intro k; show (a.x k ^^ b.x k) = (b.x k ^^ a.x k); exact Bool.xor_comm _ _
  · intro k; show (a.z k ^^ b.z k) = (b.z k ^^ a.z k); exact Bool.xor_comm _ _

theorem embed_mul_self (m : Nat) (a : PauliStringVal) : a.embed m * a.embed m = 1 := by
  apply PhasedPauli.ext3
  · show (a.embed m).ph + (a.embed m).ph + (a.embed m).phase (a.embed m) = 0
    rw [PhasedPauli.phase_self]
    show (if a.val_sign = true then (2 : ZMod 4) else 0)
      + (if a.val_sign = true then (2 : ZMod 4) else 0) + 0 = 0
    rcases Bool.eq_false_or_eq_true a.val_sign with h | h <;> rw [h] <;> decide
  · intro k; show (a.x_data k ^^ a.x_data k) = false; simp
  · intro k; show (a.z_data k ^^ a.z_data k) = false; simp

theorem commutes_eq_anti (a b : PauliStringVal) :
    a.commutes b = !(a.embed (ceil256 a.size)).anti (b.embed (ceil256 a.size)) := by
  simp only [PauliStringVal.commutes, PhasedPauli.anti, PauliStringVal.embed]
  generalize popcount_below _ _ = u
  have : u % 2 = 0 ∨ u % 2 = 1 := by omega
  rcases this with h | h <;> simp [h]


/-! ## Row semantics of the row-major operations -/

theorem obs_ptr_store (t : Tableau) (p : PauliStringPtr) (v : PauliStringVal) (is_z : Bool)
    (q : Nat) : (t.store p v).obs_ptr is_z q = t.obs_ptr is_z q := rfl

theorem obs_ptr_toggle_sign (t : Tableau) (p : PauliStringPtr) (is_z : Bool) (q : Nat) :
    (t.toggle_sign p).obs_ptr is_z q = t.obs_ptr is_z q := rfl

theorem load_obs (t : Tableau) (is_z : Bool) (q : Nat) :
    t.load (t.obs_ptr is_z q) = t.obs is_z q := rfl

theorem mul_assign_eq (a b : PauliStringVal) : a.mul_assign b = a.mul_phase 0 b := by
  have h := log_i_lt a b
  simp only [PauliStringVal.mul_assign, PauliStringVal.mul_phase, Nat.zero_add]
  rw [Nat.mod_eq_of_lt (by omega)]

theorem mul_phase_size (c : Nat) (a b : PauliStringVal) : (a.mul_phase c b).size = a.size := rfl

theorem mul_phase_x (c : Nat) (a b : PauliStringVal) (k : Nat) :
    (a.mul_phase c b).x_data k = (a.x_data k ^^ b.x_data k) := rfl

theorem mul_phase_z (c : Nat) (a b : PauliStringVal) (k : Nat) :
    (a.mul_phase c b).z_data k = (a.z_data k ^^ b.z_data k) := rfl

theorem mul_phase_wf {c n : Nat} {a b : PauliStringVal} (ha : a.wf n) (hb : b.wf n) :
    (a.mul_phase c b).wf n := by
  refine ⟨ha.1, fun k hk => ?_⟩
  simp [mul_phase_x, mul_phase_z, (ha.2 k hk).1, (ha.2 k hk).2, (hb.2 k hk).1, (hb.2 k hk).2]

theorem neg_wf {n : Nat} {a : PauliStringVal} (ha : a.wf n) : a.neg.wf n := ha

theorem neg_neg (a : PauliStringVal) : a.neg.neg = a := by
  cases a; simp [PauliStringVal.neg]

theorem toggle_eq_neg (a : PauliStringVal) :
    ({ a with val_sign := !a.val_sign } : PauliStringVal) = a.neg := rfl

theorem obs_store_gen (t t0 : Tableau) (hn : t0.num_qubits = t.num_qubits) (is_z : Bool) (q : Nat)
    (v : PauliStringVal) (hq : q < ceil256 t.num_qubits) (h1 : Bool) (q1 : Nat)
    (hq1 : q1 < ceil256 t.num_qubits) :
    (t.store (t0.obs_ptr is_z q) v).obs h1 q1
      = if h1 = is_z ∧ q1 = q then v.clip t.num_qubits else t.obs h1 q1 := by
  rw [obs_ptr_congr hn]; exact obs_store t is_z q v hq h1 q1 hq1

theorem obs_toggle_sign_gen (t t0 : Tableau) (hn : t0.num_qubits = t.num_qubits) (is_z : Bool)
    (q : Nat) (hq : q < ceil256 t.num_qubits) (h1 : Bool) (q1 : Nat)
    (hq1 : q1 < ceil256 t.num_qubits) :
    (t.toggle_sign (t0.obs_ptr is_z q)).obs h1 q1
      = if h1 = is_z ∧ q1 = q then (t.obs h1 q1).neg else t.obs h1 q1 := by
  rw [obs_ptr_congr hn]; exact obs_toggle_sign t is_z q hq h1 q1 hq1

theorem outside_store_gen (t t0 : Tableau) (hn : t0.num_qubits = t.num_qubits) (is_z : Bool)
    (q : Nat) (v : PauliStringVal) (hq : q < ceil256 t.num_qubits) :
    (t.store (t0.obs_ptr is_z q) v).outside = t.outside := by
  rw [obs_ptr_congr hn]; exact outside_store t is_z q v hq

theorem outside_toggle_sign_gen (t t0 : Tableau) (hn : t0.num_qubits = t.num_qubits) (is_z : Bool)
    (q : Nat) (hq : q < ceil256 t.num_qubits) :
    (t.toggle_sign (t0.obs_ptr is_z q)).outside = t.outside := by
  rw [obs_ptr_congr hn]; exact outside_toggle_sign t is_z q hq

/-- In-place multiplication of one observable by another, then a toggle when bit
1 of `c + log_i` is set. -/
theorem obs_inplace_mul_toggle (t : Tableau) (c : Nat) (ha : Bool) (qa : Nat) (hb : Bool)
    (qb : Nat) (hqa : qa < ceil256 t.num_qubits) (h1 : Bool) (q1 : Nat)
    (hq1 : q1 < ceil256 t.num_qubits) :
    (if (c + (t.inplace_right_mul (t.obs_ptr ha qa) (t.obs_ptr hb qb)).2) % 256 &&& 2 != 0
      then (t.inplace_right_mul (t.obs_ptr ha qa) (t.obs_ptr hb qb)).1.toggle_sign
        (t.obs_ptr ha qa)
      else (t.inplace_right_mul (t.obs_ptr ha qa) (t.obs_ptr hb qb)).1).obs h1 q1
      = if h1 = ha ∧ q1 = qa then (t.obs ha qa).mul_phase c (t.obs hb qb) else t.obs h1 q1 := by
  simp only [Tableau.inplace_right_mul, load_obs]
  have hwf : ((t.obs ha qa).inplace_right_mul_returning_log_i_scalar (t.obs hb qb)).1.wf
      t.num_qubits := @mul_phase_wf 0 _ _ _ (obs_wf t ha qa) (obs_wf t hb qb)
  split
  · rename_i hc
    rw [obs_toggle_sign_gen (t.store (t.obs_ptr ha qa) _) t rfl ha qa hqa h1 q1 hq1,
      obs_store t ha qa _ hqa h1 q1 hq1]
    by_cases e : h1 = ha ∧ q1 = qa
    · simp only [e, and_self, if_true, clip_of_wf hwf]
      simp [PauliStringVal.mul_phase, PauliStringVal.neg, hc]
    · simp only [e, if_false]
  · rename_i hc
    rw [obs_store t ha qa _ hqa h1 q1 hq1]
    by_cases e : h1 = ha ∧ q1 = qa
    · simp only [e, and_self, if_true, clip_of_wf hwf]
      simp [PauliStringVal.mul_phase, hc]
    · simp only [e, if_false]

/-! ### Overwriting one observable -/

theorem with_obs_num_qubits (t : Tableau) (is_z : Bool) (q : Nat) (v : PauliStringVal) :
    (t.with_obs is_z q v).num_qubits = t.num_qubits := rfl

theorem obs_with_obs (t : Tableau) (is_z : Bool) (q : Nat) (v : PauliStringVal)
    (hq : q < ceil256 t.num_qubits) (h1 : Bool) (q1 : Nat) (hq1 : q1 < ceil256 t.num_qubits) :
    (t.with_obs is_z q v).obs h1 q1
      = if h1 = is_z ∧ q1 = q then v.clip t.num_qubits else t.obs h1 q1 :=
  obs_store t is_z q v hq h1 q1 hq1

theorem outside_with_obs (t : Tableau) (is_z : Bool) (q : Nat) (v : PauliStringVal)
    (hq : q < ceil256 t.num_qubits) : (t.with_obs is_z q v).outside = t.outside :=
  outside_store t is_z q v hq

theorem store_eq_with_obs (t t0 : Tableau) (hn : t0.num_qubits = t.num_qubits) (is_z : Bool)
    (q : Nat) (v : PauliStringVal) : t.store (t0.obs_ptr is_z q) v = t.with_obs is_z q v := by
  rw [obs_ptr_congr hn]; rfl

theorem toggle_eq_with_obs (t t0 : Tableau) (hn : t0.num_qubits = t.num_qubits) (is_z : Bool)
    (q : Nat) (hq : q < ceil256 t.num_qubits) :
    t.toggle_sign (t0.obs_ptr is_z q) = t.with_obs is_z q (t.obs is_z q).neg := by
  apply Tableau.ext_obs
  · rw [outside_toggle_sign_gen t t0 hn is_z q hq, outside_with_obs t is_z q _ hq]
  · intro h1 q1 hq1
    have hq1 : q1 < ceil256 t.num_qubits := hq1
    rw [obs_toggle_sign_gen t t0 hn is_z q hq h1 q1 hq1, obs_with_obs t is_z q _ hq h1 q1 hq1]
    by_cases e : h1 = is_z ∧ q1 = q
    · obtain ⟨e1, e2⟩ := e
      subst e1; subst e2
      simp only [and_self, if_true]
      exact (clip_of_wf (neg_wf (obs_wf t h1 q1))).symm
    · simp only [e, if_false]

theorem load_eq_obs (t t0 : Tableau) (hn : t0.num_qubits = t.num_qubits) (is_z : Bool) (q : Nat) :
    t.load (t0.obs_ptr is_z q) = t.obs is_z q := load_obs_ptr t t0 hn is_z q

theorem with_obs_clip (t : Tableau) (is_z : Bool) (q : Nat) (v : PauliStringVal)
    (hq : q < ceil256 t.num_qubits) :
    t.with_obs is_z q (v.clip t.num_qubits) = t.with_obs is_z q v := by
  apply Tableau.ext_obs
  · rw [outside_with_obs t is_z q _ hq, outside_with_obs t is_z q _ hq]
  · intro h1 q1 hq1
    have hq1 : q1 < ceil256 t.num_qubits := hq1
    rw [obs_with_obs t is_z q _ hq h1 q1 hq1, obs_with_obs t is_z q _ hq h1 q1 hq1]
    rw [clip_of_wf (clip_wf v t.num_qubits)]

theorem with_obs_with_obs (t : Tableau) (is_z : Bool) (q : Nat) (v w : PauliStringVal)
    (hq : q < ceil256 t.num_qubits) :
    (t.with_obs is_z q v).with_obs is_z q w = t.with_obs is_z q w := by
  apply Tableau.ext_obs
  · rw [outside_with_obs (t.with_obs is_z q v) is_z q w hq, outside_with_obs t is_z q v hq,
      outside_with_obs t is_z q w hq]
  · intro h1 q1 hq1
    have hq1 : q1 < ceil256 t.num_qubits := hq1
    rw [obs_with_obs (t.with_obs is_z q v) is_z q w hq h1 q1 hq1,
      obs_with_obs t is_z q v hq h1 q1 hq1, obs_with_obs t is_z q w hq h1 q1 hq1]
    by_cases e : h1 = is_z ∧ q1 = q
    · simp only [e, and_self, if_true]; rfl
    · simp only [e, if_false]

theorem with_obs_self (t : Tableau) (is_z : Bool) (q : Nat) (hq : q < ceil256 t.num_qubits) :
    t.with_obs is_z q (t.obs is_z q) = t := by
  apply Tableau.ext_obs
  · rw [outside_with_obs t is_z q _ hq]
  · intro h1 q1 hq1
    have hq1 : q1 < ceil256 t.num_qubits := hq1
    rw [obs_with_obs t is_z q _ hq h1 q1 hq1]
    by_cases e : h1 = is_z ∧ q1 = q
    · obtain ⟨e1, e2⟩ := e
      subst e1; subst e2
      simp only [and_self, if_true]
      exact clip_of_wf (obs_wf t h1 q1)
    · simp only [e, if_false]

theorem with_obs_comm (t : Tableau) (ha : Bool) (qa : Nat) (hb : Bool) (qb : Nat)
    (v w : PauliStringVal) (hqa : qa < ceil256 t.num_qubits) (hqb : qb < ceil256 t.num_qubits)
    (hne : ¬ (ha = hb ∧ qa = qb)) :
    (t.with_obs ha qa v).with_obs hb qb w = (t.with_obs hb qb w).with_obs ha qa v := by
  apply Tableau.ext_obs
  · rw [outside_with_obs (t.with_obs ha qa v) hb qb w hqb, outside_with_obs t ha qa v hqa,
      outside_with_obs (t.with_obs hb qb w) ha qa v hqa, outside_with_obs t hb qb w hqb]
  · intro h1 q1 hq1
    have hq1 : q1 < ceil256 t.num_qubits := hq1
    rw [obs_with_obs (t.with_obs ha qa v) hb qb w hqb h1 q1 hq1,
      obs_with_obs t ha qa v hqa h1 q1 hq1,
      obs_with_obs (t.with_obs hb qb w) ha qa v hqa h1 q1 hq1,
      obs_with_obs t hb qb w hqb h1 q1 hq1]
    by_cases e1 : h1 = ha ∧ q1 = qa
    · have e2 : ¬ (h1 = hb ∧ q1 = qb) := by
        intro e2; apply hne
        exact ⟨e1.1.symm.trans e2.1, e1.2.symm.trans e2.2⟩
      rw [if_neg e2, if_pos e1, if_pos e1]; rfl
    · by_cases e2 : h1 = hb ∧ q1 = qb
      · rw [if_pos e2, if_neg e1, if_pos e2]; rfl
      · rw [if_neg e2, if_neg e1, if_neg e1, if_neg e2]

/-! ### The row-major operations as overwrites of observables -/

theorem inplace_right_mul_eq (t t0 t1 : Tableau) (hn0 : t0.num_qubits = t.num_qubits)
    (hn1 : t1.num_qubits = t.num_qubits) (ha : Bool) (qa : Nat) (hb : Bool) (qb : Nat) :
    t.inplace_right_mul (t0.obs_ptr ha qa) (t1.obs_ptr hb qb)
      = (t.with_obs ha qa
          ((t.obs ha qa).inplace_right_mul_returning_log_i_scalar (t.obs hb qb)).1,
         ((t.obs ha qa).inplace_right_mul_returning_log_i_scalar (t.obs hb qb)).2) := by
  rw [obs_ptr_congr hn0, obs_ptr_congr hn1]; rfl

theorem mul_assign_eq_with_obs (t t0 t1 : Tableau) (hn0 : t0.num_qubits = t.num_qubits)
    (hn1 : t1.num_qubits = t.num_qubits) (ha : Bool) (qa : Nat) (hb : Bool) (qb : Nat) :
    t.mul_assign (t0.obs_ptr ha qa) (t1.obs_ptr hb qb)
      = t.with_obs ha qa ((t.obs ha qa).mul_phase 0 (t.obs hb qb)) := by
  rw [obs_ptr_congr hn0, obs_ptr_congr hn1]
  show t.store _ ((t.obs ha qa).mul_assign (t.obs hb qb)) = _
  rw [mul_assign_eq]; rfl

/-- The pattern `m = c + a.inplace_right_mul(b); if (m & 2) a.sign.toggle()`. -/
theorem mul_then_toggle (t : Tableau) (c : Nat) (ha : Bool) (qa : Nat) (hb : Bool) (qb : Nat)
    (hqa : qa < ceil256 t.num_qubits) :
    (if (c + (t.inplace_right_mul (t.obs_ptr ha qa) (t.obs_ptr hb qb)).2) % 256 &&& 2 != 0
      then (t.inplace_right_mul (t.obs_ptr ha qa) (t.obs_ptr hb qb)).1.toggle_sign
        (t.obs_ptr ha qa)
      else (t.inplace_right_mul (t.obs_ptr ha qa) (t.obs_ptr hb qb)).1)
      = t.with_obs ha qa ((t.obs ha qa).mul_phase c (t.obs hb qb)) := by
  apply Tableau.ext_obs
  · rw [outside_with_obs t ha qa _ hqa]
    simp only [Tableau.inplace_right_mul, load_obs]
    split
    · rw [outside_toggle_sign_gen (t.store (t.obs_ptr ha qa) _) t rfl ha qa hqa,
        outside_store t ha qa _ hqa]
    · rw [outside_store t ha qa _ hqa]
  · intro h1 q1 hq1
    have hq1 : q1 < ceil256 t.num_qubits := by
      have : (if (c + (t.inplace_right_mul (t.obs_ptr ha qa) (t.obs_ptr hb qb)).2) % 256 &&& 2 != 0
        then (t.inplace_right_mul (t.obs_ptr ha qa) (t.obs_ptr hb qb)).1.toggle_sign
          (t.obs_ptr ha qa)
        else (t.inplace_right_mul (t.obs_ptr ha qa) (t.obs_ptr hb qb)).1).num_qubits
          = t.num_qubits := by split <;> rfl
      rw [this] at hq1; exact hq1
    rw [obs_inplace_mul_toggle t c ha qa hb qb hqa h1 q1 hq1, obs_with_obs t ha qa _ hqa h1 q1 hq1,
      clip_of_wf (mul_phase_wf (obs_wf t ha qa) (obs_wf t hb qb))]

theorem prepend_SQRT_X_eq (t : Tableau) (q : Nat) (hq : q < ceil256 t.num_qubits) :
    t.prepend_SQRT_X q = t.with_obs true q ((t.obs true q).mul_phase 1 (t.obs false q)) :=
  mul_then_toggle t 1 true q false q hq

theorem prepend_SQRT_X_DAG_eq (t : Tableau) (q : Nat) (hq : q < ceil256 t.num_qubits) :
    t.prepend_SQRT_X_DAG q = t.with_obs true q ((t.obs true q).mul_phase 3 (t.obs false q)) :=
  mul_then_toggle t 3 true q false q hq

theorem prepend_SQRT_Z_eq (t : Tableau) (q : Nat) (hq : q < ceil256 t.num_qubits) :
    t.prepend_SQRT_Z q = t.with_obs false q ((t.obs false q).mul_phase 1 (t.obs true q)) :=
  mul_then_toggle t 1 false q true q hq

theorem prepend_SQRT_Z_DAG_eq (t : Tableau) (q : Nat) (hq : q < ceil256 t.num_qubits) :
    t.prepend_SQRT_Z_DAG q = t.with_obs false q ((t.obs false q).mul_phase 3 (t.obs true q)) :=
  mul_then_toggle t 3 false q true q hq


theorem prepend_H_eq (t : Tableau) (q : Nat) :
    t.prepend_H q = (t.with_obs false q (t.obs true q)).with_obs true q (t.obs false q) := by
  simp only [Tableau.prepend_H, Tableau.swap_with, x_obs_ptr_eq, z_obs_ptr_eq, load_obs,
    store_eq_with_obs, with_obs_num_qubits]

theorem prepend_X_eq (t : Tableau) (q : Nat) (hq : q < ceil256 t.num_qubits) :
    t.prepend_X q = t.with_obs true q (t.obs true q).neg := by
  simp only [Tableau.prepend_X, z_obs_ptr_eq]
  exact toggle_eq_with_obs t t rfl true q hq

theorem prepend_Z_eq (t : Tableau) (q : Nat) (hq : q < ceil256 t.num_qubits) :
    t.prepend_Z q = t.with_obs false q (t.obs false q).neg := by
  simp only [Tableau.prepend_Z, x_obs_ptr_eq]
  exact toggle_eq_with_obs t t rfl false q hq

theorem prepend_Y_eq (t : Tableau) (q : Nat) (hq : q < ceil256 t.num_qubits) :
    t.prepend_Y q
      = (t.with_obs false q (t.obs false q).neg).with_obs true q (t.obs true q).neg := by
  simp only [Tableau.prepend_Y, x_obs_ptr_eq, z_obs_ptr_eq, toggle_eq_with_obs,
    with_obs_num_qubits, toggle_sign_num_qubits, hq, obs_with_obs]
  simp

theorem prepend_SQRT_Y_eq (t : Tableau) (q : Nat) (hq : q < ceil256 t.num_qubits) :
    t.prepend_SQRT_Y q
      = (t.with_obs false q (t.obs true q).neg).with_obs true q (t.obs false q) := by
  simp only [Tableau.prepend_SQRT_Y, Tableau.swap_with, x_obs_ptr_eq, z_obs_ptr_eq,
    toggle_eq_with_obs, load_eq_obs, store_eq_with_obs,
    with_obs_num_qubits, toggle_sign_num_qubits, hq, obs_with_obs]
  simp only [and_self, if_true, Bool.false_eq_true, false_and, if_false, clip_of_wf, neg_wf,
    obs_wf]
  rw [with_obs_comm t true q false q _ _ hq hq (by simp)]
  rw [with_obs_with_obs (t.with_obs false q _) true q _ _ hq]

theorem prepend_SQRT_Y_DAG_eq (t : Tableau) (q : Nat) (hq : q < ceil256 t.num_qubits) :
    t.prepend_SQRT_Y_DAG q
      = (t.with_obs false q (t.obs true q)).with_obs true q (t.obs false q).neg := by
  simp only [Tableau.prepend_SQRT_Y_DAG, Tableau.swap_with, x_obs_ptr_eq, z_obs_ptr_eq,
    toggle_eq_with_obs, load_eq_obs, store_eq_with_obs,
    with_obs_num_qubits, toggle_sign_num_qubits, hq, obs_with_obs]
  simp only [and_self, if_true]
  rw [with_obs_with_obs (t.with_obs false q _) true q _ _ hq]
  congr 1
  rw [clip_of_wf (obs_wf t false q)]


theorem mul_phase_eq_ite (c : Nat) (a b : PauliStringVal) :
    a.mul_phase c b
      = if (c + (a.inplace_right_mul_returning_log_i_scalar b).2) % 256 &&& 2 != 0
        then (a.inplace_right_mul_returning_log_i_scalar b).1.neg
        else (a.inplace_right_mul_returning_log_i_scalar b).1 := by
  split
  · rename_i h; simp [PauliStringVal.mul_phase, PauliStringVal.neg, h]
  · rename_i h; simp [PauliStringVal.mul_phase, h]

theorem mul_fst_wf {n : Nat} {a b : PauliStringVal} (ha : a.wf n) (hb : b.wf n) :
    (a.inplace_right_mul_returning_log_i_scalar b).1.wf n := @mul_phase_wf 0 _ _ _ ha hb

theorem prepend_H_YZ_eq (t : Tableau) (q : Nat) (hq : q < ceil256 t.num_qubits) :
    t.prepend_H_YZ q
      = (t.with_obs true q ((t.obs true q).mul_phase 3 (t.obs false q))).with_obs false q
          (t.obs false q).neg := by
  rw [mul_phase_eq_ite]
  simp only [Tableau.prepend_H_YZ, x_obs_ptr_eq, z_obs_ptr_eq, inplace_right_mul_eq,
    toggle_eq_with_obs, load_eq_obs, store_eq_with_obs,
    with_obs_num_qubits, toggle_sign_num_qubits, hq, obs_with_obs]
  simp only [and_self, if_true, Bool.false_eq_true, false_and, if_false, Bool.true_eq_false,
    clip_of_wf, neg_wf, obs_wf, mul_fst_wf]
  split
  · rw [with_obs_comm t true q false q _ _ hq hq (by simp),
      with_obs_with_obs (t.with_obs false q _) true q _ _ hq,
      with_obs_comm t true q false q _ _ hq hq (by simp)]
  · rfl

theorem prepend_H_XY_eq (t : Tableau) (q : Nat) (hq : q < ceil256 t.num_qubits) :
    t.prepend_H_XY q
      = (t.with_obs false q ((t.obs false q).mul_phase 1 (t.obs true q))).with_obs true q
          (t.obs true q).neg := by
  rw [mul_phase_eq_ite]
  simp only [Tableau.prepend_H_XY, x_obs_ptr_eq, z_obs_ptr_eq, inplace_right_mul_eq,
    toggle_eq_with_obs, load_eq_obs, store_eq_with_obs,
    with_obs_num_qubits, toggle_sign_num_qubits, hq, obs_with_obs]
  simp only [and_self, if_true, Bool.false_eq_true, false_and, if_false, Bool.true_eq_false,
    clip_of_wf, neg_wf, obs_wf, mul_fst_wf]
  split
  · rw [with_obs_comm t false q true q _ _ hq hq (by simp),
      with_obs_with_obs (t.with_obs true q _) false q _ _ hq,
      with_obs_comm t false q true q _ _ hq hq (by simp)]
  · rfl

theorem prepend_CX_eq (t : Tableau) (c tg : Nat) (hc : c < ceil256 t.num_qubits)
    (htg : tg < ceil256 t.num_qubits) :
    t.prepend_CX c tg
      = (t.with_obs true tg ((t.obs true tg).mul_phase 0 (t.obs true c))).with_obs false c
          ((t.obs false c).mul_phase 0 (t.obs false tg)) := by
  simp only [Tableau.prepend_CX, x_obs_ptr_eq, z_obs_ptr_eq, mul_assign_eq_with_obs,
    with_obs_num_qubits, hc, htg, obs_with_obs]
  simp

theorem prepend_CZ_eq (t : Tableau) (c tg : Nat) (hc : c < ceil256 t.num_qubits)
    (htg : tg < ceil256 t.num_qubits) (hne : c ≠ tg) :
    t.prepend_CZ c tg
      = (t.with_obs false tg ((t.obs false tg).mul_phase 0 (t.obs true c))).with_obs false c
          ((t.obs false c).mul_phase 0 (t.obs true tg)) := by
  simp only [Tableau.prepend_CZ, x_obs_ptr_eq, z_obs_ptr_eq, mul_assign_eq_with_obs,
    with_obs_num_qubits, hc, htg, obs_with_obs]
  simp [hne]


/-! ## The tableau invariant -/

theorem obs_commutes (t : Tableau) (h1 : Bool) (q1 : Nat) (h2 : Bool) (q2 : Nat) :
    (t.obs h1 q1).commutes (t.obs h2 q2) = !(t.row h1 q1).anti (t.row h2 q2) := by
  rw [commutes_eq_anti, obs_size]; rfl

theorem satisfies_invariants_iff (t : Tableau) :
    t.satisfies_invariants = true ↔ t.valid := by
  simp only [Tableau.satisfies_invariants, List.all_eq_true, List.mem_range, Bool.and_eq_true,
    List.mem_range'_1, x_obs_ptr_eq, z_obs_ptr_eq, load_obs, obs_commutes, Bool.not_not,
    Bool.not_eq_true']
  constructor
  · intro h q1 q2 hq1 hq2
    rcases Nat.lt_trichotomy q1 q2 with hlt | heq | hgt
    · have := (h q1 hq1).2 q2 ⟨by omega, by omega⟩
      obtain ⟨⟨⟨a, b⟩, c⟩, d⟩ := this
      refine ⟨a, d, ?_⟩
      rw [b]; simp; omega
    · subst heq
      refine ⟨PhasedPauli.anti_self _, PhasedPauli.anti_self _, ?_⟩
      simpa using (h q1 hq1).1
    · have := (h q2 hq2).2 q1 ⟨by omega, by omega⟩
      obtain ⟨⟨⟨a, b⟩, c⟩, d⟩ := this
      refine ⟨by rw [PhasedPauli.anti_symm]; exact a, by rw [PhasedPauli.anti_symm]; exact d, ?_⟩
      rw [PhasedPauli.anti_symm, c]; simp; omega
  · intro h q1 hq1
    refine ⟨by simpa using (h q1 q1 hq1 hq1).2.2, ?_⟩
    intro q2 hq2
    have hq2n : q2 < t.num_qubits := by omega
    have a := h q1 q2 hq1 hq2n
    have b := h q2 q1 hq2n hq1
    refine ⟨⟨⟨a.1, ?_⟩, ?_⟩, a.2.1⟩
    · rw [a.2.2]; simp; omega
    · rw [PhasedPauli.anti_symm, b.2.2]; simp; omega


/-! ### Every row-major operation keeps the invariant -/

theorem PhasedPauli.anti_congr {m : Nat} {a a1 b b1 : PhasedPauli m} (hx : a.x = a1.x)
    (hz : a.z = a1.z) (hx1 : b.x = b1.x) (hz1 : b.z = b1.z) : a.anti b = a1.anti b1 := by
  simp only [PhasedPauli.anti, hx, hz, hx1, hz1]

theorem anti_neg_left (m : Nat) (a : PauliStringVal) (d : PhasedPauli m) :
    (a.neg.embed m).anti d = (a.embed m).anti d := rfl

theorem anti_neg_right (m : Nat) (a : PauliStringVal) (d : PhasedPauli m) :
    d.anti (a.neg.embed m) = d.anti (a.embed m) := rfl

theorem anti_mul_phase_left (m c : Nat) (a b : PauliStringVal) (d : PhasedPauli m) :
    ((a.mul_phase c b).embed m).anti d = ((a.embed m).anti d ^^ (b.embed m).anti d) := by
  rw [← PhasedPauli.anti_mul_left]
  exact PhasedPauli.anti_congr rfl rfl rfl rfl

theorem anti_mul_phase_right (m c : Nat) (a b : PauliStringVal) (d : PhasedPauli m) :
    d.anti ((a.mul_phase c b).embed m) = (d.anti (a.embed m) ^^ d.anti (b.embed m)) := by
  rw [← PhasedPauli.anti_mul_right]
  exact PhasedPauli.anti_congr rfl rfl rfl rfl

theorem embed_obs (t : Tableau) (is_z : Bool) (q : Nat) :
    (t.obs is_z q).embed (ceil256 t.num_qubits) = t.row is_z q := rfl

theorem row_with_obs (t : Tableau) (is_z : Bool) (q : Nat) (v : PauliStringVal)
    (hq : q < ceil256 t.num_qubits) (h1 : Bool) (q1 : Nat) (hq1 : q1 < ceil256 t.num_qubits) :
    (t.with_obs is_z q v).row h1 q1
      = if h1 = is_z ∧ q1 = q then (v.clip t.num_qubits).embed (ceil256 t.num_qubits)
        else t.row h1 q1 := by
  show ((t.with_obs is_z q v).obs h1 q1).embed (ceil256 t.num_qubits) = _
  rw [obs_with_obs t is_z q v hq h1 q1 hq1]
  split <;> rfl

theorem lt_ceil {q n : Nat} (h : q < n) : q < ceil256 n := Nat.lt_of_lt_of_le h (le_ceil256 n)

theorem valid_iff_gram (t : Tableau) :
    t.valid ↔ ∀ (h1 : Bool) (q1 : Nat) (h2 : Bool) (q2 : Nat), q1 < t.num_qubits →
      q2 < t.num_qubits →
      (t.row h1 q1).anti (t.row h2 q2) = (decide (q1 = q2) && (h1 != h2)) := by
  constructor
  · intro hv h1 q1 h2 q2 hq1 hq2
    have a := hv q1 q2 hq1 hq2
    have b := hv q2 q1 hq2 hq1
    cases h1 <;> cases h2
    · simpa using a.1
    · simpa using a.2.2
    · rw [PhasedPauli.anti_symm, b.2.2]
      by_cases e : q1 = q2
      · simp [e]
      · have : ¬ q2 = q1 := fun h => e h.symm
        simp [e, this]
    · simpa using a.2.1
  · intro h q1 q2 hq1 hq2
    refine ⟨?_, ?_, ?_⟩
    · simpa using h false q1 false q2 hq1 hq2
    · simpa using h true q1 true q2 hq1 hq2
    · simpa using h false q1 true q2 hq1 hq2

theorem valid_prepend_H (t : Tableau) (q : Nat) (hq : q < t.num_qubits) (hv : t.valid) :
    (t.prepend_H q).valid := by
  have hqc := lt_ceil hq
  rw [prepend_H_eq t q]
  rw [valid_iff_gram] at hv ⊢
  intro h1 q1 h2 q2 hq1 hq2
  have hq1 : q1 < t.num_qubits := hq1
  have hq2 : q2 < t.num_qubits := hq2
  dsimp only [with_obs_num_qubits]
  cases h1 <;> cases h2 <;>
    simp only [row_with_obs, with_obs_num_qubits, lt_ceil hq1, lt_ceil hq2, hqc, clip_of_wf,
      mul_phase_wf, neg_wf, obs_wf, Bool.false_eq_true, Bool.true_eq_false, false_and, true_and,
      if_false] <;>
    (try split_ifs) <;>
    simp only [anti_mul_phase_left, anti_mul_phase_right, anti_neg_left, anti_neg_right,
      embed_obs, hv, hq, hq1, hq2] <;>
    (try subst_vars) <;> (try rfl) <;> (try (rw [Bool.eq_iff_iff]; simp <;> omega))

theorem valid_prepend_H_XY (t : Tableau) (q : Nat) (hq : q < t.num_qubits) (hv : t.valid) :
    (t.prepend_H_XY q).valid := by
  have hqc := lt_ceil hq
  rw [prepend_H_XY_eq t q hqc]
  rw [valid_iff_gram] at hv ⊢
  intro h1 q1 h2 q2 hq1 hq2
  have hq1 : q1 < t.num_qubits := hq1
  have hq2 : q2 < t.num_qubits := hq2
  dsimp only [with_obs_num_qubits]
  cases h1 <;> cases h2 <;>
    simp only [row_with_obs, with_obs_num_qubits, lt_ceil hq1, lt_ceil hq2, hqc, clip_of_wf,
      mul_phase_wf, neg_wf, obs_wf, Bool.false_eq_true, Bool.true_eq_false, false_and, true_and,
      if_false] <;>
    (try split_ifs) <;>
    simp only [anti_mul_phase_left, anti_mul_phase_right, anti_neg_left, anti_neg_right,
      embed_obs, hv, hq, hq1, hq2] <;>
    (try subst_vars) <;> (try rfl) <;> (try (rw [Bool.eq_iff_iff]; simp <;> omega))

theorem valid_prepend_H_YZ (t : Tableau) (q : Nat) (hq : q < t.num_qubits) (hv : t.valid) :
    (t.prepend_H_YZ q).valid := by
  have hqc := lt_ceil hq
  rw [prepend_H_YZ_eq t q hqc]
  rw [valid_iff_gram] at hv ⊢
  intro h1 q1 h2 q2 hq1 hq2
  have hq1 : q1 < t.num_qubits := hq1
  have hq2 : q2 < t.num_qubits := hq2
  dsimp only [with_obs_num_qubits]
  cases h1 <;> cases h2 <;>
    simp only [row_with_obs, with_obs_num_qubits, lt_ceil hq1, lt_ceil hq2, hqc, clip_of_wf,
      mul_phase_wf, neg_wf, obs_wf, Bool.false_eq_true, Bool.true_eq_false, false_and, true_and,
      if_false] <;>
    (try split_ifs) <;>
    simp only [anti_mul_phase_left, anti_mul_phase_right, anti_neg_left, anti_neg_right,
      embed_obs, hv, hq, hq1, hq2] <;>
    (try subst_vars) <;> (try rfl) <;> (try (rw [Bool.eq_iff_iff]; simp <;> omega))

theorem valid_prepend_X (t : Tableau) (q : Nat) (hq : q < t.num_qubits) (hv : t.valid) :
    (t.prepend_X q).valid := by
  have hqc := lt_ceil hq
  rw [prepend_X_eq t q hqc]
  rw [valid_iff_gram] at hv ⊢
  intro h1 q1 h2 q2 hq1 hq2
  have hq1 : q1 < t.num_qubits := hq1
  have hq2 : q2 < t.num_qubits := hq2
  dsimp only [with_obs_num_qubits]
  cases h1 <;> cases h2 <;>
    simp only [row_with_obs, with_obs_num_qubits, lt_ceil hq1, lt_ceil hq2, hqc, clip_of_wf,
      mul_phase_wf, neg_wf, obs_wf, Bool.false_eq_true, Bool.true_eq_false, false_and, true_and,
      if_false] <;>
    (try split_ifs) <;>
    simp only [anti_mul_phase_left, anti_mul_phase_right, anti_neg_left, anti_neg_right,
      embed_obs, hv, hq, hq1, hq2] <;>
    (try subst_vars) <;> (try rfl) <;> (try (rw [Bool.eq_iff_iff]; simp <;> omega))

theorem valid_prepend_Y (t : Tableau) (q : Nat) (hq : q < t.num_qubits) (hv : t.valid) :
    (t.prepend_Y q).valid := by
  have hqc := lt_ceil hq
  rw [prepend_Y_eq t q hqc]
  rw [valid_iff_gram] at hv ⊢
  intro h1 q1 h2 q2 hq1 hq2
  have hq1 : q1 < t.num_qubits := hq1
  have hq2 : q2 < t.num_qubits := hq2
  dsimp only [with_obs_num_qubits]
  cases h1 <;> cases h2 <;>
    simp only [row_with_obs, with_obs_num_qubits, lt_ceil hq1, lt_ceil hq2, hqc, clip_of_wf,
      mul_phase_wf, neg_wf, obs_wf, Bool.false_eq_true, Bool.true_eq_false, false_and, true_and,
      if_false] <;>
    (try split_ifs) <;>
    simp only [anti_mul_phase_left, anti_mul_phase_right, anti_neg_left, anti_neg_right,
      embed_obs, hv, hq, hq1, hq2] <;>
    (try subst_vars) <;> (try rfl) <;> (try (rw [Bool.eq_iff_iff]; simp <;> omega))

theorem valid_prepend_Z (t : Tableau) (q : Nat) (hq : q < t.num_qubits) (hv : t.valid) :
    (t.prepend_Z q).valid := by
  have hqc := lt_ceil hq
  rw [prepend_Z_eq t q hqc]
  rw [valid_iff_gram] at hv ⊢
  intro h1 q1 h2 q2 hq1 hq2
  have hq1 : q1 < t.num_qubits := hq1
  have hq2 : q2 < t.num_qubits := hq2
  dsimp only [with_obs_num_qubits]
  cases h1 <;> cases h2 <;>
    simp only [row_with_obs, with_obs_num_qubits, lt_ceil hq1, lt_ceil hq2, hqc, clip_of_wf,
      mul_phase_wf, neg_wf, obs_wf, Bool.false_eq_true, Bool.true_eq_false, false_and, true_and,
      if_false] <;>
    (try split_ifs) <;>
    simp only [anti_mul_phase_left, anti_mul_phase_right, anti_neg_left, anti_neg_right,
      embed_obs, hv, hq, hq1, hq2] <;>
    (try subst_vars) <;> (try rfl) <;> (try (rw [Bool.eq_iff_iff]; simp <;> omega))

theorem valid_prepend_SQRT_X (t : Tableau) (q : Nat) (hq : q < t.num_qubits) (hv : t.valid) :
    (t.prepend_SQRT_X q).valid := by
  have hqc := lt_ceil hq
  rw [prepend_SQRT_X_eq t q hqc]
  rw [valid_iff_gram] at hv ⊢
  intro h1 q1 h2 q2 hq1 hq2
  have hq1 : q1 < t.num_qubits := hq1
  have hq2 : q2 < t.num_qubits := hq2
  dsimp only [with_obs_num_qubits]
  cases h1 <;> cases h2 <;>
    simp only [row_with_obs, with_obs_num_qubits, lt_ceil hq1, lt_ceil hq2, hqc, clip_of_wf,
      mul_phase_wf, neg_wf, obs_wf, Bool.false_eq_true, Bool.true_eq_false, false_and, true_and,
      if_false] <;>
    (try split_ifs) <;>
    simp only [anti_mul_phase_left, anti_mul_phase_right, anti_neg_left, anti_neg_right,
      embed_obs, hv, hq, hq1, hq2] <;>
    (try subst_vars) <;> (try rfl) <;> (try (rw [Bool.eq_iff_iff]; simp <;> omega))

theorem valid_prepend_SQRT_X_DAG (t : Tableau) (q : Nat) (hq : q < t.num_qubits) (hv : t.valid) :
    (t.prepend_SQRT_X_DAG q).valid := by
  have hqc := lt_ceil hq
  rw [prepend_SQRT_X_DAG_eq t q hqc]
  rw [valid_iff_gram] at hv ⊢
  intro h1 q1 h2 q2 hq1 hq2
  have hq1 : q1 < t.num_qubits := hq1
  have hq2 : q2 < t.num_qubits := hq2
  dsimp only [with_obs_num_qubits]
  cases h1 <;> cases h2 <;>
    simp only [row_with_obs, with_obs_num_qubits, lt_ceil hq1, lt_ceil hq2, hqc, clip_of_wf,
      mul_phase_wf, neg_wf, obs_wf, Bool.false_eq_true, Bool.true_eq_false, false_and, true_and,
      if_false] <;>
    (try split_ifs) <;>
    simp only [anti_mul_phase_left, anti_mul_phase_right, anti_neg_left, anti_neg_right,
      embed_obs, hv, hq, hq1, hq2] <;>
    (try subst_vars) <;> (try rfl) <;> (try (rw [Bool.eq_iff_iff]; simp <;> omega))

theorem valid_prepend_SQRT_Y (t : Tableau) (q : Nat) (hq : q < t.num_qubits) (hv : t.valid) :
    (t.prepend_SQRT_Y q).valid := by
  have hqc := lt_ceil hq
  rw [prepend_SQRT_Y_eq t q hqc]
  rw [valid_iff_gram] at hv ⊢
  intro h1 q1 h2 q2 hq1 hq2
  have hq1 : q1 < t.num_qubits := hq1
  have hq2 : q2 < t.num_qubits := hq2
  dsimp only [with_obs_num_qubits]
  cases h1 <;> cases h2 <;>
    simp only [row_with_obs, with_obs_num_qubits, lt_ceil hq1, lt_ceil hq2, hqc, clip_of_wf,
      mul_phase_wf, neg_wf, obs_wf, Bool.false_eq_true, Bool.true_eq_false, false_and, true_and,
      if_false] <;>
    (try split_ifs) <;>
    simp only [anti_mul_phase_left, anti_mul_phase_right, anti_neg_left, anti_neg_right,
      embed_obs, hv, hq, hq1, hq2] <;>
    (try subst_vars) <;> (try rfl) <;> (try (rw [Bool.eq_iff_iff]; simp <;> omega))

theorem valid_prepend_SQRT_Y_DAG (t : Tableau) (q : Nat) (hq : q < t.num_qubits) (hv : t.valid) :
    (t.prepend_SQRT_Y_DAG q).valid := by
  have hqc := lt_ceil hq
  rw [prepend_SQRT_Y_DAG_eq t q hqc]
  rw [valid_iff_gram] at hv ⊢
  intro h1 q1 h2 q2 hq1 hq2
  have hq1 : q1 < t.num_qubits := hq1
  have hq2 : q2 < t.num_qubits := hq2
  dsimp only [with_obs_num_qubits]
  cases h1 <;> cases h2 <;>
    simp only [row_with_obs, with_obs_num_qubits, lt_ceil hq1, lt_ceil hq2, hqc, clip_of_wf,
      mul_phase_wf, neg_wf, obs_wf, Bool.false_eq_true, Bool.true_eq_false, false_and, true_and,
      if_false] <;>
    (try split_ifs) <;>
    simp only [anti_mul_phase_left, anti_mul_phase_right, anti_neg_left, anti_neg_right,
      embed_obs, hv, hq, hq1, hq2] <;>
    (try subst_vars) <;> (try rfl) <;> (try (rw [Bool.eq_iff_iff]; simp <;> omega))

theorem valid_prepend_SQRT_Z (t : Tableau) (q : Nat) (hq : q < t.num_qubits) (hv : t.valid) :
    (t.prepend_SQRT_Z q).valid := by
  have hqc := lt_ceil hq
  rw [prepend_SQRT_Z_eq t q hqc]
  rw [valid_iff_gram] at hv ⊢
  intro h1 q1 h2 q2 hq1 hq2
  have hq1 : q1 < t.num_qubits := hq1
  have hq2 : q2 < t.num_qubits := hq2
  dsimp only [with_obs_num_qubits]
  cases h1 <;> cases h2 <;>
    simp only [row_with_obs, with_obs_num_qubits, lt_ceil hq1, lt_ceil hq2, hqc, clip_of_wf,
      mul_phase_wf, neg_wf, obs_wf, Bool.false_eq_true, Bool.true_eq_false, false_and, true_and,
      if_false] <;>
    (try split_ifs) <;>
    simp only [anti_mul_phase_left, anti_mul_phase_right, anti_neg_left, anti_neg_right,
      embed_obs, hv, hq, hq1, hq2] <;>
    (try subst_vars) <;> (try rfl) <;> (try (rw [Bool.eq_iff_iff]; simp <;> omega))

theorem valid_prepend_SQRT_Z_DAG (t : Tableau) (q : Nat) (hq : q < t.num_qubits) (hv : t.valid) :
    (t.prepend_SQRT_Z_DAG q).valid := by
  have hqc := lt_ceil hq
  rw [prepend_SQRT_Z_DAG_eq t q hqc]
  rw [valid_iff_gram] at hv ⊢
  intro h1 q1 h2 q2 hq1 hq2
  have hq1 : q1 < t.num_qubits := hq1
  have hq2 : q2 < t.num_qubits := hq2
  dsimp only [with_obs_num_qubits]
  cases h1 <;> cases h2 <;>
    simp only [row_with_obs, with_obs_num_qubits, lt_ceil hq1, lt_ceil hq2, hqc, clip_of_wf,
      mul_phase_wf, neg_wf, obs_wf, Bool.false_eq_true, Bool.true_eq_false, false_and, true_and,
      if_false] <;>
    (try split_ifs) <;>
    simp only [anti_mul_phase_left, anti_mul_phase_right, anti_neg_left, anti_neg_right,
      embed_obs, hv, hq, hq1, hq2] <;>
    (try subst_vars) <;> (try rfl) <;> (try (rw [Bool.eq_iff_iff]; simp <;> omega))

theorem valid_prepend_CX (t : Tableau) (c tg : Nat) (hc : c < t.num_qubits)
    (htg : tg < t.num_qubits) (hne : c ≠ tg) (hv : t.valid) : (t.prepend_CX c tg).valid := by
  have hne1 : tg ≠ c := hne.symm
  have hcc := lt_ceil hc
  have htc := lt_ceil htg
  rw [prepend_CX_eq t c tg hcc htc]
  rw [valid_iff_gram] at hv ⊢
  intro h1 q1 h2 q2 hq1 hq2
  have hq1 : q1 < t.num_qubits := hq1
  have hq2 : q2 < t.num_qubits := hq2
  dsimp only [with_obs_num_qubits]
  cases h1 <;> cases h2 <;>
    simp only [row_with_obs, with_obs_num_qubits, lt_ceil hq1, lt_ceil hq2, hcc, htc, clip_of_wf,
      mul_phase_wf, neg_wf, obs_wf, Bool.false_eq_true, Bool.true_eq_false, false_and, true_and,
      if_false] <;>
    (try split_ifs) <;>
    simp only [anti_mul_phase_left, anti_mul_phase_right, anti_neg_left, anti_neg_right,
      embed_obs, hv, hc, htg, hq1, hq2] <;>
    (try subst_vars) <;> (try rfl) <;> (try (rw [Bool.eq_iff_iff]; simp <;> omega))

theorem valid_prepend_CZ (t : Tableau) (c tg : Nat) (hc : c < t.num_qubits)
    (htg : tg < t.num_qubits) (hne : c ≠ tg) (hv : t.valid) : (t.prepend_CZ c tg).valid := by
  have hne1 : tg ≠ c := hne.symm
  have hcc := lt_ceil hc
  have htc := lt_ceil htg
  rw [prepend_CZ_eq t c tg hcc htc hne]
  rw [valid_iff_gram] at hv ⊢
  intro h1 q1 h2 q2 hq1 hq2
  have hq1 : q1 < t.num_qubits := hq1
  have hq2 : q2 < t.num_qubits := hq2
  dsimp only [with_obs_num_qubits]
  cases h1 <;> cases h2 <;>
    simp only [row_with_obs, with_obs_num_qubits, lt_ceil hq1, lt_ceil hq2, hcc, htc, clip_of_wf,
      mul_phase_wf, neg_wf, obs_wf, Bool.false_eq_true, Bool.true_eq_false, false_and, true_and,
      if_false] <;>
    (try split_ifs) <;>
    simp only [anti_mul_phase_left, anti_mul_phase_right, anti_neg_left, anti_neg_right,
      embed_obs, hv, hc, htg, hq1, hq2] <;>
    (try subst_vars) <;> (try rfl) <;> (try (rw [Bool.eq_iff_iff]; simp <;> omega))

theorem prepend_H_YZ_num_qubits (t : Tableau) (q : Nat) (hq : q < ceil256 t.num_qubits) :
    (t.prepend_H_YZ q).num_qubits = t.num_qubits := by
  rw [prepend_H_YZ_eq t q hq]; rfl

theorem prepend_CZ_num_qubits (t : Tableau) (c tg : Nat) (hc : c < ceil256 t.num_qubits)
    (htg : tg < ceil256 t.num_qubits) (hne : c ≠ tg) :
    (t.prepend_CZ c tg).num_qubits = t.num_qubits := by
  rw [prepend_CZ_eq t c tg hc htg hne]; rfl

theorem valid_prepend_CY (t : Tableau) (c tg : Nat) (hc : c < t.num_qubits)
    (htg : tg < t.num_qubits) (hne : c ≠ tg) (hv : t.valid) : (t.prepend_CY c tg).valid := by
  have hcc := lt_ceil hc
  have htc := lt_ceil htg
  have n1 := prepend_H_YZ_num_qubits t tg htc
  have v1 := valid_prepend_H_YZ t tg htg hv
  have n2 := prepend_CZ_num_qubits (t.prepend_H_YZ tg) c tg (by rw [n1]; exact hcc)
    (by rw [n1]; exact htc) hne
  have v2 := valid_prepend_CZ (t.prepend_H_YZ tg) c tg (by rw [n1]; exact hc)
    (by rw [n1]; exact htg) hne v1
  exact valid_prepend_H_YZ _ tg (by rw [n2, n1]; exact htg) v2

/-! ## The identity tableau -/

theorem ctor_data (n : Nat) (a : Nat) :
    (Tableau.ctor n).data_x2x_z2x_x2z_z2z a = true ↔
      ∃ q, q < n ∧ (a = bit_address q q n X2X_QUAD false ∨ a = bit_address q q n Z2Z_QUAD false) := by
  simp only [Tableau.ctor]
  generalize hm : n = m
  have key : ∀ j, for_loop (fun q d =>
        set_bit (set_bit d (bit_address q q m X2X_QUAD false) true)
          (bit_address q q m Z2Z_QUAD false) true) j (fun _ => false) a = true ↔
      ∃ q, q < j ∧ (a = bit_address q q m X2X_QUAD false ∨ a = bit_address q q m Z2Z_QUAD false) := by
    intro j
    induction j with
    | zero => simp [for_loop]
    | succ j ih =>
      rw [for_loop_succ]
      simp only [set_bit]
      by_cases e1 : a = bit_address j j m Z2Z_QUAD false
      · rw [if_pos e1]
        simp only [true_iff]
        exact ⟨j, Nat.lt_succ_self j, Or.inr e1⟩
      · by_cases e2 : a = bit_address j j m X2X_QUAD false
        · rw [if_neg e1, if_pos e2]
          simp only [true_iff]
          exact ⟨j, Nat.lt_succ_self j, Or.inl e2⟩
        · rw [if_neg e1, if_neg e2, ih]
          constructor
          · rintro ⟨q, hq, h⟩
            exact ⟨q, Nat.lt_succ_of_lt hq, h⟩
          · rintro ⟨q, hq, h⟩
            by_cases e : q = j
            · subst e
              rcases h with h | h
              · exact absurd h e2
              · exact absurd h e1
            · exact ⟨q, by omega, h⟩
  exact key m

theorem ctor_num_qubits (n : Nat) : (Tableau.ctor n).num_qubits = n := rfl

theorem ctor_sign (n a : Nat) : (Tableau.ctor n).data_sign_x_z a = false := rfl

theorem ctor_bit (n i o quad : Nat) (hi : i < ceil256 n) (ho : o < ceil256 n) :
    (Tableau.ctor n).data_x2x_z2x_x2z_z2z (bit_address i o n quad false)
      = decide (i < n ∧ i = o ∧ (quad = X2X_QUAD ∨ quad = Z2Z_QUAD)) := by
  rw [Bool.eq_iff_iff, ctor_data]
  simp only [decide_eq_true_eq]
  constructor
  · rintro ⟨q, hq, h | h⟩
    · obtain ⟨a1, a2, a3⟩ := bit_address_inj hi ho (lt_ceil hq) (lt_ceil hq) h
      exact ⟨by omega, by omega, Or.inl a3⟩
    · obtain ⟨a1, a2, a3⟩ := bit_address_inj hi ho (lt_ceil hq) (lt_ceil hq) h
      exact ⟨by omega, by omega, Or.inr a3⟩
  · rintro ⟨h1, h2, h3 | h3⟩
    · subst h2; subst h3; exact ⟨i, h1, Or.inl rfl⟩
    · subst h2; subst h3; exact ⟨i, h1, Or.inr rfl⟩

theorem ctor_obs_x (n : Nat) (is_z : Bool) (q k : Nat) (hq : q < n) :
    ((Tableau.ctor n).obs is_z q).x_data k = (decide (k = q) && !is_z) := by
  rw [obs_x, ctor_num_qubits]
  by_cases hk : k < ceil256 n
  · rw [ctor_bit n q k _ (lt_ceil hq) hk]
    cases is_z <;> simp [hk, hq, X2X_QUAD, Z2Z_QUAD, eq_comm]
  · have : k ≠ q := by have := lt_ceil hq; omega
    simp [hk, this]

theorem ctor_obs_z (n : Nat) (is_z : Bool) (q k : Nat) (hq : q < n) :
    ((Tableau.ctor n).obs is_z q).z_data k = (decide (k = q) && is_z) := by
  rw [obs_z, ctor_num_qubits]
  by_cases hk : k < ceil256 n
  · rw [ctor_bit n q k _ (lt_ceil hq) hk]
    cases is_z <;> simp [hk, hq, X2X_QUAD, Z2Z_QUAD, eq_comm]
  · have : k ≠ q := by have := lt_ceil hq; omega
    simp [hk, this]

theorem ctor_obs_sign (n : Nat) (is_z : Bool) (q : Nat) :
    ((Tableau.ctor n).obs is_z q).val_sign = false := by
  rw [obs_sign]; rfl


theorem popcount_single (f : Nat → Bool) (q m : Nat) (hq : q < m)
    (h : ∀ k, k ≠ q → f k = false) : popcount_below f m = (f q).toNat := by
  rw [popcount_eq_sum]
  exact sum_below_single hq (fun k hk => by rw [h k hk]; rfl)

theorem ctor_valid (n : Nat) : (Tableau.ctor n).valid := by
  rw [valid_iff_gram]
  intro h1 q1 h2 q2 hq1 hq2
  have hq1 : q1 < n := hq1
  have hq2 : q2 < n := hq2
  simp only [PhasedPauli.anti, Tableau.row, PauliStringVal.embed, ctor_obs_x n _ _ _ hq1,
    ctor_obs_z n _ _ _ hq1, ctor_obs_x n _ _ _ hq2, ctor_obs_z n _ _ _ hq2, ctor_num_qubits]
  rw [popcount_single _ q1 (ceil256 n) (lt_ceil hq1)]
  · by_cases e : q1 = q2
    · subst e; cases h1 <;> cases h2 <;> simp
    · cases h1 <;> cases h2 <;> simp [e]
  · intro k hk
    simp [hk]


/-! ## Sequences of gate applications -/

theorem valid_targets_one {g : Gate} {n : Nat} {targets : List Nat}
    (h : g.valid_targets n targets) (ha : g.arity = 1) :
    ∃ a, targets = [a] ∧ a < n := by
  obtain ⟨h1, h2, _⟩ := h
  rw [ha] at h1
  match targets, h1, h2 with
  | [a], _, h2 => exact ⟨a, rfl, h2 a (List.mem_singleton.2 rfl)⟩

theorem valid_targets_two {g : Gate} {n : Nat} {targets : List Nat}
    (h : g.valid_targets n targets) (ha : g.arity = 2) :
    ∃ a b, targets = [a, b] ∧ a < n ∧ b < n ∧ a ≠ b := by
  obtain ⟨h1, h2, h3⟩ := h
  rw [ha] at h1
  match targets, h1, h2, h3 with
  | [a, b], _, h2, h3 =>
    refine ⟨a, b, rfl, h2 a (by simp), h2 b (by simp), ?_⟩
    intro e
    subst e
    simp at h3

theorem valid_prepend_gate (t : Tableau) (g : Gate) (targets : List Nat)
    (h : g.valid_targets t.num_qubits targets) (hv : t.valid) :
    (t.prepend_gate g targets).valid := by
  cases g
  case CX =>
    obtain ⟨a, b, rfl, ha, hb, hne⟩ := valid_targets_two h rfl
    exact valid_prepend_CX t a b ha hb hne hv
  case CY =>
    obtain ⟨a, b, rfl, ha, hb, hne⟩ := valid_targets_two h rfl
    exact valid_prepend_CY t a b ha hb hne hv
  case CZ =>
    obtain ⟨a, b, rfl, ha, hb, hne⟩ := valid_targets_two h rfl
    exact valid_prepend_CZ t a b ha hb hne hv
  case H =>
    obtain ⟨a, rfl, ha⟩ := valid_targets_one h rfl
    exact valid_prepend_H t a ha hv
  case H_XY =>
    obtain ⟨a, rfl, ha⟩ := valid_targets_one h rfl
    exact valid_prepend_H_XY t a ha hv
  case H_YZ =>
    obtain ⟨a, rfl, ha⟩ := valid_targets_one h rfl
    exact valid_prepend_H_YZ t a ha hv
  case X =>
    obtain ⟨a, rfl, ha⟩ := valid_targets_one h rfl
    exact valid_prepend_X t a ha hv
  case Y =>
    obtain ⟨a, rfl, ha⟩ := valid_targets_one h rfl
    exact valid_prepend_Y t a ha hv
  case Z =>
    obtain ⟨a, rfl, ha⟩ := valid_targets_one h rfl
    exact valid_prepend_Z t a ha hv
  case SQRT_X =>
    obtain ⟨a, rfl, ha⟩ := valid_targets_one h rfl
    exact valid_prepend_SQRT_X t a ha hv
  case SQRT_X_DAG =>
    obtain ⟨a, rfl, ha⟩ := valid_targets_one h rfl
    exact valid_prepend_SQRT_X_DAG t a ha hv
  case SQRT_Y =>
    obtain ⟨a, rfl, ha⟩ := valid_targets_one h rfl
    exact valid_prepend_SQRT_Y t a ha hv
  case SQRT_Y_DAG =>
    obtain ⟨a, rfl, ha⟩ := valid_targets_one h rfl
    exact valid_prepend_SQRT_Y_DAG t a ha hv
  case SQRT_Z =>
    obtain ⟨a, rfl, ha⟩ := valid_targets_one h rfl
    exact valid_prepend_SQRT_Z t a ha hv
  case SQRT_Z_DAG =>
    obtain ⟨a, rfl, ha⟩ := valid_targets_one h rfl
    exact valid_prepend_SQRT_Z_DAG t a ha hv

theorem prepend_CY_num_qubits (t : Tableau) (c tg : Nat) (hc : c < ceil256 t.num_qubits)
    (htg : tg < ceil256 t.num_qubits) (hne : c ≠ tg) :
    (t.prepend_CY c tg).num_qubits = t.num_qubits := by
  have n1 := prepend_H_YZ_num_qubits t tg htg
  have n2 := prepend_CZ_num_qubits (t.prepend_H_YZ tg) c tg (by rw [n1]; exact hc)
    (by rw [n1]; exact htg) hne
  show ((((t.prepend_H_YZ tg).prepend_CZ c tg).prepend_H_YZ tg)).num_qubits = _
  rw [prepend_H_YZ_num_qubits _ tg (by rw [n2, n1]; exact htg), n2, n1]

theorem prepend_gate_num_qubits (t : Tableau) (g : Gate) (targets : List Nat)
    (h : g.valid_targets t.num_qubits targets) :
    (t.prepend_gate g targets).num_qubits = t.num_qubits := by
  cases g
  case CX =>
    obtain ⟨a, b, rfl, ha, hb, hne⟩ := valid_targets_two h rfl
    show (t.prepend_CX a b).num_qubits = _
    rw [prepend_CX_eq t a b (lt_ceil ha) (lt_ceil hb)]; rfl
  case CY =>
    obtain ⟨a, b, rfl, ha, hb, hne⟩ := valid_targets_two h rfl
    exact prepend_CY_num_qubits t a b (lt_ceil ha) (lt_ceil hb) hne
  case CZ =>
    obtain ⟨a, b, rfl, ha, hb, hne⟩ := valid_targets_two h rfl
    exact prepend_CZ_num_qubits t a b (lt_ceil ha) (lt_ceil hb) hne
  case H =>
    obtain ⟨a, rfl, ha⟩ := valid_targets_one h rfl
    show (t.prepend_H a).num_qubits = _
    rw [prepend_H_eq t a]; rfl
  case H_XY =>
    obtain ⟨a, rfl, ha⟩ := valid_targets_one h rfl
    show (t.prepend_H_XY a).num_qubits = _
    rw [prepend_H_XY_eq t a (lt_ceil ha)]; rfl
  case H_YZ =>
    obtain ⟨a, rfl, ha⟩ := valid_targets_one h rfl
    exact prepend_H_YZ_num_qubits t a (lt_ceil ha)
  case X =>
    obtain ⟨a, rfl, ha⟩ := valid_targets_one h rfl
    rfl
  case Y =>
    obtain ⟨a, rfl, ha⟩ := valid_targets_one h rfl
    rfl
  case Z =>
    obtain ⟨a, rfl, ha⟩ := valid_targets_one h rfl
    rfl
  case SQRT_X =>
    obtain ⟨a, rfl, ha⟩ := valid_targets_one h rfl
    show (t.prepend_SQRT_X a).num_qubits = _
    rw [prepend_SQRT_X_eq t a (lt_ceil ha)]; rfl
  case SQRT_X_DAG =>
    obtain ⟨a, rfl, ha⟩ := valid_targets_one h rfl
    show (t.prepend_SQRT_X_DAG a).num_qubits = _
    rw [prepend_SQRT_X_DAG_eq t a (lt_ceil ha)]; rfl
  case SQRT_Y =>
    obtain ⟨a, rfl, ha⟩ := valid_targets_one h rfl
    show (t.prepend_SQRT_Y a).num_qubits = _
    rw [prepend_SQRT_Y_eq t a (lt_ceil ha)]; rfl
  case SQRT_Y_DAG =>
    obtain ⟨a, rfl, ha⟩ := valid_targets_one h rfl
    show (t.prepend_SQRT_Y_DAG a).num_qubits = _
    rw [prepend_SQRT_Y_DAG_eq t a (lt_ceil ha)]; rfl
  case SQRT_Z =>
    obtain ⟨a, rfl, ha⟩ := valid_targets_one h rfl
    show (t.prepend_SQRT_Z a).num_qubits = _
    rw [prepend_SQRT_Z_eq t a (lt_ceil ha)]; rfl
  case SQRT_Z_DAG =>
    obtain ⟨a, rfl, ha⟩ := valid_targets_one h rfl
    show (t.prepend_SQRT_Z_DAG a).num_qubits = _
    rw [prepend_SQRT_Z_DAG_eq t a (lt_ceil ha)]; rfl

theorem valid_prepend_all (ops : List (Gate × List Nat)) :
    ∀ (t : Tableau), (∀ op ∈ ops, op.1.valid_targets t.num_qubits op.2) → t.valid →
      (t.prepend_all ops).valid := by
  induction ops with
  | nil => intro t _ hv; exact hv
  | cons op rest ih =>
    intro t h hv
    obtain ⟨g, targets⟩ := op
    have h0 : g.valid_targets t.num_qubits targets := h (g, targets) (List.mem_cons_self _ _)
    show ((t.prepend_gate g targets).prepend_all rest).valid
    apply ih
    · intro op hop
      rw [prepend_gate_num_qubits t g targets h0]
      exact h op (List.mem_cons_of_mem _ hop)
    · exact valid_prepend_gate t g targets h0 hv


theorem embed_mul_phase_at (m c : Nat) (hc : c < 5) (a b : PauliStringVal)
    (hm : ceil256 a.size = m)
    (hpar : decide (c % 2 = 1) = (a.embed m).anti (b.embed m)) :
    (a.mul_phase c b).embed m
      = PhasedPauli.scalar m (c : ZMod 4) * (a.embed m * b.embed m) := by
  subst hm
  exact embed_mul_phase c hc a b hpar

theorem mul_y_eq (r x z : PauliStringVal) :
    r.mul_y x z
      = (r.inplace_right_mul_returning_log_i_scalar x).1.mul_phase
          (1 + (r.inplace_right_mul_returning_log_i_scalar x).2) z := by
  simp only [PauliStringVal.mul_y, PauliStringVal.mul_phase, Nat.add_assoc]

theorem embed_mul_y_at (m : Nat) (r x z : PauliStringVal) (hm : ceil256 r.size = m)
    (hpar : ((r.embed m).anti (x.embed m) ^^ (r.embed m * x.embed m).anti (z.embed m)) = true) :
    (r.mul_y x z).embed m
      = PhasedPauli.scalar m 1 * ((r.embed m * x.embed m) * z.embed m) := by
  subst hm
  have hl := log_i_lt r x
  have hf := embed_mul_fst r x
  have hp := PhasedPauli.phase_parity (r.embed (ceil256 r.size)) (x.embed (ceil256 r.size))
  rw [← log_i_eq_phase, cast_odd_iff _ hl] at hp
  have hanti : ((r.inplace_right_mul_returning_log_i_scalar x).1.embed (ceil256 r.size)).anti
      (z.embed (ceil256 r.size))
      = (r.embed (ceil256 r.size) * x.embed (ceil256 r.size)).anti (z.embed (ceil256 r.size)) :=
    PhasedPauli.anti_congr rfl rfl rfl rfl
  rw [mul_y_eq]
  have key := embed_mul_phase_at (ceil256 r.size)
    (1 + (r.inplace_right_mul_returning_log_i_scalar x).2) (by omega)
    (r.inplace_right_mul_returning_log_i_scalar x).1 z rfl (by
      rw [hanti]
      generalize (r.embed (ceil256 r.size) * x.embed (ceil256 r.size)).anti
        (z.embed (ceil256 r.size)) = u at hpar ⊢
      generalize (r.embed (ceil256 r.size)).anti (x.embed (ceil256 r.size)) = v at hpar hp
      generalize (r.inplace_right_mul_returning_log_i_scalar x).2 = l at hp hl ⊢
      cases u <;> cases v <;> simp at hpar hp ⊢ <;> omega)
  rw [key, ← hf]
  rw [Nat.cast_add, Nat.cast_one, mul_assoc, ← mul_assoc (PhasedPauli.scalar _ 1),
    PhasedPauli.scalar_mul_scalar]

theorem row_mul_self (t : Tableau) (h : Bool) (q : Nat) : t.row h q * t.row h q = 1 :=
  embed_mul_self _ _

theorem PhasedPauli.mul_self_cancel {m : Nat} (a b : PhasedPauli m) (h : a * a = 1) :
    a * (a * b) = b := by
  rw [← mul_assoc, h, one_mul]

theorem PhasedPauli.scalar_assoc {m : Nat} (e f : ZMod 4) (a : PhasedPauli m) :
    PhasedPauli.scalar m e * (PhasedPauli.scalar m f * a) = PhasedPauli.scalar m (e + f) * a := by
  rw [← mul_assoc, PhasedPauli.scalar_mul_scalar]


/-! ## Products of observables of a valid tableau -/

theorem anti_xz (t : Tableau) (hv : t.valid) (q : Nat) (hq : q < t.num_qubits) :
    (t.row false q).anti (t.row true q) = true := by
  have := (valid_iff_gram t).1 hv false q true q hq hq
  simpa using this

theorem anti_zx (t : Tableau) (hv : t.valid) (q : Nat) (hq : q < t.num_qubits) :
    (t.row true q).anti (t.row false q) = true := by
  rw [PhasedPauli.anti_symm]; exact anti_xz t hv q hq

theorem anti_ne (t : Tableau) (hv : t.valid) (h1 h2 : Bool) (q1 q2 : Nat)
    (hq1 : q1 < t.num_qubits) (hq2 : q2 < t.num_qubits) (hne : q1 ≠ q2) :
    (t.row h1 q1).anti (t.row h2 q2) = false := by
  have := (valid_iff_gram t).1 hv h1 q1 h2 q2 hq1 hq2
  simpa [hne] using this

theorem anti_same (t : Tableau) (h : Bool) (q1 q2 : Nat) (hv : t.valid)
    (hq1 : q1 < t.num_qubits) (hq2 : q2 < t.num_qubits) :
    (t.row h q1).anti (t.row h q2) = false := by
  have := (valid_iff_gram t).1 hv h q1 h q2 hq1 hq2
  simpa using this

theorem scalar_eq {m : Nat} {e f : ZMod 4} (h : e = f) (a : PhasedPauli m) :
    PhasedPauli.scalar m e * a = PhasedPauli.scalar m f * a := by rw [h]

/-- `-(i X Z) = i Z X` for the two observables of one qubit. -/
theorem neg_mul1_xz (t : Tableau) (hv : t.valid) (q : Nat) (hq : q < t.num_qubits) :
    ((t.obs false q).mul_phase 1 (t.obs true q)).neg
      = (t.obs true q).mul_phase 1 (t.obs false q) := by
  apply embed_inj (ceil256 t.num_qubits)
  · simp [PauliStringVal.neg, mul_phase_size, obs_size]
  · rw [embed_neg, embed_mul_phase_at _ 1 (by omega) _ _ (by rw [obs_size])
        (by rw [embed_obs, embed_obs, anti_xz t hv q hq]; rfl),
      embed_mul_phase_at _ 1 (by omega) _ _ (by rw [obs_size])
        (by rw [embed_obs, embed_obs, anti_zx t hv q hq]; rfl)]
    simp only [embed_obs]
    rw [PhasedPauli.mul_comm_anti (t.row true q) (t.row false q), anti_zx t hv q hq]
    simp only [PhasedPauli.scalar_assoc, if_true]
    apply scalar_eq
    decide

/-- `i X Z = -i Z X` for the two observables of one qubit. -/
theorem mul1_xz_eq_mul3_zx (t : Tableau) (hv : t.valid) (q : Nat) (hq : q < t.num_qubits) :
    (t.obs false q).mul_phase 1 (t.obs true q)
      = (t.obs true q).mul_phase 3 (t.obs false q) := by
  apply embed_inj (ceil256 t.num_qubits)
  · simp [mul_phase_size, obs_size]
  · rw [embed_mul_phase_at _ 1 (by omega) _ _ (by rw [obs_size])
        (by rw [embed_obs, embed_obs, anti_xz t hv q hq]; rfl),
      embed_mul_phase_at _ 3 (by omega) _ _ (by rw [obs_size])
        (by rw [embed_obs, embed_obs, anti_zx t hv q hq]; rfl)]
    simp only [embed_obs]
    rw [PhasedPauli.mul_comm_anti (t.row true q) (t.row false q), anti_zx t hv q hq]
    simp only [PhasedPauli.scalar_assoc, if_true]
    apply scalar_eq
    decide

/-- Adding 2 to the constant of the multiply-then-toggle pattern toggles the sign. -/
theorem neg_mul_phase1 (a b : PauliStringVal) : (a.mul_phase 1 b).neg = a.mul_phase 3 b := by
  have hl := log_i_lt a b
  simp only [PauliStringVal.mul_phase, PauliStringVal.neg]
  generalize (a.inplace_right_mul_returning_log_i_scalar b).2 = l at hl
  have : ((3 + l) % 256 &&& 2 != 0) = !((1 + l) % 256 &&& 2 != 0) := by
    interval_cases l <;> decide
  rw [this]
  congr 1
  cases (a.inplace_right_mul_returning_log_i_scalar b).1.val_sign <;>
    cases ((1 + l) % 256 &&& 2 != 0) <;> rfl

/-- Commuting observables multiply to the same string in either order. -/
theorem mul0_comm (t : Tableau) (h1 h2 : Bool) (q1 q2 : Nat)
    (hanti : (t.row h1 q1).anti (t.row h2 q2) = false) :
    (t.obs h1 q1).mul_phase 0 (t.obs h2 q2) = (t.obs h2 q2).mul_phase 0 (t.obs h1 q1) := by
  have hanti2 : (t.row h2 q2).anti (t.row h1 q1) = false := by
    rw [PhasedPauli.anti_symm]; exact hanti
  apply embed_inj (ceil256 t.num_qubits)
  · simp [mul_phase_size, obs_size]
  · rw [embed_mul_phase_at _ 0 (by omega) _ _ (by rw [obs_size])
        (by rw [embed_obs, embed_obs, hanti]; rfl),
      embed_mul_phase_at _ 0 (by omega) _ _ (by rw [obs_size])
        (by rw [embed_obs, embed_obs, hanti2]; rfl)]
    simp only [embed_obs]
    rw [PhasedPauli.mul_comm_anti (t.row h1 q1) (t.row h2 q2), hanti]
    simp only [PhasedPauli.scalar_assoc]
    apply scalar_eq
    decide


/-! ## The generic scatter operations -/

theorem scatter_eval_step_eq (t : Tableau) (v : PauliStringVal) (idx : List Nat) (k : Nat)
    (r : PauliStringVal) :
    t.scatter_eval_step v idx k r
      = if v.x_data k then
          (if v.z_data k then r.mul_y (t.obs false (idx.getD k 0)) (t.obs true (idx.getD k 0))
            else r.mul_phase 0 (t.obs false (idx.getD k 0)))
        else if v.z_data k then r.mul_phase 0 (t.obs true (idx.getD k 0)) else r := by
  simp only [Tableau.scatter_eval_step, PauliStringVal.get_x_bit, PauliStringVal.get_z_bit,
    x_obs_ptr_eq, z_obs_ptr_eq, load_obs, mul_assign_eq]
  rfl

theorem start_mul_phase0 (n : Nat) (s : Bool) (b : PauliStringVal) (hb : b.size = n) :
    (PauliStringVal.start n s).mul_phase 0 b = PauliStringVal.signed s b := by
  simp only [PauliStringVal.mul_phase, PauliStringVal.start, identity_mul]
  cases b with
  | mk sz sg x z =>
    simp only at hb
    subst hb
    cases s <;> cases sg <;> simp [PauliStringVal.signed, PauliStringVal.neg]

theorem start_mul_y (n : Nat) (s : Bool) (x z : PauliStringVal) (hx : x.size = n) :
    (PauliStringVal.start n s).mul_y x z = PauliStringVal.signed s (x.mul_phase 1 z) := by
  simp only [PauliStringVal.mul_y, PauliStringVal.start, identity_mul]
  cases x with
  | mk sz sg xx xz =>
    simp only at hx
    subst hx
    simp only [PauliStringVal.mul_phase, PauliStringVal.inplace_right_mul_returning_log_i_scalar,
      Nat.add_zero]
    cases s <;> simp [PauliStringVal.signed, PauliStringVal.neg]

theorem signed_false (v : PauliStringVal) : PauliStringVal.signed false v = v := rfl

theorem signed_true (v : PauliStringVal) : PauliStringVal.signed true v = v.neg := rfl

theorem scatter_eval_start (t : Tableau) (v : PauliStringVal) (idx : List Nat) :
    t.scatter_eval v idx
      = for_loop (t.scatter_eval_step v idx) v.size (PauliStringVal.start t.num_qubits v.val_sign) :=
  rfl


/-! ## The gate table -/

theorem ceil256_one : ceil256 1 = 256 := by decide
theorem ceil256_two : ceil256 2 = 256 := by decide

theorem tableau1_num_qubits (px pz : PauliStringVal) : (tableau1 px pz).num_qubits = 1 := rfl

theorem zero_lt_ceil1 : 0 < ceil256 1 := by decide

theorem tableau1_obs_x (px pz : PauliStringVal) : (tableau1 px pz).obs false 0 = px.clip 1 := by
  unfold tableau1
  have h0 : 0 < ceil256 (Tableau.ctor 1).num_qubits := by
    rw [ctor_num_qubits]; exact zero_lt_ceil1
  have h1 : 0 < ceil256 ((Tableau.ctor 1).with_obs false 0 px).num_qubits := by
    rw [with_obs_num_qubits]; exact h0
  rw [obs_with_obs ((Tableau.ctor 1).with_obs false 0 px) true 0 pz h1 false 0 h1,
    obs_with_obs (Tableau.ctor 1) false 0 px h0 false 0 h0]
  simp only [Bool.false_eq_true, false_and, if_false, and_self, if_true]
  rfl

theorem tableau1_obs_z (px pz : PauliStringVal) : (tableau1 px pz).obs true 0 = pz.clip 1 := by
  unfold tableau1
  have h0 : 0 < ceil256 (Tableau.ctor 1).num_qubits := by
    rw [ctor_num_qubits]; exact zero_lt_ceil1
  have h1 : 0 < ceil256 ((Tableau.ctor 1).with_obs false 0 px).num_qubits := by
    rw [with_obs_num_qubits]; exact h0
  rw [obs_with_obs ((Tableau.ctor 1).with_obs false 0 px) true 0 pz h1 true 0 h1]
  simp only [and_self, if_true]
  rfl

theorem scatter_prepend_tableau1 (t : Tableau) (px pz : PauliStringVal) (targets : List Nat) :
    t.inplace_scatter_prepend (tableau1 px pz) targets
      = (t.with_obs false (targets.getD 0 0) (t.scatter_eval (px.clip 1) targets)).with_obs true
          (targets.getD 0 0) (t.scatter_eval (pz.clip 1) targets) := by
  simp only [Tableau.inplace_scatter_prepend, tableau1_num_qubits, for_loop, x_obs_ptr_eq,
    z_obs_ptr_eq, load_obs, tableau1_obs_x, tableau1_obs_z, List.nil_append,
    List.getD_cons_zero, store_eq_with_obs, with_obs_num_qubits]

theorem scatter_eval_lit1 (t : Tableau) (s x z : Bool) (a : Nat) :
    t.scatter_eval ((pauli_lit1 s x z).clip 1) [a]
      = if x then
          (if z then PauliStringVal.signed s ((t.obs false a).mul_phase 1 (t.obs true a))
            else PauliStringVal.signed s (t.obs false a))
        else if z then PauliStringVal.signed s (t.obs true a)
        else PauliStringVal.start t.num_qubits s := by
  rw [scatter_eval_start]
  show t.scatter_eval_step ((pauli_lit1 s x z).clip 1) [a] 0
    (PauliStringVal.start t.num_qubits s) = _
  rw [scatter_eval_step_eq]
  have hx : ((pauli_lit1 s x z).clip 1).x_data 0 = x := by
    simp [PauliStringVal.clip, pauli_lit1, ceil256_one]
  have hz : ((pauli_lit1 s x z).clip 1).z_data 0 = z := by
    simp [PauliStringVal.clip, pauli_lit1, ceil256_one]
  rw [hx, hz]
  simp only [List.getD_cons_zero]
  rw [start_mul_y _ _ _ _ (obs_size t false a), start_mul_phase0 _ _ _ (obs_size t false a),
    start_mul_phase0 _ _ _ (obs_size t true a)]

theorem with_obs_other_self (t : Tableau) (h : Bool) (q : Nat) (u : PauliStringVal)
    (hq : q < ceil256 t.num_qubits) :
    (t.with_obs h q u).with_obs (!h) q (t.obs (!h) q) = t.with_obs h q u := by
  have e : (t.with_obs h q u).obs (!h) q = t.obs (!h) q := by
    rw [obs_with_obs t h q u hq (!h) q hq]
    cases h <;> simp
  rw [← e]
  exact with_obs_self (t.with_obs h q u) (!h) q hq



theorem tableau2_num_qubits (a b c d : PauliStringVal) : (tableau2 a b c d).num_qubits = 2 := rfl

theorem lt_ceil2 (q : Nat) (hq : q < 2) : q < ceil256 2 := by
  rw [ceil256_two]; omega

theorem tableau2_obs (a b c d : PauliStringVal) (h : Bool) (q : Nat) (hq : q < 2) :
    (tableau2 a b c d).obs h q
      = (if q = 0 then (if h then b else a) else (if h then d else c)).clip 2 := by
  unfold tableau2
  have a0 : 0 < ceil256 2 := lt_ceil2 0 (by omega)
  have a1 : 1 < ceil256 2 := lt_ceil2 1 (by omega)
  have aq : q < ceil256 2 := lt_ceil2 q hq
  simp only [obs_with_obs, with_obs_num_qubits, a0, a1, aq, ctor_num_qubits]
  have : q = 0 ∨ q = 1 := by omega
  rcases this with e | e <;> subst e <;> cases h <;> simp

theorem scatter_prepend_tableau2 (t : Tableau) (a b c d : PauliStringVal) (targets : List Nat) :
    t.inplace_scatter_prepend (tableau2 a b c d) targets
      = (((t.with_obs false (targets.getD 0 0) (t.scatter_eval (a.clip 2) targets)).with_obs true
            (targets.getD 0 0) (t.scatter_eval (b.clip 2) targets)).with_obs false
            (targets.getD 1 0) (t.scatter_eval (c.clip 2) targets)).with_obs true
            (targets.getD 1 0) (t.scatter_eval (d.clip 2) targets) := by
  have e0 := tableau2_obs a b c d false 0 (by omega)
  have e1 := tableau2_obs a b c d true 0 (by omega)
  have e2 := tableau2_obs a b c d false 1 (by omega)
  have e3 := tableau2_obs a b c d true 1 (by omega)
  simp only [if_true, Bool.false_eq_true, if_false, one_ne_zero] at e0 e1 e2 e3
  simp only [Tableau.inplace_scatter_prepend, tableau2_num_qubits, for_loop, x_obs_ptr_eq,
    z_obs_ptr_eq, load_obs, e0, e1, e2, e3, List.nil_append, List.cons_append,
    List.getD_cons_zero, List.getD_cons_succ, store_eq_with_obs, with_obs_num_qubits]



/-! ### Entries of the gate table -/

theorem gate1_eq (x z : String) (a b : PauliStringVal)
    (h1 : PauliStringVal.from_str x = some a) (h2 : PauliStringVal.from_str z = some b) :
    Tableau.gate1 x z = some (tableau1 a b) := by
  simp only [Tableau.gate1, h1, h2]
  rfl

theorem gate2_eq (x1 z1 x2 z2 : String) (a b c d : PauliStringVal)
    (h1 : PauliStringVal.from_str x1 = some a) (h2 : PauliStringVal.from_str z1 = some b)
    (h3 : PauliStringVal.from_str x2 = some c) (h4 : PauliStringVal.from_str z2 = some d) :
    Tableau.gate2 x1 z1 x2 z2 = some (tableau2 a b c d) := by
  simp only [Tableau.gate2, h1, h2, h3, h4]
  rfl

theorem from_str_pX : PauliStringVal.from_str "+X" = some (pauli_lit1 false true false) := rfl

theorem from_str_mX : PauliStringVal.from_str "-X" = some (pauli_lit1 true true false) := rfl

theorem from_str_pZ : PauliStringVal.from_str "+Z" = some (pauli_lit1 false false true) := rfl

theorem from_str_mZ : PauliStringVal.from_str "-Z" = some (pauli_lit1 true false true) := rfl

theorem from_str_pY : PauliStringVal.from_str "+Y" = some (pauli_lit1 false true true) := rfl

theorem from_str_mY : PauliStringVal.from_str "-Y" = some (pauli_lit1 true true true) := rfl

theorem from_str_pXX : PauliStringVal.from_str "+XX" = some (pauli_lit2 false true false true false) := rfl

theorem from_str_pZI : PauliStringVal.from_str "+ZI" = some (pauli_lit2 false false true false false) := rfl

theorem from_str_pIX : PauliStringVal.from_str "+IX" = some (pauli_lit2 false false false true false) := rfl

theorem from_str_pZZ : PauliStringVal.from_str "+ZZ" = some (pauli_lit2 false false true false true) := rfl

theorem from_str_pXY : PauliStringVal.from_str "+XY" = some (pauli_lit2 false true false true true) := rfl

theorem from_str_pZX : PauliStringVal.from_str "+ZX" = some (pauli_lit2 false false true true false) := rfl

theorem from_str_pXZ : PauliStringVal.from_str "+XZ" = some (pauli_lit2 false true false false true) := rfl

theorem from_str_pIZ : PauliStringVal.from_str "+IZ" = some (pauli_lit2 false false false false true) := rfl

theorem from_str_pXI : PauliStringVal.from_str "+XI" = some (pauli_lit2 false true false false false) := rfl

theorem GATE_H : GATE_TABLEAUS "H" = some (tableau1 (pauli_lit1 false false true) (pauli_lit1 false true false)) := by
  have h : GATE_TABLEAUS_entries.lookup "H" = some (Tableau.gate1 "+Z" "+X") := by
    simp [GATE_TABLEAUS_entries, List.lookup]
  simp only [GATE_TABLEAUS, h, gate1_eq _ _ _ _ from_str_pZ from_str_pX]

theorem GATE_H_XY : GATE_TABLEAUS "H_XY" = some (tableau1 (pauli_lit1 false true true) (pauli_lit1 true false true)) := by
  have h : GATE_TABLEAUS_entries.lookup "H_XY" = some (Tableau.gate1 "+Y" "-Z") := by
    simp [GATE_TABLEAUS_entries, List.lookup]
  simp only [GATE_TABLEAUS, h, gate1_eq _ _ _ _ from_str_pY from_str_mZ]

theorem GATE_H_YZ : GATE_TABLEAUS "H_YZ" = some (tableau1 (pauli_lit1 true true false) (pauli_lit1 false true true)) := by
  have h : GATE_TABLEAUS_entries.lookup "H_YZ" = some (Tableau.gate1 "-X" "+Y") := by
    simp [GATE_TABLEAUS_entries, List.lookup]
  simp only [GATE_TABLEAUS, h, gate1_eq _ _ _ _ from_str_mX from_str_pY]

theorem GATE_X : GATE_TABLEAUS "X" = some (tableau1 (pauli_lit1 false true false) (pauli_lit1 true false true)) := by
  have h : GATE_TABLEAUS_entries.lookup "X" = some (Tableau.gate1 "+X" "-Z") := by
    simp [GATE_TABLEAUS_entries, List.lookup]
  simp only [GATE_TABLEAUS, h, gate1_eq _ _ _ _ from_str_pX from_str_mZ]

theorem GATE_Y : GATE_TABLEAUS "Y" = some (tableau1 (pauli_lit1 true true false) (pauli_lit1 true false true)) := by
  have h : GATE_TABLEAUS_entries.lookup "Y" = some (Tableau.gate1 "-X" "-Z") := by
    simp [GATE_TABLEAUS_entries, List.lookup]
  simp only [GATE_TABLEAUS, h, gate1_eq _ _ _ _ from_str_mX from_str_mZ]

theorem GATE_Z : GATE_TABLEAUS "Z" = some (tableau1 (pauli_lit1 true true false) (pauli_lit1 false false true)) := by
  have h : GATE_TABLEAUS_entries.lookup "Z" = some (Tableau.gate1 "-X" "+Z") := by
    simp [GATE_TABLEAUS_entries, List.lookup]
  simp only [GATE_TABLEAUS, h, gate1_eq _ _ _ _ from_str_mX from_str_pZ]

theorem GATE_SQRT_X : GATE_TABLEAUS "SQRT_X" = some (tableau1 (pauli_lit1 false true false) (pauli_lit1 true true true)) := by
  have h : GATE_TABLEAUS_entries.lookup "SQRT_X" = some (Tableau.gate1 "+X" "-Y") := by
    simp [GATE_TABLEAUS_entries, List.lookup]
  simp only [GATE_TABLEAUS, h, gate1_eq _ _ _ _ from_str_pX from_str_mY]

theorem GATE_SQRT_X_DAG : GATE_TABLEAUS "SQRT_X_DAG" = some (tableau1 (pauli_lit1 false true false) (pauli_lit1 false true true)) := by
  have h : GATE_TABLEAUS_entries.lookup "SQRT_X_DAG" = some (Tableau.gate1 "+X" "+Y") := by
    simp [GATE_TABLEAUS_entries, List.lookup]
  simp only [GATE_TABLEAUS, h, gate1_eq _ _ _ _ from_str_pX from_str_pY]

theorem GATE_SQRT_Y : GATE_TABLEAUS "SQRT_Y" = some (tableau1 (pauli_lit1 true false true) (pauli_lit1 false true false)) := by
  have h : GATE_TABLEAUS_entries.lookup "SQRT_Y" = some (Tableau.gate1 "-Z" "+X") := by
    simp [GATE_TABLEAUS_entries, List.lookup]
  simp only [GATE_TABLEAUS, h, gate1_eq _ _ _ _ from_str_mZ from_str_pX]

theorem GATE_SQRT_Y_DAG : GATE_TABLEAUS "SQRT_Y_DAG" = some (tableau1 (pauli_lit1 false false true) (pauli_lit1 true true false)) := by
  have h : GATE_TABLEAUS_entries.lookup "SQRT_Y_DAG" = some (Tableau.gate1 "+Z" "-X") := by
    simp [GATE_TABLEAUS_entries, List.lookup]
  simp only [GATE_TABLEAUS, h, gate1_eq _ _ _ _ from_str_pZ from_str_mX]

theorem GATE_SQRT_Z : GATE_TABLEAUS "SQRT_Z" = some (tableau1 (pauli_lit1 false true true) (pauli_lit1 false false true)) := by
  have h : GATE_TABLEAUS_entries.lookup "SQRT_Z" = some (Tableau.gate1 "+Y" "+Z") := by
    simp [GATE_TABLEAUS_entries, List.lookup]
  simp only [GATE_TABLEAUS, h, gate1_eq _ _ _ _ from_str_pY from_str_pZ]

theorem GATE_SQRT_Z_DAG : GATE_TABLEAUS "SQRT_Z_DAG" = some (tableau1 (pauli_lit1 true true true) (pauli_lit1 false false true)) := by
  have h : GATE_TABLEAUS_entries.lookup "SQRT_Z_DAG" = some (Tableau.gate1 "-Y" "+Z") := by
    simp [GATE_TABLEAUS_entries, List.lookup]
  simp only [GATE_TABLEAUS, h, gate1_eq _ _ _ _ from_str_mY from_str_pZ]

theorem GATE_CX : GATE_TABLEAUS "CX"
    = some (tableau2 (pauli_lit2 false true false true false) (pauli_lit2 false false true false false)
        (pauli_lit2 false false false true false) (pauli_lit2 false false true false true)) := by
  have h : GATE_TABLEAUS_entries.lookup "CX"
      = some (Tableau.gate2 "+XX" "+ZI" "+IX" "+ZZ") := by
    simp [GATE_TABLEAUS_entries, List.lookup]
  simp only [GATE_TABLEAUS, h, gate2_eq _ _ _ _ _ _ _ _ from_str_pXX from_str_pZI
    from_str_pIX from_str_pZZ]

theorem GATE_CY : GATE_TABLEAUS "CY"
    = some (tableau2 (pauli_lit2 false true false true true) (pauli_lit2 false false true false false)
        (pauli_lit2 false false true true false) (pauli_lit2 false false true false true)) := by
  have h : GATE_TABLEAUS_entries.lookup "CY"
      = some (Tableau.gate2 "+XY" "+ZI" "+ZX" "+ZZ") := by
    simp [GATE_TABLEAUS_entries, List.lookup]
  simp only [GATE_TABLEAUS, h, gate2_eq _ _ _ _ _ _ _ _ from_str_pXY from_str_pZI
    from_str_pZX from_str_pZZ]

theorem GATE_CZ : GATE_TABLEAUS "CZ"
    = some (tableau2 (pauli_lit2 false true false false true) (pauli_lit2 false false true false false)
        (pauli_lit2 false false true true false) (pauli_lit2 false false false false true)) := by
  have h : GATE_TABLEAUS_entries.lookup "CZ"
      = some (Tableau.gate2 "+XZ" "+ZI" "+ZX" "+IZ") := by
    simp [GATE_TABLEAUS_entries, List.lookup]
  simp only [GATE_TABLEAUS, h, gate2_eq _ _ _ _ _ _ _ _ from_str_pXZ from_str_pZI
    from_str_pZX from_str_pIZ]


/-! ## Specialised operations against the generic prepend -/

theorem scatter_prepend_H (t : Tableau) (hv : t.valid) (a : Nat) (ha : a < t.num_qubits) :
    t.prepend_H a = t.inplace_scatter_prepend (tableau1 (pauli_lit1 false false true) (pauli_lit1 false true false)) [a] := by
  have hac := lt_ceil ha
  rw [scatter_prepend_tableau1, scatter_eval_lit1, scatter_eval_lit1]
  simp only [List.getD_cons_zero, if_true, if_false, Bool.false_eq_true, signed_false, signed_true]
  rw [prepend_H_eq t a]

theorem scatter_prepend_H_XY (t : Tableau) (hv : t.valid) (a : Nat) (ha : a < t.num_qubits) :
    t.prepend_H_XY a = t.inplace_scatter_prepend (tableau1 (pauli_lit1 false true true) (pauli_lit1 true false true)) [a] := by
  have hac := lt_ceil ha
  rw [scatter_prepend_tableau1, scatter_eval_lit1, scatter_eval_lit1]
  simp only [List.getD_cons_zero, if_true, if_false, Bool.false_eq_true, signed_false, signed_true]
  rw [prepend_H_XY_eq t a hac]

theorem scatter_prepend_H_YZ (t : Tableau) (hv : t.valid) (a : Nat) (ha : a < t.num_qubits) :
    t.prepend_H_YZ a = t.inplace_scatter_prepend (tableau1 (pauli_lit1 true true false) (pauli_lit1 false true true)) [a] := by
  have hac := lt_ceil ha
  rw [scatter_prepend_tableau1, scatter_eval_lit1, scatter_eval_lit1]
  simp only [List.getD_cons_zero, if_true, if_false, Bool.false_eq_true, signed_false, signed_true]
  rw [prepend_H_YZ_eq t a hac]
  rw [mul1_xz_eq_mul3_zx t hv a ha, with_obs_comm t true a false a _ _ hac hac (by simp)]

theorem scatter_prepend_X (t : Tableau) (hv : t.valid) (a : Nat) (ha : a < t.num_qubits) :
    t.prepend_X a = t.inplace_scatter_prepend (tableau1 (pauli_lit1 false true false) (pauli_lit1 true false true)) [a] := by
  have hac := lt_ceil ha
  rw [scatter_prepend_tableau1, scatter_eval_lit1, scatter_eval_lit1]
  simp only [List.getD_cons_zero, if_true, if_false, Bool.false_eq_true, signed_false, signed_true]
  rw [prepend_X_eq t a hac]
  rw [with_obs_self t false a hac]

theorem scatter_prepend_Y (t : Tableau) (hv : t.valid) (a : Nat) (ha : a < t.num_qubits) :
    t.prepend_Y a = t.inplace_scatter_prepend (tableau1 (pauli_lit1 true true false) (pauli_lit1 true false true)) [a] := by
  have hac := lt_ceil ha
  rw [scatter_prepend_tableau1, scatter_eval_lit1, scatter_eval_lit1]
  simp only [List.getD_cons_zero, if_true, if_false, Bool.false_eq_true, signed_false, signed_true]
  rw [prepend_Y_eq t a hac]

theorem scatter_prepend_Z (t : Tableau) (hv : t.valid) (a : Nat) (ha : a < t.num_qubits) :
    t.prepend_Z a = t.inplace_scatter_prepend (tableau1 (pauli_lit1 true true false) (pauli_lit1 false false true)) [a] := by
  have hac := lt_ceil ha
  rw [scatter_prepend_tableau1, scatter_eval_lit1, scatter_eval_lit1]
  simp only [List.getD_cons_zero, if_true, if_false, Bool.false_eq_true, signed_false, signed_true]
  rw [prepend_Z_eq t a hac]
  exact (with_obs_other_self t false a _ hac).symm

theorem scatter_prepend_SQRT_X (t : Tableau) (hv : t.valid) (a : Nat) (ha : a < t.num_qubits) :
    t.prepend_SQRT_X a = t.inplace_scatter_prepend (tableau1 (pauli_lit1 false true false) (pauli_lit1 true true true)) [a] := by
  have hac := lt_ceil ha
  rw [scatter_prepend_tableau1, scatter_eval_lit1, scatter_eval_lit1]
  simp only [List.getD_cons_zero, if_true, if_false, Bool.false_eq_true, signed_false, signed_true]
  rw [prepend_SQRT_X_eq t a hac]
  rw [with_obs_self t false a hac, neg_mul1_xz t hv a ha]

theorem scatter_prepend_SQRT_X_DAG (t : Tableau) (hv : t.valid) (a : Nat) (ha : a < t.num_qubits) :
    t.prepend_SQRT_X_DAG a = t.inplace_scatter_prepend (tableau1 (pauli_lit1 false true false) (pauli_lit1 false true true)) [a] := by
  have hac := lt_ceil ha
  rw [scatter_prepend_tableau1, scatter_eval_lit1, scatter_eval_lit1]
  simp only [List.getD_cons_zero, if_true, if_false, Bool.false_eq_true, signed_false, signed_true]
  rw [prepend_SQRT_X_DAG_eq t a hac]
  rw [with_obs_self t false a hac, mul1_xz_eq_mul3_zx t hv a ha]

theorem scatter_prepend_SQRT_Y (t : Tableau) (hv : t.valid) (a : Nat) (ha : a < t.num_qubits) :
    t.prepend_SQRT_Y a = t.inplace_scatter_prepend (tableau1 (pauli_lit1 true false true) (pauli_lit1 false true false)) [a] := by
  have hac := lt_ceil ha
  rw [scatter_prepend_tableau1, scatter_eval_lit1, scatter_eval_lit1]
  simp only [List.getD_cons_zero, if_true, if_false, Bool.false_eq_true, signed_false, signed_true]
  rw [prepend_SQRT_Y_eq t a hac]

theorem scatter_prepend_SQRT_Y_DAG (t : Tableau) (hv : t.valid) (a : Nat) (ha : a < t.num_qubits) :
    t.prepend_SQRT_Y_DAG a = t.inplace_scatter_prepend (tableau1 (pauli_lit1 false false true) (pauli_lit1 true true false)) [a] := by
  have hac := lt_ceil ha
  rw [scatter_prepend_tableau1, scatter_eval_lit1, scatter_eval_lit1]
  simp only [List.getD_cons_zero, if_true, if_false, Bool.false_eq_true, signed_false, signed_true]
  rw [prepend_SQRT_Y_DAG_eq t a hac]

theorem scatter_prepend_SQRT_Z (t : Tableau) (hv : t.valid) (a : Nat) (ha : a < t.num_qubits) :
    t.prepend_SQRT_Z a = t.inplace_scatter_prepend (tableau1 (pauli_lit1 false true true) (pauli_lit1 false false true)) [a] := by
  have hac := lt_ceil ha
  rw [scatter_prepend_tableau1, scatter_eval_lit1, scatter_eval_lit1]
  simp only [List.getD_cons_zero, if_true, if_false, Bool.false_eq_true, signed_false, signed_true]
  rw [prepend_SQRT_Z_eq t a hac]
  exact (with_obs_other_self t false a _ hac).symm

theorem scatter_prepend_SQRT_Z_DAG (t : Tableau) (hv : t.valid) (a : Nat) (ha : a < t.num_qubits) :
    t.prepend_SQRT_Z_DAG a = t.inplace_scatter_prepend (tableau1 (pauli_lit1 true true true) (pauli_lit1 false false true)) [a] := by
  have hac := lt_ceil ha
  rw [scatter_prepend_tableau1, scatter_eval_lit1, scatter_eval_lit1]
  simp only [List.getD_cons_zero, if_true, if_false, Bool.false_eq_true, signed_false, signed_true]
  rw [prepend_SQRT_Z_DAG_eq t a hac]
  rw [neg_mul_phase1]
  exact (with_obs_other_self t false a _ hac).symm


/-! ## The Y-controlled gate -/

theorem prepend_CY_eq (t : Tableau) (c tg : Nat) (hc : c < ceil256 t.num_qubits)
    (htg : tg < ceil256 t.num_qubits) (hne : c ≠ tg) :
    t.prepend_CY c tg
      = ((t.with_obs false c
            ((t.obs false c).mul_phase 0 ((t.obs true tg).mul_phase 3 (t.obs false tg)))).with_obs
          false tg (((t.obs false tg).neg.mul_phase 0 (t.obs true c)).neg)).with_obs true tg
            (((t.obs true tg).mul_phase 3 (t.obs false tg)).mul_phase 3
              ((t.obs false tg).neg.mul_phase 0 (t.obs true c))) := by
  have hne1 : tg ≠ c := hne.symm
  have n1 := prepend_H_YZ_num_qubits t tg htg
  have n2 := prepend_CZ_num_qubits (t.prepend_H_YZ tg) c tg (by rw [n1]; exact hc)
    (by rw [n1]; exact htg) hne
  show ((t.prepend_H_YZ tg).prepend_CZ c tg).prepend_H_YZ tg = _
  rw [prepend_H_YZ_eq _ tg (by rw [n2, n1]; exact htg),
    prepend_CZ_eq _ c tg (by rw [n1]; exact hc) (by rw [n1]; exact htg) hne,
    prepend_H_YZ_eq t tg htg]
  have w1 : ((t.obs false tg).neg.mul_phase 0 (t.obs true c)).wf t.num_qubits :=
    mul_phase_wf (neg_wf (obs_wf t false tg)) (obs_wf t true c)
  have w2 : ((t.obs true tg).mul_phase 3 (t.obs false tg)).wf t.num_qubits :=
    mul_phase_wf (obs_wf t true tg) (obs_wf t false tg)
  have w3 : ((t.obs false tg).neg.mul_phase 0 (t.obs true c)).neg.wf t.num_qubits := neg_wf w1
  have w4 : (((t.obs true tg).mul_phase 3 (t.obs false tg)).mul_phase 3
      ((t.obs false tg).neg.mul_phase 0 (t.obs true c))).wf t.num_qubits := mul_phase_wf w2 w1
  have w5 : ((t.obs false c).mul_phase 0
      ((t.obs true tg).mul_phase 3 (t.obs false tg))).wf t.num_qubits :=
    mul_phase_wf (obs_wf t false c) w2
  apply Tableau.ext_obs
  · simp only [outside_with_obs, with_obs_num_qubits, hc, htg]
  · intro h1 q1 hq1
    simp only [with_obs_num_qubits] at hq1
    simp only [obs_with_obs, with_obs_num_qubits, hc, htg, hq1, clip_of_wf w1, clip_of_wf w2,
      clip_of_wf w3, clip_of_wf w4, clip_of_wf w5, clip_of_wf, mul_phase_wf, neg_wf, obs_wf, Bool.false_eq_true, Bool.true_eq_false, false_and, true_and, if_false, if_true,
      and_self, hne, hne1, and_false]
    cases h1 <;> simp only [Bool.false_eq_true, Bool.true_eq_false, false_and, true_and,
      if_false, if_true] <;> split_ifs <;> (try subst_vars) <;> (try rfl) <;>
      (try (exfalso; omega))



theorem row_mul_scalar_mul (t : Tableau) (h : Bool) (q : Nat) (e : ZMod 4)
    (b : PhasedPauli (ceil256 t.num_qubits)) :
    t.row h q * (PhasedPauli.scalar _ e * b) = PhasedPauli.scalar _ e * (t.row h q * b) :=
  PhasedPauli.mul_scalar_mul e _ b

theorem row_mul_scalar (t : Tableau) (h : Bool) (q : Nat) (e : ZMod 4) :
    t.row h q * PhasedPauli.scalar _ e = PhasedPauli.scalar _ e * t.row h q :=
  PhasedPauli.mul_scalar e _

section
variable (t : Tableau) (hv : t.valid) (c tg : Nat) (hc : c < t.num_qubits)
  (htg : tg < t.num_qubits) (hne : c ≠ tg)
include hv hc htg hne

/-- `X_c * (-i Z_t X_t) = i X_c X_t Z_t`. -/
theorem cy_value_a :
    (t.obs false c).mul_phase 0 ((t.obs true tg).mul_phase 3 (t.obs false tg))
      = (t.obs false c).mul_y (t.obs false tg) (t.obs true tg) := by
  have hg := (valid_iff_gram t).1 hv
  have hne1 : tg ≠ c := hne.symm
  apply embed_inj (ceil256 t.num_qubits)
  · rfl
  · rw [embed_mul_phase_at _ 0 (by omega) _ _ (by rw [obs_size]) (by
        simp only [anti_mul_phase_right, embed_obs, hg, hc, htg]; simp [hne]),
      embed_mul_phase_at _ 3 (by omega) _ _ (by rw [obs_size]) (by
        simp only [embed_obs, hg, hc, htg]; simp),
      embed_mul_y_at _ _ _ _ (by rw [obs_size]) (by
        simp only [PhasedPauli.anti_mul_left, embed_obs, hg, hc, htg]; simp [hne])]
    simp only [embed_obs]
    rw [PhasedPauli.mul_comm_anti (t.row true tg) (t.row false tg), anti_zx t hv tg htg]
    simp only [PhasedPauli.scalar_assoc, row_mul_scalar_mul, if_true, mul_assoc]
    apply scalar_eq
    decide

/-- `-((-X_t) Z_c) = Z_c X_t`. -/
theorem cy_value_b :
    ((t.obs false tg).neg.mul_phase 0 (t.obs true c)).neg
      = (t.obs true c).mul_phase 0 (t.obs false tg) := by
  have hg := (valid_iff_gram t).1 hv
  have hne1 : tg ≠ c := hne.symm
  apply embed_inj (ceil256 t.num_qubits)
  · simp [PauliStringVal.neg, mul_phase_size, obs_size]
  · rw [embed_neg, embed_mul_phase_at _ 0 (by omega) _ _ (by
          show ceil256 (t.obs false tg).size = _; rw [obs_size]) (by
        simp only [anti_neg_left, embed_obs, hg, hc, htg]; simp [hne1]),
      embed_mul_phase_at _ 0 (by omega) _ _ (by rw [obs_size]) (by
        simp only [embed_obs, hg, hc, htg]; simp [hne]),
      embed_neg]
    simp only [embed_obs]
    rw [PhasedPauli.mul_comm_anti (t.row true c) (t.row false tg),
      anti_ne t hv true false c tg hc htg hne]
    simp only [PhasedPauli.scalar_assoc, row_mul_scalar_mul, mul_assoc]
    apply scalar_eq
    decide

/-- `-i (-i Z_t X_t) ((-X_t) Z_c) = Z_c Z_t`. -/
theorem cy_value_c :
    ((t.obs true tg).mul_phase 3 (t.obs false tg)).mul_phase 3
        ((t.obs false tg).neg.mul_phase 0 (t.obs true c))
      = (t.obs true c).mul_phase 0 (t.obs true tg) := by
  have hg := (valid_iff_gram t).1 hv
  have hne1 : tg ≠ c := hne.symm
  apply embed_inj (ceil256 t.num_qubits)
  · simp [mul_phase_size, obs_size]
  · rw [embed_mul_phase_at _ 3 (by omega) _ _ (by
          show ceil256 (t.obs true tg).size = _; rw [obs_size]) (by
        simp only [anti_mul_phase_left, anti_mul_phase_right, anti_neg_left, anti_neg_right,
          embed_obs, hg, hc, htg]; simp [hne1]),
      embed_mul_phase_at _ 3 (by omega) _ _ (by rw [obs_size]) (by
        simp only [embed_obs, hg, hc, htg]; simp),
      embed_mul_phase_at _ 0 (by omega) _ _ (by
          show ceil256 (t.obs false tg).size = _; rw [obs_size]) (by
        simp only [anti_neg_left, embed_obs, hg, hc, htg]; simp [hne1]),
      embed_mul_phase_at _ 0 (by omega) _ _ (by rw [obs_size]) (by
        simp only [embed_obs, hg, hc, htg]; simp [hne]),
      embed_neg]
    simp only [embed_obs]
    -- Z_t X_t X_t Z_c = Z_t Z_c = Z_c Z_t
    simp only [PhasedPauli.scalar_assoc, row_mul_scalar_mul, mul_assoc]
    rw [PhasedPauli.mul_self_cancel (t.row false tg) _ (row_mul_self t false tg),
      PhasedPauli.mul_comm_anti (t.row true tg) (t.row true c),
      anti_ne t hv true true tg c htg hc hne1]
    simp only [PhasedPauli.scalar_assoc]
    apply scalar_eq
    decide

end


/-! ### Two-qubit gates against the generic prepend -/

theorem scatter_eval_lit2 (t : Tableau) (s x0 z0 x1 z1 : Bool) (c tg : Nat) :
    t.scatter_eval ((pauli_lit2 s x0 z0 x1 z1).clip 2) [c, tg]
      = t.scatter_eval_step ((pauli_lit2 s x0 z0 x1 z1).clip 2) [c, tg] 1
          (t.scatter_eval_step ((pauli_lit2 s x0 z0 x1 z1).clip 2) [c, tg] 0
            (PauliStringVal.start t.num_qubits s)) := by
  rw [scatter_eval_start]
  rfl

theorem lit2_x0 (s x0 z0 x1 z1 : Bool) :
    ((pauli_lit2 s x0 z0 x1 z1).clip 2).x_data 0 = x0 := by
  simp [PauliStringVal.clip, pauli_lit2, ceil256_two]

theorem lit2_z0 (s x0 z0 x1 z1 : Bool) :
    ((pauli_lit2 s x0 z0 x1 z1).clip 2).z_data 0 = z0 := by
  simp [PauliStringVal.clip, pauli_lit2, ceil256_two]

theorem lit2_x1 (s x0 z0 x1 z1 : Bool) :
    ((pauli_lit2 s x0 z0 x1 z1).clip 2).x_data 1 = x1 := by
  simp [PauliStringVal.clip, pauli_lit2, ceil256_two]

theorem lit2_z1 (s x0 z0 x1 z1 : Bool) :
    ((pauli_lit2 s x0 z0 x1 z1).clip 2).z_data 1 = z1 := by
  simp [PauliStringVal.clip, pauli_lit2, ceil256_two]

/-- The image of a two-qubit Pauli string literal, as two steps of the loop. -/
theorem scatter_eval_lit2_steps (t : Tableau) (s x0 z0 x1 z1 : Bool) (c tg : Nat) :
    t.scatter_eval ((pauli_lit2 s x0 z0 x1 z1).clip 2) [c, tg]
      = (fun r : PauliStringVal =>
          if x1 then (if z1 then r.mul_y (t.obs false tg) (t.obs true tg)
            else r.mul_phase 0 (t.obs false tg))
          else if z1 then r.mul_phase 0 (t.obs true tg) else r)
        (if x0 then
          (if z0 then PauliStringVal.signed s ((t.obs false c).mul_phase 1 (t.obs true c))
            else PauliStringVal.signed s (t.obs false c))
          else if z0 then PauliStringVal.signed s (t.obs true c)
          else PauliStringVal.start t.num_qubits s) := by
  rw [scatter_eval_lit2, scatter_eval_step_eq, scatter_eval_step_eq, lit2_x0, lit2_z0, lit2_x1,
    lit2_z1]
  simp only [List.getD_cons_zero, List.getD_cons_succ]
  rw [start_mul_y _ _ _ _ (obs_size t false c), start_mul_phase0 _ _ _ (obs_size t false c),
    start_mul_phase0 _ _ _ (obs_size t true c)]

theorem generic_CX (t : Tableau) (c tg : Nat) :
    t.inplace_scatter_prepend
      (tableau2 (pauli_lit2 false true false true false) (pauli_lit2 false false true false false)
        (pauli_lit2 false false false true false) (pauli_lit2 false false true false true))
      [c, tg]
    = (((t.with_obs false c ((t.obs false c).mul_phase 0 (t.obs false tg))).with_obs true c
          (t.obs true c)).with_obs false tg (t.obs false tg)).with_obs true tg
          ((t.obs true c).mul_phase 0 (t.obs true tg)) := by
  rw [scatter_prepend_tableau2, scatter_eval_lit2_steps, scatter_eval_lit2_steps,
    scatter_eval_lit2_steps, scatter_eval_lit2_steps]
  simp only [if_true, if_false, Bool.false_eq_true, List.getD_cons_zero, List.getD_cons_succ,
    signed_false]
  rw [start_mul_phase0 _ _ _ (obs_size t false tg)]
  simp only [signed_false]

theorem generic_CZ (t : Tableau) (c tg : Nat) :
    t.inplace_scatter_prepend
      (tableau2 (pauli_lit2 false true false false true) (pauli_lit2 false false true false false)
        (pauli_lit2 false false true true false) (pauli_lit2 false false false false true))
      [c, tg]
    = (((t.with_obs false c ((t.obs false c).mul_phase 0 (t.obs true tg))).with_obs true c
          (t.obs true c)).with_obs false tg ((t.obs true c).mul_phase 0 (t.obs false tg))).with_obs
          true tg (t.obs true tg) := by
  rw [scatter_prepend_tableau2, scatter_eval_lit2_steps, scatter_eval_lit2_steps,
    scatter_eval_lit2_steps, scatter_eval_lit2_steps]
  simp only [if_true, if_false, Bool.false_eq_true, List.getD_cons_zero, List.getD_cons_succ,
    signed_false]
  rw [start_mul_phase0 _ _ _ (obs_size t true tg)]
  simp only [signed_false]

theorem generic_CY (t : Tableau) (c tg : Nat) :
    t.inplace_scatter_prepend
      (tableau2 (pauli_lit2 false true false true true) (pauli_lit2 false false true false false)
        (pauli_lit2 false false true true false) (pauli_lit2 false false true false true))
      [c, tg]
    = (((t.with_obs false c ((t.obs false c).mul_y (t.obs false tg) (t.obs true tg))).with_obs
          true c (t.obs true c)).with_obs false tg
          ((t.obs true c).mul_phase 0 (t.obs false tg))).with_obs
          true tg ((t.obs true c).mul_phase 0 (t.obs true tg)) := by
  rw [scatter_prepend_tableau2, scatter_eval_lit2_steps, scatter_eval_lit2_steps,
    scatter_eval_lit2_steps, scatter_eval_lit2_steps]
  simp only [if_true, if_false, Bool.false_eq_true, List.getD_cons_zero, List.getD_cons_succ,
    signed_false]



theorem scatter_prepend_CX (t : Tableau) (hv : t.valid) (c tg : Nat) (hc : c < t.num_qubits)
    (htg : tg < t.num_qubits) (hne : c ≠ tg) :
    t.prepend_CX c tg = t.inplace_scatter_prepend
      (tableau2 (pauli_lit2 false true false true false) (pauli_lit2 false false true false false)
        (pauli_lit2 false false false true false) (pauli_lit2 false false true false true))
      [c, tg] := by
  have hcc := lt_ceil hc
  have htc := lt_ceil htg
  have hne1 : tg ≠ c := hne.symm
  rw [generic_CX, prepend_CX_eq t c tg hcc htc,
    mul0_comm t true true tg c (anti_ne t hv true true tg c htg hc hne1)]
  apply Tableau.ext_obs
  · simp only [outside_with_obs, with_obs_num_qubits, hcc, htc]
  · intro h1 q1 hq1
    simp only [with_obs_num_qubits] at hq1
    simp only [obs_with_obs, with_obs_num_qubits, hcc, htc, hq1, clip_of_wf, mul_phase_wf, obs_wf]
    cases h1 <;> simp only [Bool.false_eq_true, Bool.true_eq_false, false_and, true_and,
      if_false, if_true] <;> split_ifs <;> (try subst_vars) <;> (try rfl) <;>
      (try (exfalso; omega))

theorem scatter_prepend_CZ (t : Tableau) (hv : t.valid) (c tg : Nat) (hc : c < t.num_qubits)
    (htg : tg < t.num_qubits) (hne : c ≠ tg) :
    t.prepend_CZ c tg = t.inplace_scatter_prepend
      (tableau2 (pauli_lit2 false true false false true) (pauli_lit2 false false true false false)
        (pauli_lit2 false false true true false) (pauli_lit2 false false false false true))
      [c, tg] := by
  have hcc := lt_ceil hc
  have htc := lt_ceil htg
  have hne1 : tg ≠ c := hne.symm
  rw [generic_CZ, prepend_CZ_eq t c tg hcc htc hne,
    mul0_comm t false true tg c (anti_ne t hv false true tg c htg hc hne1)]
  apply Tableau.ext_obs
  · simp only [outside_with_obs, with_obs_num_qubits, hcc, htc]
  · intro h1 q1 hq1
    simp only [with_obs_num_qubits] at hq1
    simp only [obs_with_obs, with_obs_num_qubits, hcc, htc, hq1, clip_of_wf, mul_phase_wf, obs_wf]
    cases h1 <;> simp only [Bool.false_eq_true, Bool.true_eq_false, false_and, true_and,
      if_false, if_true] <;> split_ifs <;> (try subst_vars) <;> (try rfl) <;>
      (try (exfalso; omega))

theorem scatter_prepend_CY (t : Tableau) (hv : t.valid) (c tg : Nat) (hc : c < t.num_qubits)
    (htg : tg < t.num_qubits) (hne : c ≠ tg) :
    t.prepend_CY c tg = t.inplace_scatter_prepend
      (tableau2 (pauli_lit2 false true false true true) (pauli_lit2 false false true false false)
        (pauli_lit2 false false true true false) (pauli_lit2 false false true false true))
      [c, tg] := by
  have hcc := lt_ceil hc
  have htc := lt_ceil htg
  have hne1 : tg ≠ c := hne.symm
  rw [generic_CY, prepend_CY_eq t c tg hcc htc hne, cy_value_a t hv c tg hc htg hne,
    cy_value_b t hv c tg hc htg hne, cy_value_c t hv c tg hc htg hne]
  have w1 : ((t.obs false c).mul_y (t.obs false tg) (t.obs true tg)).wf t.num_qubits := by
    rw [← cy_value_a t hv c tg hc htg hne]
    exact mul_phase_wf (obs_wf _ _ _) (mul_phase_wf (obs_wf _ _ _) (obs_wf _ _ _))
  apply Tableau.ext_obs
  · simp only [outside_with_obs, with_obs_num_qubits, hcc, htc]
  · intro h1 q1 hq1
    simp only [with_obs_num_qubits] at hq1
    simp only [obs_with_obs, with_obs_num_qubits, hcc, htc, hq1, clip_of_wf w1, clip_of_wf,
      mul_phase_wf, obs_wf]
    cases h1 <;> simp only [Bool.false_eq_true, Bool.true_eq_false, false_and, true_and,
      if_false, if_true] <;> split_ifs <;> (try subst_vars) <;> (try rfl) <;>
      (try (exfalso; omega))


theorem prepend_gate_eq_scatter (t : Tableau) (g : Gate) (targets : List Nat)
    (h : g.valid_targets t.num_qubits targets) (hv : t.valid) :
    ∃ op, GATE_TABLEAUS g.name = some op ∧
      t.prepend_gate g targets = t.inplace_scatter_prepend op targets := by
  cases g
  case H =>
    obtain ⟨a, rfl, ha⟩ := valid_targets_one h rfl
    exact ⟨_, GATE_H, scatter_prepend_H t hv a ha⟩
  case H_XY =>
    obtain ⟨a, rfl, ha⟩ := valid_targets_one h rfl
    exact ⟨_, GATE_H_XY, scatter_prepend_H_XY t hv a ha⟩
  case H_YZ =>
    obtain ⟨a, rfl, ha⟩ := valid_targets_one h rfl
    exact ⟨_, GATE_H_YZ, scatter_prepend_H_YZ t hv a ha⟩
  case X =>
    obtain ⟨a, rfl, ha⟩ := valid_targets_one h rfl
    exact ⟨_, GATE_X, scatter_prepend_X t hv a ha⟩
  case Y =>
    obtain ⟨a, rfl, ha⟩ := valid_targets_one h rfl
    exact ⟨_, GATE_Y, scatter_prepend_Y t hv a ha⟩
  case Z =>
    obtain ⟨a, rfl, ha⟩ := valid_targets_one h rfl
    exact ⟨_, GATE_Z, scatter_prepend_Z t hv a ha⟩
  case SQRT_X =>
    obtain ⟨a, rfl, ha⟩ := valid_targets_one h rfl
    exact ⟨_, GATE_SQRT_X, scatter_prepend_SQRT_X t hv a ha⟩
  case SQRT_X_DAG =>
    obtain ⟨a, rfl, ha⟩ := valid_targets_one h rfl
    exact ⟨_, GATE_SQRT_X_DAG, scatter_prepend_SQRT_X_DAG t hv a ha⟩
  case SQRT_Y =>
    obtain ⟨a, rfl, ha⟩ := valid_targets_one h rfl
    exact ⟨_, GATE_SQRT_Y, scatter_prepend_SQRT_Y t hv a ha⟩
  case SQRT_Y_DAG =>
    obtain ⟨a, rfl, ha⟩ := valid_targets_one h rfl
    exact ⟨_, GATE_SQRT_Y_DAG, scatter_prepend_SQRT_Y_DAG t hv a ha⟩
  case SQRT_Z =>
    obtain ⟨a, rfl, ha⟩ := valid_targets_one h rfl
    exact ⟨_, GATE_SQRT_Z, scatter_prepend_SQRT_Z t hv a ha⟩
  case SQRT_Z_DAG =>
    obtain ⟨a, rfl, ha⟩ := valid_targets_one h rfl
    exact ⟨_, GATE_SQRT_Z_DAG, scatter_prepend_SQRT_Z_DAG t hv a ha⟩
  case CX =>
    obtain ⟨a, b, rfl, ha, hb, hne⟩ := valid_targets_two h rfl
    exact ⟨_, GATE_CX, scatter_prepend_CX t hv a b ha hb hne⟩
  case CY =>
    obtain ⟨a, b, rfl, ha, hb, hne⟩ := valid_targets_two h rfl
    exact ⟨_, GATE_CY, scatter_prepend_CY t hv a b ha hb hne⟩
  case CZ =>
    obtain ⟨a, b, rfl, ha, hb, hne⟩ := valid_targets_two h rfl
    exact ⟨_, GATE_CZ, scatter_prepend_CZ t hv a b ha hb hne⟩

/-! ## The inverse law -/

section
variable (t : Tableau) (ha : Bool) (qa : Nat) (hb : Bool) (qb : Nat)

/-- `i^c2 (i^c1 A B) B = A` when `c1 + c2` is a multiple of 4. -/
theorem mul_mul_cancel (c1 c2 : Nat) (hc1 : c1 < 4) (hc2 : c2 < 4) (hsum : (c1 + c2) % 4 = 0)
    (hpar : decide (c1 % 2 = 1) = (t.row ha qa).anti (t.row hb qb)) :
    ((t.obs ha qa).mul_phase c1 (t.obs hb qb)).mul_phase c2 (t.obs hb qb) = t.obs ha qa := by
  have hpar2 : decide (c2 % 2 = 1) = (t.row ha qa).anti (t.row hb qb) := by
    rw [← hpar]; congr 1; apply propext; omega
  apply embed_inj (ceil256 t.num_qubits)
  · simp [mul_phase_size]
  · rw [embed_mul_phase_at _ c2 (by omega) _ _ (by
          show ceil256 (t.obs ha qa).size = _; rw [obs_size]) (by
        simp only [anti_mul_phase_left, embed_obs, PhasedPauli.anti_self, Bool.xor_false]
        exact hpar2),
      embed_mul_phase_at _ c1 (by omega) _ _ (by rw [obs_size]) (by
        simp only [embed_obs]; exact hpar)]
    simp only [embed_obs, mul_assoc, PhasedPauli.scalar_assoc, row_mul_self, mul_one]
    have : ((c2 : ZMod 4) + (c1 : ZMod 4)) = 0 := by
      rw [← Nat.cast_add]
      have h0 : ((0 : Nat) : ZMod 4) = 0 := Nat.cast_zero
      rw [← h0]
      apply natCast_eq_of_mod; omega
    rw [this]
    exact one_mul _

/-- `i^c (i^c A B) (-B) = A` for odd `c`. -/
theorem mul_mul_neg_cancel (c : Nat) (hc : c = 1 ∨ c = 3)
    (hanti : (t.row ha qa).anti (t.row hb qb) = true) :
    ((t.obs ha qa).mul_phase c (t.obs hb qb)).mul_phase c (t.obs hb qb).neg = t.obs ha qa := by
  have hpar : decide (c % 2 = 1) = (t.row ha qa).anti (t.row hb qb) := by
    rw [hanti]; rcases hc with h | h <;> subst h <;> rfl
  apply embed_inj (ceil256 t.num_qubits)
  · simp [mul_phase_size]
  · rw [embed_mul_phase_at _ c (by omega) _ _ (by
          show ceil256 (t.obs ha qa).size = _; rw [obs_size]) (by
        simp only [anti_mul_phase_left, anti_neg_right, embed_obs, PhasedPauli.anti_self,
          Bool.xor_false]
        exact hpar),
      embed_mul_phase_at _ c (by omega) _ _ (by rw [obs_size]) (by
        simp only [embed_obs]; exact hpar), embed_neg]
    simp only [embed_obs, mul_assoc, PhasedPauli.scalar_assoc, row_mul_scalar_mul,
      row_mul_scalar, row_mul_self, mul_one]
    have : ((c : ZMod 4) + ((c : ZMod 4) + 2)) = 0 := by
      rcases hc with h | h <;> subst h <;> decide
    rw [this]
    exact one_mul _

/-- `A (A B) = B` for commuting `A`, `B`. -/
theorem mul0_mul0_cancel (hanti : (t.row ha qa).anti (t.row hb qb) = false) :
    (t.obs ha qa).mul_phase 0 ((t.obs ha qa).mul_phase 0 (t.obs hb qb)) = t.obs hb qb := by
  apply embed_inj (ceil256 t.num_qubits)
  · simp [mul_phase_size, obs_size]
  · rw [embed_mul_phase_at _ 0 (by omega) _ _ (by rw [obs_size]) (by
        simp only [anti_mul_phase_right, embed_obs, PhasedPauli.anti_self, Bool.false_xor]
        rw [hanti]; rfl),
      embed_mul_phase_at _ 0 (by omega) _ _ (by rw [obs_size]) (by
        simp only [embed_obs]; rw [hanti]; rfl)]
    simp only [embed_obs, PhasedPauli.scalar_assoc, row_mul_scalar_mul]
    rw [PhasedPauli.mul_self_cancel _ _ (row_mul_self t ha qa)]
    have : ((0 : Nat) : ZMod 4) + ((0 : Nat) : ZMod 4) = 0 := by decide
    rw [this]
    exact one_mul _

end



theorem inverse_H (t : Tableau) (q : Nat) (hq : q < t.num_qubits) :
    (t.prepend_H q).prepend_H q = t := by
  have hqc := lt_ceil hq
  rw [prepend_H_eq _ q, prepend_H_eq t q]
  simp only [obs_with_obs, with_obs_num_qubits, hqc, clip_of_wf, mul_phase_wf, obs_wf, neg_wf,
    and_self, if_true, Bool.false_eq_true, Bool.true_eq_false, false_and, and_false, if_false]
  apply Tableau.ext_obs
  · simp only [outside_with_obs, with_obs_num_qubits, hqc]
  · intro h1 q1 hq1
    simp only [with_obs_num_qubits] at hq1
    simp only [obs_with_obs, with_obs_num_qubits, hqc, hq1, clip_of_wf, mul_phase_wf, obs_wf,
      neg_wf]
    cases h1 <;> simp only [Bool.false_eq_true, Bool.true_eq_false, false_and, true_and,
      if_false, if_true] <;> (try split_ifs) <;> (try subst_vars) <;> (try rfl)

theorem inverse_X (t : Tableau) (q : Nat) (hq : q < t.num_qubits) :
    (t.prepend_X q).prepend_X q = t := by
  have hqc := lt_ceil hq
  rw [prepend_X_eq _ q (by rw [prepend_X_eq t q hqc]; exact hqc), prepend_X_eq t q hqc]
  simp only [obs_with_obs, with_obs_num_qubits, hqc, clip_of_wf, mul_phase_wf, obs_wf, neg_wf,
    and_self, if_true, Bool.false_eq_true, Bool.true_eq_false, false_and, and_false, if_false]
  simp only [neg_neg]
  apply Tableau.ext_obs
  · simp only [outside_with_obs, with_obs_num_qubits, hqc]
  · intro h1 q1 hq1
    simp only [with_obs_num_qubits] at hq1
    simp only [obs_with_obs, with_obs_num_qubits, hqc, hq1, clip_of_wf, mul_phase_wf, obs_wf,
      neg_wf]
    cases h1 <;> simp only [Bool.false_eq_true, Bool.true_eq_false, false_and, true_and,
      if_false, if_true] <;> (try split_ifs) <;> (try subst_vars) <;> (try rfl)

theorem inverse_Y (t : Tableau) (q : Nat) (hq : q < t.num_qubits) :
    (t.prepend_Y q).prepend_Y q = t := by
  have hqc := lt_ceil hq
  rw [prepend_Y_eq _ q (by rw [prepend_Y_eq t q hqc]; exact hqc), prepend_Y_eq t q hqc]
  simp only [obs_with_obs, with_obs_num_qubits, hqc, clip_of_wf, mul_phase_wf, obs_wf, neg_wf,
    and_self, if_true, Bool.false_eq_true, Bool.true_eq_false, false_and, and_false, if_false]
  simp only [neg_neg]
  apply Tableau.ext_obs
  · simp only [outside_with_obs, with_obs_num_qubits, hqc]
  · intro h1 q1 hq1
    simp only [with_obs_num_qubits] at hq1
    simp only [obs_with_obs, with_obs_num_qubits, hqc, hq1, clip_of_wf, mul_phase_wf, obs_wf,
      neg_wf]
    cases h1 <;> simp only [Bool.false_eq_true, Bool.true_eq_false, false_and, true_and,
      if_false, if_true] <;> (try split_ifs) <;> (try subst_vars) <;> (try rfl)

theorem inverse_Z (t : Tableau) (q : Nat) (hq : q < t.num_qubits) :
    (t.prepend_Z q).prepend_Z q = t := by
  have hqc := lt_ceil hq
  rw [prepend_Z_eq _ q (by rw [prepend_Z_eq t q hqc]; exact hqc), prepend_Z_eq t q hqc]
  simp only [obs_with_obs, with_obs_num_qubits, hqc, clip_of_wf, mul_phase_wf, obs_wf, neg_wf,
    and_self, if_true, Bool.false_eq_true, Bool.true_eq_false, false_and, and_false, if_false]
  simp only [neg_neg]
  apply Tableau.ext_obs
  · simp only [outside_with_obs, with_obs_num_qubits, hqc]
  · intro h1 q1 hq1
    simp only [with_obs_num_qubits] at hq1
    simp only [obs_with_obs, with_obs_num_qubits, hqc, hq1, clip_of_wf, mul_phase_wf, obs_wf,
      neg_wf]
    cases h1 <;> simp only [Bool.false_eq_true, Bool.true_eq_false, false_and, true_and,
      if_false, if_true] <;> (try split_ifs) <;> (try subst_vars) <;> (try rfl)

theorem inverse_SQRT_Y (t : Tableau) (q : Nat) (hq : q < t.num_qubits) :
    (t.prepend_SQRT_Y q).prepend_SQRT_Y_DAG q = t := by
  have hqc := lt_ceil hq
  rw [prepend_SQRT_Y_DAG_eq _ q (by rw [prepend_SQRT_Y_eq t q hqc]; exact hqc), prepend_SQRT_Y_eq t q hqc]
  simp only [obs_with_obs, with_obs_num_qubits, hqc, clip_of_wf, mul_phase_wf, obs_wf, neg_wf,
    and_self, if_true, Bool.false_eq_true, Bool.true_eq_false, false_and, and_false, if_false]
  simp only [neg_neg]
  apply Tableau.ext_obs
  · simp only [outside_with_obs, with_obs_num_qubits, hqc]
  · intro h1 q1 hq1
    simp only [with_obs_num_qubits] at hq1
    simp only [obs_with_obs, with_obs_num_qubits, hqc, hq1, clip_of_wf, mul_phase_wf, obs_wf,
      neg_wf]
    cases h1 <;> simp only [Bool.false_eq_true, Bool.true_eq_false, false_and, true_and,
      if_false, if_true] <;> (try split_ifs) <;> (try subst_vars) <;> (try rfl)

theorem inverse_SQRT_Y_DAG (t : Tableau) (q : Nat) (hq : q < t.num_qubits) :
    (t.prepend_SQRT_Y_DAG q).prepend_SQRT_Y q = t := by
  have hqc := lt_ceil hq
  rw [prepend_SQRT_Y_eq _ q (by rw [prepend_SQRT_Y_DAG_eq t q hqc]; exact hqc), prepend_SQRT_Y_DAG_eq t q hqc]
  simp only [obs_with_obs, with_obs_num_qubits, hqc, clip_of_wf, mul_phase_wf, obs_wf, neg_wf,
    and_self, if_true, Bool.false_eq_true, Bool.true_eq_false, false_and, and_false, if_false]
  simp only [neg_neg]
  apply Tableau.ext_obs
  · simp only [outside_with_obs, with_obs_num_qubits, hqc]
  · intro h1 q1 hq1
    simp only [with_obs_num_qubits] at hq1
    simp only [obs_with_obs, with_obs_num_qubits, hqc, hq1, clip_of_wf, mul_phase_wf, obs_wf,
      neg_wf]
    cases h1 <;> simp only [Bool.false_eq_true, Bool.true_eq_false, false_and, true_and,
      if_false, if_true] <;> (try split_ifs) <;> (try subst_vars) <;> (try rfl)

theorem inverse_SQRT_X (t : Tableau) (hv : t.valid) (q : Nat) (hq : q < t.num_qubits) :
    (t.prepend_SQRT_X q).prepend_SQRT_X_DAG q = t := by
  have hqc := lt_ceil hq
  rw [prepend_SQRT_X_DAG_eq _ q (by rw [prepend_SQRT_X_eq t q hqc]; exact hqc), prepend_SQRT_X_eq t q hqc]
  simp only [obs_with_obs, with_obs_num_qubits, hqc, clip_of_wf, mul_phase_wf, obs_wf, neg_wf,
    and_self, if_true, Bool.false_eq_true, Bool.true_eq_false, false_and, and_false, if_false]
  rw [mul_mul_cancel t true q false q 1 3 (by omega) (by omega) rfl (by rw [anti_zx t hv q hq]; rfl)]
  apply Tableau.ext_obs
  · simp only [outside_with_obs, with_obs_num_qubits, hqc]
  · intro h1 q1 hq1
    simp only [with_obs_num_qubits] at hq1
    simp only [obs_with_obs, with_obs_num_qubits, hqc, hq1, clip_of_wf, mul_phase_wf, obs_wf,
      neg_wf]
    cases h1 <;> simp only [Bool.false_eq_true, Bool.true_eq_false, false_and, true_and,
      if_false, if_true] <;> (try split_ifs) <;> (try subst_vars) <;> (try rfl)

theorem inverse_SQRT_X_DAG (t : Tableau) (hv : t.valid) (q : Nat) (hq : q < t.num_qubits) :
    (t.prepend_SQRT_X_DAG q).prepend_SQRT_X q = t := by
  have hqc := lt_ceil hq
  rw [prepend_SQRT_X_eq _ q (by rw [prepend_SQRT_X_DAG_eq t q hqc]; exact hqc), prepend_SQRT_X_DAG_eq t q hqc]
  simp only [obs_with_obs, with_obs_num_qubits, hqc, clip_of_wf, mul_phase_wf, obs_wf, neg_wf,
    and_self, if_true, Bool.false_eq_true, Bool.true_eq_false, false_and, and_false, if_false]
  rw [mul_mul_cancel t true q false q 3 1 (by omega) (by omega) rfl (by rw [anti_zx t hv q hq]; rfl)]
  apply Tableau.ext_obs
  · simp only [outside_with_obs, with_obs_num_qubits, hqc]
  · intro h1 q1 hq1
    simp only [with_obs_num_qubits] at hq1
    simp only [obs_with_obs, with_obs_num_qubits, hqc, hq1, clip_of_wf, mul_phase_wf, obs_wf,
      neg_wf]
    cases h1 <;> simp only [Bool.false_eq_true, Bool.true_eq_false, false_and, true_and,
      if_false, if_true] <;> (try split_ifs) <;> (try subst_vars) <;> (try rfl)

theorem inverse_SQRT_Z (t : Tableau) (hv : t.valid) (q : Nat) (hq : q < t.num_qubits) :
    (t.prepend_SQRT_Z q).prepend_SQRT_Z_DAG q = t := by
  have hqc := lt_ceil hq
  rw [prepend_SQRT_Z_DAG_eq _ q (by rw [prepend_SQRT_Z_eq t q hqc]; exact hqc), prepend_SQRT_Z_eq t q hqc]
  simp only [obs_with_obs, with_obs_num_qubits, hqc, clip_of_wf, mul_phase_wf, obs_wf, neg_wf,
    and_self, if_true, Bool.false_eq_true, Bool.true_eq_false, false_and, and_false, if_false]
  rw [mul_mul_cancel t false q true q 1 3 (by omega) (by omega) rfl (by rw [anti_xz t hv q hq]; rfl)]
  apply Tableau.ext_obs
  · simp only [outside_with_obs, with_obs_num_qubits, hqc]
  · intro h1 q1 hq1
    simp only [with_obs_num_qubits] at hq1
    simp only [obs_with_obs, with_obs_num_qubits, hqc, hq1, clip_of_wf, mul_phase_wf, obs_wf,
      neg_wf]
    cases h1 <;> simp only [Bool.false_eq_true, Bool.true_eq_false, false_and, true_and,
      if_false, if_true] <;> (try split_ifs) <;> (try subst_vars) <;> (try rfl)

theorem inverse_SQRT_Z_DAG (t : Tableau) (hv : t.valid) (q : Nat) (hq : q < t.num_qubits) :
    (t.prepend_SQRT_Z_DAG q).prepend_SQRT_Z q = t := by
  have hqc := lt_ceil hq
  rw [prepend_SQRT_Z_eq _ q (by rw [prepend_SQRT_Z_DAG_eq t q hqc]; exact hqc), prepend_SQRT_Z_DAG_eq t q hqc]
  simp only [obs_with_obs, with_obs_num_qubits, hqc, clip_of_wf, mul_phase_wf, obs_wf, neg_wf,
    and_self, if_true, Bool.false_eq_true, Bool.true_eq_false, false_and, and_false, if_false]
  rw [mul_mul_cancel t false q true q 3 1 (by omega) (by omega) rfl (by rw [anti_xz t hv q hq]; rfl)]
  apply Tableau.ext_obs
  · simp only [outside_with_obs, with_obs_num_qubits, hqc]
  · intro h1 q1 hq1
    simp only [with_obs_num_qubits] at hq1
    simp only [obs_with_obs, with_obs_num_qubits, hqc, hq1, clip_of_wf, mul_phase_wf, obs_wf,
      neg_wf]
    cases h1 <;> simp only [Bool.false_eq_true, Bool.true_eq_false, false_and, true_and,
      if_false, if_true] <;> (try split_ifs) <;> (try subst_vars) <;> (try rfl)

theorem inverse_H_XY (t : Tableau) (hv : t.valid) (q : Nat) (hq : q < t.num_qubits) :
    (t.prepend_H_XY q).prepend_H_XY q = t := by
  have hqc := lt_ceil hq
  rw [prepend_H_XY_eq _ q (by rw [prepend_H_XY_eq t q hqc]; exact hqc), prepend_H_XY_eq t q hqc]
  simp only [obs_with_obs, with_obs_num_qubits, hqc, clip_of_wf, mul_phase_wf, obs_wf, neg_wf,
    and_self, if_true, Bool.false_eq_true, Bool.true_eq_false, false_and, and_false, if_false]
  rw [mul_mul_neg_cancel t false q true q 1 (Or.inl rfl) (anti_xz t hv q hq)]
  simp only [neg_neg]
  apply Tableau.ext_obs
  · simp only [outside_with_obs, with_obs_num_qubits, hqc]
  · intro h1 q1 hq1
    simp only [with_obs_num_qubits] at hq1
    simp only [obs_with_obs, with_obs_num_qubits, hqc, hq1, clip_of_wf, mul_phase_wf, obs_wf,
      neg_wf]
    cases h1 <;> simp only [Bool.false_eq_true, Bool.true_eq_false, false_and, true_and,
      if_false, if_true] <;> (try split_ifs) <;> (try subst_vars) <;> (try rfl)

theorem inverse_H_YZ (t : Tableau) (hv : t.valid) (q : Nat) (hq : q < t.num_qubits) :
    (t.prepend_H_YZ q).prepend_H_YZ q = t := by
  have hqc := lt_ceil hq
  rw [prepend_H_YZ_eq _ q (by rw [prepend_H_YZ_eq t q hqc]; exact hqc), prepend_H_YZ_eq t q hqc]
  simp only [obs_with_obs, with_obs_num_qubits, hqc, clip_of_wf, mul_phase_wf, obs_wf, neg_wf,
    and_self, if_true, Bool.false_eq_true, Bool.true_eq_false, false_and, and_false, if_false]
  rw [mul_mul_neg_cancel t true q false q 3 (Or.inr rfl) (anti_zx t hv q hq)]
  simp only [neg_neg]
  apply Tableau.ext_obs
  · simp only [outside_with_obs, with_obs_num_qubits, hqc]
  · intro h1 q1 hq1
    simp only [with_obs_num_qubits] at hq1
    simp only [obs_with_obs, with_obs_num_qubits, hqc, hq1, clip_of_wf, mul_phase_wf, obs_wf,
      neg_wf]
    cases h1 <;> simp only [Bool.false_eq_true, Bool.true_eq_false, false_and, true_and,
      if_false, if_true] <;> (try split_ifs) <;> (try subst_vars) <;> (try rfl)



theorem inverse_CX (t : Tableau) (hv : t.valid) (c tg : Nat) (hc : c < t.num_qubits)
    (htg : tg < t.num_qubits) (hne : c ≠ tg) : (t.prepend_CX c tg).prepend_CX c tg = t := by
  have hcc := lt_ceil hc
  have htc := lt_ceil htg
  have hne1 : tg ≠ c := hne.symm
  rw [prepend_CX_eq _ c tg (by rw [prepend_CX_eq t c tg hcc htc]; exact hcc)
    (by rw [prepend_CX_eq t c tg hcc htc]; exact htc), prepend_CX_eq t c tg hcc htc]
  simp only [obs_with_obs, with_obs_num_qubits, hcc, htc, clip_of_wf, mul_phase_wf, obs_wf, neg_wf,
    and_self, if_true, Bool.false_eq_true, Bool.true_eq_false, false_and, and_false, if_false,
    hne, hne1, true_and]
  rw [mul_mul_cancel t true tg true c 0 0 (by omega) (by omega) rfl
      (by rw [anti_ne t hv true true tg c htg hc hne1]; rfl),
    mul_mul_cancel t false c false tg 0 0 (by omega) (by omega) rfl
      (by rw [anti_ne t hv false false c tg hc htg hne]; rfl)]
  apply Tableau.ext_obs
  · simp only [outside_with_obs, with_obs_num_qubits, hcc, htc]
  · intro h1 q1 hq1
    simp only [with_obs_num_qubits] at hq1
    simp only [obs_with_obs, with_obs_num_qubits, hcc, htc, hq1, clip_of_wf, mul_phase_wf, obs_wf,
      neg_wf]
    cases h1 <;> simp only [Bool.false_eq_true, Bool.true_eq_false, false_and, true_and,
      if_false, if_true] <;> (try split_ifs) <;> (try subst_vars) <;> (try rfl)

theorem inverse_CZ (t : Tableau) (hv : t.valid) (c tg : Nat) (hc : c < t.num_qubits)
    (htg : tg < t.num_qubits) (hne : c ≠ tg) : (t.prepend_CZ c tg).prepend_CZ c tg = t := by
  have hcc := lt_ceil hc
  have htc := lt_ceil htg
  have hne1 : tg ≠ c := hne.symm
  rw [prepend_CZ_eq _ c tg (by rw [prepend_CZ_eq t c tg hcc htc hne]; exact hcc)
    (by rw [prepend_CZ_eq t c tg hcc htc hne]; exact htc) hne, prepend_CZ_eq t c tg hcc htc hne]
  simp only [obs_with_obs, with_obs_num_qubits, hcc, htc, clip_of_wf, mul_phase_wf, obs_wf, neg_wf,
    and_self, if_true, Bool.false_eq_true, Bool.true_eq_false, false_and, and_false, if_false,
    hne, hne1, true_and]
  rw [mul_mul_cancel t false tg true c 0 0 (by omega) (by omega) rfl
      (by rw [anti_ne t hv false true tg c htg hc hne1]; rfl),
    mul_mul_cancel t false c true tg 0 0 (by omega) (by omega) rfl
      (by rw [anti_ne t hv false true c tg hc htg hne]; rfl)]
  apply Tableau.ext_obs
  · simp only [outside_with_obs, with_obs_num_qubits, hcc, htc]
  · intro h1 q1 hq1
    simp only [with_obs_num_qubits] at hq1
    simp only [obs_with_obs, with_obs_num_qubits, hcc, htc, hq1, clip_of_wf, mul_phase_wf, obs_wf,
      neg_wf]
    cases h1 <;> simp only [Bool.false_eq_true, Bool.true_eq_false, false_and, true_and,
      if_false, if_true] <;> (try split_ifs) <;> (try subst_vars) <;> (try rfl)



theorem anti_mul_y_left (m : Nat) (r x z : PauliStringVal) (d : PhasedPauli m) :
    ((r.mul_y x z).embed m).anti d
      = (((r.embed m).anti d ^^ (x.embed m).anti d) ^^ (z.embed m).anti d) := by
  rw [← PhasedPauli.anti_mul_left, ← PhasedPauli.anti_mul_left]
  exact PhasedPauli.anti_congr rfl rfl rfl rfl

theorem anti_mul_y_right (m : Nat) (r x z : PauliStringVal) (d : PhasedPauli m) :
    d.anti ((r.mul_y x z).embed m)
      = ((d.anti (r.embed m) ^^ d.anti (x.embed m)) ^^ d.anti (z.embed m)) := by
  rw [PhasedPauli.anti_symm, anti_mul_y_left, PhasedPauli.anti_symm _ d,
    PhasedPauli.anti_symm _ d, PhasedPauli.anti_symm _ d]

theorem mul_y_size (r x z : PauliStringVal) : (r.mul_y x z).size = r.size := rfl

theorem mul_y_wf {n : Nat} {r x z : PauliStringVal} (hr : r.wf n) (hx : x.wf n) (hz : z.wf n) :
    (r.mul_y x z).wf n := by
  refine ⟨hr.1, fun k hk => ?_⟩
  have a := hr.2 k hk
  have b := hx.2 k hk
  have c := hz.2 k hk
  constructor
  · show ((r.x_data k ^^ x.x_data k) ^^ z.x_data k) = false
    rw [a.1, b.1, c.1]; rfl
  · show ((r.z_data k ^^ x.z_data k) ^^ z.z_data k) = false
    rw [a.2, b.2, c.2]; rfl

/-- Commuting two factors inside a right-nested product. -/
theorem PhasedPauli.comm_assoc {m : Nat} (a b w : PhasedPauli m) :
    a * (b * w) = PhasedPauli.scalar m (if a.anti b then 2 else 0) * (b * (a * w)) := by
  rw [← mul_assoc, PhasedPauli.mul_comm_anti a b, mul_assoc, mul_assoc]

theorem scalar_mul_eq_self {m : Nat} {e : ZMod 4} (a : PhasedPauli m) (h : e = 0) :
    PhasedPauli.scalar m e * a = a := by
  rw [h]; exact one_mul a

section
variable (t : Tableau) (hv : t.valid) (c tg : Nat) (hc : c < t.num_qubits)
  (htg : tg < t.num_qubits) (hne : c ≠ tg)
include hv hc htg hne

theorem embed_cy_a :
    ((t.obs false c).mul_y (t.obs false tg) (t.obs true tg)).embed (ceil256 t.num_qubits)
      = PhasedPauli.scalar _ 1 * ((t.row false c * t.row false tg) * t.row true tg) := by
  have hg := (valid_iff_gram t).1 hv
  rw [embed_mul_y_at _ _ _ _ (by rw [obs_size]) (by
        simp only [PhasedPauli.anti_mul_left, embed_obs, hg, hc, htg]; simp [hne])]
  rfl

/-- Applying the Y-controlled images twice gives back `X_c`. -/
theorem cy_cancel :
    ((t.obs false c).mul_y (t.obs false tg) (t.obs true tg)).mul_y
        ((t.obs true c).mul_phase 0 (t.obs false tg))
        ((t.obs true c).mul_phase 0 (t.obs true tg))
      = t.obs false c := by
  have hg := (valid_iff_gram t).1 hv
  have hne1 : tg ≠ c := hne.symm
  apply embed_inj (ceil256 t.num_qubits)
  · rfl
  · rw [embed_mul_y_at _ _ _ _ (by
          show ceil256 (t.obs false c).size = _; rw [obs_size]) (by
        simp only [PhasedPauli.anti_mul_left, anti_mul_y_left, anti_mul_phase_left,
          anti_mul_phase_right, embed_obs, hg, hc, htg]
        simp [hne, hne1]),
      embed_cy_a t hv c tg hc htg hne,
      embed_mul_phase_at _ 0 (by omega) _ _ (by rw [obs_size]) (by
        simp only [embed_obs, hg, hc, htg]; simp [hne]),
      embed_mul_phase_at _ 0 (by omega) _ _ (by rw [obs_size]) (by
        simp only [embed_obs, hg, hc, htg]; simp [hne])]
    simp only [embed_obs, mul_assoc, PhasedPauli.scalar_assoc, row_mul_scalar_mul, row_mul_scalar]
    -- X_c X_t Z_t Z_c X_t Z_c Z_t
    rw [PhasedPauli.comm_assoc (t.row true c) (t.row false tg),
      anti_ne t hv true false c tg hc htg hne]
    simp only [mul_assoc, PhasedPauli.scalar_assoc, row_mul_scalar_mul, row_mul_scalar]
    rw [PhasedPauli.mul_self_cancel (t.row true c) _ (row_mul_self t true c),
      PhasedPauli.comm_assoc (t.row true tg) (t.row false tg), anti_zx t hv tg htg]
    simp only [mul_assoc, PhasedPauli.scalar_assoc, row_mul_scalar_mul, row_mul_scalar,
      row_mul_self, mul_one, if_true]
    apply scalar_mul_eq_self
    decide

end



/-- The rows of `prepend_CY` on a valid tableau, in the form of the gate table. -/
theorem prepend_CY_rows (t : Tableau) (hv : t.valid) (c tg : Nat) (hc : c < t.num_qubits)
    (htg : tg < t.num_qubits) (hne : c ≠ tg) :
    t.prepend_CY c tg
      = ((t.with_obs false c ((t.obs false c).mul_y (t.obs false tg) (t.obs true tg))).with_obs
          false tg ((t.obs true c).mul_phase 0 (t.obs false tg))).with_obs true tg
            ((t.obs true c).mul_phase 0 (t.obs true tg)) := by
  rw [prepend_CY_eq t c tg (lt_ceil hc) (lt_ceil htg) hne, cy_value_a t hv c tg hc htg hne,
    cy_value_b t hv c tg hc htg hne, cy_value_c t hv c tg hc htg hne]

theorem inverse_CY (t : Tableau) (hv : t.valid) (c tg : Nat) (hc : c < t.num_qubits)
    (htg : tg < t.num_qubits) (hne : c ≠ tg) : (t.prepend_CY c tg).prepend_CY c tg = t := by
  have hcc := lt_ceil hc
  have htc := lt_ceil htg
  have hne1 : tg ≠ c := hne.symm
  have hn := prepend_CY_num_qubits t c tg hcc htc hne
  have hv1 := valid_prepend_CY t c tg hc htg hne hv
  rw [prepend_CY_rows _ hv1 c tg (by rw [hn]; exact hc) (by rw [hn]; exact htg) hne,
    prepend_CY_rows t hv c tg hc htg hne]
  have w1 : ((t.obs false c).mul_y (t.obs false tg) (t.obs true tg)).wf t.num_qubits :=
    mul_y_wf (obs_wf _ _ _) (obs_wf _ _ _) (obs_wf _ _ _)
  simp only [obs_with_obs, with_obs_num_qubits, hcc, htc, clip_of_wf w1, clip_of_wf, mul_phase_wf,
    obs_wf, neg_wf, and_self, if_true, Bool.false_eq_true, Bool.true_eq_false, false_and,
    and_false, if_false, hne, hne1, true_and]
  rw [cy_cancel t hv c tg hc htg hne,
    mul0_mul0_cancel t true c false tg (anti_ne t hv true false c tg hc htg hne),
    mul0_mul0_cancel t true c true tg (anti_ne t hv true true c tg hc htg hne)]
  apply Tableau.ext_obs
  · simp only [outside_with_obs, with_obs_num_qubits, hcc, htc]
  · intro h1 q1 hq1
    simp only [with_obs_num_qubits] at hq1
    simp only [obs_with_obs, with_obs_num_qubits, hcc, htc, hq1, clip_of_wf w1, clip_of_wf,
      mul_phase_wf, obs_wf, neg_wf]
    cases h1 <;> simp only [Bool.false_eq_true, Bool.true_eq_false, false_and, true_and,
      if_false, if_true] <;> (try split_ifs) <;> (try subst_vars) <;> (try rfl)


theorem prepend_gate_adjoint (t : Tableau) (g : Gate) (targets : List Nat)
    (h : g.valid_targets t.num_qubits targets) (hv : t.valid) :
    (t.prepend_gate g targets).prepend_gate g.adjoint targets = t := by
  cases g
  case H =>
    obtain ⟨a, rfl, ha⟩ := valid_targets_one h rfl
    exact inverse_H t a ha
  case H_XY =>
    obtain ⟨a, rfl, ha⟩ := valid_targets_one h rfl
    exact inverse_H_XY t hv a ha
  case H_YZ =>
    obtain ⟨a, rfl, ha⟩ := valid_targets_one h rfl
    exact inverse_H_YZ t hv a ha
  case X =>
    obtain ⟨a, rfl, ha⟩ := valid_targets_one h rfl
    exact inverse_X t a ha
  case Y =>
    obtain ⟨a, rfl, ha⟩ := valid_targets_one h rfl
    exact inverse_Y t a ha
  case Z =>
    obtain ⟨a, rfl, ha⟩ := valid_targets_one h rfl
    exact inverse_Z t a ha
  case SQRT_X =>
    obtain ⟨a, rfl, ha⟩ := valid_targets_one h rfl
    exact inverse_SQRT_X t hv a ha
  case SQRT_X_DAG =>
    obtain ⟨a, rfl, ha⟩ := valid_targets_one h rfl
    exact inverse_SQRT_X_DAG t hv a ha
  case SQRT_Y =>
    obtain ⟨a, rfl, ha⟩ := valid_targets_one h rfl
    exact inverse_SQRT_Y t a ha
  case SQRT_Y_DAG =>
    obtain ⟨a, rfl, ha⟩ := valid_targets_one h rfl
    exact inverse_SQRT_Y_DAG t a ha
  case SQRT_Z =>
    obtain ⟨a, rfl, ha⟩ := valid_targets_one h rfl
    exact inverse_SQRT_Z t hv a ha
  case SQRT_Z_DAG =>
    obtain ⟨a, rfl, ha⟩ := valid_targets_one h rfl
    exact inverse_SQRT_Z_DAG t hv a ha
  case CX =>
    obtain ⟨a, b, rfl, ha, hb, hne⟩ := valid_targets_two h rfl
    exact inverse_CX t hv a b ha hb hne
  case CY =>
    obtain ⟨a, b, rfl, ha, hb, hne⟩ := valid_targets_two h rfl
    exact inverse_CY t hv a b ha hb hne
  case CZ =>
    obtain ⟨a, b, rfl, ha, hb, hne⟩ := valid_targets_two h rfl
    exact inverse_CZ t hv a b ha hb hne

/-! ## The transposed layout -/

theorem bit_address_true_eq (i o n quad : Nat) :
    bit_address i o n quad true
      = i % 256 + 256 * (o % 256)
        + 65536 * (o / 256 + i / 256 * (ceil256 n / 256)
            + quad * (ceil256 n / 256 * (ceil256 n / 256))) := by
  rw [bit_address_true, Nat.mul_assoc, ceil256_sq]
  ring

theorem bit_address_false_eq2 (i o n quad : Nat) :
    bit_address i o n quad false
      = o % 256 + 256 * (i % 256)
        + 65536 * (o / 256 + i / 256 * (ceil256 n / 256)
            + quad * (ceil256 n / 256 * (ceil256 n / 256))) := by
  rw [bit_address_false, Nat.mul_assoc, ceil256_sq]
  ring

theorem tile_digits (x y blk : Nat) (hx : x < 256) (hy : y < 256) :
    (x + 256 * y + 65536 * blk) / 65536 = blk ∧
    (x + 256 * y + 65536 * blk) % 65536 = x + 256 * y ∧
    (x + 256 * y + 65536 * blk) % 256 = x ∧
    (x + 256 * y + 65536 * blk) / 256 % 256 = y := by
  refine ⟨by omega, by omega, by omega, ?_⟩
  have : (x + 256 * y + 65536 * blk) / 256 = y + 256 * blk := by omega
  rw [this]; omega

/-- The transposed address is the row-major address with the two halves of the
offset inside the tile exchanged. -/
theorem bit_address_transposed (i o n quad : Nat) :
    bit_address i o n quad true / 65536 = bit_address i o n quad false / 65536 ∧
    bit_address i o n quad true % 65536
      = bit_address i o n quad false % 256 * 256 + bit_address i o n quad false / 256 % 256 ∧
    bit_address i o n quad false
      = bit_address i o n quad true / 65536 * 65536 + bit_address i o n quad true % 256 * 256
        + bit_address i o n quad true / 256 % 256 := by
  rw [bit_address_true_eq, bit_address_false_eq2]
  generalize o / 256 + i / 256 * (ceil256 n / 256)
    + quad * (ceil256 n / 256 * (ceil256 n / 256)) = blk
  have hx : o % 256 < 256 := Nat.mod_lt _ (by norm_num)
  have hy : i % 256 < 256 := Nat.mod_lt _ (by norm_num)
  generalize o % 256 = x at hx
  generalize i % 256 = y at hy
  obtain ⟨a1, a2, a3, a4⟩ := tile_digits x y blk hx hy
  obtain ⟨b1, b2, b3, b4⟩ := tile_digits y x blk hy hx
  rw [a1, a3, a4, b1, b2, b3, b4]
  omega

theorem bit_address_true_lt {i o n quad : Nat} (hi : i < ceil256 n) (ho : o < ceil256 n)
    (hq : quad < 4) : bit_address i o n quad true < ceil256 n * ceil256 n * 4 := by
  have h := @bit_address_lt i o n quad hi ho hq
  obtain ⟨e1, e2, -⟩ := bit_address_transposed i o n quad
  have hsq := ceil256_sq n
  generalize bit_address i o n quad true = a at *
  generalize bit_address i o n quad false = b at *
  generalize ceil256 n / 256 * (ceil256 n / 256) = bb at *
  rw [hsq] at h ⊢
  have h1 : b / 65536 < bb * 4 := by omega
  have h2 : a % 65536 < 65536 := Nat.mod_lt _ (by norm_num)
  omega

theorem transpose_at (d : Nat → Bool) (i o n quad : Nat) (hi : i < ceil256 n)
    (ho : o < ceil256 n) (hq : quad < 4) :
    transpose_bit_matrix_256x256blocks d (ceil256 n * ceil256 n * 4)
        (bit_address i o n quad true)
      = d (bit_address i o n quad false) := by
  simp only [transpose_bit_matrix_256x256blocks, bit_address_true_lt hi ho hq, if_true]
  rw [← (bit_address_transposed i o n quad).2.2]

theorem ctor_z_obs_x_bit (t : Tableau) (i o : Nat) (hi : i < ceil256 t.num_qubits)
    (ho : o < ceil256 t.num_qubits) :
    (BlockTransposedTableau.ctor t).z_obs_x_bit i o = (t.load (t.z_obs_ptr i)).x_data o := by
  rw [z_obs_ptr_eq]
  change _ = (t.obs true i).x_data o
  rw [obs_x]
  simp only [ho, decide_True, Bool.true_and]
  exact transpose_at _ i o t.num_qubits Z2X_QUAD hi ho (by decide)

theorem ctor_z_obs_z_bit (t : Tableau) (i o : Nat) (hi : i < ceil256 t.num_qubits)
    (ho : o < ceil256 t.num_qubits) :
    (BlockTransposedTableau.ctor t).z_obs_z_bit i o = (t.load (t.z_obs_ptr i)).z_data o := by
  rw [z_obs_ptr_eq]
  change _ = (t.obs true i).z_data o
  rw [obs_z]
  simp only [ho, decide_True, Bool.true_and]
  exact transpose_at _ i o t.num_qubits Z2Z_QUAD hi ho (by decide)

theorem transpose_index_lt {a m : Nat} (hm : m % 65536 = 0) (h : a < m) :
    a / 65536 * 65536 + a % 256 * 256 + a / 256 % 256 < m := by
  have hx : a % 256 < 256 := Nat.mod_lt _ (by norm_num)
  have hy : a / 256 % 256 < 256 := Nat.mod_lt _ (by norm_num)
  have hb : a / 65536 < m / 65536 := by omega
  generalize a % 256 = x at hx
  generalize a / 256 % 256 = y at hy
  generalize a / 65536 = blk at hb
  omega

theorem transpose_index_index (a : Nat) :
    (a / 65536 * 65536 + a % 256 * 256 + a / 256 % 256) / 65536 * 65536
      + (a / 65536 * 65536 + a % 256 * 256 + a / 256 % 256) % 256 * 256
      + (a / 65536 * 65536 + a % 256 * 256 + a / 256 % 256) / 256 % 256 = a := by
  have hx : a % 256 < 256 := Nat.mod_lt _ (by norm_num)
  have hy : a / 256 % 256 < 256 := Nat.mod_lt _ (by norm_num)
  have ha : a = a % 256 + 256 * (a / 256 % 256) + 65536 * (a / 65536) := by omega
  have hb : a / 65536 * 65536 + a % 256 * 256 + a / 256 % 256
      = a / 256 % 256 + 256 * (a % 256) + 65536 * (a / 65536) := by ring
  obtain ⟨b1, b2, b3, b4⟩ := tile_digits (a / 256 % 256) (a % 256) (a / 65536) hy hx
  rw [hb, b1, b3, b4]
  omega

/-- Transposing every tile twice gives back the storage. -/
theorem transpose_transpose (d : Nat → Bool) (m : Nat) (hm : m % 65536 = 0) :
    transpose_bit_matrix_256x256blocks (transpose_bit_matrix_256x256blocks d m) m = d := by
  funext a
  simp only [transpose_bit_matrix_256x256blocks]
  by_cases h : a < m
  · simp only [h, transpose_index_lt hm h, if_true, transpose_index_index]
  · simp only [h, if_false]

theorem bit_address_true_inj {i o i1 o1 n quad quad1 : Nat} (hi : i < ceil256 n)
    (ho : o < ceil256 n) (hi1 : i1 < ceil256 n) (ho1 : o1 < ceil256 n)
    (h : bit_address i o n quad true = bit_address i1 o1 n quad1 true) :
    i = i1 ∧ o = o1 ∧ quad = quad1 := by
  apply bit_address_inj hi ho hi1 ho1
  rw [(bit_address_transposed i o n quad).2.2, (bit_address_transposed i1 o1 n quad1).2.2, h]

theorem data_num_bits_mod (t : Tableau) : t.data_num_bits % 65536 = 0 := by
  unfold Tableau.data_num_bits
  rw [ceil256_sq]
  omega

theorem ctor_dtor (t : Tableau) : (BlockTransposedTableau.ctor t).dtor = t := by
  have h := transpose_transpose t.data_x2x_z2x_x2z_z2z t.data_num_bits (data_num_bits_mod t)
  cases t with
  | mk n d s =>
    show Tableau.mk n (transpose_bit_matrix_256x256blocks
      (transpose_bit_matrix_256x256blocks d (Tableau.mk n d s).data_num_bits)
      (Tableau.mk n d s).data_num_bits) s = _
    rw [h]

/-! ## Applying a tableau to a Pauli string -/

theorem indices_eq (n : Nat) : for_loop (fun k (indices : List Nat) => indices ++ [k]) n [] = List.range n := by
  induction n with
  | zero => rfl
  | succ n ih => rw [for_loop_succ, ih, List.range_succ]

theorem indices_getD (n k : Nat) (hk : k < n) :
    (for_loop (fun k (indices : List Nat) => indices ++ [k]) n []).getD k 0 = k := by
  rw [indices_eq, List.getD_eq_getElem _ _ (by simpa using hk)]
  simp

theorem call_eq (t : Tableau) (p : PauliStringVal) :
    t.call p = for_loop (t.scatter_eval_step p (List.range p.size)) p.size
      (PauliStringVal.start t.num_qubits p.val_sign) := by
  rw [Tableau.call, indices_eq, scatter_eval_start]

theorem range_getD (n k : Nat) (hk : k < n) : (List.range n).getD k 0 = k := by
  rw [List.getD_eq_getElem _ _ (by simpa using hk)]
  simp

theorem for_loop_id {σ : Type} (body : Nat → σ → σ) (n : Nat) (s : σ)
    (h : ∀ j, j < n → body j s = s) : for_loop body n s = s := by
  induction n with
  | zero => rfl
  | succ n ih =>
    rw [for_loop_succ, ih (fun j hj => h j (by omega)), h n (by omega)]

/-- A loop whose body acts only at index `q`. -/
theorem for_loop_single {σ : Type} (body : Nat → σ → σ) (q n : Nat) (hq : q < n)
    (h : ∀ j s, j ≠ q → body j s = s) (s : σ) : for_loop body n s = body q s := by
  induction n with
  | zero => omega
  | succ n ih =>
    rw [for_loop_succ]
    by_cases e : q = n
    · subst e
      rw [for_loop_id body q s (fun j hj => h j s (by omega))]
    · rw [h n _ (fun e1 => e (e1.symm)), ih (by omega)]

theorem set_x_x (p : PauliStringVal) (q k : Nat) (b : Bool) :
    (p.set_x_bit q b).x_data k = if k = q then b else p.x_data k := rfl

theorem set_x_z (p : PauliStringVal) (q k : Nat) (b : Bool) :
    (p.set_x_bit q b).z_data k = p.z_data k := rfl

theorem set_z_z (p : PauliStringVal) (q k : Nat) (b : Bool) :
    (p.set_z_bit q b).z_data k = if k = q then b else p.z_data k := rfl

theorem set_z_x (p : PauliStringVal) (q k : Nat) (b : Bool) :
    (p.set_z_bit q b).x_data k = p.x_data k := rfl

theorem identity_x (n k : Nat) : (PauliStringVal.identity n).x_data k = false := rfl

theorem identity_z (n k : Nat) : (PauliStringVal.identity n).z_data k = false := rfl

theorem call_single (t : Tableau) (p : PauliStringVal) (q : Nat) (hq : q < p.size)
    (h : ∀ j, j ≠ q → p.x_data j = false ∧ p.z_data j = false) :
    t.call p = t.scatter_eval_step p (List.range p.size) q
      (PauliStringVal.start t.num_qubits p.val_sign) := by
  rw [call_eq]
  apply for_loop_single _ q _ hq
  intro j s hj
  rw [scatter_eval_step_eq, (h j hj).1, (h j hj).2]
  rfl

theorem call_X (t : Tableau) (q : Nat) (hq : q < t.num_qubits) :
    t.call ((PauliStringVal.identity t.num_qubits).set_x_bit q true) = t.load (t.x_obs_ptr q) := by
  rw [call_single t _ q hq (fun j hj => by simp [set_x_x, set_x_z, identity_x, identity_z, hj])]
  rw [scatter_eval_step_eq]
  simp only [set_x_x, set_x_z, identity_z, if_true, Bool.false_eq_true, if_false]
  rw [range_getD _ q (by exact hq), start_mul_phase0 _ _ _ (obs_size _ _ _)]
  rfl

theorem call_Z (t : Tableau) (q : Nat) (hq : q < t.num_qubits) :
    t.call ((PauliStringVal.identity t.num_qubits).set_z_bit q true) = t.load (t.z_obs_ptr q) := by
  rw [call_single t _ q hq (fun j hj => by simp [set_z_x, set_z_z, identity_x, identity_z, hj])]
  rw [scatter_eval_step_eq]
  simp only [set_z_x, set_z_z, identity_x, if_true, Bool.false_eq_true, if_false]
  rw [range_getD _ q (by exact hq), start_mul_phase0 _ _ _ (obs_size _ _ _)]
  rfl

theorem eval_y_obs_eq (t : Tableau) (q : Nat) :
    t.eval_y_obs q = (t.obs false q).mul_phase 1 (t.obs true q) := by
  simp only [Tableau.eval_y_obs, PauliStringVal.mul_phase, x_obs_ptr_eq, z_obs_ptr_eq, load_obs]
  rw [Nat.add_comm 1]
  split_ifs with h
  · simp [h]
  · simp only [bne_iff_ne, ne_eq, not_not] at h
    simp [h]

theorem call_Y (t : Tableau) (q : Nat) (hq : q < t.num_qubits) :
    t.call (((PauliStringVal.identity t.num_qubits).set_x_bit q true).set_z_bit q true)
      = t.eval_y_obs q := by
  rw [call_single t _ q hq (fun j hj => by
    simp [set_z_x, set_z_z, set_x_x, set_x_z, identity_x, identity_z, hj])]
  rw [scatter_eval_step_eq]
  simp only [set_z_x, set_z_z, set_x_x, if_true, Bool.false_eq_true, if_false]
  rw [range_getD _ q (by exact hq), start_mul_y _ _ _ _ (obs_size _ _ _), eval_y_obs_eq]
  rfl

theorem mul_phase_neg_left (c : Nat) (a b : PauliStringVal) :
    a.neg.mul_phase c b = (a.mul_phase c b).neg := by
  apply PauliStringVal.ext_iff4
  · rfl
  · have e : (a.neg.inplace_right_mul_returning_log_i_scalar b).2
        = (a.inplace_right_mul_returning_log_i_scalar b).2 := rfl
    show xor (xor (!a.val_sign) b.val_sign)
        ((c + (a.neg.inplace_right_mul_returning_log_i_scalar b).2) % 256 &&& 2 != 0)
      = !(xor (xor a.val_sign b.val_sign)
        ((c + (a.inplace_right_mul_returning_log_i_scalar b).2) % 256 &&& 2 != 0))
    rw [e]
    generalize a.val_sign = u
    generalize b.val_sign = v
    generalize ((c + (a.inplace_right_mul_returning_log_i_scalar b).2) % 256 &&& 2 != 0) = w
    cases u <;> cases v <;> cases w <;> rfl
  · intro k; rfl
  · intro k; rfl

theorem mul_y_neg_left (r x z : PauliStringVal) : r.neg.mul_y x z = (r.mul_y x z).neg := by
  rw [mul_y_eq, mul_y_eq]
  have e : r.neg.inplace_right_mul_returning_log_i_scalar x
      = ((r.inplace_right_mul_returning_log_i_scalar x).1.neg,
          (r.inplace_right_mul_returning_log_i_scalar x).2) := by
    simp only [PauliStringVal.inplace_right_mul_returning_log_i_scalar, PauliStringVal.neg,
      Bool.not_bne]
  rw [e]
  exact mul_phase_neg_left _ _ _

theorem scatter_eval_step_neg (t : Tableau) (v : PauliStringVal) (idx : List Nat) (k : Nat)
    (r : PauliStringVal) :
    t.scatter_eval_step v.neg idx k r.neg = (t.scatter_eval_step v idx k r).neg := by
  rw [scatter_eval_step_eq, scatter_eval_step_eq]
  have ex : v.neg.x_data k = v.x_data k := rfl
  have ez : v.neg.z_data k = v.z_data k := rfl
  rw [ex, ez]
  cases v.x_data k <;> cases v.z_data k <;>
    simp only [if_true, if_false, Bool.false_eq_true, mul_y_neg_left, mul_phase_neg_left]

theorem call_neg (t : Tableau) (p : PauliStringVal) : t.call p.neg = (t.call p).neg := by
  rw [call_eq, call_eq]
  show for_loop (t.scatter_eval_step p.neg (List.range p.size)) p.size
      (PauliStringVal.start t.num_qubits p.val_sign).neg = _
  generalize PauliStringVal.start t.num_qubits p.val_sign = s
  generalize List.range p.size = idx
  induction p.size with
  | zero => rfl
  | succ m ih => rw [for_loop_succ, for_loop_succ, ih, scatter_eval_step_neg]

/-! ### The identity tableau -/

theorem popcount_zero (f : Nat → Bool) (m : Nat) (h : ∀ k, f k = false) :
    popcount_below f m = 0 := by
  have : f = fun _ => false := funext h
  rw [this, popcount_below_false]

/-- Two strings with no qubit in common multiply without a phase. -/
theorem mul_disjoint (a b : PauliStringVal)
    (h : ∀ k, (a.x_data k = false ∧ a.z_data k = false) ∨
      (b.x_data k = false ∧ b.z_data k = false)) :
    (a.inplace_right_mul_returning_log_i_scalar b).2 = 0 := by
  simp only [PauliStringVal.inplace_right_mul_returning_log_i_scalar]
  rw [popcount_zero, popcount_zero]
  · intro k
    rcases h k with ⟨h1, h2⟩ | ⟨h1, h2⟩ <;> rw [h1, h2] <;> simp [log_i_negative]
  · intro k
    rcases h k with ⟨h1, h2⟩ | ⟨h1, h2⟩ <;> rw [h1, h2] <;> simp [log_i_positive]

theorem identity_step (n : Nat) (p : PauliStringVal) (idx : List Nat) (k : Nat) (hk : k < n)
    (hidx : idx.getD k 0 = k) :
    (Tableau.ctor n).scatter_eval_step p idx k (p.take n k) = p.take n (k + 1) := by
  rw [scatter_eval_step_eq, hidx]
  have hkc : k < ceil256 n := lt_ceil hk
  have dis : ∀ (h : Bool) (j : Nat),
      ((p.take n k).x_data j = false ∧ (p.take n k).z_data j = false) ∨
      ((((Tableau.ctor n).obs h k)).x_data j = false ∧ ((Tableau.ctor n).obs h k).z_data j = false) := by
    intro h j
    rw [ctor_obs_x n h k j hk, ctor_obs_z n h k j hk]
    by_cases e : j = k
    · left; subst e; simp [PauliStringVal.take]
    · right; simp [e]
  have m0 : ∀ h : Bool, (p.take n k).mul_phase 0 ((Tableau.ctor n).obs h k)
      = { size := n, val_sign := p.val_sign,
          x_data := fun j => (decide (j < k) && p.x_data j) ^^ (decide (j = k) && !h),
          z_data := fun j => (decide (j < k) && p.z_data j) ^^ (decide (j = k) && h) } := by
    intro h
    apply PauliStringVal.ext_iff4
    · rfl
    · simp only [PauliStringVal.mul_phase, mul_fst]
      rw [mul_disjoint _ _ (dis h), ctor_obs_sign]
      simp [PauliStringVal.take]
    · intro j
      rw [mul_phase_x, ctor_obs_x n h k j hk]; rfl
    · intro j
      rw [mul_phase_z, ctor_obs_z n h k j hk]; rfl
  split_ifs with hx hz hz
  · -- Y
    rw [mul_y_eq, mul_disjoint _ _ (dis false), mul_fst]
    apply PauliStringVal.ext_iff4
    · rfl
    · simp only [PauliStringVal.mul_phase, mul_fst]
      rw [ctor_obs_sign, ctor_obs_sign]
      have hl : (PauliStringVal.inplace_right_mul_returning_log_i_scalar
          { size := (p.take n k).size,
            val_sign := (p.take n k).val_sign ^^ false,
            x_data := fun j => (p.take n k).x_data j ^^ ((Tableau.ctor n).obs false k).x_data j,
            z_data := fun j => (p.take n k).z_data j ^^ ((Tableau.ctor n).obs false k).z_data j }
          ((Tableau.ctor n).obs true k)).2 = 3 := by
        simp only [PauliStringVal.inplace_right_mul_returning_log_i_scalar]
        have hsz : (p.take n k).size = n := rfl
        rw [hsz, popcount_single _ k (ceil256 n) hkc, popcount_single _ k (ceil256 n) hkc]
        · simp [ctor_obs_x n _ k _ hk, ctor_obs_z n _ k _ hk, log_i_positive, log_i_negative,
            PauliStringVal.take]
        · intro j hj
          simp [ctor_obs_x n _ k _ hk, ctor_obs_z n _ k _ hk, log_i_negative, hj]
        · intro j hj
          simp [ctor_obs_x n _ k _ hk, ctor_obs_z n _ k _ hk, log_i_positive, hj]
      rw [hl]
      have h4 : ((1 + 0 + 3) % 256 &&& 2 : Nat) = 0 := by decide
      simp [PauliStringVal.take, h4]
    · intro j
      simp only [mul_phase_x]
      rw [ctor_obs_x n _ k j hk, ctor_obs_x n _ k j hk]
      simp only [PauliStringVal.take]
      by_cases e : j = k
      · subst e; simp [hx]
      · have : (j < k + 1) = (j < k) := by rw [eq_iff_iff]; omega
        simp [e, this]
    · intro j
      simp only [mul_phase_z]
      rw [ctor_obs_z n _ k j hk, ctor_obs_z n _ k j hk]
      simp only [PauliStringVal.take]
      by_cases e : j = k
      · subst e; simp [hz]
      · have : (j < k + 1) = (j < k) := by rw [eq_iff_iff]; omega
        simp [e, this]
  · rw [m0]
    apply PauliStringVal.ext_iff4 <;> try rfl
    · intro j
      simp only [PauliStringVal.take]
      by_cases e : j = k
      · subst e; simp [hx]
      · have : (j < k + 1) = (j < k) := by rw [eq_iff_iff]; omega
        simp [e, this]
    · intro j
      simp only [PauliStringVal.take]
      by_cases e : j = k
      · subst e; simp [hz]
      · have : (j < k + 1) = (j < k) := by rw [eq_iff_iff]; omega
        simp [e, this]
  · rw [m0]
    apply PauliStringVal.ext_iff4 <;> try rfl
    · intro j
      simp only [PauliStringVal.take]
      by_cases e : j = k
      · subst e; simp [hx]
      · have : (j < k + 1) = (j < k) := by rw [eq_iff_iff]; omega
        simp [e, this]
    · intro j
      simp only [PauliStringVal.take]
      by_cases e : j = k
      · subst e; simp [hz]
      · have : (j < k + 1) = (j < k) := by rw [eq_iff_iff]; omega
        simp [e, this]
  · apply PauliStringVal.ext_iff4 <;> try rfl
    · intro j
      simp only [PauliStringVal.take]
      by_cases e : j = k
      · subst e; simp [hx]
      · have : (j < k + 1) = (j < k) := by rw [eq_iff_iff]; omega
        simp [e, this]
    · intro j
      simp only [PauliStringVal.take]
      by_cases e : j = k
      · subst e; simp [hz]
      · have : (j < k + 1) = (j < k) := by rw [eq_iff_iff]; omega
        simp [e, this]

theorem identity_loop (n : Nat) (p : PauliStringVal) (k : Nat) (hk : k ≤ n) :
    for_loop ((Tableau.ctor n).scatter_eval_step p (List.range n)) k
      (PauliStringVal.start n p.val_sign) = p.take n k := by
  induction k with
  | zero =>
    apply PauliStringVal.ext_iff4 <;> try rfl
    · intro j; simp [PauliStringVal.take, for_loop, PauliStringVal.start, identity_x]
    · intro j; simp [PauliStringVal.take, for_loop, PauliStringVal.start, identity_z]
  | succ k ih =>
    rw [for_loop_succ, ih (by omega), identity_step n p _ k (by omega) (range_getD n k (by omega))]

theorem identity_call (n : Nat) (p : PauliStringVal) (h : p.is_string n) :
    (Tableau.identity n).call p = p := by
  obtain ⟨hs, hp⟩ := h
  rw [call_eq, hs]
  show for_loop ((Tableau.ctor n).scatter_eval_step p (List.range n)) n
      (PauliStringVal.start n p.val_sign) = p
  rw [identity_loop n p n (Nat.le_refl n)]
  apply PauliStringVal.ext_iff4
  · exact hs.symm
  · rfl
  · intro j
    simp only [PauliStringVal.take]
    by_cases e : j < n
    · simp [e]
    · simp [e, (hp j (by omega)).1]
  · intro j
    simp only [PauliStringVal.take]
    by_cases e : j < n
    · simp [e]
    · simp [e, (hp j (by omega)).2]

theorem single_is_string (n q : Nat) (x z : Bool) (hq : q < n) :
    (((PauliStringVal.identity n).set_x_bit q x).set_z_bit q z).is_string n := by
  refine ⟨rfl, fun k hk => ?_⟩
  have : k ≠ q := by omega
  simp [set_x_x, set_z_x, set_z_z, set_x_z, identity_x, identity_z, this]

theorem commutes_of_no_z (p q : PauliStringVal) (hp : ∀ k, p.z_data k = false)
    (hq : ∀ k, q.z_data k = false) : p.commutes q = true := by
  simp only [PauliStringVal.commutes]
  rw [popcount_zero _ _ (fun k => by rw [hp k, hq k]; simp)]
  rfl

/-! ## Conjugation is a homomorphism -/

theorem PhasedPauli.anti_one_left {m : Nat} (a : PhasedPauli m) : (1 : PhasedPauli m).anti a = false :=
  PhasedPauli.anti_scalar_left 0 a

theorem PhasedPauli.anti_one_right {m : Nat} (a : PhasedPauli m) : a.anti (1 : PhasedPauli m) = false :=
  PhasedPauli.anti_scalar_right 0 a

theorem factor_eq (t : Tableau) (x z : Bool) (j : Nat) :
    t.factor x z j
      = if x then
          (if z then PhasedPauli.scalar _ 1 * (t.row false j * t.row true j) else t.row false j)
        else if z then t.row true j else 1 := rfl

theorem image_zero (t : Tableau) (xs zs : Nat → Bool) : t.image xs zs 0 = 1 := rfl

theorem image_succ (t : Tableau) (xs zs : Nat → Bool) (k : Nat) :
    t.image xs zs (k + 1) = t.image xs zs k * t.factor (xs k) (zs k) k := rfl

section
variable (t : Tableau) (hv : t.valid)
include hv

theorem anti_factor_row (x z : Bool) (j : Nat) (hj : j < t.num_qubits) (h : Bool) (j1 : Nat)
    (hj1 : j1 < t.num_qubits) :
    (t.factor x z j).anti (t.row h j1) = (decide (j = j1) && (if h then x else z)) := by
  have hg := (valid_iff_gram t).1 hv
  simp only [factor_eq]
  cases x <;> cases z <;> cases h <;>
    simp only [if_true, if_false, Bool.false_eq_true, PhasedPauli.anti_one_left,
      PhasedPauli.anti_mul_left, PhasedPauli.anti_scalar_left, hg _ _ _ _ hj hj1] <;>
    simp

theorem anti_row_factor (x z : Bool) (j : Nat) (hj : j < t.num_qubits) (h : Bool) (j1 : Nat)
    (hj1 : j1 < t.num_qubits) :
    (t.row h j1).anti (t.factor x z j) = (decide (j = j1) && (if h then x else z)) := by
  rw [PhasedPauli.anti_symm, anti_factor_row t hv x z j hj h j1 hj1]

theorem anti_factor_factor (x z x1 z1 : Bool) (j j1 : Nat) (hj : j < t.num_qubits)
    (hj1 : j1 < t.num_qubits) :
    (t.factor x z j).anti (t.factor x1 z1 j1)
      = (decide (j = j1) && ((x && z1) ^^ (z && x1))) := by
  rw [factor_eq t x1 z1 j1]
  cases x1 <;> cases z1 <;>
    simp only [if_true, if_false, Bool.false_eq_true, PhasedPauli.anti_one_right,
      PhasedPauli.anti_mul_right, PhasedPauli.anti_scalar_right,
      anti_factor_row t hv x z j hj _ j1 hj1] <;>
    cases x <;> cases z <;> simp

theorem anti_image_row (xs zs : Nat → Bool) (k : Nat) (h : Bool) (j : Nat) (hk : k ≤ j)
    (hj : j < t.num_qubits) : (t.image xs zs k).anti (t.row h j) = false := by
  induction k with
  | zero => exact PhasedPauli.anti_one_left _
  | succ k ih =>
    simp only [image_succ, PhasedPauli.anti_mul_left, ih (by omega),
      anti_factor_row t hv _ _ k (by omega) h j hj]
    have : k ≠ j := by omega
    simp [this]

theorem anti_image_factor (xs zs : Nat → Bool) (k : Nat) (x z : Bool) (j : Nat) (hk : k ≤ j)
    (hj : j < t.num_qubits) : (t.image xs zs k).anti (t.factor x z j) = false := by
  simp only [factor_eq]
  cases x <;> cases z <;>
    simp only [if_true, if_false, Bool.false_eq_true, PhasedPauli.anti_one_right,
      PhasedPauli.anti_mul_right, PhasedPauli.anti_scalar_right,
      anti_image_row t hv xs zs k _ j hk hj] <;> rfl

theorem anti_image_image (xs zs xs1 zs1 : Nat → Bool) (k : Nat) (hk : k ≤ t.num_qubits) :
    (t.image xs zs k).anti (t.image xs1 zs1 k)
      = (popcount_below (fun j => (xs j && zs1 j) ^^ (zs j && xs1 j)) k % 2 == 1) := by
  induction k with
  | zero => exact PhasedPauli.anti_one_left _
  | succ k ih =>
    have a1 := anti_image_factor t hv xs zs k (xs1 k) (zs1 k) k (Nat.le_refl k) (by omega)
    have a2 := anti_image_factor t hv xs1 zs1 k (xs k) (zs k) k (Nat.le_refl k) (by omega)
    rw [PhasedPauli.anti_symm] at a2
    simp only [image_succ, PhasedPauli.anti_mul_left, PhasedPauli.anti_mul_right,
      ih (by omega), a1, a2, anti_factor_factor t hv _ _ _ _ k k (by omega) (by omega),
      popcount_below]
    generalize popcount_below (fun j => (xs j && zs1 j) ^^ (zs j && xs1 j)) k = u
    generalize ((xs k && zs1 k) ^^ (zs k && xs1 k)) = w
    have : u % 2 = 0 ∨ u % 2 = 1 := by omega
    cases w <;> rcases this with h | h <;> simp [h, Nat.add_mod]


theorem factor_mul_factor (x z x1 z1 : Bool) (j : Nat) (hj : j < t.num_qubits) :
    t.factor x z j * t.factor x1 z1 j
      = PhasedPauli.scalar _ ((log_i_term x z x1 z1 : Nat) : ZMod 4)
          * t.factor (x ^^ x1) (z ^^ z1) j := by
  have hBA : t.row true j * t.row false j
      = PhasedPauli.scalar _ 2 * (t.row false j * t.row true j) := by
    rw [PhasedPauli.mul_comm_anti (t.row true j) (t.row false j), anti_zx t hv j hj]; rfl
  have hBA1 : ∀ w, t.row true j * (t.row false j * w)
      = PhasedPauli.scalar _ 2 * (t.row false j * (t.row true j * w)) := by
    intro w
    rw [← mul_assoc, hBA, mul_assoc, mul_assoc]
  have hAA1 : ∀ w, t.row false j * (t.row false j * w) = w := fun w =>
    PhasedPauli.mul_self_cancel _ w (row_mul_self t false j)
  have hBB1 : ∀ w, t.row true j * (t.row true j * w) = w := fun w =>
    PhasedPauli.mul_self_cancel _ w (row_mul_self t true j)
  simp only [factor_eq]
  cases x <;> cases z <;> cases x1 <;> cases z1 <;>
    simp only [if_true, if_false, Bool.false_eq_true, Bool.xor_false, Bool.xor_true,
      Bool.not_true, Bool.not_false, Bool.false_xor, Bool.true_xor, Bool.xor_self,
      mul_assoc, one_mul, mul_one, row_mul_scalar_mul, row_mul_scalar,
      PhasedPauli.scalar_assoc, PhasedPauli.scalar_mul_scalar, hBA, hBA1, hAA1, hBB1,
      row_mul_self] <;>
    first
      | (apply scalar_eq; decide)
      | (symm; apply scalar_mul_eq_self; decide)
      | (show PhasedPauli.scalar _ 0 = PhasedPauli.scalar _ _; congr 1)


theorem image_mul_image (xs zs xs1 zs1 : Nat → Bool) (k : Nat) (hk : k ≤ t.num_qubits) :
    t.image xs zs k * t.image xs1 zs1 k
      = PhasedPauli.scalar _
          ((sum_below (fun j => log_i_term (xs j) (zs j) (xs1 j) (zs1 j)) k : Nat) : ZMod 4)
        * t.image (fun j => xs j ^^ xs1 j) (fun j => zs j ^^ zs1 j) k := by
  induction k with
  | zero =>
    show (1 : PhasedPauli (ceil256 t.num_qubits)) * 1 = PhasedPauli.scalar _ ((0 : Nat) : ZMod 4) * 1
    rw [Nat.cast_zero, PhasedPauli.scalar_zero]
  | succ k ih =>
    have a2 := anti_image_factor t hv xs1 zs1 k (xs k) (zs k) k (Nat.le_refl k) (by omega)
    rw [PhasedPauli.anti_symm] at a2
    have hc : t.factor (xs k) (zs k) k * t.image xs1 zs1 k
        = t.image xs1 zs1 k * t.factor (xs k) (zs k) k := by
      rw [PhasedPauli.mul_comm_anti, a2]
      exact one_mul _
    simp only [image_succ, sum_below]
    calc t.image xs zs k * t.factor (xs k) (zs k) k
          * (t.image xs1 zs1 k * t.factor (xs1 k) (zs1 k) k)
        = t.image xs zs k * ((t.factor (xs k) (zs k) k * t.image xs1 zs1 k)
            * t.factor (xs1 k) (zs1 k) k) := by simp only [mul_assoc]
      _ = (t.image xs zs k * t.image xs1 zs1 k)
            * (t.factor (xs k) (zs k) k * t.factor (xs1 k) (zs1 k) k) := by
          rw [hc]; simp only [mul_assoc]
      _ = _ := by
          rw [ih (by omega), factor_mul_factor t hv _ _ _ _ k (by omega), mul_assoc,
            PhasedPauli.mul_scalar_mul, ← mul_assoc, PhasedPauli.scalar_mul_scalar,
            Nat.cast_add]


theorem loop_embed (p : PauliStringVal) (s : Bool) (k : Nat) (hk : k ≤ t.num_qubits) :
    (for_loop (t.scatter_eval_step p (List.range t.num_qubits)) k
        (PauliStringVal.start t.num_qubits s)).size = t.num_qubits ∧
    (for_loop (t.scatter_eval_step p (List.range t.num_qubits)) k
        (PauliStringVal.start t.num_qubits s)).embed (ceil256 t.num_qubits)
      = PhasedPauli.scalar _ (if s then 2 else 0) * t.image p.x_data p.z_data k := by
  induction k with
  | zero => exact ⟨rfl, (mul_one _).symm⟩
  | succ k ih =>
    obtain ⟨hs, he⟩ := ih (by omega)
    have hk1 : k < t.num_qubits := by omega
    rw [for_loop_succ, scatter_eval_step_eq, range_getD _ k hk1]
    generalize for_loop (t.scatter_eval_step p (List.range t.num_qubits)) k
        (PauliStringVal.start t.num_qubits s) = r at hs he
    have hm : ceil256 r.size = ceil256 t.num_qubits := by rw [hs]
    have hr : ∀ h, (r.embed (ceil256 t.num_qubits)).anti (t.row h k) = false := by
      intro h
      rw [he, PhasedPauli.anti_mul_left, PhasedPauli.anti_scalar_left,
        anti_image_row t hv _ _ k h k (Nat.le_refl k) hk1]
      rfl
    simp only [image_succ, factor_eq]
    cases hx : p.x_data k <;> cases hz : p.z_data k <;>
      simp only [if_true, if_false, Bool.false_eq_true]
    · exact ⟨hs, by rw [he, mul_one]⟩
    · refine ⟨hs, ?_⟩
      rw [embed_mul_phase_at _ 0 (by omega) r _ hm (by rw [embed_obs, hr]; rfl), embed_obs, he,
        Nat.cast_zero, PhasedPauli.scalar_zero, one_mul, mul_assoc]
    · refine ⟨hs, ?_⟩
      rw [embed_mul_phase_at _ 0 (by omega) r _ hm (by rw [embed_obs, hr]; rfl), embed_obs, he,
        Nat.cast_zero, PhasedPauli.scalar_zero, one_mul, mul_assoc]
    · refine ⟨hs, ?_⟩
      rw [embed_mul_y_at _ r _ _ hm (by
          rw [embed_obs, embed_obs, PhasedPauli.anti_mul_left, hr, hr, anti_xz t hv k hk1]; rfl),
        embed_obs, embed_obs, he]
      rw [PhasedPauli.mul_scalar_mul (1 : ZMod 4) (t.image p.x_data p.z_data k)]
      simp only [mul_assoc, PhasedPauli.scalar_assoc]
      rw [add_comm]


theorem call_embed (p : PauliStringVal) (hs : p.size = t.num_qubits) :
    (t.call p).size = t.num_qubits ∧
    (t.call p).embed (ceil256 t.num_qubits)
      = PhasedPauli.scalar _ (if p.val_sign then 2 else 0)
          * t.image p.x_data p.z_data t.num_qubits := by
  rw [call_eq, hs]
  exact loop_embed t hv p p.val_sign t.num_qubits (Nat.le_refl _)

end

theorem popcount_support (f : Nat → Bool) (j m : Nat) (hjm : j ≤ m)
    (h : ∀ k, j ≤ k → f k = false) : popcount_below f m = popcount_below f j := by
  rw [popcount_eq_sum, popcount_eq_sum]
  exact sum_below_support hjm (fun k hk => by rw [h k hk]; rfl)

theorem call_commutes (t : Tableau) (hv : t.valid) (p q : PauliStringVal)
    (hp : p.is_string t.num_qubits) (hq : q.is_string t.num_qubits) :
    (t.call p).commutes (t.call q) = p.commutes q := by
  obtain ⟨sp, ep⟩ := call_embed t hv p hp.1
  obtain ⟨sq, eq⟩ := call_embed t hv q hq.1
  rw [commutes_eq_anti, sp, ep, eq, PhasedPauli.anti_mul_left, PhasedPauli.anti_mul_right,
    PhasedPauli.anti_mul_right, PhasedPauli.anti_scalar_left, PhasedPauli.anti_scalar_left,
    PhasedPauli.anti_scalar_right, anti_image_image t hv _ _ _ _ _ (Nat.le_refl _)]
  simp only [PauliStringVal.commutes, hp.1]
  rw [popcount_support _ t.num_qubits (ceil256 t.num_qubits) (le_ceil256 _) (fun k hk => by
    rw [(hp.2 k hk).1, (hp.2 k hk).2]; rfl)]
  generalize popcount_below _ _ = u
  have : u % 2 = 0 ∨ u % 2 = 1 := by omega
  rcases this with h | h <;> simp [h]

theorem call_mul (t : Tableau) (hv : t.valid) (p q : PauliStringVal)
    (hp : p.is_string t.num_qubits) (hq : q.is_string t.num_qubits)
    (hc : p.commutes q = true) :
    t.call (p.mul_assign q) = (t.call p).mul_assign (t.call q) := by
  obtain ⟨sp, ep⟩ := call_embed t hv p hp.1
  obtain ⟨sq, eq⟩ := call_embed t hv q hq.1
  have hpq : (p.mul_phase 0 q).size = t.num_qubits := hp.1
  obtain ⟨spq, epq⟩ := call_embed t hv (p.mul_phase 0 q) hpq
  have hcc := call_commutes t hv p q hp hq
  rw [hc, commutes_eq_anti, sp] at hcc
  have hanti : (p.embed (ceil256 t.num_qubits)).anti (q.embed (ceil256 t.num_qubits)) = false := by
    have := hc
    rw [commutes_eq_anti, hp.1] at this
    simpa using this
  rw [mul_assign_eq, mul_assign_eq]
  apply embed_inj (ceil256 t.num_qubits)
  · rw [spq, mul_phase_size, sp]
  · rw [epq, embed_mul_phase_at _ 0 (by omega) _ _ (by rw [sp]) (by
      simpa using hcc), ep, eq]
    have key := congrArg PhasedPauli.ph
      (embed_mul_phase_at (ceil256 t.num_qubits) 0 (by omega) p q (by rw [hp.1])
        (by rw [hanti]; rfl))
    rw [Nat.cast_zero, PhasedPauli.scalar_zero, one_mul] at key ⊢
    have key2 : (if (p.mul_phase 0 q).val_sign then (2 : ZMod 4) else 0)
        = (if p.val_sign then (2 : ZMod 4) else 0) + (if q.val_sign then (2 : ZMod 4) else 0)
          + ((sum_below (fun j => log_i_term (p.x_data j) (p.z_data j) (q.x_data j) (q.z_data j))
              t.num_qubits : Nat) : ZMod 4) := by
      rw [← sum_below_support (le_ceil256 t.num_qubits) (fun k hk => by
        rw [(hp.2 k hk).1, (hp.2 k hk).2]; rfl)]
      exact key
    rw [key2, mul_assoc, PhasedPauli.mul_scalar_mul, ← mul_assoc, PhasedPauli.scalar_mul_scalar,
      image_mul_image t hv _ _ _ _ _ (Nat.le_refl _), ← mul_assoc, PhasedPauli.scalar_mul_scalar]
    rfl

/-! ## Column operations of the transposed layout -/

theorem col_addr_div (n o kk b : Nat) (hb : b < 256) :
    col_addr n o kk b / 256 = o + kk * ceil256 n := by
  unfold col_addr; omega

theorem col_addr_mod (n o kk b : Nat) (hb : b < 256) : col_addr n o kk b % 256 = b := by
  unfold col_addr; omega
theorem col_word_inj {m o kk o1 kk1 : Nat} (ho : o < m) (ho1 : o1 < m)
    (h : o + kk * m = o1 + kk1 * m) : o = o1 ∧ kk = kk1 :=
  digits_unique ho ho1 h

/-- Loops whose iteration `k` reads and writes only its own part of the state:
`A k a` says that data address `a` belongs to iteration `k`, `B k a` the same
for the signs. -/
theorem loop_footprint
    (step : Nat → (Nat → Bool) × (Nat → Bool) → (Nat → Bool) × (Nat → Bool))
    (A B : Nat → Nat → Prop) (K : Nat)
    (hdisjA : ∀ k k1 a, k < K → k1 < K → A k a → A k1 a → k = k1)
    (hdisjB : ∀ k k1 a, k < K → k1 < K → B k a → B k1 a → k = k1)
    (hframeA : ∀ k st a, ¬ A k a → (step k st).1 a = st.1 a)
    (hframeB : ∀ k st a, ¬ B k a → (step k st).2 a = st.2 a)
    (hlocal : ∀ k st st1, (∀ a, A k a → st.1 a = st1.1 a) → (∀ a, B k a → st.2 a = st1.2 a) →
      (∀ a, A k a → (step k st).1 a = (step k st1).1 a) ∧
      (∀ a, B k a → (step k st).2 a = (step k st1).2 a))
    (st0 : (Nat → Bool) × (Nat → Bool)) (j : Nat) (hj : j ≤ K) :
    (∀ a, (∀ k, k < j → A k a → (for_loop step j st0).1 a = (step k st0).1 a) ∧
      ((∀ k, k < j → ¬ A k a) → (for_loop step j st0).1 a = st0.1 a)) ∧
    (∀ a, (∀ k, k < j → B k a → (for_loop step j st0).2 a = (step k st0).2 a) ∧
      ((∀ k, k < j → ¬ B k a) → (for_loop step j st0).2 a = st0.2 a)) := by
  induction j with
  | zero =>
    exact ⟨fun a => ⟨fun k hk => by omega, fun _ => rfl⟩,
      fun a => ⟨fun k hk => by omega, fun _ => rfl⟩⟩
  | succ j ih =>
    obtain ⟨ihA, ihB⟩ := ih (by omega)
    rw [for_loop_succ]
    have agreeA : ∀ a, A j a → (for_loop step j st0).1 a = st0.1 a := fun a ha =>
      (ihA a).2 (fun k hk hka => by
        have := hdisjA k j a (by omega) (by omega) hka ha
        omega)
    have agreeB : ∀ a, B j a → (for_loop step j st0).2 a = st0.2 a := fun a ha =>
      (ihB a).2 (fun k hk hka => by
        have := hdisjB k j a (by omega) (by omega) hka ha
        omega)
    have loc := hlocal j (for_loop step j st0) st0 agreeA agreeB
    refine ⟨fun a => ⟨fun k hk hka => ?_, fun hno => ?_⟩, fun a => ⟨fun k hk hka => ?_, fun hno => ?_⟩⟩
    · by_cases e : k = j
      · subst e; exact loc.1 a hka
      · have hnj : ¬ A j a := fun h => e (hdisjA k j a (by omega) (by omega) hka h)
        rw [hframeA j _ a hnj]
        exact (ihA a).1 k (by omega) hka
    · rw [hframeA j _ a (hno j (by omega))]
      exact (ihA a).2 (fun k hk => hno k (by omega))
    · by_cases e : k = j
      · subst e; exact loc.2 a hka
      · have hnj : ¬ B j a := fun h => e (hdisjB k j a (by omega) (by omega) hka h)
        rw [hframeB j _ a hnj]
        exact (ihB a).1 k (by omega) hka
    · rw [hframeB j _ a (hno j (by omega))]
      exact (ihB a).2 (fun k hk => hno k (by omega))



theorem col_loop1 (f : Bool → Bool → Bool → Bool × Bool × Bool) (n q K : Nat)
    (hq : q < ceil256 n) (st0 : (Nat → Bool) × (Nat → Bool)) :
    (∀ a, (∀ k, k < K → (a / 256 = q + k * ceil256 n ∨ a / 256 = q + (K + k) * ceil256 n) →
        (for_loop (col_step1 f n q K) K st0).1 a = (col_step1 f n q K k st0).1 a) ∧
      ((∀ k, k < K → ¬ (a / 256 = q + k * ceil256 n ∨ a / 256 = q + (K + k) * ceil256 n)) →
        (for_loop (col_step1 f n q K) K st0).1 a = st0.1 a)) ∧
    (∀ a, (∀ k, k < K → a / 256 = k →
        (for_loop (col_step1 f n q K) K st0).2 a = (col_step1 f n q K k st0).2 a) ∧
      ((∀ k, k < K → ¬ a / 256 = k) → (for_loop (col_step1 f n q K) K st0).2 a = st0.2 a)) := by
  apply loop_footprint (col_step1 f n q K)
    (fun k a => a / 256 = q + k * ceil256 n ∨ a / 256 = q + (K + k) * ceil256 n)
    (fun k a => a / 256 = k) K
  · intro k k1 a hk hk1 h h1
    rcases h with h | h <;> rcases h1 with h1 | h1 <;>
      have := (col_word_inj hq hq (h.symm.trans h1)).2 <;> omega
  · intro k k1 a hk hk1 h h1
    omega
  · intro k st a h
    simp only [not_or] at h
    simp only [col_step1, h.1, h.2, if_false]
  · intro k st a h
    simp only [col_step1, h, if_false]
  · intro k st st1 hA hB
    have e1 : ∀ b, b < 256 → st.1 (col_addr n q k b) = st1.1 (col_addr n q k b) := fun b hb =>
      hA _ (Or.inl (col_addr_div n q k b hb))
    have e2 : ∀ b, b < 256 → st.1 (col_addr n q (K + k) b) = st1.1 (col_addr n q (K + k) b) :=
      fun b hb => hA _ (Or.inr (col_addr_div n q (K + k) b hb))
    have e3 : ∀ b, b < 256 → st.2 (256 * k + b) = st1.2 (256 * k + b) := fun b hb =>
      hB _ (by omega)
    have hb : ∀ a : Nat, a % 256 < 256 := fun a => Nat.mod_lt _ (by norm_num)
    constructor
    · intro a ha
      simp only [col_step1, e1 _ (hb a), e2 _ (hb a), e3 _ (hb a)]
      rcases ha with ha | ha
      · simp only [ha, if_true]
      · simp only [ha, if_true]
    · intro a ha
      simp only [col_step1, e1 _ (hb a), e2 _ (hb a), e3 _ (hb a), ha, if_true]
  · exact Nat.le_refl K


theorem bit_address_true_col (i o n quad : Nat) :
    bit_address i o n quad true
      = col_addr n o (i / 256 + quad * (ceil256 n / 256)) (i % 256) := by
  rw [bit_address_true_eq, col_addr]
  have h := ceil256_div n
  generalize ceil256 n / 256 = M at h
  rw [← h]
  have e : o % 256 + 256 * (o / 256) = o := Nat.mod_add_div o 256
  generalize o % 256 = o0 at e
  generalize o / 256 = o1 at e
  subst e
  ring

theorem transpose_at_row (d : Nat → Bool) (i o n quad : Nat) (hi : i < ceil256 n)
    (ho : o < ceil256 n) (hq : quad < 4) :
    transpose_bit_matrix_256x256blocks d (ceil256 n * ceil256 n * 4)
        (bit_address i o n quad false)
      = d (bit_address i o n quad true) := by
  have h := (bit_address_transposed i o n quad).2.2
  have e : bit_address i o n quad false / 65536 * 65536
      + bit_address i o n quad false % 256 * 256 + bit_address i o n quad false / 256 % 256
      = bit_address i o n quad true := by
    rw [h]
    exact transpose_index_index _
  simp only [transpose_bit_matrix_256x256blocks, @bit_address_lt i o n quad hi ho hq, if_true]
  rw [e]


section
variable (t : Tableau) (b1 : BlockTransposedTableau)
  (hn : b1.tableau.num_qubits = t.num_qubits)
include hn

theorem dtor_num_qubits : b1.dtor.num_qubits = t.num_qubits := hn

theorem dtor_obs_sign (h : Bool) (i : Nat) :
    (b1.dtor.obs h i).val_sign
      = b1.tableau.data_sign_x_z (h.toNat * ceil256 t.num_qubits + i) := by
  rw [obs_sign, dtor_num_qubits t b1 hn]
  rfl

theorem dtor_obs_x (h : Bool) (i o : Nat) (hi : i < ceil256 t.num_qubits) :
    (b1.dtor.obs h i).x_data o
      = (decide (o < ceil256 t.num_qubits) &&
          b1.tableau.data_x2x_z2x_x2z_z2z
            (col_addr t.num_qubits o (i / 256 + h.toNat * (ceil256 t.num_qubits / 256)) (i % 256))) := by
  rw [obs_x, dtor_num_qubits t b1 hn]
  by_cases ho : o < ceil256 t.num_qubits
  · simp only [ho, decide_True, Bool.true_and]
    show transpose_bit_matrix_256x256blocks b1.tableau.data_x2x_z2x_x2z_z2z
      (ceil256 b1.tableau.num_qubits * ceil256 b1.tableau.num_qubits * 4) _ = _
    rw [hn, transpose_at_row _ i o _ _ hi ho (by cases h <;> decide), bit_address_true_col]
  · simp [ho]

theorem dtor_obs_z (h : Bool) (i o : Nat) (hi : i < ceil256 t.num_qubits) :
    (b1.dtor.obs h i).z_data o
      = (decide (o < ceil256 t.num_qubits) &&
          b1.tableau.data_x2x_z2x_x2z_z2z
            (col_addr t.num_qubits o (i / 256 + (2 + h.toNat) * (ceil256 t.num_qubits / 256))
              (i % 256))) := by
  rw [obs_z, dtor_num_qubits t b1 hn]
  by_cases ho : o < ceil256 t.num_qubits
  · simp only [ho, decide_True, Bool.true_and]
    show transpose_bit_matrix_256x256blocks b1.tableau.data_x2x_z2x_x2z_z2z
      (ceil256 b1.tableau.num_qubits * ceil256 b1.tableau.num_qubits * 4) _ = _
    rw [hn, transpose_at_row _ i o _ _ hi ho (by cases h <;> decide), bit_address_true_col]
  · simp [ho]

theorem dtor_outside
    (hd : ∀ a, ceil256 t.num_qubits * ceil256 t.num_qubits * 4 ≤ a →
      b1.tableau.data_x2x_z2x_x2z_z2z a = t.data_x2x_z2x_x2z_z2z a)
    (hs : ∀ a, ceil256 t.num_qubits * 2 ≤ a →
      b1.tableau.data_sign_x_z a = t.data_sign_x_z a) :
    b1.dtor.outside = t.outside := by
  have e1 : b1.dtor.num_qubits = t.num_qubits := hn
  have e2 : b1.dtor.data_sign_x_z = b1.tableau.data_sign_x_z := rfl
  have e3 : b1.dtor.data_x2x_z2x_x2z_z2z
      = transpose_bit_matrix_256x256blocks b1.tableau.data_x2x_z2x_x2z_z2z
          (ceil256 t.num_qubits * ceil256 t.num_qubits * 4) := by
    show transpose_bit_matrix_256x256blocks b1.tableau.data_x2x_z2x_x2z_z2z
      (ceil256 b1.tableau.num_qubits * ceil256 b1.tableau.num_qubits * 4) = _
    rw [hn]
  unfold Tableau.outside
  rw [e1, e2, e3]
  congr 1
  · funext a
    by_cases h : ceil256 t.num_qubits * ceil256 t.num_qubits * 4 ≤ a
    · have h1 : ¬ a < ceil256 t.num_qubits * ceil256 t.num_qubits * 4 := by omega
      simp only [h, decide_True, Bool.true_and, transpose_bit_matrix_256x256blocks, h1,
        if_false, hd a h]
    · simp [h]
  · funext a
    by_cases h : ceil256 t.num_qubits * 2 ≤ a
    · simp only [h, decide_True, Bool.true_and, hs a h]
    · simp [h]

end

theorem ctor_data_col (t : Tableau) (i o quad : Nat) (hi : i < ceil256 t.num_qubits)
    (ho : o < ceil256 t.num_qubits) (hq : quad < 4) :
    (BlockTransposedTableau.ctor t).tableau.data_x2x_z2x_x2z_z2z
        (col_addr t.num_qubits o (i / 256 + quad * (ceil256 t.num_qubits / 256)) (i % 256))
      = t.data_x2x_z2x_x2z_z2z (bit_address i o t.num_qubits quad false) := by
  rw [← bit_address_true_col]
  exact transpose_at _ i o t.num_qubits quad hi ho hq

theorem ctor_data_outside (t : Tableau) (a : Nat)
    (h : ceil256 t.num_qubits * ceil256 t.num_qubits * 4 ≤ a) :
    (BlockTransposedTableau.ctor t).tableau.data_x2x_z2x_x2z_z2z a = t.data_x2x_z2x_x2z_z2z a := by
  have h1 : ¬ a < ceil256 t.num_qubits * ceil256 t.num_qubits * 4 := by omega
  show transpose_bit_matrix_256x256blocks _ _ a = _
  simp only [transpose_bit_matrix_256x256blocks, Tableau.data_num_bits, h1, if_false]


theorem row_block_lt {i m : Nat} (h : Bool) (hi : i < m) (hm : m / 256 * 256 = m) :
    i / 256 + h.toNat * (m / 256) < 2 * (m / 256) := by
  cases h <;> simp <;> omega

theorem sign_addr (i m : Nat) (h : Bool) (hi : i < m) (hm : m / 256 * 256 = m) :
    (h.toNat * m + i) / 256 = i / 256 + h.toNat * (m / 256) ∧
    (h.toNat * m + i) % 256 = i % 256 := by
  cases h <;> simp <;> omega

theorem single_dtor_obs (t : Tableau) (f : Bool → Bool → Bool → Bool × Bool × Bool) (q : Nat)
    (hq : q < ceil256 t.num_qubits) (b1 : BlockTransposedTableau)
    (hn : b1.tableau.num_qubits = t.num_qubits)
    (hd : b1.tableau.data_x2x_z2x_x2z_z2z
      = (for_loop (col_step1 f t.num_qubits q (2 * (ceil256 t.num_qubits / 256)))
          (2 * (ceil256 t.num_qubits / 256))
          ((BlockTransposedTableau.ctor t).tableau.data_x2x_z2x_x2z_z2z, t.data_sign_x_z)).1)
    (hs : b1.tableau.data_sign_x_z
      = (for_loop (col_step1 f t.num_qubits q (2 * (ceil256 t.num_qubits / 256)))
          (2 * (ceil256 t.num_qubits / 256))
          ((BlockTransposedTableau.ctor t).tableau.data_x2x_z2x_x2z_z2z, t.data_sign_x_z)).2) :
    b1.dtor.outside = t.outside ∧
    ∀ (h : Bool) (i : Nat), i < ceil256 t.num_qubits →
      b1.dtor.obs h i = (t.obs h i).col1 f q := by
  have hm := ceil256_div t.num_qubits
  have hsq := ceil256_sq t.num_qubits
  obtain ⟨LA, LB⟩ := col_loop1 f t.num_qubits q (2 * (ceil256 t.num_qubits / 256)) hq
    ((BlockTransposedTableau.ctor t).tableau.data_x2x_z2x_x2z_z2z, t.data_sign_x_z)
  rw [← hd] at LA
  rw [← hs] at LB
  dsimp only at LA LB
  -- the three bits of a row that the operation reads
  have rd : ∀ (h : Bool) (i : Nat), i < ceil256 t.num_qubits →
      t.data_sign_x_z (256 * (i / 256 + h.toNat * (ceil256 t.num_qubits / 256)) + i % 256)
        = (t.obs h i).val_sign ∧
      (BlockTransposedTableau.ctor t).tableau.data_x2x_z2x_x2z_z2z
          (col_addr t.num_qubits q (i / 256 + h.toNat * (ceil256 t.num_qubits / 256)) (i % 256))
        = (t.obs h i).x_data q ∧
      (BlockTransposedTableau.ctor t).tableau.data_x2x_z2x_x2z_z2z
          (col_addr t.num_qubits q (2 * (ceil256 t.num_qubits / 256)
            + (i / 256 + h.toNat * (ceil256 t.num_qubits / 256))) (i % 256))
        = (t.obs h i).z_data q := by
    intro h i hi
    obtain ⟨s1, s2⟩ := sign_addr i _ h hi hm
    refine ⟨?_, ?_, ?_⟩
    · rw [obs_sign]; congr 1; omega
    · rw [ctor_data_col t i q h.toNat hi hq (by cases h <;> decide), obs_x]
      simp [hq]
    · have e : 2 * (ceil256 t.num_qubits / 256)
          + (i / 256 + h.toNat * (ceil256 t.num_qubits / 256))
          = i / 256 + (2 + h.toNat) * (ceil256 t.num_qubits / 256) := by ring
      rw [e, ctor_data_col t i q (2 + h.toNat) hi hq (by cases h <;> decide), obs_z]
      simp [hq]
  have hb : ∀ i : Nat, i % 256 < 256 := fun i => Nat.mod_lt _ (by norm_num)
  constructor
  · apply dtor_outside t b1 hn
    · intro a ha
      rw [(LA a).2, ctor_data_outside t a ha]
      intro k hk hor
      have : a / 256 < 4 * (ceil256 t.num_qubits / 256) * ceil256 t.num_qubits := by
        rcases hor with e | e <;> rw [e] <;> nlinarith
      have h2 : ceil256 t.num_qubits * ceil256 t.num_qubits * 4
          = 256 * (4 * (ceil256 t.num_qubits / 256) * ceil256 t.num_qubits) := by
        generalize ceil256 t.num_qubits / 256 = M at hm ⊢
        rw [← hm]
        ring
      omega
    · intro a ha
      rw [(LB a).2]
      intro k hk
      omega
  · intro h i hi
    have hk := row_block_lt h hi hm
    obtain ⟨s1, s2⟩ := sign_addr i _ h hi hm
    obtain ⟨r1, r2, r3⟩ := rd h i hi
    apply PauliStringVal.ext_iff4
    · rw [obs_size, dtor_num_qubits t b1 hn]; exact (obs_size t h i).symm
    · rw [dtor_obs_sign t b1 hn, (LB _).1 _ hk s1]
      simp only [col_step1, s1, if_true, s2, r1, r2, r3]
      rfl
    · intro o
      rw [dtor_obs_x t b1 hn h i o hi]
      by_cases ho : o < ceil256 t.num_qubits
      · simp only [ho, decide_True, Bool.true_and]
        by_cases e : o = q
        · subst e
          rw [(LA _).1 _ hk (Or.inl (col_addr_div _ _ _ _ (hb i)))]
          simp only [col_step1, col_addr_div _ _ _ _ (hb i), col_addr_mod _ _ _ _ (hb i),
            if_true, r1, r2, r3]
          simp [PauliStringVal.col1]
        · rw [(LA _).2, ctor_data_col t i o h.toNat hi ho (by cases h <;> decide)]
          · simp only [PauliStringVal.col1, e, if_false, obs_x, ho, decide_True, Bool.true_and]
          · intro k _ hor
            rw [col_addr_div _ _ _ _ (hb i)] at hor
            rcases hor with e1 | e1 <;> exact e (col_word_inj ho hq e1).1
      · have e : o ≠ q := by omega
        simp [ho, PauliStringVal.col1, e, obs_x]
    · intro o
      rw [dtor_obs_z t b1 hn h i o hi]
      by_cases ho : o < ceil256 t.num_qubits
      · simp only [ho, decide_True, Bool.true_and]
        have ek : i / 256 + (2 + h.toNat) * (ceil256 t.num_qubits / 256)
            = 2 * (ceil256 t.num_qubits / 256)
              + (i / 256 + h.toNat * (ceil256 t.num_qubits / 256)) := by ring
        by_cases e : o = q
        · subst e
          rw [ek, (LA _).1 _ hk (Or.inr (col_addr_div _ _ _ _ (hb i)))]
          have ne : ¬ (o + (2 * (ceil256 t.num_qubits / 256)
              + (i / 256 + h.toNat * (ceil256 t.num_qubits / 256))) * ceil256 t.num_qubits
              = o + (i / 256 + h.toNat * (ceil256 t.num_qubits / 256)) * ceil256 t.num_qubits) := by
            intro e1
            have := (col_word_inj ho ho e1).2
            omega
          simp only [col_step1, col_addr_div _ _ _ _ (hb i), col_addr_mod _ _ _ _ (hb i),
            if_true, r1, r2, r3, ne, if_false]
          simp [PauliStringVal.col1]
        · rw [(LA _).2, ctor_data_col t i o (2 + h.toNat) hi ho (by cases h <;> decide)]
          · simp only [PauliStringVal.col1, e, if_false, obs_z, ho, decide_True, Bool.true_and]
          · intro k _ hor
            rw [col_addr_div _ _ _ _ (hb i)] at hor
            rcases hor with e1 | e1 <;> exact e (col_word_inj ho hq e1).1
      · have e : o ≠ q := by omega
        simp [ho, PauliStringVal.col1, e, obs_z]


theorem ptr_x (b : BlockTransposedTableau) (q : Nat) :
    (b.transposed_double_col_obs_ptr q).x = q := by
  show bit_address 0 q b.tableau.num_qubits X2X_QUAD true >>> 8 = q
  rw [bit_address_true_col, Nat.shiftRight_eq_div_pow]
  simp only [X2X_QUAD, col_addr]
  omega

theorem ptr_z (b : BlockTransposedTableau) (q : Nat) :
    (b.transposed_double_col_obs_ptr q).z
      = q + (2 * (ceil256 b.tableau.num_qubits / 256) + 0) * ceil256 b.tableau.num_qubits := by
  show bit_address 0 q b.tableau.num_qubits X2Z_QUAD true >>> 8 = _
  rw [bit_address_true_col, Nat.shiftRight_eq_div_pow]
  simp only [X2Z_QUAD, col_addr, Nat.zero_div, Nat.zero_add, Nat.zero_mod, Nat.add_zero]
  generalize 2 * (ceil256 b.tableau.num_qubits / 256) * ceil256 b.tableau.num_qubits = w
  omega

theorem sign_words (t : Tableau) : t.sign_num_bits >>> 8 = 2 * (ceil256 t.num_qubits / 256) := by
  rw [Nat.shiftRight_eq_div_pow, Tableau.sign_num_bits]
  have h := ceil256_div t.num_qubits
  omega

theorem word_div (w a : Nat) : (256 * w + a % 256) / 256 = w := by omega

theorem word_mod (w a : Nat) : (256 * w + a % 256) % 256 = a % 256 := by omega

theorem word_self (a : Nat) : 256 * (a / 256) + a % 256 = a := by omega

/-- A loop over `AppendState` whose body is one step of a one-target column
operation; `px` gives the x pointer at each iteration. -/
theorem run_single (body : Nat → AppendState → AppendState)
    (f : Bool → Bool → Bool → Bool × Bool × Bool) (n q K : Nat)
    (pc : TransposedPauliStringPtr) (px : Nat → Nat)
    (hstep : ∀ j d s,
      body (ceil256 n)
          { pc := pc, pt := { x := px j, z := q + (K + j) * ceil256 n }, s := j,
            data := d, sign := s }
        = { pc := pc, pt := { x := px (j + 1), z := q + (K + (j + 1)) * ceil256 n }, s := j + 1,
            data := (col_step1 f n q K j (d, s)).1, sign := (col_step1 f n q K j (d, s)).2 })
    (d s : Nat → Bool) (j : Nat) :
    for_loop (fun _ st => body (ceil256 n) st) j
        { pc := pc, pt := { x := px 0, z := q + (K + 0) * ceil256 n }, s := 0,
          data := d, sign := s }
      = { pc := pc, pt := { x := px j, z := q + (K + j) * ceil256 n }, s := j,
          data := (for_loop (col_step1 f n q K) j (d, s)).1,
          sign := (for_loop (col_step1 f n q K) j (d, s)).2 } := by
  induction j with
  | zero => rfl
  | succ j ih => rw [for_loop_succ, ih, hstep, for_loop_succ]




theorem step_H (n q K j : Nat) (hK : 0 < K * ceil256 n) (pc : TransposedPauliStringPtr)
    (d s : Nat → Bool) :
    append_H_body (ceil256 n)
        { pc := pc, pt := { x := q + j * ceil256 n, z := q + (K + j) * ceil256 n }, s := j,
          data := d, sign := s }
      = { pc := pc,
          pt := { x := q + (j + 1) * ceil256 n, z := q + (K + (j + 1)) * ceil256 n },
          s := j + 1,
          data := (col_step1 col_H n q K j (d, s)).1,
          sign := (col_step1 col_H n q K j (d, s)).2 } := by
  have ne : q + j * ceil256 n ≠ q + (K + j) * ceil256 n := by
    rw [Nat.add_mul]; omega
  simp only [append_H_body]
  congr 1
  · congr 1 <;> ring
  · funext a
    simp only [col_step1, col_H, u256_store, u256_load, col_addr]
    split_ifs with h1 h2 h2
    · exact absurd (h2.symm.trans h1) ne
    · rfl
    · rfl
    · rfl
  · funext a
    simp only [col_step1, col_H, u256_store, u256_load, col_addr, word_div, word_mod, ne,
      Ne.symm ne, if_true, if_false]


theorem step_H_YZ (n q K j : Nat) (hK : 0 < K * ceil256 n) (pc : TransposedPauliStringPtr)
    (d s : Nat → Bool) :
    append_H_YZ_body (ceil256 n)
        { pc := pc, pt := { x := q + j * ceil256 n, z := q + (K + j) * ceil256 n }, s := j,
          data := d, sign := s }
      = { pc := pc,
          pt := { x := q + (j + 1) * ceil256 n, z := q + (K + (j + 1)) * ceil256 n },
          s := j + 1,
          data := (col_step1 col_H_YZ n q K j (d, s)).1,
          sign := (col_step1 col_H_YZ n q K j (d, s)).2 } := by
  have ne : q + j * ceil256 n ≠ q + (K + j) * ceil256 n := by
    rw [Nat.add_mul]; omega
  simp only [append_H_YZ_body]
  congr 1
  · congr 1 <;> ring
  · funext a
    simp only [col_step1, col_H_YZ, u256_store, u256_load, col_addr]
    split_ifs with h1 h2
    · rfl
    · rw [← h2, word_self]
    · rfl

theorem step_X (n q K j : Nat) (pc : TransposedPauliStringPtr)
    (d s : Nat → Bool) :
    append_X_body (ceil256 n)
        { pc := pc, pt := { x := q, z := q + (K + j) * ceil256 n }, s := j,
          data := d, sign := s }
      = { pc := pc,
          pt := { x := q, z := q + (K + (j + 1)) * ceil256 n },
          s := j + 1,
          data := (col_step1 col_X n q K j (d, s)).1,
          sign := (col_step1 col_X n q K j (d, s)).2 } := by
  simp only [append_X_body]
  congr 1
  · congr 1; ring
  · funext a
    simp only [col_step1, col_X, u256_store, u256_load, col_addr]
    split_ifs with h1 h2
    · rw [← h1, word_self]
    · rw [← h2, word_self]
    · rfl

/-- The scope after a one-target column operation whose loop body is `body`. -/
theorem run_loop_single (b : BlockTransposedTableau)
    (body : Nat → AppendState → AppendState)
    (f : Bool → Bool → Bool → Bool × Bool × Bool) (q : Nat) (px : Nat → Nat) (hpx : px 0 = q)
    (hstep : ∀ j d s,
      body (ceil256 b.tableau.num_qubits)
          { pc := b.transposed_double_col_obs_ptr q,
            pt := { x := px j,
                    z := q + (2 * (ceil256 b.tableau.num_qubits / 256) + j)
                      * ceil256 b.tableau.num_qubits },
            s := j, data := d, sign := s }
        = { pc := b.transposed_double_col_obs_ptr q,
            pt := { x := px (j + 1),
                    z := q + (2 * (ceil256 b.tableau.num_qubits / 256) + (j + 1))
                      * ceil256 b.tableau.num_qubits },
            s := j + 1,
            data := (col_step1 f b.tableau.num_qubits q
              (2 * (ceil256 b.tableau.num_qubits / 256)) j (d, s)).1,
            sign := (col_step1 f b.tableau.num_qubits q
              (2 * (ceil256 b.tableau.num_qubits / 256)) j (d, s)).2 }) :
    (b.run_loop body (b.transposed_double_col_obs_ptr q)
        (b.transposed_double_col_obs_ptr q)).tableau
      = { b.tableau with
          data_x2x_z2x_x2z_z2z :=
            (for_loop (col_step1 f b.tableau.num_qubits q
              (2 * (ceil256 b.tableau.num_qubits / 256)))
              (2 * (ceil256 b.tableau.num_qubits / 256))
              (b.tableau.data_x2x_z2x_x2z_z2z, b.tableau.data_sign_x_z)).1,
          data_sign_x_z :=
            (for_loop (col_step1 f b.tableau.num_qubits q
              (2 * (ceil256 b.tableau.num_qubits / 256)))
              (2 * (ceil256 b.tableau.num_qubits / 256))
              (b.tableau.data_x2x_z2x_x2z_z2z, b.tableau.data_sign_x_z)).2 } := by
  have hp : b.transposed_double_col_obs_ptr q
      = { x := px 0,
          z := q + (2 * (ceil256 b.tableau.num_qubits / 256) + 0)
            * ceil256 b.tableau.num_qubits } := by
    have h1 := ptr_x b q
    have h2 := ptr_z b q
    rw [hpx]
    cases hc : b.transposed_double_col_obs_ptr q with
    | mk x z =>
      rw [hc] at h1 h2
      simp only at h1 h2
      rw [h1, h2]
  simp only [BlockTransposedTableau.run_loop, sign_words, column_stride256]
  have key := run_single body f b.tableau.num_qubits q
    (2 * (ceil256 b.tableau.num_qubits / 256)) (b.transposed_double_col_obs_ptr q) px hstep
    b.tableau.data_x2x_z2x_x2z_z2z b.tableau.data_sign_x_z
    (2 * (ceil256 b.tableau.num_qubits / 256))
  rw [← hp] at key
  rw [key]


theorem ctor_num_qubits_scope (t : Tableau) :
    (BlockTransposedTableau.ctor t).tableau.num_qubits = t.num_qubits := rfl

theorem ctor_sign_scope (t : Tableau) :
    (BlockTransposedTableau.ctor t).tableau.data_sign_x_z = t.data_sign_x_z := rfl

theorem words_pos {q n : Nat} (hq : q < ceil256 n) :
    0 < 2 * (ceil256 n / 256) * ceil256 n := by
  have := ceil256_div n
  have h1 : 0 < ceil256 n / 256 := by omega
  have h2 : 0 < ceil256 n := by omega
  positivity

theorem append_H_dtor (t : Tableau) (q : Nat) (hq : q < ceil256 t.num_qubits) :
    ((BlockTransposedTableau.ctor t).append_H q).dtor.outside = t.outside ∧
    ∀ (h : Bool) (i : Nat), i < ceil256 t.num_qubits →
      ((BlockTransposedTableau.ctor t).append_H q).dtor.obs h i = (t.obs h i).col1 col_H q := by
  have e := run_loop_single (BlockTransposedTableau.ctor t) append_H_body col_H q
    (fun j => q + j * ceil256 t.num_qubits) (by simp)
    (fun j d s => step_H t.num_qubits q _ j (words_pos hq) _ d s)
  apply single_dtor_obs t col_H q hq ((BlockTransposedTableau.ctor t).append_H q) rfl
  · show ((BlockTransposedTableau.ctor t).run_loop append_H_body _ _).tableau.data_x2x_z2x_x2z_z2z
      = _
    rw [e]; rfl
  · show ((BlockTransposedTableau.ctor t).run_loop append_H_body _ _).tableau.data_sign_x_z = _
    rw [e]; rfl

theorem append_H_YZ_dtor (t : Tableau) (q : Nat) (hq : q < ceil256 t.num_qubits) :
    ((BlockTransposedTableau.ctor t).append_H_YZ q).dtor.outside = t.outside ∧
    ∀ (h : Bool) (i : Nat), i < ceil256 t.num_qubits →
      ((BlockTransposedTableau.ctor t).append_H_YZ q).dtor.obs h i
        = (t.obs h i).col1 col_H_YZ q := by
  have e := run_loop_single (BlockTransposedTableau.ctor t) append_H_YZ_body col_H_YZ q
    (fun j => q + j * ceil256 t.num_qubits) (by simp)
    (fun j d s => step_H_YZ t.num_qubits q _ j (words_pos hq) _ d s)
  apply single_dtor_obs t col_H_YZ q hq ((BlockTransposedTableau.ctor t).append_H_YZ q) rfl
  · show ((BlockTransposedTableau.ctor t).run_loop append_H_YZ_body _ _
      ).tableau.data_x2x_z2x_x2z_z2z = _
    rw [e]; rfl
  · show ((BlockTransposedTableau.ctor t).run_loop append_H_YZ_body _ _).tableau.data_sign_x_z
      = _
    rw [e]; rfl

theorem append_X_dtor (t : Tableau) (q : Nat) (hq : q < ceil256 t.num_qubits) :
    ((BlockTransposedTableau.ctor t).append_X q).dtor.outside = t.outside ∧
    ∀ (h : Bool) (i : Nat), i < ceil256 t.num_qubits →
      ((BlockTransposedTableau.ctor t).append_X q).dtor.obs h i = (t.obs h i).col1 col_X q := by
  have e := run_loop_single (BlockTransposedTableau.ctor t) append_X_body col_X q
    (fun _ => q) rfl
    (fun j d s => step_X t.num_qubits q _ j _ d s)
  apply single_dtor_obs t col_X q hq ((BlockTransposedTableau.ctor t).append_X q) rfl
  · show ((BlockTransposedTableau.ctor t).run_loop append_X_body _ _).tableau.data_x2x_z2x_x2z_z2z
      = _
    rw [e]; rfl
  · show ((BlockTransposedTableau.ctor t).run_loop append_X_body _ _).tableau.data_sign_x_z = _
    rw [e]; rfl

/-! ### Column operations on two columns -/

theorem col_loop2 (f : Bool → Bool → Bool → Bool → Bool → Bool × Bool × Bool × Bool × Bool)
    (n c tg K : Nat) (hc : c < ceil256 n) (htg : tg < ceil256 n)
    (st0 : (Nat → Bool) × (Nat → Bool)) :
    (∀ a, (∀ k, k < K →
        ((a / 256 = c + k * ceil256 n ∨ a / 256 = c + (K + k) * ceil256 n) ∨
          (a / 256 = tg + k * ceil256 n ∨ a / 256 = tg + (K + k) * ceil256 n)) →
        (for_loop (col_step2 f n c tg K) K st0).1 a = (col_step2 f n c tg K k st0).1 a) ∧
      ((∀ k, k < K →
        ¬ ((a / 256 = c + k * ceil256 n ∨ a / 256 = c + (K + k) * ceil256 n) ∨
          (a / 256 = tg + k * ceil256 n ∨ a / 256 = tg + (K + k) * ceil256 n))) →
        (for_loop (col_step2 f n c tg K) K st0).1 a = st0.1 a)) ∧
    (∀ a, (∀ k, k < K → a / 256 = k →
        (for_loop (col_step2 f n c tg K) K st0).2 a = (col_step2 f n c tg K k st0).2 a) ∧
      ((∀ k, k < K → ¬ a / 256 = k) →
        (for_loop (col_step2 f n c tg K) K st0).2 a = st0.2 a)) := by
  apply loop_footprint (col_step2 f n c tg K)
    (fun k a => (a / 256 = c + k * ceil256 n ∨ a / 256 = c + (K + k) * ceil256 n) ∨
      (a / 256 = tg + k * ceil256 n ∨ a / 256 = tg + (K + k) * ceil256 n))
    (fun k a => a / 256 = k) K
  · intro k k1 a hk hk1 h h1
    rcases h with (h | h) | (h | h) <;> rcases h1 with (h1 | h1) | (h1 | h1) <;>
      first
        | exact (by have h2 := (col_word_inj hc hc (h.symm.trans h1)).2; omega)
        | exact (by have h2 := (col_word_inj hc htg (h.symm.trans h1)).2; omega)
        | exact (by have h2 := (col_word_inj htg hc (h.symm.trans h1)).2; omega)
        | exact (by have h2 := (col_word_inj htg htg (h.symm.trans h1)).2; omega)
  · intro k k1 a hk hk1 h h1
    omega
  · intro k st a h
    simp only [not_or] at h
    simp only [col_step2, h.1.1, h.1.2, h.2.1, h.2.2, if_false]
  · intro k st a h
    simp only [col_step2, h, if_false]
  · intro k st st1 hA hB
    have hb : ∀ a : Nat, a % 256 < 256 := fun a => Nat.mod_lt _ (by norm_num)
    have e1 : ∀ b, b < 256 → st.1 (col_addr n c k b) = st1.1 (col_addr n c k b) := fun b hb =>
      hA _ (Or.inl (Or.inl (col_addr_div n c k b hb)))
    have e2 : ∀ b, b < 256 → st.1 (col_addr n c (K + k) b) = st1.1 (col_addr n c (K + k) b) :=
      fun b hb => hA _ (Or.inl (Or.inr (col_addr_div n c (K + k) b hb)))
    have e3 : ∀ b, b < 256 → st.1 (col_addr n tg k b) = st1.1 (col_addr n tg k b) := fun b hb =>
      hA _ (Or.inr (Or.inl (col_addr_div n tg k b hb)))
    have e4 : ∀ b, b < 256 → st.1 (col_addr n tg (K + k) b) = st1.1 (col_addr n tg (K + k) b) :=
      fun b hb => hA _ (Or.inr (Or.inr (col_addr_div n tg (K + k) b hb)))
    have e5 : ∀ b, b < 256 → st.2 (256 * k + b) = st1.2 (256 * k + b) := fun b hb =>
      hB _ (by omega)
    constructor
    · intro a ha
      simp only [col_step2, e1 _ (hb a), e2 _ (hb a), e3 _ (hb a), e4 _ (hb a), e5 _ (hb a)]
      rcases ha with (ha | ha) | (ha | ha) <;> simp only [ha, if_true]
    · intro a ha
      simp only [col_step2, e1 _ (hb a), e2 _ (hb a), e3 _ (hb a), e4 _ (hb a), e5 _ (hb a), ha,
        if_true]
  · exact Nat.le_refl K


theorem col_word_ne {m o kk o1 kk1 : Nat} (ho : o < m) (ho1 : o1 < m)
    (h : o ≠ o1 ∨ kk ≠ kk1) : o + kk * m ≠ o1 + kk1 * m := by
  intro e
  obtain ⟨e1, e2⟩ := col_word_inj ho ho1 e
  rcases h with h | h
  · exact h e1
  · exact h e2

theorem double_dtor_obs (t : Tableau)
    (f : Bool → Bool → Bool → Bool → Bool → Bool × Bool × Bool × Bool × Bool) (c tg : Nat)
    (hc : c < ceil256 t.num_qubits) (htg : tg < ceil256 t.num_qubits) (hne : c ≠ tg)
    (b1 : BlockTransposedTableau) (hn : b1.tableau.num_qubits = t.num_qubits)
    (hd : b1.tableau.data_x2x_z2x_x2z_z2z
      = (for_loop (col_step2 f t.num_qubits c tg (2 * (ceil256 t.num_qubits / 256)))
          (2 * (ceil256 t.num_qubits / 256))
          ((BlockTransposedTableau.ctor t).tableau.data_x2x_z2x_x2z_z2z, t.data_sign_x_z)).1)
    (hs : b1.tableau.data_sign_x_z
      = (for_loop (col_step2 f t.num_qubits c tg (2 * (ceil256 t.num_qubits / 256)))
          (2 * (ceil256 t.num_qubits / 256))
          ((BlockTransposedTableau.ctor t).tableau.data_x2x_z2x_x2z_z2z, t.data_sign_x_z)).2) :
    b1.dtor.outside = t.outside ∧
    ∀ (h : Bool) (i : Nat), i < ceil256 t.num_qubits →
      b1.dtor.obs h i = (t.obs h i).col2 f c tg := by
  have hm := ceil256_div t.num_qubits
  obtain ⟨LA, LB⟩ := col_loop2 f t.num_qubits c tg (2 * (ceil256 t.num_qubits / 256)) hc htg
    ((BlockTransposedTableau.ctor t).tableau.data_x2x_z2x_x2z_z2z, t.data_sign_x_z)
  rw [← hd] at LA
  rw [← hs] at LB
  dsimp only at LA LB
  have rd : ∀ (q : Nat), q < ceil256 t.num_qubits → ∀ (h : Bool) (i : Nat),
      i < ceil256 t.num_qubits →
      t.data_sign_x_z (256 * (i / 256 + h.toNat * (ceil256 t.num_qubits / 256)) + i % 256)
        = (t.obs h i).val_sign ∧
      (BlockTransposedTableau.ctor t).tableau.data_x2x_z2x_x2z_z2z
          (col_addr t.num_qubits q (i / 256 + h.toNat * (ceil256 t.num_qubits / 256)) (i % 256))
        = (t.obs h i).x_data q ∧
      (BlockTransposedTableau.ctor t).tableau.data_x2x_z2x_x2z_z2z
          (col_addr t.num_qubits q (2 * (ceil256 t.num_qubits / 256)
            + (i / 256 + h.toNat * (ceil256 t.num_qubits / 256))) (i % 256))
        = (t.obs h i).z_data q := by
    intro q hq h i hi
    obtain ⟨s1, s2⟩ := sign_addr i _ h hi hm
    refine ⟨?_, ?_, ?_⟩
    · rw [obs_sign]; congr 1; omega
    · rw [ctor_data_col t i q h.toNat hi hq (by cases h <;> decide), obs_x]
      simp [hq]
    · have e : 2 * (ceil256 t.num_qubits / 256)
          + (i / 256 + h.toNat * (ceil256 t.num_qubits / 256))
          = i / 256 + (2 + h.toNat) * (ceil256 t.num_qubits / 256) := by ring
      rw [e, ctor_data_col t i q (2 + h.toNat) hi hq (by cases h <;> decide), obs_z]
      simp [hq]
  have hb : ∀ i : Nat, i % 256 < 256 := fun i => Nat.mod_lt _ (by norm_num)
  have hne1 : tg ≠ c := fun e => hne e.symm
  constructor
  · apply dtor_outside t b1 hn
    · intro a ha
      rw [(LA a).2, ctor_data_outside t a ha]
      intro k hk hor
      have : a / 256 < 4 * (ceil256 t.num_qubits / 256) * ceil256 t.num_qubits := by
        rcases hor with (e | e) | (e | e) <;> rw [e] <;> nlinarith
      have h2 : ceil256 t.num_qubits * ceil256 t.num_qubits * 4
          = 256 * (4 * (ceil256 t.num_qubits / 256) * ceil256 t.num_qubits) := by
        generalize ceil256 t.num_qubits / 256 = M at hm ⊢
        rw [← hm]
        ring
      omega
    · intro a ha
      rw [(LB a).2]
      intro k hk
      omega
  · intro h i hi
    have hk := row_block_lt h hi hm
    obtain ⟨s1, s2⟩ := sign_addr i _ h hi hm
    obtain ⟨r1, r2, r3⟩ := rd c hc h i hi
    obtain ⟨-, r4, r5⟩ := rd tg htg h i hi
    have hK : 2 * (ceil256 t.num_qubits / 256)
        + (i / 256 + h.toNat * (ceil256 t.num_qubits / 256))
        ≠ i / 256 + h.toNat * (ceil256 t.num_qubits / 256) := by omega
    apply PauliStringVal.ext_iff4
    · rw [obs_size, dtor_num_qubits t b1 hn]; exact (obs_size t h i).symm
    · rw [dtor_obs_sign t b1 hn, (LB _).1 _ hk s1]
      simp only [col_step2, s1, if_true, s2, r1, r2, r3, r4, r5]
      rfl
    · intro o
      rw [dtor_obs_x t b1 hn h i o hi]
      by_cases ho : o < ceil256 t.num_qubits
      · simp only [ho, decide_True, Bool.true_and]
        by_cases e : o = c
        · subst e
          rw [(LA _).1 _ hk (Or.inl (Or.inl (col_addr_div _ _ _ _ (hb i))))]
          simp only [col_step2, col_addr_div _ _ _ _ (hb i), col_addr_mod _ _ _ _ (hb i),
            if_true, r1, r2, r3, r4, r5]
          simp [PauliStringVal.col2]
        · by_cases e1 : o = tg
          · subst e1
            rw [(LA _).1 _ hk (Or.inr (Or.inl (col_addr_div _ _ _ _ (hb i))))]
            simp only [col_step2, col_addr_div _ _ _ _ (hb i), col_addr_mod _ _ _ _ (hb i),
              if_true, r1, r2, r3, r4, r5, col_word_ne ho hc (Or.inl e), if_false]
            simp [PauliStringVal.col2, e]
          · rw [(LA _).2, ctor_data_col t i o h.toNat hi ho (by cases h <;> decide)]
            · simp only [PauliStringVal.col2, e, e1, if_false, obs_x, ho, decide_True,
                Bool.true_and]
            · intro k _ hor
              rw [col_addr_div _ _ _ _ (hb i)] at hor
              rcases hor with (e2 | e2) | (e2 | e2)
              · exact e (col_word_inj ho hc e2).1
              · exact e (col_word_inj ho hc e2).1
              · exact e1 (col_word_inj ho htg e2).1
              · exact e1 (col_word_inj ho htg e2).1
      · have e : o ≠ c := by omega
        have e1 : o ≠ tg := by omega
        simp [ho, PauliStringVal.col2, e, e1, obs_x]
    · intro o
      rw [dtor_obs_z t b1 hn h i o hi]
      by_cases ho : o < ceil256 t.num_qubits
      · simp only [ho, decide_True, Bool.true_and]
        have ek : i / 256 + (2 + h.toNat) * (ceil256 t.num_qubits / 256)
            = 2 * (ceil256 t.num_qubits / 256)
              + (i / 256 + h.toNat * (ceil256 t.num_qubits / 256)) := by ring
        by_cases e : o = c
        · subst e
          rw [ek, (LA _).1 _ hk (Or.inl (Or.inr (col_addr_div _ _ _ _ (hb i))))]
          simp only [col_step2, col_addr_div _ _ _ _ (hb i), col_addr_mod _ _ _ _ (hb i),
            if_true, r1, r2, r3, r4, r5, col_word_ne ho ho (Or.inr hK), if_false]
          simp [PauliStringVal.col2]
        · by_cases e1 : o = tg
          · subst e1
            rw [ek, (LA _).1 _ hk (Or.inr (Or.inr (col_addr_div _ _ _ _ (hb i))))]
            simp only [col_step2, col_addr_div _ _ _ _ (hb i), col_addr_mod _ _ _ _ (hb i),
              if_true, r1, r2, r3, r4, r5, col_word_ne ho hc (Or.inl e),
              col_word_ne ho ho (Or.inr hK), if_false]
            simp [PauliStringVal.col2, e]
          · rw [(LA _).2, ctor_data_col t i o (2 + h.toNat) hi ho (by cases h <;> decide)]
            · simp only [PauliStringVal.col2, e, e1, if_false, obs_z, ho, decide_True,
                Bool.true_and]
            · intro k _ hor
              rw [col_addr_div _ _ _ _ (hb i)] at hor
              rcases hor with (e2 | e2) | (e2 | e2)
              · exact e (col_word_inj ho hc e2).1
              · exact e (col_word_inj ho hc e2).1
              · exact e1 (col_word_inj ho htg e2).1
              · exact e1 (col_word_inj ho htg e2).1
      · have e : o ≠ c := by omega
        have e1 : o ≠ tg := by omega
        simp [ho, PauliStringVal.col2, e, e1, obs_z]


theorem step_CX (n c tg K j : Nat) (hc : c < ceil256 n) (htg : tg < ceil256 n) (hne : c ≠ tg)
    (hK : 0 < K) (d s : Nat → Bool) :
    append_CX_body (ceil256 n)
        { pc := { x := c + j * ceil256 n, z := c + (K + j) * ceil256 n },
          pt := { x := tg + j * ceil256 n, z := tg + (K + j) * ceil256 n },
          s := j, data := d, sign := s }
      = { pc := { x := c + (j + 1) * ceil256 n, z := c + (K + (j + 1)) * ceil256 n },
          pt := { x := tg + (j + 1) * ceil256 n, z := tg + (K + (j + 1)) * ceil256 n },
          s := j + 1,
          data := (col_step2 col_CX n c tg K j (d, s)).1,
          sign := (col_step2 col_CX n c tg K j (d, s)).2 } := by
  have hKj : K + j ≠ j := by omega
  have hjK : j ≠ K + j := by omega
  have hne1 : tg ≠ c := fun e => hne e.symm
  have n1 := @col_word_ne (ceil256 n) c (K + j) tg j hc htg (Or.inl hne)
  have n2 := @col_word_ne (ceil256 n) c (K + j) c j hc hc (Or.inr hKj)
  have n3 := @col_word_ne (ceil256 n) tg j c (K + j) htg hc (Or.inl hne1)
  have n4 := @col_word_ne (ceil256 n) tg j c j htg hc (Or.inl hne1)
  have n5 := @col_word_ne (ceil256 n) tg (K + j) c (K + j) htg hc (Or.inl hne1)
  have n6 := @col_word_ne (ceil256 n) c j tg j hc htg (Or.inl hne)
  simp only [append_CX_body]
  congr 1
  · congr 1 <;> ring
  · congr 1 <;> ring
  · funext a
    simp only [col_step2, col_CX, u256_store, u256_load, col_addr, word_div, word_mod, n1, n2,
      n3, n4, n5, n6, if_false]
    split_ifs <;>
      first
        | rfl
        | (exfalso; omega)
        | (apply congrArg d; omega)


theorem run_double (n c tg K : Nat) (hc : c < ceil256 n) (htg : tg < ceil256 n) (hne : c ≠ tg)
    (hK : 0 < K) (d s : Nat → Bool) (j : Nat) :
    for_loop (fun _ st => append_CX_body (ceil256 n) st) j
        { pc := { x := c + 0 * ceil256 n, z := c + (K + 0) * ceil256 n },
          pt := { x := tg + 0 * ceil256 n, z := tg + (K + 0) * ceil256 n },
          s := 0, data := d, sign := s }
      = { pc := { x := c + j * ceil256 n, z := c + (K + j) * ceil256 n },
          pt := { x := tg + j * ceil256 n, z := tg + (K + j) * ceil256 n },
          s := j,
          data := (for_loop (col_step2 col_CX n c tg K) j (d, s)).1,
          sign := (for_loop (col_step2 col_CX n c tg K) j (d, s)).2 } := by
  induction j with
  | zero => rfl
  | succ j ih => rw [for_loop_succ, ih, step_CX n c tg K j hc htg hne hK, for_loop_succ]

theorem ptr_eq (b : BlockTransposedTableau) (q : Nat) :
    b.transposed_double_col_obs_ptr q
      = { x := q + 0 * ceil256 b.tableau.num_qubits,
          z := q + (2 * (ceil256 b.tableau.num_qubits / 256) + 0)
            * ceil256 b.tableau.num_qubits } := by
  have h1 := ptr_x b q
  have h2 := ptr_z b q
  cases hc : b.transposed_double_col_obs_ptr q with
  | mk x z =>
    rw [hc] at h1 h2
    simp only at h1 h2
    rw [h1, h2]
    simp

theorem append_CX_dtor (t : Tableau) (c tg : Nat) (hc : c < ceil256 t.num_qubits)
    (htg : tg < ceil256 t.num_qubits) (hne : c ≠ tg) :
    ((BlockTransposedTableau.ctor t).append_CX c tg).dtor.outside = t.outside ∧
    ∀ (h : Bool) (i : Nat), i < ceil256 t.num_qubits →
      ((BlockTransposedTableau.ctor t).append_CX c tg).dtor.obs h i
        = (t.obs h i).col2 col_CX c tg := by
  have hm := ceil256_div t.num_qubits
  have hK : 0 < 2 * (ceil256 t.num_qubits / 256) := by omega
  have e : ((BlockTransposedTableau.ctor t).append_CX c tg).tableau
      = { (BlockTransposedTableau.ctor t).tableau with
          data_x2x_z2x_x2z_z2z :=
            (for_loop (col_step2 col_CX t.num_qubits c tg (2 * (ceil256 t.num_qubits / 256)))
              (2 * (ceil256 t.num_qubits / 256))
              ((BlockTransposedTableau.ctor t).tableau.data_x2x_z2x_x2z_z2z,
                t.data_sign_x_z)).1,
          data_sign_x_z :=
            (for_loop (col_step2 col_CX t.num_qubits c tg (2 * (ceil256 t.num_qubits / 256)))
              (2 * (ceil256 t.num_qubits / 256))
              ((BlockTransposedTableau.ctor t).tableau.data_x2x_z2x_x2z_z2z,
                t.data_sign_x_z)).2 } := by
    simp only [BlockTransposedTableau.append_CX, BlockTransposedTableau.run_loop, sign_words,
      column_stride256, ptr_eq, ctor_num_qubits_scope]
    rw [run_double t.num_qubits c tg _ hc htg hne hK]
    rfl
  apply double_dtor_obs t col_CX c tg hc htg hne
    ((BlockTransposedTableau.ctor t).append_CX c tg) rfl
  · rw [e]
  · rw [e]

/-! ## The index of `sample_qmallows` from the computed logarithm -/

/-- The model with exact arithmetic is the case in which `log2` returns a value
with the ceiling of the exact logarithm. -/
theorem step_of_log_eq (u l : ℚ) (s : QMallowsState)
    (h : Int.ceil l
      = ceil_log2 (u + (1 - u) * (4 : ℚ) ^ (-(s.remaining_indices.length : Int)))) :
    sample_qmallows_step_of_log l s = sample_qmallows_step u s := by
  unfold sample_qmallows_step_of_log sample_qmallows_step qmallows_k_of_log qmallows_k
  dsimp only
  rw [h] <;> rfl

theorem find_enum_format (given : Option String) :
    (find_enum_argument 0 format_names given = none) ∨
    (find_enum_argument 0 format_names given = some 0 ∧ (given = none ∨ given = some "01")) ∨
    (find_enum_argument 0 format_names given = some 1 ∧ given = some "b8") ∨
    (find_enum_argument 0 format_names given = some 2 ∧ given = some "ptb64") := by
  cases given with
  | none => right; left; exact ⟨rfl, Or.inl rfl⟩
  | some s =>
    by_cases h0 : s = "01"
    · subst h0; right; left; exact ⟨by decide, Or.inr rfl⟩
    · by_cases h1 : s = "b8"
      · subst h1; right; right; left; exact ⟨by decide, rfl⟩
      · by_cases h2 : s = "ptb64"
        · subst h2; right; right; right; exact ⟨by decide, rfl⟩
        · left
          have : ¬ List.indexOf s format_names < format_names.length := by
            rw [List.indexOf_lt_length]
            simp [format_names, h0, h1, h2]
          simp [find_enum_argument, this]

theorem main_samples_cases (c : CommandLine) :
    (main_samples c = none) ∨ (main_samples c = some 1 ∧ (c.shots = .absent ∨ c.shots = .value 1)) ∨
    (∃ v, main_samples c = some v ∧ v ≠ 1 ∧ c.shots = .value v) := by
  unfold main_samples find_int_argument
  cases hs : c.shots with
  | absent => right; left; exact ⟨by decide, Or.inl rfl⟩
  | malformed => left; rfl
  | value v =>
    by_cases h : v < 0 ∨ ((1 <<< 30 : Nat) : Int) < v
    · left; exact if_pos h
    · by_cases h1 : v = 1
      · subst h1; right; left; exact ⟨by decide, Or.inr rfl⟩
      · right; right; exact ⟨v, if_neg h, h1, rfl⟩

/-! ## `bit_address` in 64-bit arithmetic -/

/-- When the exact address fits in 64 bits no intermediate value wraps. -/
theorem bit_address_size_t_eq (i o n quad : Nat) (transposed : Bool)
    (hn : ceil256 n < 2 ^ 64) (h : bit_address i o n quad transposed < 2 ^ 64) :
    bit_address_size_t i o n quad transposed = bit_address i o n quad transposed := by
  unfold bit_address at h
  unfold bit_address_size_t bit_address
  dsimp only at h ⊢
  rw [Nat.mod_eq_of_lt hn]
  generalize hm : ceil256 n = m at h hn ⊢
  have hs : (if transposed = true then (o &&& 255, i &&& 255) else (i &&& 255, o &&& 255)).1
      < 256 := by
    cases transposed
    · simp only [Bool.false_eq_true, if_false, and_ff]; omega
    · simp only [if_true, and_ff]; omega
  generalize (if transposed = true then (o &&& 255, i &&& 255) else (i &&& 255, o &&& 255)) = sw
    at h hs ⊢
  have h1 : sw.1 <<< 8 < 2 ^ 64 := by
    rw [Nat.shiftLeft_eq]; omega
  have h2 : (i >>> 8) * (m >>> 8) ≤ (o >>> 8 + (i >>> 8) * (m >>> 8)) <<< 16 := by
    rw [Nat.shiftLeft_eq]
    have : 0 < 2 ^ 16 := by positivity
    nlinarith
  have h3 : o >>> 8 + (i >>> 8) * (m >>> 8) ≤ (o >>> 8 + (i >>> 8) * (m >>> 8)) <<< 16 := by
    rw [Nat.shiftLeft_eq]
    have : 0 < 2 ^ 16 := by positivity
    nlinarith
  have h4 : quad * m ≤ quad * m * m ∨ m = 0 := by
    rcases Nat.eq_zero_or_pos m with e | e
    · exact Or.inr e
    · exact Or.inl (Nat.le_mul_of_pos_right _ e)
  have e1 : sw.1 <<< 8 % 2 ^ 64 = sw.1 <<< 8 := Nat.mod_eq_of_lt h1
  have e2 : (i >>> 8) * (m >>> 8) % 2 ^ 64 = (i >>> 8) * (m >>> 8) :=
    Nat.mod_eq_of_lt (by omega)
  have e3 : (o >>> 8 + (i >>> 8) * (m >>> 8)) % 2 ^ 64 = o >>> 8 + (i >>> 8) * (m >>> 8) :=
    Nat.mod_eq_of_lt (by omega)
  have e4 : (o >>> 8 + (i >>> 8) * (m >>> 8)) <<< 16 % 2 ^ 64
      = (o >>> 8 + (i >>> 8) * (m >>> 8)) <<< 16 := Nat.mod_eq_of_lt (by omega)
  have e5 : quad * m % 2 ^ 64 = quad * m := by
    rcases h4 with h4 | h4
    · exact Nat.mod_eq_of_lt (by omega)
    · subst h4; rfl
  have e6 : quad * m * m % 2 ^ 64 = quad * m * m := Nat.mod_eq_of_lt (by omega)
  rw [e1, e2, e3, e4, e5, e6]
  have e7 : ((sw.2 ||| sw.1 <<< 8) + (o >>> 8 + (i >>> 8) * (m >>> 8)) <<< 16) % 2 ^ 64
      = (sw.2 ||| sw.1 <<< 8) + (o >>> 8 + (i >>> 8) * (m >>> 8)) <<< 16 :=
    Nat.mod_eq_of_lt (by omega)
  rw [e7]
  exact Nat.mod_eq_of_lt h


theorem data_num_bits_size_t_eq (n : Nat) (hn : 4 * ceil256 n * ceil256 n < 2 ^ 64) :
    data_num_bits_size_t n = 4 * ceil256 n * ceil256 n := by
  unfold data_num_bits_size_t
  generalize ceil256 n = m at hn ⊢
  have h1 : m * m < 2 ^ 64 := by nlinarith
  have h2 : m < 2 ^ 64 := by nlinarith
  rw [Nat.mod_eq_of_lt h2, Nat.mod_eq_of_lt h1, Nat.mod_eq_of_lt (by nlinarith)]
  ring

theorem ceil256_two_pow_32 : ceil256 (2 ^ 32) = 2 ^ 32 := by
  unfold ceil256; norm_num

theorem ceil256_two_pow_31 : ceil256 (2 ^ 31) = 2 ^ 31 := by
  unfold ceil256; norm_num

theorem bit_address_size_t_wraps (quad : Nat) :
    bit_address_size_t 0 0 (2 ^ 32) quad false = 0 := by
  unfold bit_address_size_t
  dsimp only
  rw [ceil256_two_pow_32]
  have e : quad * (2 ^ 32 % 2 ^ 64) % 2 ^ 64 * (2 ^ 32 % 2 ^ 64) % 2 ^ 64 = 0 := by
    norm_num
    omega
  rw [e]
  norm_num

/-! ## Gate tables applied to literal strings -/

theorem lit1_x (s x z : Bool) (k : Nat) :
    (pauli_lit1 s x z).x_data k = (decide (k = 0) && x) := by
  cases k <;> simp [pauli_lit1]

theorem lit1_z (s x z : Bool) (k : Nat) :
    (pauli_lit1 s x z).z_data k = (decide (k = 0) && z) := by
  cases k <;> simp [pauli_lit1]

theorem lit2_x (s x0 z0 x1 z1 : Bool) (k : Nat) :
    (pauli_lit2 s x0 z0 x1 z1).x_data k = ((decide (k = 0) && x0) || (decide (k = 1) && x1)) := by
  rcases k with _ | _ | k <;> simp [pauli_lit2]

theorem lit2_z (s x0 z0 x1 z1 : Bool) (k : Nat) :
    (pauli_lit2 s x0 z0 x1 z1).z_data k = ((decide (k = 0) && z0) || (decide (k = 1) && z1)) := by
  rcases k with _ | _ | k <;> simp [pauli_lit2]

theorem lit1_wf (s x z : Bool) : (pauli_lit1 s x z).wf 1 := by
  refine ⟨rfl, fun k hk => ?_⟩
  have : k ≠ 0 := by rw [ceil256_one] at hk; omega
  simp [lit1_x, lit1_z, this]

theorem lit2_wf (s x0 z0 x1 z1 : Bool) : (pauli_lit2 s x0 z0 x1 z1).wf 2 := by
  refine ⟨rfl, fun k hk => ?_⟩
  have : k ≠ 0 := by rw [ceil256_two] at hk; omega
  have : k ≠ 1 := by rw [ceil256_two] at hk; omega
  simp [lit2_x, lit2_z, *]

theorem lit1_mul (s x z s1 x1 z1 : Bool) :
    (pauli_lit1 s x z).inplace_right_mul_returning_log_i_scalar (pauli_lit1 s1 x1 z1)
      = (pauli_lit1 (s ^^ s1) (x ^^ x1) (z ^^ z1), log_i_term x z x1 z1 % 4) := by
  have h0 : (0 : Nat) < ceil256 1 := zero_lt_ceil1
  apply Prod.ext
  · apply PauliStringVal.ext_iff4
    · rfl
    · rfl
    · intro k
      show ((pauli_lit1 s x z).x_data k ^^ (pauli_lit1 s1 x1 z1).x_data k) = _
      simp only [lit1_x]
      cases decide (k = 0) <;> simp
    · intro k
      show ((pauli_lit1 s x z).z_data k ^^ (pauli_lit1 s1 x1 z1).z_data k) = _
      simp only [lit1_z]
      cases decide (k = 0) <;> simp
  · show (popcount_below _ (ceil256 1) + 3 * popcount_below _ (ceil256 1)) % 4 = _
    rw [popcount_single _ 0 _ h0, popcount_single _ 0 _ h0]
    · simp only [lit1_x, lit1_z, decide_True, Bool.true_and, log_i_term]
    · intro k hk
      simp [lit1_x, lit1_z, hk, log_i_negative]
    · intro k hk
      simp [lit1_x, lit1_z, hk, log_i_positive]

theorem popcount_two (f : Nat → Bool) (m : Nat) (hm : 2 ≤ m) (h : ∀ k, 2 ≤ k → f k = false) :
    popcount_below f m = (f 0).toNat + (f 1).toNat := by
  rw [popcount_support f 2 m hm h]
  simp [popcount_below]

theorem lit2_mul (s x0 z0 x1 z1 s' x0' z0' x1' z1' : Bool) :
    (pauli_lit2 s x0 z0 x1 z1).inplace_right_mul_returning_log_i_scalar
        (pauli_lit2 s' x0' z0' x1' z1')
      = (pauli_lit2 (s ^^ s') (x0 ^^ x0') (z0 ^^ z0') (x1 ^^ x1') (z1 ^^ z1'),
          (log_i_term x0 z0 x0' z0' + log_i_term x1 z1 x1' z1') % 4) := by
  have h2 : 2 ≤ ceil256 2 := by rw [ceil256_two]; omega
  apply Prod.ext
  · apply PauliStringVal.ext_iff4
    · rfl
    · rfl
    · intro k
      show ((pauli_lit2 s x0 z0 x1 z1).x_data k ^^ (pauli_lit2 s' x0' z0' x1' z1').x_data k) = _
      simp only [lit2_x]
      rcases k with _ | _ | k <;> simp
    · intro k
      show ((pauli_lit2 s x0 z0 x1 z1).z_data k ^^ (pauli_lit2 s' x0' z0' x1' z1').z_data k) = _
      simp only [lit2_z]
      rcases k with _ | _ | k <;> simp
  · show (popcount_below _ (ceil256 2) + 3 * popcount_below _ (ceil256 2)) % 4 = _
    rw [popcount_two _ _ h2, popcount_two _ _ h2]
    · simp only [lit2_x, lit2_z, log_i_term]
      simp only [decide_True, Bool.true_and, Bool.false_and, Bool.or_false, Bool.false_or,
        show decide ((0 : Nat) = 1) = false from rfl, show decide ((1 : Nat) = 0) = false from rfl]
      omega
    · intro k hk
      have a0 : k ≠ 0 := by omega
      have a1 : k ≠ 1 := by omega
      simp [lit2_x, lit2_z, a0, a1, log_i_negative]
    · intro k hk
      have a0 : k ≠ 0 := by omega
      have a1 : k ≠ 1 := by omega
      simp [lit2_x, lit2_z, a0, a1, log_i_positive]

/-! ## Validity of the gate table -/

theorem lit1_anti (s x z s1 x1 z1 : Bool) :
    ((pauli_lit1 s x z).embed (ceil256 1)).anti ((pauli_lit1 s1 x1 z1).embed (ceil256 1))
      = ((x && z1) ^^ (z && x1)) := by
  simp only [PhasedPauli.anti, PauliStringVal.embed]
  rw [popcount_single _ 0 _ zero_lt_ceil1]
  · simp only [lit1_x, lit1_z, decide_True, Bool.true_and]
    cases ((x && z1) ^^ (z && x1)) <;> rfl
  · intro k hk
    simp [lit1_x, lit1_z, hk]

theorem lit2_anti (s x0 z0 x1 z1 s' x0' z0' x1' z1' : Bool) :
    ((pauli_lit2 s x0 z0 x1 z1).embed (ceil256 2)).anti
        ((pauli_lit2 s' x0' z0' x1' z1').embed (ceil256 2))
      = (((x0 && z0') ^^ (z0 && x0')) ^^ ((x1 && z1') ^^ (z1 && x1'))) := by
  have h2 : 2 ≤ ceil256 2 := by rw [ceil256_two]; omega
  simp only [PhasedPauli.anti, PauliStringVal.embed]
  rw [popcount_two _ _ h2]
  · simp only [lit2_x, lit2_z, decide_True, Bool.true_and, Bool.false_and, Bool.or_false,
      Bool.false_or, show decide ((0 : Nat) = 1) = false from rfl,
      show decide ((1 : Nat) = 0) = false from rfl]
    cases ((x0 && z0') ^^ (z0 && x0')) <;> cases ((x1 && z1') ^^ (z1 && x1')) <;> rfl
  · intro k hk
    have a0 : k ≠ 0 := by omega
    have a1 : k ≠ 1 := by omega
    simp [lit2_x, lit2_z, a0, a1]

theorem tableau1_row (a b : PauliStringVal) (ha : a.wf 1) (hb : b.wf 1) (h : Bool) :
    (tableau1 a b).row h 0 = (if h then b else a).embed (ceil256 1) := by
  cases h
  · show ((tableau1 a b).obs false 0).embed _ = _
    rw [tableau1_obs_x, clip_of_wf ha]; rfl
  · show ((tableau1 a b).obs true 0).embed _ = _
    rw [tableau1_obs_z, clip_of_wf hb]; rfl

theorem tableau1_valid (s x z s1 x1 z1 : Bool) (h : ((x && z1) ^^ (z && x1)) = true) :
    (tableau1 (pauli_lit1 s x z) (pauli_lit1 s1 x1 z1)).valid := by
  rw [valid_iff_gram]
  intro h1 q1 h2 q2 hq1 hq2
  have e1 : q1 = 0 := by rw [tableau1_num_qubits] at hq1; omega
  have e2 : q2 = 0 := by rw [tableau1_num_qubits] at hq2; omega
  subst e1; subst e2
  rw [tableau1_row _ _ (lit1_wf _ _ _) (lit1_wf _ _ _),
    tableau1_row _ _ (lit1_wf _ _ _) (lit1_wf _ _ _)]
  cases h1 <;> cases h2 <;> simp only [if_true, if_false, Bool.false_eq_true, lit1_anti]
  · cases x <;> cases z <;> rfl
  · simpa using h
  · cases x <;> cases z <;> cases x1 <;> cases z1 <;> simp_all
  · cases x1 <;> cases z1 <;> rfl

theorem tableau2_row (a b c d : PauliStringVal) (ha : a.wf 2) (hb : b.wf 2) (hc : c.wf 2)
    (hd : d.wf 2) (h : Bool) (q : Nat) (hq : q < 2) :
    (tableau2 a b c d).row h q
      = (if q = 0 then (if h then b else a) else (if h then d else c)).embed (ceil256 2) := by
  show ((tableau2 a b c d).obs h q).embed _ = _
  rw [tableau2_obs a b c d h q hq]
  congr 1
  apply clip_of_wf
  split_ifs <;> assumption

theorem tableau2_valid (sa sb sc sd : Bool) (a b c d : Bool × Bool × Bool × Bool)
    (h : sym2 a b = true ∧ sym2 c d = true ∧ sym2 a c = false ∧ sym2 a d = false ∧
      sym2 b c = false ∧ sym2 b d = false) :
    (tableau2 (pauli_lit2 sa a.1 a.2.1 a.2.2.1 a.2.2.2) (pauli_lit2 sb b.1 b.2.1 b.2.2.1 b.2.2.2)
      (pauli_lit2 sc c.1 c.2.1 c.2.2.1 c.2.2.2) (pauli_lit2 sd d.1 d.2.1 d.2.2.1 d.2.2.2)).valid := by
  obtain ⟨hab, hcd, hac, had, hbc, hbd⟩ := h
  have e : ∀ (s s' : Bool) (p q : Bool × Bool × Bool × Bool),
      ((pauli_lit2 s p.1 p.2.1 p.2.2.1 p.2.2.2).embed (ceil256 2)).anti
        ((pauli_lit2 s' q.1 q.2.1 q.2.2.1 q.2.2.2).embed (ceil256 2)) = sym2 p q :=
    fun s s' p q => lit2_anti _ _ _ _ _ _ _ _ _ _
  rw [valid_iff_gram]
  intro h1 q1 h2 q2 hq1 hq2
  rw [tableau2_num_qubits] at hq1 hq2
  rw [tableau2_row _ _ _ _ (lit2_wf _ _ _ _ _) (lit2_wf _ _ _ _ _) (lit2_wf _ _ _ _ _)
    (lit2_wf _ _ _ _ _) _ _ hq1,
    tableau2_row _ _ _ _ (lit2_wf _ _ _ _ _) (lit2_wf _ _ _ _ _) (lit2_wf _ _ _ _ _)
    (lit2_wf _ _ _ _ _) _ _ hq2]
  have e1 : q1 = 0 ∨ q1 = 1 := by omega
  have e2 : q2 = 0 ∨ q2 = 1 := by omega
  rcases e1 with e1 | e1 <;> rcases e2 with e2 | e2 <;> subst e1 <;> subst e2 <;>
    cases h1 <;> cases h2 <;>
    simp only [if_true, if_false, Bool.false_eq_true, one_ne_zero, zero_ne_one, decide_True,
      decide_False, Bool.true_and, Bool.false_and, bne_self_eq_false,
      show (false != true) = true from rfl, show (true != false) = true from rfl] <;>
    first
      | exact PhasedPauli.anti_self _
      | (rw [e]; assumption)
      | (rw [PhasedPauli.anti_symm, e]; assumption)

theorem lookup_mem {β : Type} (l : List (String × β)) (k : String) (v : β)
    (h : l.lookup k = some v) : (k, v) ∈ l := by
  induction l with
  | nil => cases h
  | cons a l ih =>
    obtain ⟨a1, a2⟩ := a
    by_cases e : k = a1
    · subst e
      simp only [List.lookup, beq_self_eq_true] at h
      cases h
      exact List.mem_cons_self _ _
    · have : (k == a1) = false := by simpa using e
      simp only [List.lookup, this] at h
      exact List.mem_cons_of_mem _ (ih h)

theorem entries_eq : GATE_TABLEAUS_entries =
    [ ("I", some (tableau1 (pauli_lit1 false true false) (pauli_lit1 false false true))),
      ("X", some (tableau1 (pauli_lit1 false true false) (pauli_lit1 true false true))),
      ("Y", some (tableau1 (pauli_lit1 true true false) (pauli_lit1 true false true))),
      ("Z", some (tableau1 (pauli_lit1 true true false) (pauli_lit1 false false true))),
      ("H", some (tableau1 (pauli_lit1 false false true) (pauli_lit1 false true false))),
      ("H_XY", some (tableau1 (pauli_lit1 false true true) (pauli_lit1 true false true))),
      ("H_XZ", some (tableau1 (pauli_lit1 false false true) (pauli_lit1 false true false))),
      ("H_YZ", some (tableau1 (pauli_lit1 true true false) (pauli_lit1 false true true))),
      ("SQRT_X", some (tableau1 (pauli_lit1 false true false) (pauli_lit1 true true true))),
      ("SQRT_X_DAG", some (tableau1 (pauli_lit1 false true false) (pauli_lit1 false true true))),
      ("SQRT_Y", some (tableau1 (pauli_lit1 true false true) (pauli_lit1 false true false))),
      ("SQRT_Y_DAG", some (tableau1 (pauli_lit1 false false true) (pauli_lit1 true true false))),
      ("SQRT_Z", some (tableau1 (pauli_lit1 false true true) (pauli_lit1 false false true))),
      ("SQRT_Z_DAG", some (tableau1 (pauli_lit1 true true true) (pauli_lit1 false false true))),
      ("S", some (tableau1 (pauli_lit1 false true true) (pauli_lit1 false false true))),
      ("S_DAG", some (tableau1 (pauli_lit1 true true true) (pauli_lit1 false false true))),
      ("CNOT", some (tableau2 (pauli_lit2 false true false true false)
        (pauli_lit2 false false true false false) (pauli_lit2 false false false true false)
        (pauli_lit2 false false true false true))),
      ("CX", some (tableau2 (pauli_lit2 false true false true false)
        (pauli_lit2 false false true false false) (pauli_lit2 false false false true false)
        (pauli_lit2 false false true false true))),
      ("CY", some (tableau2 (pauli_lit2 false true false true true)
        (pauli_lit2 false false true false false) (pauli_lit2 false false true true false)
        (pauli_lit2 false false true false true))),
      ("CZ", some (tableau2 (pauli_lit2 false true false false true)
        (pauli_lit2 false false true false false) (pauli_lit2 false false true true false)
        (pauli_lit2 false false false false true))),
      ("SWAP", some (tableau2 (pauli_lit2 false false false true false)
        (pauli_lit2 false false false false true) (pauli_lit2 false true false false false)
        (pauli_lit2 false false true false false))) ] := by
  simp only [GATE_TABLEAUS_entries,
    gate1_eq _ _ _ _ from_str_pX from_str_pZ, gate1_eq _ _ _ _ from_str_pX from_str_mZ,
    gate1_eq _ _ _ _ from_str_mX from_str_mZ, gate1_eq _ _ _ _ from_str_mX from_str_pZ,
    gate1_eq _ _ _ _ from_str_pZ from_str_pX, gate1_eq _ _ _ _ from_str_pY from_str_mZ,
    gate1_eq _ _ _ _ from_str_mX from_str_pY, gate1_eq _ _ _ _ from_str_pX from_str_mY,
    gate1_eq _ _ _ _ from_str_pX from_str_pY, gate1_eq _ _ _ _ from_str_mZ from_str_pX,
    gate1_eq _ _ _ _ from_str_pZ from_str_mX, gate1_eq _ _ _ _ from_str_pY from_str_pZ,
    gate1_eq _ _ _ _ from_str_mY from_str_pZ,
    gate2_eq _ _ _ _ _ _ _ _ from_str_pXX from_str_pZI from_str_pIX from_str_pZZ,
    gate2_eq _ _ _ _ _ _ _ _ from_str_pXY from_str_pZI from_str_pZX from_str_pZZ,
    gate2_eq _ _ _ _ _ _ _ _ from_str_pXZ from_str_pZI from_str_pZX from_str_pIZ,
    gate2_eq _ _ _ _ _ _ _ _ from_str_pIX from_str_pIZ from_str_pXI from_str_pZI]

theorem gate_lookup (name : String) (t : Tableau) (h : GATE_TABLEAUS name = some t) :
    (name, some t) ∈ GATE_TABLEAUS_entries := by
  unfold GATE_TABLEAUS at h
  cases hl : GATE_TABLEAUS_entries.lookup name with
  | none => rw [hl] at h; cases h
  | some v =>
    rw [hl] at h
    cases v with
    | none => cases h
    | some g =>
      simp only [Option.some.injEq] at h
      subst h
      exact lookup_mem _ _ _ hl

theorem gate_table_valid (name : String) (t : Tableau) (h : GATE_TABLEAUS name = some t) :
    t.valid := by
  have hm := gate_lookup name t h
  rw [entries_eq] at hm
  simp only [List.mem_cons, Prod.mk.injEq, Option.some.injEq, List.mem_singleton,
    List.not_mem_nil, or_false] at hm
  rcases hm with ⟨-, e⟩ | ⟨-, e⟩ | ⟨-, e⟩ | ⟨-, e⟩ | ⟨-, e⟩ | ⟨-, e⟩ | ⟨-, e⟩ | ⟨-, e⟩ |
    ⟨-, e⟩ | ⟨-, e⟩ | ⟨-, e⟩ | ⟨-, e⟩ | ⟨-, e⟩ | ⟨-, e⟩ | ⟨-, e⟩ | ⟨-, e⟩ | ⟨-, e⟩ | ⟨-, e⟩ |
    ⟨-, e⟩ | ⟨-, e⟩ | ⟨-, e⟩ <;> subst e <;>
    first
      | exact tableau1_valid _ _ _ _ _ _ (by decide)
      | exact tableau2_valid _ _ _ _ (_, _, _, _) (_, _, _, _) (_, _, _, _) (_, _, _, _)
          (by decide)


theorem gate_find (name : String) (t : Tableau)
    (h : GATE_TABLEAUS_entries.lookup name = some (some t)) : GATE_TABLEAUS name = some t := by
  simp only [GATE_TABLEAUS, h]

theorem GATE_S : GATE_TABLEAUS "S"
    = some (tableau1 (pauli_lit1 false true true) (pauli_lit1 false false true)) :=
  gate_find _ _ (by rw [entries_eq]; simp [List.lookup])

theorem GATE_S_DAG : GATE_TABLEAUS "S_DAG"
    = some (tableau1 (pauli_lit1 true true true) (pauli_lit1 false false true)) :=
  gate_find _ _ (by rw [entries_eq]; simp [List.lookup])

theorem GATE_H_XZ : GATE_TABLEAUS "H_XZ"
    = some (tableau1 (pauli_lit1 false false true) (pauli_lit1 false true false)) :=
  gate_find _ _ (by rw [entries_eq]; simp [List.lookup])

theorem GATE_CNOT : GATE_TABLEAUS "CNOT"
    = some (tableau2 (pauli_lit2 false true false true false)
        (pauli_lit2 false false true false false) (pauli_lit2 false false false true false)
        (pauli_lit2 false false true false true)) :=
  gate_find _ _ (by rw [entries_eq]; simp [List.lookup])

theorem GATE_SWAP : GATE_TABLEAUS "SWAP"
    = some (tableau2 (pauli_lit2 false false false true false)
        (pauli_lit2 false false false false true) (pauli_lit2 false true false false false)
        (pauli_lit2 false false true false false)) :=
  gate_find _ _ (by rw [entries_eq]; simp [List.lookup])

theorem tableau1_load (s x z s1 x1 z1 : Bool) :
    (tableau1 (pauli_lit1 s x z) (pauli_lit1 s1 x1 z1)).num_qubits = 1 ∧
    (tableau1 (pauli_lit1 s x z) (pauli_lit1 s1 x1 z1)).load
        ((tableau1 (pauli_lit1 s x z) (pauli_lit1 s1 x1 z1)).x_obs_ptr 0) = pauli_lit1 s x z ∧
    (tableau1 (pauli_lit1 s x z) (pauli_lit1 s1 x1 z1)).load
        ((tableau1 (pauli_lit1 s x z) (pauli_lit1 s1 x1 z1)).z_obs_ptr 0)
      = pauli_lit1 s1 x1 z1 := by
  refine ⟨rfl, ?_, ?_⟩
  · rw [x_obs_ptr_eq, load_obs, tableau1_obs_x, clip_of_wf (lit1_wf _ _ _)]
  · rw [z_obs_ptr_eq, load_obs, tableau1_obs_z, clip_of_wf (lit1_wf _ _ _)]

theorem single_qubit_table_holds
    (e : String × (Bool × Bool × Bool) × (Bool × Bool × Bool)) (he : e ∈ single_qubit_table) :
    ∃ t, GATE_TABLEAUS e.1 = some t ∧ t.num_qubits = 1 ∧
      t.load (t.x_obs_ptr 0) = pauli_lit1 e.2.1.1 e.2.1.2.1 e.2.1.2.2 ∧
      t.load (t.z_obs_ptr 0) = pauli_lit1 e.2.2.1 e.2.2.2.1 e.2.2.2.2 := by
  simp only [single_qubit_table, List.mem_cons, List.mem_singleton, List.not_mem_nil,
    or_false] at he
  rcases he with h | h | h | h | h | h | h | h | h | h | h | h <;> subst h
  · exact ⟨_, GATE_H, tableau1_load _ _ _ _ _ _⟩
  · exact ⟨_, GATE_H_YZ, tableau1_load _ _ _ _ _ _⟩
  · exact ⟨_, GATE_H_XY, tableau1_load _ _ _ _ _ _⟩
  · exact ⟨_, GATE_X, tableau1_load _ _ _ _ _ _⟩
  · exact ⟨_, GATE_Y, tableau1_load _ _ _ _ _ _⟩
  · exact ⟨_, GATE_Z, tableau1_load _ _ _ _ _ _⟩
  · exact ⟨_, GATE_SQRT_X, tableau1_load _ _ _ _ _ _⟩
  · exact ⟨_, GATE_SQRT_X_DAG, tableau1_load _ _ _ _ _ _⟩
  · exact ⟨_, GATE_SQRT_Y, tableau1_load _ _ _ _ _ _⟩
  · exact ⟨_, GATE_SQRT_Y_DAG, tableau1_load _ _ _ _ _ _⟩
  · exact ⟨_, GATE_SQRT_Z, tableau1_load _ _ _ _ _ _⟩
  · exact ⟨_, GATE_SQRT_Z_DAG, tableau1_load _ _ _ _ _ _⟩


/-! ## The phase assertions -/

theorem log_i_parity (a b : PauliStringVal) :
    (a.inplace_right_mul_returning_log_i_scalar b).2 % 2 = 1
      ↔ (a.embed (ceil256 a.size)).anti (b.embed (ceil256 a.size)) = true := by
  rw [← PhasedPauli.phase_parity, ← log_i_eq_phase, cast_odd_iff _ (log_i_lt a b)]

theorem and_one_eq (l : Nat) : (l &&& 1 == 0) = decide (l % 2 = 0) := by
  have : l &&& 1 = l % 2 := Nat.and_one_is_mod l
  rw [this]
  by_cases h : l % 2 = 0 <;> simp [h]

theorem mul_assign_assertion_eq (a b : PauliStringVal) :
    a.mul_assign_assertion b = a.commutes b := by
  rw [commutes_eq_anti, PauliStringVal.mul_assign_assertion, and_one_eq]
  have h := log_i_parity a b
  cases hc : (a.embed (ceil256 a.size)).anti (b.embed (ceil256 a.size))
  · have : ¬ (a.inplace_right_mul_returning_log_i_scalar b).2 % 2 = 1 := by
      rw [h, hc]; simp
    simp; omega
  · have : (a.inplace_right_mul_returning_log_i_scalar b).2 % 2 = 1 := by rw [h, hc]
    simp; omega

/-- The phase `c + log_i` of a product of two strings is even exactly when the
parity of `c` says whether they anticommute. -/
theorem phase_even (c : Nat) (a b : PauliStringVal)
    (h : decide (c % 2 = 1) = (a.embed (ceil256 a.size)).anti (b.embed (ceil256 a.size))) :
    (c + (a.inplace_right_mul_returning_log_i_scalar b).2) % 2 = 0 := by
  have hp := log_i_parity a b
  cases hc : (a.embed (ceil256 a.size)).anti (b.embed (ceil256 a.size))
  · rw [hc] at h hp
    have h1 : ¬ c % 2 = 1 := by simpa using h
    have h2 : ¬ (a.inplace_right_mul_returning_log_i_scalar b).2 % 2 = 1 := by
      rw [hp]; simp
    omega
  · rw [hc] at h hp
    have h1 : c % 2 = 1 := by simpa using h
    have h2 : (a.inplace_right_mul_returning_log_i_scalar b).2 % 2 = 1 := hp.2 rfl
    omega

theorem phase_even_at (m c : Nat) (a b : PauliStringVal) (hm : ceil256 a.size = m)
    (h : decide (c % 2 = 1) = (a.embed m).anti (b.embed m)) :
    (c + (a.inplace_right_mul_returning_log_i_scalar b).2) % 2 = 0 := by
  subst hm
  exact phase_even c a b h

theorem phase_m_even (t : Tableau) (c : Nat) (h1 : Bool) (q1 : Nat) (h2 : Bool) (q2 : Nat)
    (h : decide (c % 2 = 1) = (t.row h1 q1).anti (t.row h2 q2)) :
    t.phase_m c (t.obs_ptr h1 q1) (t.obs_ptr h2 q2) % 2 = 0 := by
  have e := phase_even c (t.obs h1 q1) (t.obs h2 q2) (by rw [obs_size]; exact h)
  show (c + ((t.obs h1 q1).inplace_right_mul_returning_log_i_scalar (t.obs h2 q2)).2) % 256 % 2 = 0
  omega


theorem getD_ne_of_nodup (idx : List Nat) (hnd : idx.Nodup) (j k : Nat) (hjk : j < k)
    (hk : k < idx.length) : idx.getD j 0 ≠ idx.getD k 0 := by
  rw [List.getD_eq_getElem _ _ (by omega), List.getD_eq_getElem _ _ hk]
  intro e
  have := (List.Nodup.getElem_inj_iff hnd).1 e
  omega

theorem getD_lt (idx : List Nat) (n : Nat) (hidx : ∀ q ∈ idx, q < n) (k : Nat)
    (hk : k < idx.length) : idx.getD k 0 < n := by
  rw [List.getD_eq_getElem _ _ hk]
  exact hidx _ (List.getElem_mem _)

section
variable (t : Tableau) (hv : t.valid) (v : PauliStringVal) (idx : List Nat)
  (hidx : ∀ q ∈ idx, q < t.num_qubits) (hnd : idx.Nodup) (hlen : v.size = idx.length)
include hv hidx hnd hlen

/-- The accumulator of `scatter_eval` commutes with every observable of a qubit
that the loop has not reached yet. -/
theorem scatter_loop_anti (s : Bool) (k : Nat) (hk : k ≤ v.size) :
    (for_loop (t.scatter_eval_step v idx) k (PauliStringVal.start t.num_qubits s)).size
      = t.num_qubits ∧
    ∀ (h : Bool) (q : Nat), q < t.num_qubits → (∀ j, j < k → idx.getD j 0 ≠ q) →
      ((for_loop (t.scatter_eval_step v idx) k (PauliStringVal.start t.num_qubits s)).embed
        (ceil256 t.num_qubits)).anti (t.row h q) = false := by
  have hg := (valid_iff_gram t).1 hv
  induction k with
  | zero =>
    refine ⟨rfl, fun h q _ _ => ?_⟩
    exact PhasedPauli.anti_scalar_left _ _
  | succ k ih =>
    obtain ⟨hs, ha⟩ := ih (by omega)
    have hkl : k < idx.length := by omega
    have hq1 := getD_lt idx _ hidx k hkl
    rw [for_loop_succ, scatter_eval_step_eq]
    generalize for_loop (t.scatter_eval_step v idx) k (PauliStringVal.start t.num_qubits s) = r
      at hs ha
    have key : ∀ (h : Bool) (q : Nat), q < t.num_qubits → (∀ j, j < k + 1 → idx.getD j 0 ≠ q) →
        (r.embed (ceil256 t.num_qubits)).anti (t.row h q) = false ∧
        ∀ h1, (t.row h1 (idx.getD k 0)).anti (t.row h q) = false := by
      intro h q hq hne
      refine ⟨ha h q hq (fun j hj => hne j (by omega)), fun h1 => ?_⟩
      rw [hg _ _ _ _ hq1 hq, decide_eq_false (hne k (by omega))]
      rfl
    split_ifs
    · refine ⟨by rw [mul_y_size, hs], fun h q hq hne => ?_⟩
      obtain ⟨k1, k2⟩ := key h q hq hne
      rw [anti_mul_y_left, embed_obs, embed_obs, k1, k2, k2]; rfl
    · refine ⟨by rw [mul_phase_size, hs], fun h q hq hne => ?_⟩
      obtain ⟨k1, k2⟩ := key h q hq hne
      rw [anti_mul_phase_left, embed_obs, k1, k2]; rfl
    · refine ⟨by rw [mul_phase_size, hs], fun h q hq hne => ?_⟩
      obtain ⟨k1, k2⟩ := key h q hq hne
      rw [anti_mul_phase_left, embed_obs, k1, k2]; rfl
    · exact ⟨hs, fun h q hq hne => ha h q hq (fun j hj => hne j (by omega))⟩

theorem scatter_eval_assertions_hold : t.scatter_eval_assertions v idx = true := by
  rw [Tableau.scatter_eval_assertions, List.all_eq_true]
  intro k hk
  have hk : k < v.size := List.mem_range.1 hk
  have hkl : k < idx.length := by omega
  have hq1 := getD_lt idx _ hidx k hkl
  obtain ⟨hs, ha⟩ := scatter_loop_anti t hv v idx hidx hnd hlen v.val_sign k (by omega)
  have hr : ∀ h, ((for_loop (t.scatter_eval_step v idx) k
      (PauliStringVal.start t.num_qubits v.val_sign)).embed (ceil256 t.num_qubits)).anti
      (t.row h (idx.getD k 0)) = false := fun h =>
    ha h _ hq1 (fun j hj => getD_ne_of_nodup idx hnd j k hj hkl)
  show t.scatter_eval_step_assertion v idx k
    (for_loop (t.scatter_eval_step v idx) k (PauliStringVal.start t.num_qubits v.val_sign)) = true
  generalize for_loop (t.scatter_eval_step v idx) k
    (PauliStringVal.start t.num_qubits v.val_sign) = r at hs hr
  have hc : ∀ h, r.commutes (t.obs h (idx.getD k 0)) = true := by
    intro h
    rw [commutes_eq_anti, hs, embed_obs, hr]; rfl
  simp only [Tableau.scatter_eval_step_assertion, PauliStringVal.get_x_bit,
    PauliStringVal.get_z_bit, x_obs_ptr_eq, z_obs_ptr_eq, load_obs, mul_assign_assertion_eq, hc]
  split_ifs
  · rw [and_one_eq]
    have hm : ceil256 r.size = ceil256 t.num_qubits := by rw [hs]
    have l1 := phase_even_at (ceil256 t.num_qubits) 0 r (t.obs false (idx.getD k 0)) hm (by
      rw [embed_obs, hr]; rfl)
    have e : ((r.inplace_right_mul_returning_log_i_scalar
        (t.obs false (idx.getD k 0))).1.embed (ceil256 t.num_qubits)).anti
          (t.row true (idx.getD k 0))
        = ((r.embed (ceil256 t.num_qubits)) * t.row false (idx.getD k 0)).anti
          (t.row true (idx.getD k 0)) := PhasedPauli.anti_congr rfl rfl rfl rfl
    have l2 := phase_even_at (ceil256 t.num_qubits) 1
      (r.inplace_right_mul_returning_log_i_scalar (t.obs false (idx.getD k 0))).1
      (t.obs true (idx.getD k 0)) hm (by
        rw [embed_obs, e, PhasedPauli.anti_mul_left, hr, anti_xz t hv _ hq1]; rfl)
    apply decide_eq_true
    generalize (r.inplace_right_mul_returning_log_i_scalar (t.obs false (idx.getD k 0))).2 = u
      at l1 ⊢
    generalize ((r.inplace_right_mul_returning_log_i_scalar
      (t.obs false (idx.getD k 0))).1.inplace_right_mul_returning_log_i_scalar
        (t.obs true (idx.getD k 0))).2 = w at l2 ⊢
    omega
  · rfl
  · rfl
  · rfl

end


theorem tableau_mul_assertion (t : Tableau) (h1 : Bool) (q1 : Nat) (h2 : Bool) (q2 : Nat) :
    t.mul_assign_assertion (t.obs_ptr h1 q1) (t.obs_ptr h2 q2)
      = !(t.row h1 q1).anti (t.row h2 q2) := by
  show (t.obs h1 q1).mul_assign_assertion (t.obs h2 q2) = _
  rw [mul_assign_assertion_eq, obs_commutes]

theorem eval_y_obs_assertion_holds (t : Tableau) (hv : t.valid) (q : Nat)
    (hq : q < t.num_qubits) : t.eval_y_obs_assertion q = true := by
  have l := phase_even_at (ceil256 t.num_qubits) 1 (t.obs false q) (t.obs true q)
    (by rw [obs_size]) (by rw [embed_obs, embed_obs, anti_xz t hv q hq]; rfl)
  show ((((t.obs false q).inplace_right_mul_returning_log_i_scalar (t.obs true q)).2 + 1) % 256
    &&& 1 == 0) = true
  rw [and_one_eq]
  apply decide_eq_true
  omega

section
variable (t : Tableau) (hv : t.valid) (c tg : Nat) (hc : c < t.num_qubits)
  (htg : tg < t.num_qubits) (hne : c ≠ tg)
include hv hc htg hne

theorem prepend_CX_assertions :
    t.mul_assign_assertion (t.z_obs_ptr tg) (t.z_obs_ptr c) = true ∧
    (t.mul_assign (t.z_obs_ptr tg) (t.z_obs_ptr c)).mul_assign_assertion
      ((t.mul_assign (t.z_obs_ptr tg) (t.z_obs_ptr c)).x_obs_ptr c)
      ((t.mul_assign (t.z_obs_ptr tg) (t.z_obs_ptr c)).x_obs_ptr tg) = true := by
  have hcc := lt_ceil hc
  have htc := lt_ceil htg
  simp only [x_obs_ptr_eq, z_obs_ptr_eq]
  rw [mul_assign_eq_with_obs t t t rfl rfl]
  constructor
  · rw [tableau_mul_assertion, anti_same t true tg c hv htg hc]; rfl
  · rw [tableau_mul_assertion]
    show (!(((t.with_obs true tg _).obs false c).embed _).anti
      (((t.with_obs true tg _).obs false tg).embed _)) = true
    rw [obs_with_obs t true tg _ htc false c hcc, obs_with_obs t true tg _ htc false tg htc]
    simp only [Bool.false_eq_true, false_and, if_false]
    exact congrArg (!·) (anti_same t false c tg hv hc htg)

theorem prepend_CZ_assertions :
    t.mul_assign_assertion (t.x_obs_ptr tg) (t.z_obs_ptr c) = true ∧
    (t.mul_assign (t.x_obs_ptr tg) (t.z_obs_ptr c)).mul_assign_assertion
      ((t.mul_assign (t.x_obs_ptr tg) (t.z_obs_ptr c)).x_obs_ptr c)
      ((t.mul_assign (t.x_obs_ptr tg) (t.z_obs_ptr c)).z_obs_ptr tg) = true := by
  have hcc := lt_ceil hc
  have htc := lt_ceil htg
  have hne1 : tg ≠ c := fun e => hne e.symm
  simp only [x_obs_ptr_eq, z_obs_ptr_eq]
  rw [mul_assign_eq_with_obs t t t rfl rfl]
  constructor
  · rw [tableau_mul_assertion, anti_ne t hv false true tg c htg hc hne1]; rfl
  · rw [tableau_mul_assertion]
    show (!(((t.with_obs false tg _).obs false c).embed _).anti
      (((t.with_obs false tg _).obs true tg).embed _)) = true
    rw [obs_with_obs t false tg _ htc false c hcc, obs_with_obs t false tg _ htc true tg htc]
    simp only [Bool.true_eq_false, false_and, hne, and_false, if_false, true_and]
    exact congrArg (!·) (anti_ne t hv false true c tg hc htg hne)

end

/-! ## The Q-Mallows sampler -/

theorem eps_pos (m : Nat) : (0 : ℚ) < (4 : ℚ) ^ (-(m : Int)) := by positivity

theorem eps_le_one (m : Nat) : (4 : ℚ) ^ (-(m : Int)) ≤ 1 := by
  rw [zpow_neg, zpow_natCast]
  exact inv_le_one_of_one_le₀ (one_le_pow₀ (by norm_num))

theorem eps_eq (m : Nat) : (4 : ℚ) ^ (-(m : Int)) = ((2 : Nat) : ℚ) ^ (-(2 * m : Int)) := by
  have h4 : (4 : ℚ) = 2 ^ (2 : Int) := by norm_num
  rw [h4, ← zpow_mul]
  congr 1
  ring

/-- The argument of the logarithm lies between `eps` and 1. -/
theorem qmallows_arg_bounds (m : Nat) (u : ℚ) (hu0 : 0 ≤ u) (hu1 : u < 1) :
    (4 : ℚ) ^ (-(m : Int)) ≤ u + (1 - u) * (4 : ℚ) ^ (-(m : Int)) ∧
    u + (1 - u) * (4 : ℚ) ^ (-(m : Int)) ≤ 1 := by
  have h1 := eps_pos m
  have h2 := eps_le_one m
  constructor <;> nlinarith

theorem qmallows_arg_gt (m : Nat) (u : ℚ) (hm : 0 < m) (hu0 : 0 < u) :
    (4 : ℚ) ^ (-(m : Int)) < u + (1 - u) * (4 : ℚ) ^ (-(m : Int)) := by
  have h2 : (4 : ℚ) ^ (-(m : Int)) < 1 := by
    rw [zpow_neg, zpow_natCast]
    exact inv_lt_one_of_one_lt₀ (one_lt_pow₀ (by norm_num) (by omega))
  nlinarith

/-- The value of `ceil(log2(x))` for the argument of one iteration. -/
theorem ceil_log2_bounds (m : Nat) (u : ℚ) (hu0 : 0 ≤ u) (hu1 : u < 1) :
    -(2 * m : Int) ≤ ceil_log2 (u + (1 - u) * (4 : ℚ) ^ (-(m : Int))) ∧
    ceil_log2 (u + (1 - u) * (4 : ℚ) ^ (-(m : Int))) ≤ 0 := by
  obtain ⟨h1, h2⟩ := qmallows_arg_bounds m u hu0 hu1
  have hp : (0 : ℚ) < u + (1 - u) * (4 : ℚ) ^ (-(m : Int)) := lt_of_lt_of_le (eps_pos m) h1
  unfold ceil_log2
  constructor
  · have : -(2 * m : Int) - 1 < Int.clog 2 (u + (1 - u) * (4 : ℚ) ^ (-(m : Int))) := by
      rw [← Int.zpow_lt_iff_lt_clog (by norm_num) hp]
      refine lt_of_lt_of_le ?_ h1
      rw [eps_eq]
      exact zpow_lt_zpow_right₀ (by norm_num) (by omega)
    omega
  · rw [← Int.le_zpow_iff_clog_le (by norm_num) hp]
    simpa using h2

theorem ceil_log2_gt (m : Nat) (u : ℚ) (hm : 0 < m) (hu0 : 0 < u) (hu1 : u < 1) :
    -(2 * m : Int) < ceil_log2 (u + (1 - u) * (4 : ℚ) ^ (-(m : Int))) := by
  have h1 := qmallows_arg_gt m u hm hu0
  have hp : (0 : ℚ) < u + (1 - u) * (4 : ℚ) ^ (-(m : Int)) := lt_trans (eps_pos m) h1
  unfold ceil_log2
  rw [← Int.zpow_lt_iff_lt_clog (by norm_num) hp, ← eps_eq]
  exact h1

/-- The index `k` is the negated `ceil(log2(x))`, at most `2 * m`. -/
theorem qmallows_k_eq (m : Nat) (u : ℚ) (hu0 : 0 ≤ u) (hu1 : u < 1) (hm : m < 2 ^ 63) :
    ((qmallows_k m u : Nat) : Int) = -(ceil_log2 (u + (1 - u) * (4 : ℚ) ^ (-(m : Int)))) ∧
    qmallows_k m u ≤ 2 * m := by
  obtain ⟨h1, h2⟩ := ceil_log2_bounds m u hu0 hu1
  unfold qmallows_k
  dsimp only
  generalize ceil_log2 (u + (1 - u) * (4 : ℚ) ^ (-(m : Int))) = c at h1 h2
  have e : (-c).toNat % 2 ^ 64 = (-c).toNat := Nat.mod_eq_of_lt (by omega)
  rw [e]
  omega

theorem qmallows_k_lt (m : Nat) (u : ℚ) (hm0 : 0 < m) (hu0 : 0 < u) (hu1 : u < 1)
    (hm : m < 2 ^ 63) : qmallows_k m u < 2 * m := by
  obtain ⟨h1, h2⟩ := qmallows_k_eq m u (le_of_lt hu0) hu1 hm
  have h3 := ceil_log2_gt m u hm0 hu0 hu1
  omega

theorem qmallows_index_lt (m : Nat) (u : ℚ) (hm0 : 0 < m) (hu0 : 0 < u) (hu1 : u < 1)
    (hm : m < 2 ^ 63) : qmallows_index m u < m := by
  have h := qmallows_k_lt m u hm0 hu0 hu1 hm
  unfold qmallows_index
  dsimp only
  generalize qmallows_k m u = k at h
  split_ifs with hk
  · have e : 2 * m + 2 ^ 64 - k - 1 = (2 * m - k - 1) + 2 ^ 64 := by omega
    rw [e, Nat.add_mod_right, Nat.mod_eq_of_lt (by omega)]
    omega
  · omega

/-- The draw `u = 0` gives `k = 2 * m`. -/
theorem qmallows_k_zero (m : Nat) (hm : m < 2 ^ 63) : qmallows_k m 0 = 2 * m := by
  unfold qmallows_k ceil_log2
  dsimp only
  have e : (0 : ℚ) + (1 - 0) * (4 : ℚ) ^ (-(m : Int)) = ((2 : Nat) : ℚ) ^ (-(2 * m : Int)) := by
    rw [← eps_eq]; ring
  rw [e, Int.clog_zpow (by norm_num)]
  have e2 : (-(-(2 * m : Int))).toNat = 2 * m := by omega
  rw [e2]
  exact Nat.mod_eq_of_lt (by omega)

theorem qmallows_index_zero (m : Nat) (hm0 : 0 < m) (hm : m < 2 ^ 63) :
    qmallows_index m 0 = 2 ^ 64 - 1 := by
  unfold qmallows_index
  dsimp only
  rw [qmallows_k_zero m hm, if_pos (by omega)]
  have e : 2 * m + 2 ^ 64 - 2 * m - 1 = 2 ^ 64 - 1 := by omega
  rw [e]
  norm_num

theorem step_eq_index (u : ℚ) (s : QMallowsState) :
    sample_qmallows_step u s =
      (s.remaining_indices.get? (qmallows_index s.remaining_indices.length u)).map fun v =>
        { hada := s.hada ++ [decide (qmallows_k s.remaining_indices.length u
            < s.remaining_indices.length)],
          permutation := s.permutation ++ [v],
          remaining_indices :=
            s.remaining_indices.eraseIdx (qmallows_index s.remaining_indices.length u) } := by
  unfold sample_qmallows_step qmallows_index
  dsimp only
  cases h : s.remaining_indices.get? _ <;> rfl

theorem eraseIdx_perm {α : Type} (l : List α) (k : Nat) (v : α) (h : l.get? k = some v) :
    (v :: l.eraseIdx k).Perm l := by
  induction l generalizing k with
  | nil => simp at h
  | cons a l ih =>
    cases k with
    | zero =>
      simp at h
      subst h
      simp
    | succ k =>
      simp at h
      have := ih k (by simpa using h)
      simp only [List.eraseIdx_cons_succ]
      exact (List.Perm.swap a v _).trans (List.Perm.cons a this)

theorem indices_range (n : Nat) : for_loop (fun k (l : List Nat) => l ++ [k]) n [] = List.range n := by
  induction n with
  | zero => rfl
  | succ n ih => rw [for_loop_succ, ih, List.range_succ]

/-- State of the loop of `sample_qmallows` after `i` iterations with draws
strictly between 0 and 1. -/
theorem sample_qmallows_loop (n : Nat) (uni : Nat → ℚ) (hn : n < 2 ^ 63)
    (hu : ∀ i, i < n → 0 < uni i ∧ uni i < 1) (i : Nat) (hi : i ≤ n) :
    ∃ s : QMallowsState,
      for_loop (fun i s => s.bind (sample_qmallows_step (uni i))) i
        (some { hada := [], permutation := [], remaining_indices := List.range n }) = some s ∧
      s.hada.length = i ∧ s.remaining_indices.length = n - i ∧
      (s.permutation ++ s.remaining_indices).Perm (List.range n) := by
  induction i with
  | zero => exact ⟨_, rfl, rfl, by simp, by simp⟩
  | succ i ih =>
    obtain ⟨s, hs, h1, h2, h3⟩ := ih (by omega)
    rw [for_loop_succ, hs, Option.some_bind, step_eq_index]
    have hlt : qmallows_index s.remaining_indices.length (uni i) < s.remaining_indices.length :=
      qmallows_index_lt _ _ (by omega) (hu i (by omega)).1 (hu i (by omega)).2 (by omega)
    obtain ⟨v, hv⟩ : ∃ v, s.remaining_indices.get? (qmallows_index s.remaining_indices.length (uni i))
        = some v := ⟨_, List.get?_eq_get hlt⟩
    rw [hv]
    refine ⟨_, rfl, by simp [h1], ?_, ?_⟩
    · show (s.remaining_indices.eraseIdx _).length = _
      rw [List.length_eraseIdx, if_pos hlt, h2]
      omega
    · refine List.Perm.trans ?_ h3
      simp only [List.append_assoc, List.singleton_append]
      exact List.Perm.append_left _ (eraseIdx_perm _ _ _ hv)

/-- In the model with exact arithmetic on the draws: with draws strictly between
0 and 1, `sample_qmallows` returns a Hadamard vector of length `n` and a
permutation of `0 .. n-1`. -/
theorem sample_qmallows_ok (n : Nat) (uni : Nat → ℚ) (hn : n < 2 ^ 63)
    (hu : ∀ i, i < n → 0 < uni i ∧ uni i < 1) :
    ∃ hada perm, sample_qmallows n uni = some (hada, perm) ∧ hada.length = n ∧
      perm.Perm (List.range n) := by
  obtain ⟨s, hs, h1, h2, h3⟩ := sample_qmallows_loop n uni hn hu n (le_refl n)
  refine ⟨s.hada, s.permutation, ?_, h1, ?_⟩
  · unfold sample_qmallows
    dsimp only
    rw [indices_range, hs]
    rfl
  · have : s.remaining_indices = [] := List.eq_nil_of_length_eq_zero (by omega)
    rw [this, List.append_nil] at h3
    exact h3

/-- The first draw `u = 0` makes `sample_qmallows` select out of range. -/
theorem sample_qmallows_zero (n : Nat) (uni : Nat → ℚ) (hn0 : 0 < n) (hn : n < 2 ^ 63)
    (h0 : uni 0 = 0) : sample_qmallows n uni = none := by
  have key : ∀ i, 1 ≤ i → for_loop (fun i s => s.bind (sample_qmallows_step (uni i))) i
      (some { hada := [], permutation := [], remaining_indices := List.range n }) = none := by
    intro i hi
    induction i with
    | zero => omega
    | succ i ih =>
      rw [for_loop_succ]
      cases i with
      | zero =>
        simp only [for_loop, Option.some_bind, step_eq_index, h0]
        rw [List.length_range, qmallows_index_zero n hn0 hn, List.get?_eq_none.2]
        · rfl
        · rw [List.length_range]; omega
      | succ i => rw [ih (by omega)]; rfl
  unfold sample_qmallows
  dsimp only
  rw [indices_range, key n hn0]
  rfl


/-- The bounds that make `k` the floor of the negated logarithm. -/
theorem qmallows_k_floor (m : Nat) (u : ℚ) (hu0 : 0 ≤ u) (hu1 : u < 1) (hm : m < 2 ^ 63) :
    (2 : ℚ) ^ (-((qmallows_k m u : Nat) : Int) - 1) < u + (1 - u) * (4 : ℚ) ^ (-(m : Int)) ∧
    u + (1 - u) * (4 : ℚ) ^ (-(m : Int)) ≤ (2 : ℚ) ^ (-((qmallows_k m u : Nat) : Int)) := by
  obtain ⟨h1, _⟩ := qmallows_k_eq m u hu0 hu1 hm
  obtain ⟨h3, _⟩ := qmallows_arg_bounds m u hu0 hu1
  have hp : (0 : ℚ) < u + (1 - u) * (4 : ℚ) ^ (-(m : Int)) := lt_of_lt_of_le (eps_pos m) h3
  rw [h1]
  unfold ceil_log2
  have a := Int.zpow_pred_clog_lt_self (b := 2) (by norm_num) hp
  have b := Int.self_le_zpow_clog (b := 2) (by norm_num) (u + (1 - u) * (4 : ℚ) ^ (-(m : Int)))
  rw [Int.neg_neg]
  constructor
  · exact_mod_cast a
  · exact_mod_cast b

/-! ## The matrices of `random_stabilizer_tableau_raw` -/

theorem set_data (m : BitMat) (row col : Nat) (b : Bool) (r c : Nat) :
    (m.set row col b).data r c = if r = row ∧ c = col then b else m.data r c := rfl

theorem set_n (m : BitMat) (row col : Nat) (b : Bool) : (m.set row col b).n = m.n := rfl

/-- A cell that no iteration of a loop writes keeps its value. -/
theorem loop_cell_none (body : Nat → BitMat → BitMat) (r c : Nat) (N : Nat) (m0 : BitMat)
    (h : ∀ k m, k < N → (body k m).data r c = m.data r c) :
    (for_loop body N m0).data r c = m0.data r c := by
  induction N with
  | zero => rfl
  | succ N ih => rw [for_loop_succ, h N _ (by omega), ih (fun k m hk => h k m (by omega))]

/-- A cell holds what the last iteration that writes it has written. -/
theorem loop_cell_at (body : Nat → BitMat → BitMat) (r c k N : Nat) (v : Bool) (hk : k < N)
    (m0 : BitMat) (hw : ∀ m, (body k m).data r c = v)
    (h : ∀ j m, k < j → j < N → (body j m).data r c = m.data r c) :
    (for_loop body N m0).data r c = v := by
  induction N with
  | zero => omega
  | succ N ih =>
    rw [for_loop_succ]
    by_cases e : k = N
    · subst e; exact hw _
    · rw [h N _ (by omega) (by omega)]
      exact ih (by omega) (fun j m h1 h2 => h j m h1 (by omega))

theorem loop_n (body : Nat → BitMat → BitMat) (N : Nat) (m0 : BitMat)
    (h : ∀ k m, (body k m).n = m.n) : (for_loop body N m0).n = m0.n := by
  induction N with
  | zero => rfl
  | succ N ih => rw [for_loop_succ, h, ih]

/-- The inner loop that fills the part of column `col` below the diagonal and
mirrors it into row `col`. -/
theorem fill_mirror_data (n col : Nat) (f : Nat → Bool) (m : BitMat) (r c : Nat) :
    (for_loop_from (fun row (s : BitMat) => (s.set row col (f row)).set col row (f row))
      (col + 1) n m).data r c
      = if col < r ∧ r < n ∧ c = col then f r
        else if r = col ∧ col < c ∧ c < n then f c else m.data r c := by
  unfold for_loop_from
  by_cases h1 : col < r ∧ r < n ∧ c = col
  · rw [if_pos h1]
    obtain ⟨h1, h2, h3⟩ := h1
    apply loop_cell_at _ r c (r - (col + 1)) _ _ (by omega)
    · intro s
      have e : col + 1 + (r - (col + 1)) = r := by omega
      rw [e, set_data, set_data, if_neg (by omega), if_pos ⟨rfl, h3⟩]
    · intro j s hj1 hj2
      simp only [set_data]
      rw [if_neg (by omega), if_neg (by omega)]
  · rw [if_neg h1]
    by_cases h2 : r = col ∧ col < c ∧ c < n
    · rw [if_pos h2]
      obtain ⟨h2, h3, h4⟩ := h2
      apply loop_cell_at _ r c (c - (col + 1)) _ _ (by omega)
      · intro s
        have e : col + 1 + (c - (col + 1)) = c := by omega
        rw [e, set_data, if_pos ⟨h2, rfl⟩]
      · intro j s hj1 hj2
        simp only [set_data]
        rw [if_neg (by omega), if_neg (by omega)]
    · rw [if_neg h2]
      apply loop_cell_none
      intro k s hk
      simp only [set_data]
      rw [if_neg (by omega), if_neg (by omega)]

/-- The inner loop that fills the part of column `col` below the diagonal. -/
theorem fill_lower_data (n col : Nat) (f : Nat → Bool) (m : BitMat) (r c : Nat) :
    (for_loop_from (fun row (s : BitMat) => s.set row col (f row)) (col + 1) n m).data r c
      = if col < r ∧ r < n ∧ c = col then f r else m.data r c := by
  unfold for_loop_from
  by_cases h1 : col < r ∧ r < n ∧ c = col
  · rw [if_pos h1]
    obtain ⟨h1, h2, h3⟩ := h1
    apply loop_cell_at _ r c (r - (col + 1)) _ _ (by omega)
    · intro s
      have e : col + 1 + (r - (col + 1)) = r := by omega
      rw [e, set_data, if_pos ⟨rfl, h3⟩]
    · intro j s hj1 hj2
      simp only [set_data]
      rw [if_neg (by omega)]
  · rw [if_neg h1]
    apply loop_cell_none
    intro k s hk
    simp only [set_data]
    rw [if_neg (by omega)]

/-- The two nested loops that fill a symmetric matrix: the diagonal with `dg`
and the entries `(row, col)` and `(col, row)`, `row > col`, with `f row col`. -/
theorem fill_symmetric_data (n : Nat) (dg : Nat → Bool) (f : Nat → Nat → Bool) (r c : Nat) :
    (for_loop (fun col (s : BitMat) =>
      for_loop_from (fun row (s : BitMat) => (s.set row col (f row col)).set col row (f row col))
        (col + 1) n (s.set col col (dg col))) n (BitMat.ctor n)).data r c
      = if r < n ∧ c < n then
          (if r = c then dg c else if c < r then f r c else f c r)
        else false := by
  by_cases h : r < n ∧ c < n
  · rw [if_pos h]
    obtain ⟨hr, hc⟩ := h
    by_cases e : r = c
    · subst e
      rw [if_pos rfl]
      apply loop_cell_at _ r r r _ _ (by omega)
      · intro s
        rw [fill_mirror_data, set_data, if_neg (by omega), if_neg (by omega), if_pos ⟨rfl, rfl⟩]
      · intro j s hj1 hj2
        rw [fill_mirror_data, set_data, if_neg (by omega), if_neg (by omega), if_neg (by omega)]
    · rw [if_neg e]
      by_cases e2 : c < r
      · rw [if_pos e2]
        apply loop_cell_at _ r c c _ _ (by omega)
        · intro s
          rw [fill_mirror_data, if_pos ⟨e2, hr, rfl⟩]
        · intro j s hj1 hj2
          rw [fill_mirror_data, set_data, if_neg (by omega), if_neg (by omega),
            if_neg (by omega)]
      · rw [if_neg e2]
        apply loop_cell_at _ r c r _ _ (by omega)
        · intro s
          rw [fill_mirror_data, if_neg (by omega), if_pos ⟨rfl, by omega, hc⟩]
        · intro j s hj1 hj2
          rw [fill_mirror_data, set_data, if_neg (by omega), if_neg (by omega),
            if_neg (by omega)]
  · rw [if_neg h]
    rw [loop_cell_none]
    · rfl
    · intro k s hk
      rw [fill_mirror_data, set_data, if_neg (by omega), if_neg (by omega), if_neg (by omega)]

/-- The two nested loops that fill the part of a matrix below its diagonal. -/
theorem fill_lower_triangle_data (n : Nat) (f : Nat → Nat → Bool) (r c : Nat) :
    (for_loop (fun col (s : BitMat) =>
      for_loop_from (fun row (s : BitMat) => s.set row col (f row col)) (col + 1) n s)
      n (BitMat.identity n)).data r c
      = if c < r ∧ r < n then f r c else decide (r = c ∧ r < n) := by
  by_cases h : c < r ∧ r < n
  · rw [if_pos h]
    obtain ⟨hr, hc⟩ := h
    apply loop_cell_at _ r c c _ _ (by omega)
    · intro s
      rw [fill_lower_data, if_pos ⟨hr, hc, rfl⟩]
    · intro j s hj1 hj2
      rw [fill_lower_data, if_neg (by omega)]
  · rw [if_neg h]
    rw [loop_cell_none]
    · rfl
    · intro k s hk
      rw [fill_lower_data, if_neg (by omega)]

theorem mask_symmetric_m_eq (hada : List Bool) (perm : List Nat) (row col : Nat) :
    ((hada.getD row false && hada.getD col false
      || (decide (hada.getD row false > hada.getD col false)
        && decide (perm.getD row 0 < perm.getD col 0)))
      || (decide (hada.getD row false < hada.getD col false)
        && decide (perm.getD row 0 > perm.getD col 0)))
    = mask_symmetric_m hada perm row col := by
  unfold mask_symmetric_m
  cases hada.getD row false <;> cases hada.getD col false <;> simp

theorem mask_lower_m_eq (hada : List Bool) (perm : List Nat) (row col : Nat) :
    ((decide (hada.getD row false < hada.getD col false)
      || (hada.getD row false && hada.getD col false
        && decide (perm.getD row 0 > perm.getD col 0)))
      || (!hada.getD row false && !hada.getD col false
        && decide (perm.getD row 0 < perm.getD col 0)))
    = mask_lower_m hada perm row col := by
  unfold mask_lower_m
  cases hada.getD row false <;> cases hada.getD col false <;> simp

theorem raw_symmetric_data (n : Nat) (d : Draws) (r c : Nat) :
    (raw_symmetric n d).data r c
      = if r < n ∧ c < n then
          (if r = c then d.symmetric c c else if c < r then d.symmetric r c else d.symmetric c r)
        else false :=
  fill_symmetric_data n (fun col => d.symmetric col col) d.symmetric r c

theorem raw_symmetric_m_data (n : Nat) (hada : List Bool) (perm : List Nat) (d : Draws)
    (r c : Nat) :
    (raw_symmetric_m n hada perm d).data r c
      = if r < n ∧ c < n then
          (if r = c then d.symmetric_m c c && hada.getD c false
           else if c < r then mask_symmetric_m hada perm r c && d.symmetric_m r c
           else mask_symmetric_m hada perm c r && d.symmetric_m c r)
        else false := by
  have h := fill_symmetric_data n (fun col => d.symmetric_m col col && hada.getD col false)
    (fun row col => mask_symmetric_m hada perm row col && d.symmetric_m row col) r c
  rw [← h]
  unfold raw_symmetric_m
  simp only [mask_symmetric_m_eq]

theorem raw_lower_data (n : Nat) (d : Draws) (r c : Nat) :
    (raw_lower n d).data r c = if c < r ∧ r < n then d.lower r c else decide (r = c ∧ r < n) :=
  fill_lower_triangle_data n d.lower r c

theorem raw_lower_m_data (n : Nat) (hada : List Bool) (perm : List Nat) (d : Draws)
    (r c : Nat) :
    (raw_lower_m n hada perm d).data r c
      = if c < r ∧ r < n then mask_lower_m hada perm r c && d.lower_m r c
        else decide (r = c ∧ r < n) := by
  have h := fill_lower_triangle_data n
    (fun row col => mask_lower_m hada perm row col && d.lower_m row col) r c
  rw [← h]
  unfold raw_lower_m
  simp only [mask_lower_m_eq]

theorem fill_symmetric_symm (n : Nat) (dg : Nat → Bool) (f : Nat → Nat → Bool) (r c : Nat) :
    (if r < n ∧ c < n then (if r = c then dg c else if c < r then f r c else f c r) else false)
    = (if c < n ∧ r < n then (if c = r then dg r else if r < c then f c r else f r c)
        else false) := by
  rcases Nat.lt_trichotomy r c with h | h | h
  · rw [if_neg (show ¬ r = c by omega), if_neg (show ¬ c < r by omega),
      if_neg (show ¬ c = r by omega), if_pos h]
    by_cases h1 : r < n ∧ c < n
    · rw [if_pos h1, if_pos ⟨h1.2, h1.1⟩]
    · rw [if_neg h1, if_neg (fun h2 => h1 ⟨h2.2, h2.1⟩)]
  · subst h; rfl
  · rw [if_neg (show ¬ r = c by omega), if_pos h,
      if_neg (show ¬ c = r by omega), if_neg (show ¬ r < c by omega)]
    by_cases h1 : r < n ∧ c < n
    · rw [if_pos h1, if_pos ⟨h1.2, h1.1⟩]
    · rw [if_neg h1, if_neg (fun h2 => h1 ⟨h2.2, h2.1⟩)]

/-! ## Bit matrices over GF(2) -/

theorem bit_val_xor (a b : Bool) : bit_val (a ^^ b) = bit_val a + bit_val b := by
  cases a <;> cases b <;> decide

theorem bit_val_and (a b : Bool) : bit_val (a && b) = bit_val a * bit_val b := by
  cases a <;> cases b <;> decide

theorem bit_val_inj {a b : Bool} (h : bit_val a = bit_val b) : a = b := by
  revert h
  cases a <;> cases b <;> decide

theorem bit_val_decide (p : Prop) [Decidable p] : bit_val (decide p) = if p then 1 else 0 := by
  by_cases h : p <;> simp [h, bit_val]

theorem bit_val_xor_below (f : Nat → Bool) (n : Nat) :
    bit_val (xor_below f n) = ∑ k in Finset.range n, bit_val (f k) := by
  induction n with
  | zero => rfl
  | succ n ih => rw [xor_below, bit_val_xor, ih, Finset.sum_range_succ]

theorem xor_below_congr (f g : Nat → Bool) (n : Nat) (h : ∀ k, k < n → f k = g k) :
    xor_below f n = xor_below g n := by
  induction n with
  | zero => rfl
  | succ n ih => rw [xor_below, xor_below, ih (fun k hk => h k (by omega)), h n (by omega)]

theorem xor_below_false (f : Nat → Bool) (n : Nat) (h : ∀ k, k < n → f k = false) :
    xor_below f n = false := by
  induction n with
  | zero => rfl
  | succ n ih => rw [xor_below, ih (fun k hk => h k (by omega)), h n (by omega)]; rfl

theorem xor_below_trunc (f : Nat → Bool) (m n : Nat) (hmn : m ≤ n)
    (h : ∀ k, m ≤ k → k < n → f k = false) : xor_below f n = xor_below f m := by
  induction n with
  | zero =>
    have : m = 0 := by omega
    rw [this]
  | succ n ih =>
    by_cases e : m = n + 1
    · rw [e]
    · rw [xor_below, h n (by omega) (by omega), Bool.xor_false]
      exact ih (by omega) (fun k h1 h2 => h k h1 (by omega))

theorem xor_below_xor (f g : Nat → Bool) (n : Nat) :
    xor_below (fun k => f k ^^ g k) n = (xor_below f n ^^ xor_below g n) := by
  induction n with
  | zero => rfl
  | succ n ih =>
    simp only [xor_below, ih]
    cases xor_below f n <;> cases xor_below g n <;> cases f n <;> cases g n <;> rfl

theorem mul_data (a b : BitMat) (r c : Nat) :
    (a.mul b).data r c = xor_below (fun k => a.data r k && b.data k c) a.n := rfl

theorem mat_apply (m : BitMat) (N : Nat) (i j : Fin N) : m.mat N i j = bit_val (m.data i j) := rfl

theorem mat_mul (a b : BitMat) (N : Nat) (h : a.n = N) :
    (a.mul b).mat N = a.mat N * b.mat N := by
  ext i j
  rw [mat_apply, mul_data, bit_val_xor_below, Matrix.mul_apply, h,
    ← Fin.sum_univ_eq_sum_range (fun k => bit_val (a.data i k && b.data k j)) N]
  apply Finset.sum_congr rfl
  intro k _
  rw [bit_val_and]
  rfl

theorem mat_ext (a b : BitMat) (N : Nat) (h : a.mat N = b.mat N) (r c : Nat) (hr : r < N)
    (hc : c < N) : a.data r c = b.data r c := by
  have := congrFun (congrFun h ⟨r, hr⟩) ⟨c, hc⟩
  exact bit_val_inj this

/-! ## The inverse of a lower triangular matrix -/

theorem inv_loop_data (m : BitMat) (N : Nat) (r c : Nat) :
    (for_loop (fun r (inv : BitMat) =>
      { inv with data := fun row col =>
          if row = r then
            decide (r = col) ^^ xor_below (fun k => m.data r k && inv.data k col) r
          else inv.data row col }) N (BitMat.ctor m.n)).data r c
      = if r < N then
          decide (r = c) ^^ xor_below (fun k => m.data r k &&
            (for_loop (fun r (inv : BitMat) =>
              { inv with data := fun row col =>
                  if row = r then
                    decide (r = col) ^^ xor_below (fun k => m.data r k && inv.data k col) r
                  else inv.data row col }) N (BitMat.ctor m.n)).data k c) r
        else false := by
  induction N generalizing r c with
  | zero => rfl
  | succ N ih =>
    rw [for_loop_succ]
    generalize for_loop _ N (BitMat.ctor m.n) = s at ih ⊢
    dsimp only
    by_cases e : r = N
    · subst e
      rw [if_pos rfl, if_pos (by omega)]
      congr 1
      apply xor_below_congr
      intro k hk
      rw [if_neg (by omega)]
    · rw [if_neg e, ih]
      by_cases h : r < N
      · rw [if_pos h, if_pos (by omega)]
        congr 1
        apply xor_below_congr
        intro k hk
        rw [if_neg (by omega)]
      · rw [if_neg h, if_neg (by omega)]

theorem inv_lower_data (m : BitMat) (r c : Nat) :
    m.inv_lower_triangular.data r c
      = if r < m.n then
          decide (r = c) ^^ xor_below (fun k => m.data r k && m.inv_lower_triangular.data k c) r
        else false :=
  inv_loop_data m m.n r c

/-- A lower triangular matrix with unit diagonal times its inverse is the
identity. -/
theorem mul_inv_lower_data (m : BitMat) (hd : ∀ r, r < m.n → m.data r r = true)
    (hu : ∀ r c, r < c → m.data r c = false) (r c : Nat) (hr : r < m.n) :
    (m.mul m.inv_lower_triangular).data r c = decide (r = c) := by
  rw [mul_data, xor_below_trunc _ (r + 1) m.n (by omega)
    (fun k h1 h2 => by rw [hu r k (by omega)]; rfl)]
  rw [xor_below, hd r hr, Bool.true_and]
  conv_lhs => rw [inv_lower_data m r c, if_pos hr]
  cases decide (r = c) <;> cases xor_below _ r <;> rfl

theorem mat_mul_inv_lower (m : BitMat) (hd : ∀ r, r < m.n → m.data r r = true)
    (hu : ∀ r c, r < c → m.data r c = false) :
    m.mat m.n * m.inv_lower_triangular.mat m.n = 1 := by
  rw [← mat_mul _ _ _ rfl]
  ext i j
  rw [mat_apply, mul_inv_lower_data m hd hu _ _ i.2, bit_val_decide, Matrix.one_apply]
  simp only [Fin.ext_iff]


/-! ## The matrix `fused` is symplectic -/

theorem from_quadrants_data (ul ur ll lr : BitMat) (r c : Nat) :
    (BitMat.from_quadrants ul ur ll lr).data r c
      = if r < ul.n then (if c < ul.n then ul.data r c else ur.data r (c - ul.n))
        else (if c < ul.n then ll.data (r - ul.n) c else lr.data (r - ul.n) (c - ul.n)) := rfl

theorem fq_ul (ul ur ll lr : BitMat) {n : Nat} (h : ul.n = n) (r c : Nat) (hr : r < n)
    (hc : c < n) : (BitMat.from_quadrants ul ur ll lr).data r c = ul.data r c := by
  rw [from_quadrants_data, h, if_pos hr, if_pos hc]

theorem fq_ur (ul ur ll lr : BitMat) {n : Nat} (h : ul.n = n) (r c : Nat) (hr : r < n) :
    (BitMat.from_quadrants ul ur ll lr).data r (c + n) = ur.data r c := by
  rw [from_quadrants_data, h, if_pos hr, if_neg (by omega), Nat.add_sub_cancel]

theorem fq_ll (ul ur ll lr : BitMat) {n : Nat} (h : ul.n = n) (r c : Nat) (hc : c < n) :
    (BitMat.from_quadrants ul ur ll lr).data (r + n) c = ll.data r c := by
  rw [from_quadrants_data, h, if_neg (by omega), if_pos hc, Nat.add_sub_cancel]

theorem fq_lr (ul ur ll lr : BitMat) {n : Nat} (h : ul.n = n) (r c : Nat) :
    (BitMat.from_quadrants ul ur ll lr).data (r + n) (c + n) = lr.data r c := by
  rw [from_quadrants_data, h, if_neg (by omega), if_neg (by omega), Nat.add_sub_cancel,
    Nat.add_sub_cancel]

theorem row_product_eq (m : BitMat) (n a b : Nat) :
    m.row_product n a b
      = xor_below (fun k => (m.data a k && m.data b (k + n)) ^^ (m.data a (k + n) && m.data b k))
          n := rfl

/-- The matrix `[[L, 0], [S * L, transpose (inverse L)]]` is symplectic when `S`
is symmetric and `L` is lower triangular with unit diagonal. -/
theorem fused_symplectic (n : Nat) (S L : BitMat) (hS : S.n = n) (hL : L.n = n)
    (hsym : ∀ r c, S.data r c = S.data c r)
    (hd : ∀ r, r < n → L.data r r = true) (hu : ∀ r c, r < c → L.data r c = false) :
    (BitMat.from_quadrants L (BitMat.ctor n) (S.mul L) L.inv_lower_triangular.transposed).symplectic
      n := by
  have hinv : ∀ r c, r < n → xor_below (fun k => L.data r k && L.inv_lower_triangular.data k c) n
      = decide (r = c) := by
    intro r c hr
    have := mul_inv_lower_data L (by rw [hL]; exact hd) hu r c (by rw [hL]; exact hr)
    rw [mul_data, hL] at this
    exact this
  have hSL : ∀ r c, r < n → c < n →
      xor_below (fun k => (S.mul L).data r k && L.inv_lower_triangular.data k c) n
        = S.data r c := by
    intro r c hr hc
    have e : ((S.mul L).mul L.inv_lower_triangular).mat n = S.mat n := by
      rw [mat_mul _ _ n (by exact hS), mat_mul _ _ n hS, Matrix.mul_assoc]
      have := mat_mul_inv_lower L (by rw [hL]; exact hd) hu
      rw [hL] at this
      rw [this, Matrix.mul_one]
    have := mat_ext _ _ n e r c hr hc
    rw [mul_data] at this
    have e2 : (S.mul L).n = n := hS
    rw [e2] at this
    exact this
  intro a b ha hb
  rw [row_product_eq]
  by_cases h1 : a < n
  · by_cases h2 : b < n
    · rw [xor_below_false]
      · symm; rw [decide_eq_false_iff_not]; omega
      · intro k hk
        rw [fq_ur _ _ _ _ hL a k h1, fq_ur _ _ _ _ hL b k h2]
        show ((_ && false) ^^ (false && _)) = false
        rw [Bool.and_false, Bool.false_and]
        rfl
    · obtain ⟨b1, rfl⟩ : ∃ b1, b = b1 + n := ⟨b - n, by omega⟩
      rw [xor_below_congr _ (fun k => L.data a k && L.inv_lower_triangular.data k b1) n]
      · rw [hinv a b1 h1]
        congr 1
        apply propext
        constructor <;> intro h <;> omega
      · intro k hk
        rw [fq_ur _ _ _ _ hL a k h1, fq_ul _ _ _ _ hL a k h1 hk, fq_lr _ _ _ _ hL b1 k]
        show (L.data a k && L.inv_lower_triangular.data k b1 ^^ (false && _)) = _
        rw [Bool.false_and, Bool.xor_false]
  · obtain ⟨a1, rfl⟩ : ∃ a1, a = a1 + n := ⟨a - n, by omega⟩
    by_cases h2 : b < n
    · rw [xor_below_congr _ (fun k => L.data b k && L.inv_lower_triangular.data k a1) n]
      · rw [hinv b a1 h2]
        congr 1
        apply propext
        constructor <;> intro h <;> omega
      · intro k hk
        rw [fq_ur _ _ _ _ hL b k h2, fq_ul _ _ _ _ hL b k h2 hk, fq_lr _ _ _ _ hL a1 k]
        show ((_ && false) ^^ (L.inv_lower_triangular.data k a1 && L.data b k)) = _
        rw [Bool.and_false, Bool.false_xor, Bool.and_comm]
    · obtain ⟨b1, rfl⟩ : ∃ b1, b = b1 + n := ⟨b - n, by omega⟩
      rw [xor_below_congr _ (fun k =>
          ((S.mul L).data a1 k && L.inv_lower_triangular.data k b1) ^^
          ((S.mul L).data b1 k && L.inv_lower_triangular.data k a1)) n]
      · rw [xor_below_xor, hSL _ _ (by omega) (by omega), hSL _ _ (by omega) (by omega),
          hsym b1 a1]
        rw [Bool.xor_self]
        symm; rw [decide_eq_false_iff_not]; omega
      · intro k hk
        rw [fq_lr _ _ _ _ hL a1 k, fq_lr _ _ _ _ hL b1 k, fq_ll _ _ _ _ hL a1 k hk,
          fq_ll _ _ _ _ hL b1 k hk]
        show (((S.mul L).data a1 k && L.inv_lower_triangular.data k b1) ^^
          (L.inv_lower_triangular.data k a1 && (S.mul L).data b1 k)) = _
        rw [Bool.and_comm (L.inv_lower_triangular.data k a1)]


/-! ## The permutation and the Hadamards -/

theorem permuted_inner (n row : Nat) (v w : Nat → Bool) (u : BitMat) (hn : 0 < n) (r c : Nat) :
    (for_loop (fun col (u : BitMat) => (u.set row col (v col)).set (row + n) col (w col))
      (2 * n) u).data r c
      = if c < 2 * n ∧ r = row then v c
        else if c < 2 * n ∧ r = row + n then w c else u.data r c := by
  by_cases h1 : c < 2 * n ∧ r = row
  · rw [if_pos h1]
    apply loop_cell_at _ r c c _ _ h1.1
    · intro s
      rw [set_data, set_data, if_neg (by omega), if_pos ⟨h1.2, rfl⟩]
    · intro j s hj1 hj2
      rw [set_data, set_data, if_neg (by omega), if_neg (by omega)]
  · rw [if_neg h1]
    by_cases h2 : c < 2 * n ∧ r = row + n
    · rw [if_pos h2]
      apply loop_cell_at _ r c c _ _ h2.1
      · intro s
        rw [set_data, if_pos ⟨h2.2, rfl⟩]
      · intro j s hj1 hj2
        rw [set_data, set_data, if_neg (by omega), if_neg (by omega)]
    · rw [if_neg h2]
      apply loop_cell_none
      intro k s hk
      rw [set_data, set_data, if_neg (by omega), if_neg (by omega)]

theorem permuted_data (n : Nat) (perm : List Nat) (fused : BitMat) (r c : Nat)
    (hr : r < 2 * n) (hc : c < 2 * n) :
    (raw_permuted n perm fused).data r c
      = if r < n then fused.data (perm.getD r 0) c else fused.data (perm.getD (r - n) 0 + n) c := by
  have hn : 0 < n := by omega
  unfold raw_permuted
  by_cases h : r < n
  · rw [if_pos h]
    apply loop_cell_at _ r c r _ _ h
    · intro s
      rw [permuted_inner n r _ _ s hn, if_pos ⟨hc, rfl⟩]
      rfl
    · intro j s hj1 hj2
      rw [permuted_inner n j _ _ s hn, if_neg (by omega), if_neg (by omega)]
  · rw [if_neg h]
    apply loop_cell_at _ r c (r - n) _ _ (by omega)
    · intro s
      rw [permuted_inner n (r - n) _ _ s hn, if_neg (by omega), if_pos ⟨hc, by omega⟩]
      rfl
    · intro j s hj1 hj2
      rw [permuted_inner n j _ _ s hn, if_neg (by omega), if_neg (by omega)]

/-- The inner loop of the Hadamard step exchanges the rows `row` and `row + n`. -/
theorem hadamard_inner (n row : Nat) (u : BitMat) (hn : 0 < n) (N : Nat) (r c : Nat) :
    (for_loop (fun col (u : BitMat) =>
        (u.set row col (u.get (row + n) col)).set (row + n) col (u.get row col)) N u).data r c
      = if c < N ∧ r = row then u.data (row + n) c
        else if c < N ∧ r = row + n then u.data row c else u.data r c := by
  induction N generalizing r c with
  | zero => simp [for_loop]
  | succ N ih =>
    rw [for_loop_succ]
    generalize for_loop _ N u = s at ih ⊢
    rw [set_data, set_data]
    simp only [BitMat.get, ih]
    split_ifs <;> first | rfl | (exfalso; omega) | simp_all

theorem hadamards_loop (n : Nat) (hada : List Bool) (u : BitMat) (N : Nat) (hN : N ≤ n)
    (r c : Nat) (hc : c < 2 * n) :
    (for_loop (fun row (u : BitMat) =>
      if hada.getD row false then
        for_loop (fun col (u : BitMat) =>
          let t := u.get row col
          let u := u.set row col (u.get (row + n) col)
          u.set (row + n) col t) (2 * n) u
      else u) N u).data r c
      = if r < N ∧ hada.getD r false = true then u.data (r + n) c
        else if n ≤ r ∧ r < n + N ∧ hada.getD (r - n) false = true then u.data (r - n) c
        else u.data r c := by
  have hn : 0 < n := by omega
  induction N generalizing r with
  | zero => rw [if_neg (by omega), if_neg (by omega)]; rfl
  | succ N ih =>
    rw [for_loop_succ]
    generalize for_loop _ N u = s at ih ⊢
    by_cases hh : hada.getD N false = true
    · rw [if_pos hh]
      have := hadamard_inner n N s hn (2 * n) r c
      simp only [BitMat.get] at this ⊢
      rw [this]
      have e0 : N + n - n = N := by omega
      by_cases e1 : r = N
      · subst e1
        rw [if_pos ⟨hc, rfl⟩, ih (by omega) _, if_neg (by omega), if_neg (by omega),
          if_pos ⟨by omega, hh⟩]
      · rw [if_neg (fun h => e1 h.2)]
        by_cases e2 : r = N + n
        · subst e2
          rw [if_pos ⟨hc, rfl⟩, ih (by omega) _, if_neg (by omega), if_neg (by omega),
            if_neg (by omega), if_pos ⟨by omega, by omega, by rw [e0]; exact hh⟩, e0]
        · rw [if_neg (fun h => e2 h.2), ih (by omega) _]
          by_cases e3 : r < N ∧ hada.getD r false = true
          · rw [if_pos e3, if_pos ⟨by omega, e3.2⟩]
          · have e5 : ¬ (r < N + 1 ∧ hada.getD r false = true) :=
              fun h => e3 ⟨by omega, h.2⟩
            rw [if_neg e3, if_neg e5]
            by_cases e4 : n ≤ r ∧ r < n + N ∧ hada.getD (r - n) false = true
            · rw [if_pos e4, if_pos ⟨e4.1, by omega, e4.2.2⟩]
            · have e6 : ¬ (n ≤ r ∧ r < n + (N + 1) ∧ hada.getD (r - n) false = true) :=
                fun h => e4 ⟨h.1, by omega, h.2.2⟩
              rw [if_neg e4, if_neg e6]
    · rw [if_neg hh, ih (by omega) _]
      by_cases e3 : r < N ∧ hada.getD r false = true
      · rw [if_pos e3, if_pos ⟨by omega, e3.2⟩]
      · have e5 : ¬ (r < N + 1 ∧ hada.getD r false = true) := by
          intro h
          by_cases e : r = N
          · subst e; exact hh h.2
          · exact e3 ⟨by omega, h.2⟩
        rw [if_neg e3, if_neg e5]
        by_cases e4 : n ≤ r ∧ r < n + N ∧ hada.getD (r - n) false = true
        · rw [if_pos e4, if_pos ⟨e4.1, by omega, e4.2.2⟩]
        · have e6 : ¬ (n ≤ r ∧ r < n + (N + 1) ∧ hada.getD (r - n) false = true) := by
            intro h
            by_cases e : r = n + N
            · subst e
              rw [Nat.add_sub_cancel_left] at h
              exact hh h.2.2
            · exact e4 ⟨h.1, by omega, h.2.2⟩
          rw [if_neg e4, if_neg e6]

/-- Row `a` of `u`, after the permutation and the Hadamards, is the row
`raw_row a` of `fused`. -/
theorem hadamards_data (n : Nat) (hada : List Bool) (perm : List Nat) (fused : BitMat)
    (a c : Nat) (ha : a < 2 * n) (hc : c < 2 * n) :
    (raw_hadamards n hada (raw_permuted n perm fused)).data a c
      = fused.data (raw_row n hada perm a) c := by
  unfold raw_hadamards raw_row
  rw [hadamards_loop n hada _ n (le_refl n) a c hc]
  by_cases h : a < n
  · rw [if_pos h]
    by_cases hh : hada.getD a false = true
    · rw [if_pos ⟨h, hh⟩, if_pos hh, permuted_data _ _ _ _ _ (by omega) hc, if_neg (by omega),
        Nat.add_sub_cancel]
    · rw [if_neg (fun h1 => hh h1.2), if_neg (by omega), if_neg hh,
        permuted_data _ _ _ _ _ ha hc, if_pos h]
  · rw [if_neg h, if_neg (fun h1 => h h1.1)]
    by_cases hh : hada.getD (a - n) false = true
    · rw [if_pos ⟨by omega, by omega, hh⟩, if_pos hh, permuted_data _ _ _ _ _ (by omega) hc,
        if_pos (by omega)]
    · rw [if_neg (fun h1 => hh h1.2.2), if_neg hh, permuted_data _ _ _ _ _ ha hc, if_neg h]


theorem raw_row_lt (n : Nat) (hada : List Bool) (perm : List Nat)
    (hp : ∀ a, a < n → perm.getD a 0 < n) (a : Nat) (ha : a < 2 * n) :
    raw_row n hada perm a < 2 * n := by
  unfold raw_row
  by_cases h : a < n
  · have := hp a h
    rw [if_pos h]
    split_ifs <;> omega
  · have := hp (a - n) (by omega)
    rw [if_neg h]
    split_ifs <;> omega

theorem raw_row_partner (n : Nat) (hada : List Bool) (perm : List Nat)
    (hp : ∀ a, a < n → perm.getD a 0 < n)
    (hinj : ∀ a b, a < n → b < n → perm.getD a 0 = perm.getD b 0 → a = b)
    (a b : Nat) (ha : a < 2 * n) (hb : b < 2 * n) :
    (raw_row n hada perm a + n = raw_row n hada perm b
      ∨ raw_row n hada perm b + n = raw_row n hada perm a) ↔ (a + n = b ∨ b + n = a) := by
  unfold raw_row
  by_cases h1 : a < n
  · by_cases h2 : b < n
    · have p1 := hp a h1
      have p2 := hp b h2
      rw [if_pos h1, if_pos h2]
      by_cases e : a = b
      · subst e
        split_ifs <;> omega
      · have hne : perm.getD a 0 ≠ perm.getD b 0 := fun h => e (hinj a b h1 h2 h)
        split_ifs <;> omega
    · have p1 := hp a h1
      have p2 := hp (b - n) (by omega)
      rw [if_pos h1, if_neg h2]
      by_cases e : a = b - n
      · rw [← e]
        split_ifs <;> omega
      · have hne : perm.getD a 0 ≠ perm.getD (b - n) 0 := fun h => e (hinj a (b - n) h1 (by omega) h)
        split_ifs <;> omega
  · by_cases h2 : b < n
    · have p1 := hp (a - n) (by omega)
      have p2 := hp b h2
      rw [if_neg h1, if_pos h2]
      by_cases e : a - n = b
      · rw [e]
        split_ifs <;> omega
      · have hne : perm.getD (a - n) 0 ≠ perm.getD b 0 := fun h => e (hinj (a - n) b (by omega) h2 h)
        split_ifs <;> omega
    · have p1 := hp (a - n) (by omega)
      have p2 := hp (b - n) (by omega)
      rw [if_neg h1, if_neg h2]
      by_cases e : a - n = b - n
      · rw [e]
        split_ifs <;> omega
      · have hne : perm.getD (a - n) 0 ≠ perm.getD (b - n) 0 :=
          fun h => e (hinj (a - n) (b - n) (by omega) (by omega) h)
        split_ifs <;> omega

/-- Permuting the row pairs of a symplectic matrix and exchanging the two rows
of some pairs leaves it symplectic. -/
theorem hadamards_symplectic (n : Nat) (hada : List Bool) (perm : List Nat) (fused : BitMat)
    (hp : ∀ a, a < n → perm.getD a 0 < n)
    (hinj : ∀ a b, a < n → b < n → perm.getD a 0 = perm.getD b 0 → a = b)
    (hf : fused.symplectic n) :
    (raw_hadamards n hada (raw_permuted n perm fused)).symplectic n := by
  intro a b ha hb
  rw [row_product_eq, xor_below_congr _ (fun k =>
    (fused.data (raw_row n hada perm a) k && fused.data (raw_row n hada perm b) (k + n)) ^^
    (fused.data (raw_row n hada perm a) (k + n) && fused.data (raw_row n hada perm b) k)) n]
  · have := hf _ _ (raw_row_lt n hada perm hp a ha) (raw_row_lt n hada perm hp b hb)
    rw [row_product_eq] at this
    rw [this]
    congr 1
    exact propext (raw_row_partner n hada perm hp hinj a b ha hb)
  · intro k hk
    rw [hadamards_data n hada perm fused a k ha (by omega),
      hadamards_data n hada perm fused b (k + n) hb (by omega),
      hadamards_data n hada perm fused a (k + n) ha (by omega),
      hadamards_data n hada perm fused b k hb (by omega)]

/-! ## Products of symplectic matrices -/

theorem mat_form_apply (m : BitMat) (n : Nat) (a j : Fin (2 * n)) :
    (m.mat (2 * n) * symplectic_form n) a j
      = bit_val (m.data a (if (j : Nat) < n then j + n else j - n)) := by
  rw [Matrix.mul_apply]
  have hj := j.2
  by_cases h : (j : Nat) < n
  · rw [if_pos h, Finset.sum_eq_single (⟨j + n, by omega⟩ : Fin (2 * n))]
    · simp [symplectic_form, mat_apply]
    · intro i _ hi
      have : ¬ ((i : Nat) + n = j ∨ (j : Nat) + n = i) := by
        intro h2
        apply hi
        apply Fin.ext
        show (i : Nat) = j + n
        omega
      simp [symplectic_form, this]
    · intro h2; exact absurd (Finset.mem_univ _) h2
  · rw [if_neg h, Finset.sum_eq_single (⟨j - n, by omega⟩ : Fin (2 * n))]
    · have : (j : Nat) - n + n = j := by omega
      simp [symplectic_form, mat_apply, this]
    · intro i _ hi
      have : ¬ ((i : Nat) + n = j ∨ (j : Nat) + n = i) := by
        intro h2
        apply hi
        apply Fin.ext
        show (i : Nat) = j - n
        omega
      simp [symplectic_form, this]
    · intro h2; exact absurd (Finset.mem_univ _) h2

theorem mat_form_mat (m : BitMat) (n : Nat) (a b : Fin (2 * n)) :
    (m.mat (2 * n) * symplectic_form n * (m.mat (2 * n)).transpose) a b
      = bit_val (m.row_product n a b) := by
  rw [Matrix.mul_apply]
  simp only [mat_form_apply, Matrix.transpose_apply, mat_apply]
  rw [Fin.sum_univ_eq_sum_range (fun j =>
      bit_val (m.data a (if j < n then j + n else j - n)) * bit_val (m.data b j)) (2 * n),
    show Finset.range (2 * n) = Finset.range (n + n) by rw [two_mul],
    Finset.sum_range_add, row_product_eq, bit_val_xor_below]
  simp only [bit_val_xor, bit_val_and]
  rw [Finset.sum_add_distrib, add_comm]
  congr 1
  · apply Finset.sum_congr rfl
    intro k hk
    have hk : k < n := Finset.mem_range.1 hk
    rw [if_neg (by omega), Nat.add_sub_cancel_left, Nat.add_comm n k]
  · apply Finset.sum_congr rfl
    intro k hk
    have hk : k < n := Finset.mem_range.1 hk
    rw [if_pos hk]

theorem symplectic_iff (m : BitMat) (n : Nat) :
    m.symplectic n
      ↔ m.mat (2 * n) * symplectic_form n * (m.mat (2 * n)).transpose = symplectic_form n := by
  constructor
  · intro h
    ext a b
    rw [mat_form_mat, h a b a.2 b.2, bit_val_decide]
    rfl
  · intro h a b ha hb
    have := congrFun (congrFun h ⟨a, ha⟩) ⟨b, hb⟩
    rw [mat_form_mat] at this
    apply bit_val_inj
    rw [this, bit_val_decide]
    rfl

/-- The product of two symplectic matrices is symplectic. -/
theorem mul_symplectic (a u : BitMat) (n : Nat) (han : a.n = 2 * n) (ha : a.symplectic n)
    (hu : u.symplectic n) : (a.mul u).symplectic n := by
  rw [symplectic_iff] at ha hu ⊢
  rw [mat_mul a u (2 * n) han, Matrix.transpose_mul]
  calc a.mat (2 * n) * u.mat (2 * n) * symplectic_form n
        * ((u.mat (2 * n)).transpose * (a.mat (2 * n)).transpose)
      = a.mat (2 * n) * (u.mat (2 * n) * symplectic_form n * (u.mat (2 * n)).transpose)
        * (a.mat (2 * n)).transpose := by simp only [Matrix.mul_assoc]
    _ = symplectic_form n := by rw [hu, ha]


/-! ## The raw random matrix is symplectic -/

theorem loop_from_n (body : Nat → BitMat → BitMat) (lo hi : Nat) (m0 : BitMat)
    (h : ∀ k m, (body k m).n = m.n) : (for_loop_from body lo hi m0).n = m0.n :=
  loop_n _ _ _ (fun k m => h _ m)

theorem raw_symmetric_n (n : Nat) (d : Draws) : (raw_symmetric n d).n = n := by
  unfold raw_symmetric
  rw [loop_n]
  · rfl
  · intro k m
    rw [loop_from_n]
    · rfl
    · intro k m; rfl

theorem raw_symmetric_m_n (n : Nat) (hada : List Bool) (perm : List Nat) (d : Draws) :
    (raw_symmetric_m n hada perm d).n = n := by
  unfold raw_symmetric_m
  rw [loop_n]
  · rfl
  · intro k m
    rw [loop_from_n]
    · rfl
    · intro k m; rfl

theorem raw_lower_n (n : Nat) (d : Draws) : (raw_lower n d).n = n := by
  unfold raw_lower
  rw [loop_n]
  · rfl
  · intro k m
    rw [loop_from_n]
    intro k m; rfl

theorem raw_lower_m_n (n : Nat) (hada : List Bool) (perm : List Nat) (d : Draws) :
    (raw_lower_m n hada perm d).n = n := by
  unfold raw_lower_m
  rw [loop_n]
  · rfl
  · intro k m
    rw [loop_from_n]
    intro k m; rfl

theorem perm_getD_lt (n : Nat) (perm : List Nat) (hperm : perm.Perm (List.range n)) (a : Nat)
    (ha : a < n) : perm.getD a 0 < n := by
  apply getD_lt perm n
  · intro q hq
    exact List.mem_range.1 (hperm.mem_iff.1 hq)
  · rw [hperm.length_eq, List.length_range]; exact ha

theorem perm_getD_inj (n : Nat) (perm : List Nat) (hperm : perm.Perm (List.range n)) (a b : Nat)
    (ha : a < n) (hb : b < n) (h : perm.getD a 0 = perm.getD b 0) : a = b := by
  have hnd : perm.Nodup := (hperm.nodup_iff).2 (List.nodup_range n)
  have hl : perm.length = n := by rw [hperm.length_eq, List.length_range]
  rcases Nat.lt_trichotomy a b with h1 | h1 | h1
  · exact absurd h (getD_ne_of_nodup perm hnd a b h1 (by omega))
  · exact h1
  · exact absurd h.symm (getD_ne_of_nodup perm hnd b a h1 (by omega))

/-- For every Hadamard vector, every permutation of `0 .. n-1` and every choice
of the random bits the matrix that `random_stabilizer_tableau_raw` returns is
symplectic. -/
theorem raw_symplectic (n : Nat) (hada : List Bool) (perm : List Nat) (d : Draws)
    (hperm : perm.Perm (List.range n)) :
    (random_stabilizer_tableau_raw_of n hada perm d).symplectic n := by
  unfold random_stabilizer_tableau_raw_of
  dsimp only
  apply mul_symplectic
  · show 2 * (raw_lower_m n hada perm d).n = 2 * n
    rw [raw_lower_m_n]
  · apply fused_symplectic n _ _ (raw_symmetric_m_n n hada perm d) (raw_lower_m_n n hada perm d)
    · intro r c
      rw [raw_symmetric_m_data, raw_symmetric_m_data]
      exact fill_symmetric_symm n (fun col => d.symmetric_m col col && hada.getD col false)
        (fun row col => mask_symmetric_m hada perm row col && d.symmetric_m row col) r c
    · intro r hr
      rw [raw_lower_m_data, if_neg (by omega)]
      simp [hr]
    · intro r c h
      rw [raw_lower_m_data, if_neg (by omega)]
      simp
      omega
  · apply hadamards_symplectic n hada perm _ (perm_getD_lt n perm hperm)
      (perm_getD_inj n perm hperm)
    apply fused_symplectic n _ _ (raw_symmetric_n n d) (raw_lower_n n d)
    · intro r c
      rw [raw_symmetric_data, raw_symmetric_data]
      exact fill_symmetric_symm n (fun col => d.symmetric col col) d.symmetric r c
    · intro r hr
      rw [raw_lower_data, if_neg (by omega)]
      simp [hr]
    · intro r c h
      rw [raw_lower_data, if_neg (by omega)]
      simp
      omega

/-! ## The tableau built by `Tableau::random` -/

theorem loop_inv {σ : Type} (body : Nat → σ → σ) (inv : σ → Prop) (N : Nat) (s0 : σ)
    (h0 : inv s0) (hi : ∀ k s, k < N → inv s → inv (body k s)) : inv (for_loop body N s0) := by
  induction N with
  | zero => exact h0
  | succ N ih =>
    rw [for_loop_succ]
    exact hi N _ (by omega) (ih (fun k s hk => hi k s (by omega)))

/-- A projection of the state that no iteration of a loop changes keeps its
value. -/
theorem loop_proj_none {σ α : Type} (body : Nat → σ → σ) (inv : σ → Prop) (get : σ → α)
    (N : Nat) (s0 : σ) (h0 : inv s0) (hi : ∀ k s, k < N → inv s → inv (body k s))
    (h : ∀ k s, k < N → inv s → get (body k s) = get s) :
    get (for_loop body N s0) = get s0 := by
  induction N with
  | zero => rfl
  | succ N ih =>
    rw [for_loop_succ, h N _ (by omega) (loop_inv body inv N s0 h0 (fun k s hk => hi k s (by omega))),
      ih (fun k s hk => hi k s (by omega)) (fun k s hk => h k s (by omega))]

/-- A projection of the state holds what the last iteration that changes it has
left. -/
theorem loop_proj_at {σ α : Type} (body : Nat → σ → σ) (inv : σ → Prop) (get : σ → α)
    (k N : Nat) (v : α) (hk : k < N) (s0 : σ) (h0 : inv s0)
    (hi : ∀ k s, k < N → inv s → inv (body k s))
    (hw : ∀ s, inv s → get (body k s) = v)
    (h : ∀ j s, k < j → j < N → inv s → get (body j s) = get s) :
    get (for_loop body N s0) = v := by
  induction N with
  | zero => omega
  | succ N ih =>
    rw [for_loop_succ]
    have hinv := loop_inv body inv N s0 h0 (fun k s hk => hi k s (by omega))
    by_cases e : k = N
    · subst e; exact hw _ hinv
    · rw [h N _ (by omega) (by omega) hinv]
      exact ih (by omega) (fun k s hk => hi k s (by omega))
        (fun j s h1 h2 => h j s h1 (by omega))


theorem random_cell_num_qubits (n : Nat) (raw : BitMat) (row col : Nat) (t : Tableau) :
    (random_cell n raw row col t).num_qubits = t.num_qubits := rfl

theorem random_cell_sign (n : Nat) (raw : BitMat) (row col : Nat) (t : Tableau) :
    (random_cell n raw row col t).data_sign_x_z = t.data_sign_x_z := rfl

theorem set_x_bit_num_qubits (t : Tableau) (p : PauliStringPtr) (k : Nat) (b : Bool) :
    (t.set_x_bit p k b).num_qubits = t.num_qubits := rfl

theorem set_z_bit_num_qubits (t : Tableau) (p : PauliStringPtr) (k : Nat) (b : Bool) :
    (t.set_z_bit p k b).num_qubits = t.num_qubits := rfl

theorem set_x_bit_data (t : Tableau) (h : Bool) (q k : Nat) (b : Bool) (a : Nat) :
    (t.set_x_bit (t.obs_ptr h q) k b).data_x2x_z2x_x2z_z2z a
      = if a = bit_address q k t.num_qubits h.toNat false then b
        else t.data_x2x_z2x_x2z_z2z a := by
  unfold Tableau.set_x_bit
  rw [obs_ptr_x]
  rfl

theorem set_z_bit_data (t : Tableau) (h : Bool) (q k : Nat) (b : Bool) (a : Nat) :
    (t.set_z_bit (t.obs_ptr h q) k b).data_x2x_z2x_x2z_z2z a
      = if a = bit_address q k t.num_qubits (2 + h.toNat) false then b
        else t.data_x2x_z2x_x2z_z2z a := by
  unfold Tableau.set_z_bit
  rw [obs_ptr_z]
  rfl

theorem random_cell_data (n : Nat) (raw : BitMat) (row col : Nat) (t : Tableau)
    (hn : t.num_qubits = n) (a : Nat) :
    (random_cell n raw row col t).data_x2x_z2x_x2z_z2z a
      = if a = bit_address row col n 3 false then raw.data (row + n) (col + n)
        else if a = bit_address row col n 1 false then raw.data (row + n) col
        else if a = bit_address row col n 2 false then raw.data row (col + n)
        else if a = bit_address row col n 0 false then raw.data row col
        else t.data_x2x_z2x_x2z_z2z a := by
  unfold random_cell
  simp only [x_obs_ptr_eq, z_obs_ptr_eq]
  rw [set_z_bit_data, set_x_bit_data, set_z_bit_data, set_x_bit_data]
  simp only [set_x_bit_num_qubits, set_z_bit_num_qubits, hn]
  rfl

/-- The cell `(i, o)` of quadrant `quad` after one iteration of the inner loop. -/
theorem random_cell_at (n : Nat) (raw : BitMat) (row col : Nat) (t : Tableau)
    (hn : t.num_qubits = n) (hrow : row < ceil256 n) (hcol : col < ceil256 n)
    (i o quad : Nat) (hi : i < ceil256 n) (ho : o < ceil256 n) (hq : quad < 4) :
    (random_cell n raw row col t).data_x2x_z2x_x2z_z2z (bit_address i o n quad false)
      = if i = row ∧ o = col then raw.data (i + quad % 2 * n) (o + quad / 2 * n)
        else t.data_x2x_z2x_x2z_z2z (bit_address i o n quad false) := by
  rw [random_cell_data n raw row col t hn]
  have inj : ∀ q1, bit_address i o n quad false = bit_address row col n q1 false ↔
      (i = row ∧ o = col ∧ quad = q1) := by
    intro q1
    constructor
    · intro h; exact bit_address_inj hi ho hrow hcol h
    · rintro ⟨rfl, rfl, rfl⟩; rfl
  simp only [inj]
  by_cases e : i = row ∧ o = col
  · obtain ⟨rfl, rfl⟩ := e
    interval_cases quad <;> simp
  · rw [if_neg e, if_neg (fun h => e ⟨h.1, h.2.1⟩), if_neg (fun h => e ⟨h.1, h.2.1⟩),
      if_neg (fun h => e ⟨h.1, h.2.1⟩), if_neg (fun h => e ⟨h.1, h.2.1⟩)]

theorem random_cell_outside (n : Nat) (raw : BitMat) (row col : Nat) (t : Tableau)
    (hn : t.num_qubits = n) (hrow : row < ceil256 n) (hcol : col < ceil256 n)
    (a : Nat) (ha : ceil256 n * ceil256 n * 4 ≤ a) :
    (random_cell n raw row col t).data_x2x_z2x_x2z_z2z a = t.data_x2x_z2x_x2z_z2z a := by
  rw [random_cell_data n raw row col t hn]
  have b0 := bit_address_lt hrow hcol (show 0 < 4 by omega)
  have b1 := bit_address_lt hrow hcol (show 1 < 4 by omega)
  have b2 := bit_address_lt hrow hcol (show 2 < 4 by omega)
  have b3 := bit_address_lt hrow hcol (show 3 < 4 by omega)
  rw [if_neg (by omega), if_neg (by omega), if_neg (by omega), if_neg (by omega)]


/-- The inner loop of `Tableau::random` for one row. -/
theorem random_row_data (n : Nat) (raw : BitMat) (row : Nat) (t : Tableau)
    (hn : t.num_qubits = n) (hrow : row < n)
    (i o quad : Nat) (hi : i < ceil256 n) (ho : o < ceil256 n) (hq : quad < 4) :
    (for_loop (random_cell n raw row) n t).data_x2x_z2x_x2z_z2z (bit_address i o n quad false)
      = if i = row ∧ o < n then raw.data (i + quad % 2 * n) (o + quad / 2 * n)
        else t.data_x2x_z2x_x2z_z2z (bit_address i o n quad false) := by
  have hc := le_ceil256 n
  by_cases e : i = row ∧ o < n
  · rw [if_pos e]
    apply loop_proj_at (random_cell n raw row) (fun s => s.num_qubits = n)
      (fun s => s.data_x2x_z2x_x2z_z2z (bit_address i o n quad false)) o n _ e.2 t hn
    · intro k s _ hs; exact hs
    · intro s hs
      show (random_cell n raw row o s).data_x2x_z2x_x2z_z2z _ = _
      rw [random_cell_at n raw row o s hs (by omega) ho i o quad hi ho hq, if_pos ⟨e.1, rfl⟩]
    · intro j s hj1 hj2 hs
      show (random_cell n raw row j s).data_x2x_z2x_x2z_z2z _ = _
      rw [random_cell_at n raw row j s hs (by omega) (by omega) i o quad hi ho hq,
        if_neg (by omega)]
  · rw [if_neg e]
    apply loop_proj_none (random_cell n raw row) (fun s => s.num_qubits = n)
      (fun s => s.data_x2x_z2x_x2z_z2z (bit_address i o n quad false)) n t hn
    · intro k s _ hs; exact hs
    · intro k s hk hs
      show (random_cell n raw row k s).data_x2x_z2x_x2z_z2z _ = _
      rw [random_cell_at n raw row k s hs (by omega) (by omega) i o quad hi ho hq,
        if_neg (by omega)]

theorem random_row_num_qubits (n : Nat) (raw : BitMat) (row : Nat) (t : Tableau) (N : Nat) :
    (for_loop (random_cell n raw row) N t).num_qubits = t.num_qubits :=
  loop_proj_none (random_cell n raw row) (fun _ => True) (fun s => s.num_qubits) N t trivial
    (fun _ _ _ _ => trivial) (fun _ _ _ _ => rfl)

theorem random_row_sign (n : Nat) (raw : BitMat) (row : Nat) (t : Tableau) (N : Nat) :
    (for_loop (random_cell n raw row) N t).data_sign_x_z = t.data_sign_x_z :=
  loop_proj_none (random_cell n raw row) (fun _ => True) (fun s => s.data_sign_x_z) N t trivial
    (fun _ _ _ _ => trivial) (fun _ _ _ _ => rfl)

theorem random_row_outside (n : Nat) (raw : BitMat) (row : Nat) (t : Tableau)
    (hn : t.num_qubits = n) (hrow : row < n) (a : Nat) (ha : ceil256 n * ceil256 n * 4 ≤ a) :
    (for_loop (random_cell n raw row) n t).data_x2x_z2x_x2z_z2z a = t.data_x2x_z2x_x2z_z2z a := by
  have hc := le_ceil256 n
  apply loop_proj_none (random_cell n raw row) (fun s => s.num_qubits = n)
    (fun s => s.data_x2x_z2x_x2z_z2z a) n t hn
  · intro k s _ hs; exact hs
  · intro k s hk hs
    exact random_cell_outside n raw row k s hs (by omega) (by omega) a ha


theorem random_of_eq (n : Nat) (raw : BitMat) (d : Draws) :
    Tableau.random_of n raw d = for_loop (random_row n raw d) n (Tableau.ctor n) := rfl

theorem random_of_num_qubits (n : Nat) (raw : BitMat) (d : Draws) :
    (Tableau.random_of n raw d).num_qubits = n := by
  rw [random_of_eq]
  exact loop_inv (random_row n raw d) (fun s => s.num_qubits = n) n _ rfl
    (fun k s _ hs => by
      show (for_loop (random_cell n raw k) n s).num_qubits = n
      rw [random_row_num_qubits]; exact hs)

theorem random_of_data (n : Nat) (raw : BitMat) (d : Draws)
    (i o quad : Nat) (hi : i < ceil256 n) (ho : o < ceil256 n) (hq : quad < 4) :
    (Tableau.random_of n raw d).data_x2x_z2x_x2z_z2z (bit_address i o n quad false)
      = (decide (i < n ∧ o < n) && raw.data (i + quad % 2 * n) (o + quad / 2 * n)) := by
  rw [random_of_eq]
  have hstep : ∀ k s, k < n → s.num_qubits = n → (random_row n raw d k s).num_qubits = n := by
    intro k s _ hs
    show (for_loop (random_cell n raw k) n s).num_qubits = n
    rw [random_row_num_qubits]; exact hs
  by_cases e : i < n ∧ o < n
  · rw [decide_eq_true e, Bool.true_and]
    apply loop_proj_at (random_row n raw d) (fun s => s.num_qubits = n)
      (fun s => s.data_x2x_z2x_x2z_z2z (bit_address i o n quad false)) i n _ e.1 _ rfl hstep
    · intro s hs
      show (for_loop (random_cell n raw i) n s).data_x2x_z2x_x2z_z2z _ = _
      rw [random_row_data n raw i s hs e.1 i o quad hi ho hq, if_pos ⟨rfl, e.2⟩]
    · intro j s hj1 hj2 hs
      show (for_loop (random_cell n raw j) n s).data_x2x_z2x_x2z_z2z _ = _
      rw [random_row_data n raw j s hs hj2 i o quad hi ho hq, if_neg (by omega)]
  · rw [decide_eq_false e, Bool.false_and]
    rw [loop_proj_none (random_row n raw d) (fun s => s.num_qubits = n)
      (fun s => s.data_x2x_z2x_x2z_z2z (bit_address i o n quad false)) n _ rfl hstep]
    · show (Tableau.ctor n).data_x2x_z2x_x2z_z2z _ = false
      rw [ctor_bit n i o quad hi ho, decide_eq_false_iff_not]
      intro h
      exact e ⟨h.1, by omega⟩
    · intro k s hk hs
      show (for_loop (random_cell n raw k) n s).data_x2x_z2x_x2z_z2z _ = _
      rw [random_row_data n raw k s hs hk i o quad hi ho hq, if_neg (fun h => e ⟨by omega, h.2⟩)]

theorem random_of_outside (n : Nat) (raw : BitMat) (d : Draws) (a : Nat)
    (ha : ceil256 n * ceil256 n * 4 ≤ a) :
    (Tableau.random_of n raw d).data_x2x_z2x_x2z_z2z a = (Tableau.ctor n).data_x2x_z2x_x2z_z2z a := by
  rw [random_of_eq]
  apply loop_proj_none (random_row n raw d) (fun s => s.num_qubits = n)
    (fun s => s.data_x2x_z2x_x2z_z2z a) n _ rfl
  · intro k s _ hs
    show (for_loop (random_cell n raw k) n s).num_qubits = n
    rw [random_row_num_qubits]; exact hs
  · intro k s hk hs
    exact random_row_outside n raw k s hs hk a ha

theorem random_of_sign (n : Nat) (raw : BitMat) (d : Draws) (a : Nat) :
    (Tableau.random_of n raw d).data_sign_x_z a
      = if a < n then d.sign_x a
        else if ceil256 n ≤ a ∧ a < ceil256 n + n then d.sign_z (a - ceil256 n) else false := by
  rw [random_of_eq]
  have hc := le_ceil256 n
  have hbody : ∀ k s, (random_row n raw d k s).data_sign_x_z a
      = if a = ceil256 n + k then d.sign_z k else if a = k then d.sign_x k
        else s.data_sign_x_z a := by
    intro k s
    show set_bit (set_bit (for_loop (random_cell n raw k) n s).data_sign_x_z _ _) _ _ a = _
    rw [random_row_sign]
    rfl
  by_cases e : a < n
  · rw [if_pos e]
    apply loop_proj_at (random_row n raw d) (fun _ => True) (fun s => s.data_sign_x_z a) a n _ e _
      trivial (fun _ _ _ _ => trivial)
    · intro s _
      show (random_row n raw d a s).data_sign_x_z a = _
      rw [hbody, if_neg (by omega), if_pos rfl]
    · intro j s hj1 hj2 _
      show (random_row n raw d j s).data_sign_x_z a = _
      rw [hbody, if_neg (by omega), if_neg (by omega)]
  · rw [if_neg e]
    by_cases e2 : ceil256 n ≤ a ∧ a < ceil256 n + n
    · rw [if_pos e2]
      apply loop_proj_at (random_row n raw d) (fun _ => True) (fun s => s.data_sign_x_z a)
        (a - ceil256 n) n _ (by omega) _ trivial (fun _ _ _ _ => trivial)
      · intro s _
        show (random_row n raw d (a - ceil256 n) s).data_sign_x_z a = _
        rw [hbody, if_pos (by omega)]
      · intro j s hj1 hj2 _
        show (random_row n raw d j s).data_sign_x_z a = _
        rw [hbody, if_neg (by omega), if_neg (by omega)]
    · rw [if_neg e2]
      rw [loop_proj_none (random_row n raw d) (fun _ => True) (fun s => s.data_sign_x_z a) n _
        trivial (fun _ _ _ _ => trivial)]
      · rfl
      · intro k s hk _
        show (random_row n raw d k s).data_sign_x_z a = _
        rw [hbody, if_neg (by omega), if_neg (by omega)]


theorem random_of_obs_x (n : Nat) (raw : BitMat) (d : Draws) (h : Bool) (q k : Nat)
    (hq : q < ceil256 n) :
    ((Tableau.random_of n raw d).obs h q).x_data k
      = (decide (q < n ∧ k < n) && raw.data (q + h.toNat * n) k) := by
  have hc := le_ceil256 n
  rw [obs_x, random_of_num_qubits]
  by_cases hk : k < ceil256 n
  · rw [decide_eq_true hk, Bool.true_and,
      random_of_data n raw d q k h.toNat hq hk (by cases h <;> decide)]
    cases h <;> simp
  · rw [decide_eq_false hk, Bool.false_and, decide_eq_false (by omega), Bool.false_and]

theorem random_of_obs_z (n : Nat) (raw : BitMat) (d : Draws) (h : Bool) (q k : Nat)
    (hq : q < ceil256 n) :
    ((Tableau.random_of n raw d).obs h q).z_data k
      = (decide (q < n ∧ k < n) && raw.data (q + h.toNat * n) (k + n)) := by
  have hc := le_ceil256 n
  rw [obs_z, random_of_num_qubits]
  by_cases hk : k < ceil256 n
  · rw [decide_eq_true hk, Bool.true_and,
      random_of_data n raw d q k (2 + h.toNat) hq hk (by cases h <;> decide)]
    cases h <;> simp
  · rw [decide_eq_false hk, Bool.false_and, decide_eq_false (by omega), Bool.false_and]

theorem popcount_parity (f : Nat → Bool) (m : Nat) :
    (popcount_below f m % 2 == 1) = xor_below f m := by
  induction m with
  | zero => rfl
  | succ m ih =>
    rw [popcount_below, xor_below, ← ih]
    have := Nat.mod_two_eq_zero_or_one (popcount_below f m)
    cases f m <;> rcases this with h | h <;> simp [Nat.add_mod, h]

/-- The tableau that `Tableau::random` builds from a symplectic matrix satisfies
the commutation relations. -/
theorem random_of_valid (n : Nat) (raw : BitMat) (d : Draws) (hraw : raw.symplectic n) :
    (Tableau.random_of n raw d).valid := by
  have hc := le_ceil256 n
  rw [valid_iff_gram]
  intro h1 q1 h2 q2 hq1 hq2
  rw [random_of_num_qubits] at hq1 hq2
  unfold Tableau.row PhasedPauli.anti PauliStringVal.embed
  dsimp only
  rw [popcount_parity, random_of_num_qubits, xor_below_trunc _ n (ceil256 n) hc]
  · rw [xor_below_congr _ (fun k =>
      (raw.data (q1 + h1.toNat * n) k && raw.data (q2 + h2.toNat * n) (k + n)) ^^
      (raw.data (q1 + h1.toNat * n) (k + n) && raw.data (q2 + h2.toNat * n) k)) n]
    · have := hraw (q1 + h1.toNat * n) (q2 + h2.toNat * n)
        (by cases h1 <;> simp <;> omega) (by cases h2 <;> simp <;> omega)
      rw [row_product_eq] at this
      rw [this]
      rw [Bool.eq_iff_iff]
      cases h1 <;> cases h2 <;> simp <;> omega
    · intro k hk
      rw [random_of_obs_x _ _ _ _ _ _ (by omega), random_of_obs_z _ _ _ _ _ _ (by omega),
        random_of_obs_x _ _ _ _ _ _ (by omega), random_of_obs_z _ _ _ _ _ _ (by omega),
        decide_eq_true (show q1 < n ∧ k < n from ⟨hq1, hk⟩),
        decide_eq_true (show q2 < n ∧ k < n from ⟨hq2, hk⟩)]
      simp only [Bool.true_and]
  · intro k hk1 hk2
    rw [random_of_obs_x _ _ _ _ _ _ (by omega), random_of_obs_z _ _ _ _ _ _ (by omega),
      random_of_obs_x _ _ _ _ _ _ (by omega), random_of_obs_z _ _ _ _ _ _ (by omega),
      decide_eq_false (show ¬ (q1 < n ∧ k < n) by omega),
      decide_eq_false (show ¬ (q2 < n ∧ k < n) by omega)]
    rfl

/-- The tableau that `Tableau::random` builds has zero padding. -/
theorem random_of_zero_padding (n : Nat) (raw : BitMat) (d : Draws) :
    (Tableau.random_of n raw d).zero_padding := by
  unfold Tableau.zero_padding
  rw [random_of_num_qubits]
  constructor
  · intro i o quad hi ho hq h
    rw [random_of_data n raw d i o quad hi ho hq, decide_eq_false (by omega), Bool.false_and]
  · intro q h1 h2
    rw [random_of_sign, random_of_sign, if_neg (by omega), if_neg (by omega), if_neg (by omega),
      if_neg (by omega)]
    exact ⟨rfl, rfl⟩


/-- In the model with exact arithmetic on the draws: with draws strictly between
0 and 1, `Tableau::random` returns the tableau built from the Hadamard vector
and the permutation of `sample_qmallows`. -/
theorem random_returns (n : Nat) (d : Draws) (hn : n < 2 ^ 63)
    (hu : ∀ i, i < n → 0 < d.uni i ∧ d.uni i < 1) :
    ∃ hada perm, hada.length = n ∧ perm.Perm (List.range n) ∧
      Tableau.random n d
        = some (Tableau.random_of n (random_stabilizer_tableau_raw_of n hada perm d) d) := by
  obtain ⟨hada, perm, h1, h2, h3⟩ := sample_qmallows_ok n d.uni hn hu
  refine ⟨hada, perm, h2, h3, ?_⟩
  unfold Tableau.random random_stabilizer_tableau_raw
  rw [h1]
  rfl

/-- For every Hadamard vector, every permutation of `0 .. n-1` and every choice
of the random bits, the matrix that `random_stabilizer_tableau_raw` builds is
symplectic in the row sense and the tableau that `Tableau::random` builds from
it passes `satisfies_invariants`. -/
theorem random_of_satisfies_invariants (n : Nat) (d : Draws) (hada : List Bool) (perm : List Nat)
    (hperm : perm.Perm (List.range n)) :
    (random_stabilizer_tableau_raw_of n hada perm d).symplectic n ∧
    (Tableau.random_of n (random_stabilizer_tableau_raw_of n hada perm d)
      d).satisfies_invariants = true := by
  have h := raw_symplectic n hada perm d hperm
  exact ⟨h, (satisfies_invariants_iff _).2 (random_of_valid n _ d h)⟩

/-! ## Zero padding -/

/-- Zero padding in terms of the stored observables: the rows below `n` have no
bit from position `n` on, and the rows from `n` on are zero with sign bit 0. -/
theorem zero_padding_iff (t : Tableau) :
    t.zero_padding ↔ ∀ (h : Bool) (q : Nat), q < ceil256 t.num_qubits →
      (t.num_qubits ≤ q → (t.obs h q).val_sign = false) ∧
      ∀ k, (t.num_qubits ≤ q ∨ t.num_qubits ≤ k) →
        (t.obs h q).x_data k = false ∧ (t.obs h q).z_data k = false := by
  constructor
  · intro hz h q hq
    constructor
    · intro hnq
      rw [obs_sign]
      have := hz.2 q hnq hq
      cases h
      · simpa using this.1
      · simpa using this.2
    · intro k hk
      rw [obs_x, obs_z]
      by_cases hkc : k < ceil256 t.num_qubits
      · rw [hz.1 q k h.toNat hq hkc (by cases h <;> decide) hk,
          hz.1 q k (2 + h.toNat) hq hkc (by cases h <;> decide) hk]
        simp
      · simp [hkc]
  · intro hr
    constructor
    · intro i o quad hi ho hq hio
      have hx := fun h => ((hr h i hi).2 o hio).1
      have hzz := fun h => ((hr h i hi).2 o hio).2
      simp only [obs_x, obs_z, ho, decide_True, Bool.true_and] at hx hzz
      interval_cases quad
      · exact hx false
      · exact hx true
      · exact hzz false
      · exact hzz true
    · intro q hnq hq
      have h0 := (hr false q hq).1 hnq
      have h1 := (hr true q hq).1 hnq
      rw [obs_sign] at h0 h1
      constructor
      · simpa using h0
      · simpa [Nat.add_comm] using h1

theorem padded_obs (t : Tableau) (hz : t.zero_padding) (h : Bool) (q : Nat)
    (hq : q < ceil256 t.num_qubits) : (t.obs h q).padded t.num_qubits :=
  fun k hk => (((zero_padding_iff t).1 hz h q hq).2 k (Or.inr hk))

theorem padded_mul_phase (c : Nat) {n : Nat} {a b : PauliStringVal} (ha : a.padded n) (hb : b.padded n) :
    (a.mul_phase c b).padded n := by
  intro k hk
  rw [mul_phase_x, mul_phase_z, (ha k hk).1, (ha k hk).2, (hb k hk).1, (hb k hk).2]
  exact ⟨rfl, rfl⟩

theorem padded_neg {n : Nat} {a : PauliStringVal} (ha : a.padded n) : a.neg.padded n := ha

/-- Overwriting an observable below `n` with a string that has no bit from
position `n` on keeps the padding zero. -/
theorem zero_padding_with_obs (t : Tableau) (hz : t.zero_padding) (h : Bool) (q : Nat)
    (hq : q < t.num_qubits) (v : PauliStringVal) (hv : v.padded t.num_qubits) :
    (t.with_obs h q v).zero_padding := by
  have hqc := lt_ceil hq
  rw [zero_padding_iff] at hz ⊢
  intro h1 q1 hq1
  rw [with_obs_num_qubits] at hq1 ⊢
  rw [obs_with_obs t h q v hqc h1 q1 hq1]
  by_cases e : h1 = h ∧ q1 = q
  · rw [if_pos e]
    constructor
    · intro hn; omega
    · intro k hk
      have hk : t.num_qubits ≤ k := by omega
      simp [PauliStringVal.clip, (hv k hk).1, (hv k hk).2]
  · rw [if_neg e]
    exact hz h1 q1 hq1

section
variable (t : Tableau) (hz : t.zero_padding)
include hz

theorem zero_padding_prepend_H (q : Nat) (hq : q < t.num_qubits) : (t.prepend_H q).zero_padding := by
  rw [prepend_H_eq]
  have h1 := zero_padding_with_obs t hz false q hq _ (padded_obs t hz true q (lt_ceil hq))
  exact zero_padding_with_obs _ h1 true q hq _ (padded_obs t hz false q (lt_ceil hq))

theorem zero_padding_prepend_X (q : Nat) (hq : q < t.num_qubits) : (t.prepend_X q).zero_padding := by
  rw [prepend_X_eq t q (lt_ceil hq)]
  exact zero_padding_with_obs t hz true q hq _ (padded_neg (padded_obs t hz true q (lt_ceil hq)))

theorem zero_padding_prepend_Z (q : Nat) (hq : q < t.num_qubits) : (t.prepend_Z q).zero_padding := by
  rw [prepend_Z_eq t q (lt_ceil hq)]
  exact zero_padding_with_obs t hz false q hq _
    (padded_neg (padded_obs t hz false q (lt_ceil hq)))

theorem zero_padding_prepend_Y (q : Nat) (hq : q < t.num_qubits) : (t.prepend_Y q).zero_padding := by
  rw [prepend_Y_eq t q (lt_ceil hq)]
  have h1 := zero_padding_with_obs t hz false q hq _
    (padded_neg (padded_obs t hz false q (lt_ceil hq)))
  exact zero_padding_with_obs _ h1 true q hq _
    (padded_neg (padded_obs t hz true q (lt_ceil hq)))

theorem zero_padding_prepend_SQRT_Y (q : Nat) (hq : q < t.num_qubits) :
    (t.prepend_SQRT_Y q).zero_padding := by
  rw [prepend_SQRT_Y_eq t q (lt_ceil hq)]
  have h1 := zero_padding_with_obs t hz false q hq _
    (padded_neg (padded_obs t hz true q (lt_ceil hq)))
  exact zero_padding_with_obs _ h1 true q hq _ (padded_obs t hz false q (lt_ceil hq))

theorem zero_padding_prepend_SQRT_Y_DAG (q : Nat) (hq : q < t.num_qubits) :
    (t.prepend_SQRT_Y_DAG q).zero_padding := by
  rw [prepend_SQRT_Y_DAG_eq t q (lt_ceil hq)]
  have h1 := zero_padding_with_obs t hz false q hq _ (padded_obs t hz true q (lt_ceil hq))
  exact zero_padding_with_obs _ h1 true q hq _
    (padded_neg (padded_obs t hz false q (lt_ceil hq)))

theorem zero_padding_prepend_SQRT_X (q : Nat) (hq : q < t.num_qubits) :
    (t.prepend_SQRT_X q).zero_padding := by
  rw [prepend_SQRT_X_eq t q (lt_ceil hq)]
  exact zero_padding_with_obs t hz true q hq _
    (padded_mul_phase _ (padded_obs t hz true q (lt_ceil hq)) (padded_obs t hz false q (lt_ceil hq)))

theorem zero_padding_prepend_SQRT_X_DAG (q : Nat) (hq : q < t.num_qubits) :
    (t.prepend_SQRT_X_DAG q).zero_padding := by
  rw [prepend_SQRT_X_DAG_eq t q (lt_ceil hq)]
  exact zero_padding_with_obs t hz true q hq _
    (padded_mul_phase _ (padded_obs t hz true q (lt_ceil hq)) (padded_obs t hz false q (lt_ceil hq)))

theorem zero_padding_prepend_SQRT_Z (q : Nat) (hq : q < t.num_qubits) :
    (t.prepend_SQRT_Z q).zero_padding := by
  rw [prepend_SQRT_Z_eq t q (lt_ceil hq)]
  exact zero_padding_with_obs t hz false q hq _
    (padded_mul_phase _ (padded_obs t hz false q (lt_ceil hq)) (padded_obs t hz true q (lt_ceil hq)))

theorem zero_padding_prepend_SQRT_Z_DAG (q : Nat) (hq : q < t.num_qubits) :
    (t.prepend_SQRT_Z_DAG q).zero_padding := by
  rw [prepend_SQRT_Z_DAG_eq t q (lt_ceil hq)]
  exact zero_padding_with_obs t hz false q hq _
    (padded_mul_phase _ (padded_obs t hz false q (lt_ceil hq)) (padded_obs t hz true q (lt_ceil hq)))

theorem zero_padding_prepend_H_YZ (q : Nat) (hq : q < t.num_qubits) :
    (t.prepend_H_YZ q).zero_padding := by
  rw [prepend_H_YZ_eq t q (lt_ceil hq)]
  have h1 := zero_padding_with_obs t hz true q hq _
    (padded_mul_phase 3 (padded_obs t hz true q (lt_ceil hq)) (padded_obs t hz false q (lt_ceil hq)))
  exact zero_padding_with_obs _ h1 false q hq _
    (padded_neg (padded_obs t hz false q (lt_ceil hq)))

theorem zero_padding_prepend_H_XY (q : Nat) (hq : q < t.num_qubits) :
    (t.prepend_H_XY q).zero_padding := by
  rw [prepend_H_XY_eq t q (lt_ceil hq)]
  have h1 := zero_padding_with_obs t hz false q hq _
    (padded_mul_phase 1 (padded_obs t hz false q (lt_ceil hq)) (padded_obs t hz true q (lt_ceil hq)))
  exact zero_padding_with_obs _ h1 true q hq _
    (padded_neg (padded_obs t hz true q (lt_ceil hq)))

theorem zero_padding_prepend_CX (c tg : Nat) (hc : c < t.num_qubits) (htg : tg < t.num_qubits) :
    (t.prepend_CX c tg).zero_padding := by
  rw [prepend_CX_eq t c tg (lt_ceil hc) (lt_ceil htg)]
  have h1 := zero_padding_with_obs t hz true tg htg _
    (padded_mul_phase 0 (padded_obs t hz true tg (lt_ceil htg))
      (padded_obs t hz true c (lt_ceil hc)))
  exact zero_padding_with_obs _ h1 false c hc _
    (padded_mul_phase _ (padded_obs t hz false c (lt_ceil hc))
      (padded_obs t hz false tg (lt_ceil htg)))

theorem zero_padding_prepend_CZ (c tg : Nat) (hc : c < t.num_qubits) (htg : tg < t.num_qubits) :
    (t.prepend_CZ c tg).zero_padding := by
  unfold Tableau.prepend_CZ
  simp only [x_obs_ptr_eq, z_obs_ptr_eq]
  rw [mul_assign_eq_with_obs t t t rfl rfl]
  have h1 := zero_padding_with_obs t hz false tg htg _
    (padded_mul_phase 0 (padded_obs t hz false tg (lt_ceil htg))
      (padded_obs t hz true c (lt_ceil hc)))
  rw [mul_assign_eq_with_obs _ _ _ rfl rfl]
  exact zero_padding_with_obs _ h1 false c hc _
    (padded_mul_phase _ (padded_obs _ h1 false c (lt_ceil hc))
      (padded_obs _ h1 true tg (lt_ceil htg)))

theorem zero_padding_prepend_CY (c tg : Nat) (hc : c < t.num_qubits) (htg : tg < t.num_qubits) :
    (t.prepend_CY c tg).zero_padding := by
  unfold Tableau.prepend_CY
  have n1 := prepend_H_YZ_num_qubits t tg (lt_ceil htg)
  have h1 := zero_padding_prepend_H_YZ t hz tg htg
  have n2 : ((t.prepend_H_YZ tg).prepend_CZ c tg).num_qubits = t.num_qubits := by
    rw [← n1]; rfl
  have h2 := zero_padding_prepend_CZ _ h1 c tg (by rw [n1]; exact hc) (by rw [n1]; exact htg)
  exact zero_padding_prepend_H_YZ _ h2 tg (by rw [n2]; exact htg)

end

theorem zero_padding_ctor (n : Nat) : (Tableau.ctor n).zero_padding := by
  constructor
  · intro i o quad hi ho hq hio
    rw [ctor_num_qubits] at hi ho hio ⊢
    rw [ctor_bit n i o quad hi ho, decide_eq_false_iff_not]
    intro h
    omega
  · intro q _ _
    exact ⟨rfl, rfl⟩


/-- A column operation on one column below `n` that maps a zero row to a zero
row keeps the padding zero. -/
theorem zero_padding_col1 (t t1 : Tableau) (hz : t.zero_padding)
    (f : Bool → Bool → Bool → Bool × Bool × Bool) (hf : f false false false = (false, false, false))
    (q : Nat) (hq : q < t.num_qubits) (hn : t1.num_qubits = t.num_qubits)
    (hobs : ∀ (h : Bool) (i : Nat), i < ceil256 t.num_qubits →
      t1.obs h i = (t.obs h i).col1 f q) : t1.zero_padding := by
  rw [zero_padding_iff] at hz ⊢
  intro h q1 hq1
  rw [hn] at hq1 ⊢
  rw [hobs h q1 hq1]
  obtain ⟨hs, hb⟩ := hz h q1 hq1
  constructor
  · intro hnq
    show (f _ _ _).1 = false
    rw [hs hnq, (hb q (Or.inl hnq)).1, (hb q (Or.inl hnq)).2, hf]
  · intro k hk
    show (if k = q then (f _ _ _).2.1 else _) = false ∧ (if k = q then (f _ _ _).2.2 else _) = false
    by_cases e : k = q
    · have hnq : t.num_qubits ≤ q1 := by omega
      rw [if_pos e, if_pos e, hs hnq, (hb q (Or.inl hnq)).1, (hb q (Or.inl hnq)).2, hf]
      exact ⟨rfl, rfl⟩
    · rw [if_neg e, if_neg e]
      exact hb k hk

/-- A column operation on two columns below `n` that maps a zero row to a zero
row keeps the padding zero. -/
theorem zero_padding_col2 (t t1 : Tableau) (hz : t.zero_padding)
    (f : Bool → Bool → Bool → Bool → Bool → Bool × Bool × Bool × Bool × Bool)
    (hf : f false false false false false = (false, false, false, false, false))
    (c tg : Nat) (hc : c < t.num_qubits) (htg : tg < t.num_qubits)
    (hn : t1.num_qubits = t.num_qubits)
    (hobs : ∀ (h : Bool) (i : Nat), i < ceil256 t.num_qubits →
      t1.obs h i = (t.obs h i).col2 f c tg) : t1.zero_padding := by
  rw [zero_padding_iff] at hz ⊢
  intro h q1 hq1
  rw [hn] at hq1 ⊢
  rw [hobs h q1 hq1]
  obtain ⟨hs, hb⟩ := hz h q1 hq1
  constructor
  · intro hnq
    show (f _ _ _ _ _).1 = false
    rw [hs hnq, (hb c (Or.inl hnq)).1, (hb c (Or.inl hnq)).2, (hb tg (Or.inl hnq)).1,
      (hb tg (Or.inl hnq)).2, hf]
  · intro k hk
    show (if k = c then (f _ _ _ _ _).2.1 else if k = tg then (f _ _ _ _ _).2.2.2.1 else _) = false
      ∧ (if k = c then (f _ _ _ _ _).2.2.1 else if k = tg then (f _ _ _ _ _).2.2.2.2 else _)
        = false
    by_cases e : k = c ∨ k = tg
    · have hnq : t.num_qubits ≤ q1 := by omega
      rw [hs hnq, (hb c (Or.inl hnq)).1, (hb c (Or.inl hnq)).2, (hb tg (Or.inl hnq)).1,
        (hb tg (Or.inl hnq)).2, hf]
      simp
      rcases e with e | e
      · simp [e, hb c (Or.inl hnq)]
      · simp [e, hb tg (Or.inl hnq)]
    · rw [if_neg (fun h => e (Or.inl h)), if_neg (fun h => e (Or.inr h)),
        if_neg (fun h => e (Or.inl h)), if_neg (fun h => e (Or.inr h))]
      exact hb k hk

/-! ## `append_CX` with control and target on the same column -/

theorem step_CX_same (n q K j : Nat) (hK : 0 < K * ceil256 n) (d s : Nat → Bool) :
    append_CX_body (ceil256 n)
        { pc := { x := q + j * ceil256 n, z := q + (K + j) * ceil256 n },
          pt := { x := q + j * ceil256 n, z := q + (K + j) * ceil256 n }, s := j,
          data := d, sign := s }
      = { pc := { x := q + (j + 1) * ceil256 n, z := q + (K + (j + 1)) * ceil256 n },
          pt := { x := q + (j + 1) * ceil256 n, z := q + (K + (j + 1)) * ceil256 n },
          s := j + 1,
          data := (col_step1 col_CX_same n q K j (d, s)).1,
          sign := (col_step1 col_CX_same n q K j (d, s)).2 } := by
  have ne : q + j * ceil256 n ≠ q + (K + j) * ceil256 n := by
    rw [Nat.add_mul]; omega
  simp only [append_CX_body]
  congr 1
  all_goals first
    | (funext a
       simp only [col_step1, col_CX_same, u256_store, u256_load, col_addr, word_div, word_mod, ne,
         Ne.symm ne, if_true, if_false])
    | (congr 1 <;> ring)

theorem run_same (n q K : Nat) (hK : 0 < K * ceil256 n) (d s : Nat → Bool) (j : Nat) :
    for_loop (fun _ st => append_CX_body (ceil256 n) st) j
        { pc := { x := q + 0 * ceil256 n, z := q + (K + 0) * ceil256 n },
          pt := { x := q + 0 * ceil256 n, z := q + (K + 0) * ceil256 n }, s := 0,
          data := d, sign := s }
      = { pc := { x := q + j * ceil256 n, z := q + (K + j) * ceil256 n },
          pt := { x := q + j * ceil256 n, z := q + (K + j) * ceil256 n }, s := j,
          data := (for_loop (col_step1 col_CX_same n q K) j (d, s)).1,
          sign := (for_loop (col_step1 col_CX_same n q K) j (d, s)).2 } := by
  induction j with
  | zero => rfl
  | succ j ih => rw [for_loop_succ, ih, step_CX_same n q K j hK, for_loop_succ]

theorem append_CX_same_dtor (t : Tableau) (q : Nat) (hq : q < ceil256 t.num_qubits) :
    ((BlockTransposedTableau.ctor t).append_CX q q).dtor.outside = t.outside ∧
    ∀ (h : Bool) (i : Nat), i < ceil256 t.num_qubits →
      ((BlockTransposedTableau.ctor t).append_CX q q).dtor.obs h i
        = (t.obs h i).col1 col_CX_same q := by
  have hp : (BlockTransposedTableau.ctor t).transposed_double_col_obs_ptr q
      = { x := q + 0 * ceil256 t.num_qubits,
          z := q + (2 * (ceil256 t.num_qubits / 256) + 0) * ceil256 t.num_qubits } := by
    have h1 := ptr_x (BlockTransposedTableau.ctor t) q
    have h2 := ptr_z (BlockTransposedTableau.ctor t) q
    cases hc : (BlockTransposedTableau.ctor t).transposed_double_col_obs_ptr q with
    | mk x z =>
      rw [hc] at h1 h2
      simp only at h1 h2
      rw [h1, h2]
      simp [ctor_num_qubits_scope]
  have key := run_same t.num_qubits q (2 * (ceil256 t.num_qubits / 256)) (words_pos hq)
    (BlockTransposedTableau.ctor t).tableau.data_x2x_z2x_x2z_z2z t.data_sign_x_z
    (2 * (ceil256 t.num_qubits / 256))
  have e : ((BlockTransposedTableau.ctor t).append_CX q q).tableau
      = { (BlockTransposedTableau.ctor t).tableau with
          data_x2x_z2x_x2z_z2z :=
            (for_loop (col_step1 col_CX_same t.num_qubits q (2 * (ceil256 t.num_qubits / 256)))
              (2 * (ceil256 t.num_qubits / 256))
              ((BlockTransposedTableau.ctor t).tableau.data_x2x_z2x_x2z_z2z,
                t.data_sign_x_z)).1,
          data_sign_x_z :=
            (for_loop (col_step1 col_CX_same t.num_qubits q (2 * (ceil256 t.num_qubits / 256)))
              (2 * (ceil256 t.num_qubits / 256))
              ((BlockTransposedTableau.ctor t).tableau.data_x2x_z2x_x2z_z2z,
                t.data_sign_x_z)).2 } := by
    simp only [BlockTransposedTableau.append_CX, BlockTransposedTableau.run_loop, sign_words,
      column_stride256, ctor_num_qubits_scope, ctor_sign_scope]
    rw [hp, key]
  apply single_dtor_obs t col_CX_same q hq ((BlockTransposedTableau.ctor t).append_CX q q) rfl
  · rw [e]
  · rw [e]


section
variable (t : Tableau) (hz : t.zero_padding)
include hz

theorem zero_padding_append_H (q : Nat) (hq : q < t.num_qubits) :
    ((BlockTransposedTableau.ctor t).append_H q).dtor.zero_padding :=
  zero_padding_col1 t _ hz col_H rfl q hq rfl (append_H_dtor t q (lt_ceil hq)).2

theorem zero_padding_append_H_YZ (q : Nat) (hq : q < t.num_qubits) :
    ((BlockTransposedTableau.ctor t).append_H_YZ q).dtor.zero_padding :=
  zero_padding_col1 t _ hz col_H_YZ rfl q hq rfl (append_H_YZ_dtor t q (lt_ceil hq)).2

theorem zero_padding_append_X (q : Nat) (hq : q < t.num_qubits) :
    ((BlockTransposedTableau.ctor t).append_X q).dtor.zero_padding :=
  zero_padding_col1 t _ hz col_X rfl q hq rfl (append_X_dtor t q (lt_ceil hq)).2

theorem zero_padding_append_CX (c tg : Nat) (hc : c < t.num_qubits) (htg : tg < t.num_qubits) :
    ((BlockTransposedTableau.ctor t).append_CX c tg).dtor.zero_padding := by
  by_cases e : c = tg
  · subst e
    exact zero_padding_col1 t _ hz col_CX_same rfl c hc rfl
      (append_CX_same_dtor t c (lt_ceil hc)).2
  · exact zero_padding_col2 t _ hz col_CX rfl c tg hc htg rfl
      (append_CX_dtor t c tg (lt_ceil hc) (lt_ceil htg) e).2

end

/-! ## The generic append on one target -/

theorem gather1 (src : PauliStringVal) (q : Nat) :
    src.gather_into (PauliStringVal.identity 1) [q]
      = (pauli_lit1 false (src.x_data q) (src.z_data q)).clip 1 := by
  apply PauliStringVal.ext_iff4
  · rfl
  · rfl
  · intro k
    show (if k = 0 then src.x_data q else false) = (decide (k < ceil256 1) && _)
    rw [lit1_x]
    by_cases e : k = 0
    · subst e; simp [zero_lt_ceil1]
    · simp [e]
  · intro k
    show (if k = 0 then src.z_data q else false) = (decide (k < ceil256 1) && _)
    rw [lit1_z]
    by_cases e : k = 0
    · subst e; simp [zero_lt_ceil1]
    · simp [e]

theorem call_lit1 (px pz : PauliStringVal) (hpx : px.wf 1) (hpz : pz.wf 1) (x z : Bool) :
    (tableau1 px pz).call ((pauli_lit1 false x z).clip 1) = lit_out1 px pz x z := by
  show (tableau1 px pz).scatter_eval ((pauli_lit1 false x z).clip 1) [0] = _
  rw [scatter_eval_lit1, tableau1_obs_x, tableau1_obs_z, clip_of_wf hpx, clip_of_wf hpz]
  rfl

theorem lit_out1_size (px pz : PauliStringVal) (hpx : px.wf 1) (hpz : pz.wf 1) (x z : Bool) :
    (lit_out1 px pz x z).size = 1 := by
  unfold lit_out1
  cases x <;> cases z
  · rfl
  · exact hpz.1
  · exact hpx.1
  · exact hpx.1

theorem scatter1 (out src : PauliStringVal) (hs : out.size = 1) (q : Nat) :
    out.scatter_into src [q]
      = { size := src.size, val_sign := src.val_sign ^^ out.val_sign,
          x_data := fun o => if o = q then out.x_data 0 else src.x_data o,
          z_data := fun o => if o = q then out.z_data 0 else src.z_data o } := by
  unfold PauliStringVal.scatter_into
  rw [hs]
  rfl

/-- `apply_within` of a one-qubit gate on an observable of the tableau. -/
theorem apply_within1 (px pz : PauliStringVal) (hpx : px.wf 1) (hpz : pz.wf 1) (t t0 : Tableau)
    (hn : t0.num_qubits = t.num_qubits) (h : Bool) (i q : Nat) :
    (tableau1 px pz).apply_within t (t0.obs_ptr h i) [q]
      = t.with_obs h i ((t.obs h i).col1 (gate_col1 px pz) q) := by
  unfold Tableau.apply_within
  simp only [tableau1_num_qubits, load_eq_obs t t0 hn, store_eq_with_obs t t0 hn]
  rw [gather1, call_lit1 px pz hpx hpz, scatter1 _ _ (lit_out1_size px pz hpx hpz _ _)]
  rfl

/-- The rows after the loop of `inplace_scatter_append` for a one-qubit gate. -/
theorem scatter_append1_loop (px pz : PauliStringVal) (hpx : px.wf 1) (hpz : pz.wf 1)
    (t : Tableau) (q : Nat) (hq : q < ceil256 t.num_qubits) (N : Nat) (hN : N ≤ t.num_qubits) :
    (for_loop (fun i t1 =>
        (tableau1 px pz).apply_within
          ((tableau1 px pz).apply_within t1 (t1.x_obs_ptr i) [q])
          (((tableau1 px pz).apply_within t1 (t1.x_obs_ptr i) [q]).z_obs_ptr i) [q]) N t).num_qubits
      = t.num_qubits ∧
    (for_loop (fun i t1 =>
        (tableau1 px pz).apply_within
          ((tableau1 px pz).apply_within t1 (t1.x_obs_ptr i) [q])
          (((tableau1 px pz).apply_within t1 (t1.x_obs_ptr i) [q]).z_obs_ptr i) [q]) N t).outside
      = t.outside ∧
    ∀ (h : Bool) (i : Nat), i < ceil256 t.num_qubits →
      (for_loop (fun i t1 =>
        (tableau1 px pz).apply_within
          ((tableau1 px pz).apply_within t1 (t1.x_obs_ptr i) [q])
          (((tableau1 px pz).apply_within t1 (t1.x_obs_ptr i) [q]).z_obs_ptr i) [q]) N t).obs h i
        = if i < N then (t.obs h i).col1 (gate_col1 px pz) q else t.obs h i := by
  have hc := le_ceil256 t.num_qubits
  induction N with
  | zero => exact ⟨rfl, rfl, fun h i _ => rfl⟩
  | succ N ih =>
    obtain ⟨h1, h2, h3⟩ := ih (by omega)
    rw [for_loop_succ]
    generalize for_loop _ N t = s at h1 h2 h3 ⊢
    simp only [x_obs_ptr_eq, z_obs_ptr_eq]
    rw [apply_within1 px pz hpx hpz s s rfl, apply_within1 px pz hpx hpz _ _ rfl]
    have hNc : N < ceil256 s.num_qubits := by rw [h1]; omega
    refine ⟨h1, ?_, ?_⟩
    · rw [outside_with_obs _ _ _ _ (by exact hNc), outside_with_obs _ _ _ _ hNc, h2]
    · intro h i hi
      have hi1 : i < ceil256 s.num_qubits := by rw [h1]; exact hi
      rw [obs_with_obs _ _ _ _ (by exact hNc) _ _ (by exact hi1)]
      rw [obs_with_obs _ _ _ _ hNc _ _ hi1, obs_with_obs _ _ _ _ hNc _ _ hNc]
      simp only [Bool.true_eq_false, false_and, if_false]
      have wf1 : ∀ v : PauliStringVal, v.wf s.num_qubits →
          ((v.col1 (gate_col1 px pz) q).clip s.num_qubits) = v.col1 (gate_col1 px pz) q := by
        intro v hv
        apply clip_of_wf
        refine ⟨hv.1, fun k hk => ?_⟩
        have : k ≠ q := by rw [h1] at hk; omega
        show (if k = q then _ else _) = false ∧ (if k = q then _ else _) = false
        rw [if_neg this, if_neg this]
        exact hv.2 k hk
      have c1 := wf1 _ (obs_wf s true N)
      have c2 := wf1 _ (obs_wf s false N)
      simp only [with_obs_num_qubits, c1, c2]
      by_cases e : i = N
      · subst e
        rw [h3 true i hi, h3 false i hi, if_neg (Nat.lt_irrefl i), if_neg (Nat.lt_irrefl i),
          if_pos (Nat.lt_succ_self i)]
        cases h <;> simp
      · rw [if_neg (fun h => e h.2), if_neg (fun h => e h.2), h3 h i hi]
        by_cases e2 : i < N
        · rw [if_pos e2, if_pos (show i < N + 1 by omega)]
        · rw [if_neg e2, if_neg (show ¬ i < N + 1 by omega)]


theorem col1_zero_row (f : Bool → Bool → Bool → Bool × Bool × Bool)
    (hf : f false false false = (false, false, false)) (q : Nat) (v : PauliStringVal)
    (hs : v.val_sign = false) (hx : v.x_data q = false) (hz : v.z_data q = false) :
    v.col1 f q = v := by
  apply PauliStringVal.ext_iff4
  · rfl
  · show (f _ _ _).1 = _
    rw [hs, hx, hz, hf]
  · intro k
    show (if k = q then (f _ _ _).2.1 else _) = _
    by_cases e : k = q
    · rw [if_pos e, hs, hx, hz, hf, e, hx]
    · rw [if_neg e]
  · intro k
    show (if k = q then (f _ _ _).2.2 else _) = _
    by_cases e : k = q
    · rw [if_pos e, hs, hx, hz, hf, e, hz]
    · rw [if_neg e]

/-- A column operation inside a scope equals the generic append of a one-qubit
gate whose action on a row is the same function. -/
theorem scatter_append1 (px pz : PauliStringVal) (hpx : px.wf 1) (hpz : pz.wf 1)
    (f : Bool → Bool → Bool → Bool × Bool × Bool) (hf : ∀ s x z, gate_col1 px pz s x z = f s x z)
    (hf0 : f false false false = (false, false, false))
    (t : Tableau) (hz : t.zero_padding) (q : Nat) (hq : q < t.num_qubits) (t1 : Tableau)
    (hn : t1.num_qubits = t.num_qubits) (hout : t1.outside = t.outside)
    (hobs : ∀ (h : Bool) (i : Nat), i < ceil256 t.num_qubits → t1.obs h i = (t.obs h i).col1 f q) :
    t1 = t.inplace_scatter_append (tableau1 px pz) [q] := by
  have hfe : gate_col1 px pz = f := by
    funext s x z; exact hf s x z
  obtain ⟨l1, l2, l3⟩ := scatter_append1_loop px pz hpx hpz t q (lt_ceil hq) t.num_qubits
    (le_refl _)
  apply Tableau.ext_obs
  · rw [hout]
    exact l2.symm
  · intro h i hi
    rw [hn] at hi
    rw [hobs h i hi]
    show _ = (for_loop _ t.num_qubits t).obs h i
    rw [l3 h i hi, hfe]
    by_cases e : i < t.num_qubits
    · rw [if_pos e]
    · rw [if_neg e]
      have hr := (zero_padding_iff t).1 hz h i hi
      exact col1_zero_row f hf0 q _ (hr.1 (by omega)) (hr.2 q (Or.inl (by omega))).1
        (hr.2 q (Or.inl (by omega))).2

theorem lit1_mul_phase (c : Nat) (s x z s1 x1 z1 : Bool) :
    (pauli_lit1 s x z).mul_phase c (pauli_lit1 s1 x1 z1)
      = pauli_lit1 ((s ^^ s1) ^^ ((c + log_i_term x z x1 z1 % 4) % 256 &&& 2 != 0))
          (x ^^ x1) (z ^^ z1) := by
  unfold PauliStringVal.mul_phase
  rw [lit1_mul]
  rfl

theorem gate_col1_H (s x z : Bool) :
    gate_col1 (pauli_lit1 false false true) (pauli_lit1 false true false) s x z = col_H s x z := by
  unfold gate_col1 lit_out1
  cases x <;> cases z <;> simp only [if_true, if_false, Bool.false_eq_true, lit1_mul_phase] <;>
    cases s <;> decide

theorem gate_col1_H_YZ (s x z : Bool) :
    gate_col1 (pauli_lit1 true true false) (pauli_lit1 false true true) s x z
      = col_H_YZ s x z := by
  unfold gate_col1 lit_out1
  cases x <;> cases z <;> simp only [if_true, if_false, Bool.false_eq_true, lit1_mul_phase] <;>
    cases s <;> decide

theorem gate_col1_X (s x z : Bool) :
    gate_col1 (pauli_lit1 false true false) (pauli_lit1 true false true) s x z = col_X s x z := by
  unfold gate_col1 lit_out1
  cases x <;> cases z <;> simp only [if_true, if_false, Bool.false_eq_true, lit1_mul_phase] <;>
    cases s <;> decide

theorem append_H_eq_scatter (t : Tableau) (hz : t.zero_padding) (q : Nat) (hq : q < t.num_qubits) :
    ((BlockTransposedTableau.ctor t).append_H q).dtor
      = t.inplace_scatter_append
          (tableau1 (pauli_lit1 false false true) (pauli_lit1 false true false)) [q] :=
  scatter_append1 _ _ (lit1_wf _ _ _) (lit1_wf _ _ _) col_H gate_col1_H rfl t hz q hq _ rfl
    (append_H_dtor t q (lt_ceil hq)).1 (append_H_dtor t q (lt_ceil hq)).2

theorem append_H_YZ_eq_scatter (t : Tableau) (hz : t.zero_padding) (q : Nat)
    (hq : q < t.num_qubits) :
    ((BlockTransposedTableau.ctor t).append_H_YZ q).dtor
      = t.inplace_scatter_append
          (tableau1 (pauli_lit1 true true false) (pauli_lit1 false true true)) [q] :=
  scatter_append1 _ _ (lit1_wf _ _ _) (lit1_wf _ _ _) col_H_YZ gate_col1_H_YZ rfl t hz q hq _ rfl
    (append_H_YZ_dtor t q (lt_ceil hq)).1 (append_H_YZ_dtor t q (lt_ceil hq)).2

theorem append_X_eq_scatter (t : Tableau) (hz : t.zero_padding) (q : Nat) (hq : q < t.num_qubits) :
    ((BlockTransposedTableau.ctor t).append_X q).dtor
      = t.inplace_scatter_append
          (tableau1 (pauli_lit1 false true false) (pauli_lit1 true false true)) [q] :=
  scatter_append1 _ _ (lit1_wf _ _ _) (lit1_wf _ _ _) col_X gate_col1_X rfl t hz q hq _ rfl
    (append_X_dtor t q (lt_ceil hq)).1 (append_X_dtor t q (lt_ceil hq)).2


/-! ## The generic append on two targets -/

theorem gather2 (src : PauliStringVal) (c tg : Nat) :
    src.gather_into (PauliStringVal.identity 2) [c, tg]
      = (pauli_lit2 false (src.x_data c) (src.z_data c) (src.x_data tg) (src.z_data tg)).clip 2 := by
  have h2 := ceil256_two
  apply PauliStringVal.ext_iff4
  · rfl
  · rfl
  · intro k
    show (if k = 1 then src.x_data tg else if k = 0 then src.x_data c else false)
      = (decide (k < ceil256 2) && _)
    rw [lit2_x, h2]
    rcases k with _ | _ | k <;> simp
  · intro k
    show (if k = 1 then src.z_data tg else if k = 0 then src.z_data c else false)
      = (decide (k < ceil256 2) && _)
    rw [lit2_z, h2]
    rcases k with _ | _ | k <;> simp

theorem call_lit2 (a b c d : PauliStringVal) (ha : a.wf 2) (hb : b.wf 2) (hc : c.wf 2)
    (hd : d.wf 2) (x0 z0 x1 z1 : Bool) :
    (tableau2 a b c d).call ((pauli_lit2 false x0 z0 x1 z1).clip 2)
      = lit_out2 a b c d x0 z0 x1 z1 := by
  show (tableau2 a b c d).scatter_eval ((pauli_lit2 false x0 z0 x1 z1).clip 2) [0, 1] = _
  rw [scatter_eval_lit2_steps, tableau2_obs _ _ _ _ _ 0 (by omega),
    tableau2_obs _ _ _ _ _ 0 (by omega), tableau2_obs _ _ _ _ _ 1 (by omega),
    tableau2_obs _ _ _ _ _ 1 (by omega)]
  simp only [if_true, if_false, Bool.false_eq_true, one_ne_zero, clip_of_wf ha, clip_of_wf hb,
    clip_of_wf hc, clip_of_wf hd, signed_false]
  rfl

theorem lit_out2_size (a b c d : PauliStringVal) (ha : a.wf 2) (hb : b.wf 2)
    (x0 z0 x1 z1 : Bool) : (lit_out2 a b c d x0 z0 x1 z1).size = 2 := by
  unfold lit_out2
  cases x0 <;> cases z0 <;> cases x1 <;> cases z1 <;>
    first | rfl | exact ha.1 | exact hb.1

theorem scatter2 (out src : PauliStringVal) (hs : out.size = 2) (c tg : Nat) (hne : c ≠ tg) :
    out.scatter_into src [c, tg]
      = { size := src.size, val_sign := src.val_sign ^^ out.val_sign,
          x_data := fun o => if o = c then out.x_data 0 else if o = tg then out.x_data 1
            else src.x_data o,
          z_data := fun o => if o = c then out.z_data 0 else if o = tg then out.z_data 1
            else src.z_data o } := by
  unfold PauliStringVal.scatter_into
  rw [hs]
  apply PauliStringVal.ext_iff4
  · rfl
  · rfl
  · intro k
    show (if k = tg then out.x_data 1 else if k = c then out.x_data 0 else src.x_data k) = _
    dsimp only
    split_ifs <;> first | rfl | (exfalso; omega)
  · intro k
    show (if k = tg then out.z_data 1 else if k = c then out.z_data 0 else src.z_data k) = _
    dsimp only
    split_ifs <;> first | rfl | (exfalso; omega)

/-- `apply_within` of a two-qubit gate on an observable of the tableau. -/
theorem apply_within2 (a b c d : PauliStringVal) (ha : a.wf 2) (hb : b.wf 2) (hc : c.wf 2)
    (hd : d.wf 2) (t t0 : Tableau) (hn : t0.num_qubits = t.num_qubits) (h : Bool)
    (i q1 q2 : Nat) (hne : q1 ≠ q2) :
    (tableau2 a b c d).apply_within t (t0.obs_ptr h i) [q1, q2]
      = t.with_obs h i ((t.obs h i).col2 (gate_col2 a b c d) q1 q2) := by
  unfold Tableau.apply_within
  simp only [tableau2_num_qubits, load_eq_obs t t0 hn, store_eq_with_obs t t0 hn]
  rw [gather2, call_lit2 a b c d ha hb hc hd,
    scatter2 _ _ (lit_out2_size a b c d ha hb _ _ _ _) q1 q2 hne]
  rfl

/-- The rows after the loop of `inplace_scatter_append` for a two-qubit gate. -/
theorem scatter_append2_loop (a b c d : PauliStringVal) (ha : a.wf 2) (hb : b.wf 2)
    (hc : c.wf 2) (hd : d.wf 2)
    (t : Tableau) (q1 q2 : Nat) (hq1 : q1 < ceil256 t.num_qubits)
    (hq2 : q2 < ceil256 t.num_qubits) (hne : q1 ≠ q2) (N : Nat) (hN : N ≤ t.num_qubits) :
    (for_loop (fun i t1 =>
        (tableau2 a b c d).apply_within
          ((tableau2 a b c d).apply_within t1 (t1.x_obs_ptr i) [q1, q2])
          (((tableau2 a b c d).apply_within t1 (t1.x_obs_ptr i) [q1, q2]).z_obs_ptr i) [q1, q2])
        N t).num_qubits = t.num_qubits ∧
    (for_loop (fun i t1 =>
        (tableau2 a b c d).apply_within
          ((tableau2 a b c d).apply_within t1 (t1.x_obs_ptr i) [q1, q2])
          (((tableau2 a b c d).apply_within t1 (t1.x_obs_ptr i) [q1, q2]).z_obs_ptr i) [q1, q2])
        N t).outside = t.outside ∧
    ∀ (h : Bool) (i : Nat), i < ceil256 t.num_qubits →
      (for_loop (fun i t1 =>
        (tableau2 a b c d).apply_within
          ((tableau2 a b c d).apply_within t1 (t1.x_obs_ptr i) [q1, q2])
          (((tableau2 a b c d).apply_within t1 (t1.x_obs_ptr i) [q1, q2]).z_obs_ptr i) [q1, q2])
        N t).obs h i
        = if i < N then (t.obs h i).col2 (gate_col2 a b c d) q1 q2 else t.obs h i := by
  have hcl := le_ceil256 t.num_qubits
  induction N with
  | zero => exact ⟨rfl, rfl, fun h i _ => rfl⟩
  | succ N ih =>
    obtain ⟨h1, h2, h3⟩ := ih (by omega)
    rw [for_loop_succ]
    generalize for_loop _ N t = s at h1 h2 h3 ⊢
    simp only [x_obs_ptr_eq, z_obs_ptr_eq]
    rw [apply_within2 a b c d ha hb hc hd s s rfl _ _ _ _ hne,
      apply_within2 a b c d ha hb hc hd _ _ rfl _ _ _ _ hne]
    have hNc : N < ceil256 s.num_qubits := by rw [h1]; omega
    refine ⟨h1, ?_, ?_⟩
    · rw [outside_with_obs _ _ _ _ (by exact hNc), outside_with_obs _ _ _ _ hNc, h2]
    · intro h i hi
      have hi1 : i < ceil256 s.num_qubits := by rw [h1]; exact hi
      rw [obs_with_obs _ _ _ _ (by exact hNc) _ _ (by exact hi1)]
      rw [obs_with_obs _ _ _ _ hNc _ _ hi1, obs_with_obs _ _ _ _ hNc _ _ hNc]
      simp only [Bool.true_eq_false, false_and, if_false]
      have wf1 : ∀ v : PauliStringVal, v.wf s.num_qubits →
          ((v.col2 (gate_col2 a b c d) q1 q2).clip s.num_qubits)
            = v.col2 (gate_col2 a b c d) q1 q2 := by
        intro v hv
        apply clip_of_wf
        refine ⟨hv.1, fun k hk => ?_⟩
        have e1 : k ≠ q1 := by rw [h1] at hk; omega
        have e2 : k ≠ q2 := by rw [h1] at hk; omega
        show (if k = q1 then _ else if k = q2 then _ else _) = false
          ∧ (if k = q1 then _ else if k = q2 then _ else _) = false
        rw [if_neg e1, if_neg e2, if_neg e1, if_neg e2]
        exact hv.2 k hk
      have c1 := wf1 _ (obs_wf s true N)
      have c2 := wf1 _ (obs_wf s false N)
      simp only [with_obs_num_qubits, c1, c2]
      by_cases e : i = N
      · subst e
        rw [h3 true i hi, h3 false i hi, if_neg (Nat.lt_irrefl i), if_neg (Nat.lt_irrefl i),
          if_pos (Nat.lt_succ_self i)]
        cases h <;> simp
      · rw [if_neg (fun h => e h.2), if_neg (fun h => e h.2), h3 h i hi]
        by_cases e2 : i < N
        · rw [if_pos e2, if_pos (show i < N + 1 by omega)]
        · rw [if_neg e2, if_neg (show ¬ i < N + 1 by omega)]

theorem col2_zero_row (f : Bool → Bool → Bool → Bool → Bool → Bool × Bool × Bool × Bool × Bool)
    (hf : f false false false false false = (false, false, false, false, false)) (c tg : Nat)
    (v : PauliStringVal) (hs : v.val_sign = false) (hxc : v.x_data c = false)
    (hzc : v.z_data c = false) (hxt : v.x_data tg = false) (hzt : v.z_data tg = false) :
    v.col2 f c tg = v := by
  apply PauliStringVal.ext_iff4
  · rfl
  · show (f _ _ _ _ _).1 = _
    rw [hs, hxc, hzc, hxt, hzt, hf]
  · intro k
    show (if k = c then (f _ _ _ _ _).2.1 else if k = tg then (f _ _ _ _ _).2.2.2.1 else _) = _
    rw [hs, hxc, hzc, hxt, hzt, hf]
    by_cases e : k = c
    · rw [if_pos e, e, hxc]
    · rw [if_neg e]
      by_cases e2 : k = tg
      · rw [if_pos e2, e2, hxt]
      · rw [if_neg e2]
  · intro k
    show (if k = c then (f _ _ _ _ _).2.2.1 else if k = tg then (f _ _ _ _ _).2.2.2.2 else _) = _
    rw [hs, hxc, hzc, hxt, hzt, hf]
    by_cases e : k = c
    · rw [if_pos e, e, hzc]
    · rw [if_neg e]
      by_cases e2 : k = tg
      · rw [if_pos e2, e2, hzt]
      · rw [if_neg e2]

/-- A column operation on two columns inside a scope equals the generic append
of a two-qubit gate whose action on a row is the same function. -/
theorem scatter_append2 (a b c d : PauliStringVal) (ha : a.wf 2) (hb : b.wf 2) (hc : c.wf 2)
    (hd : d.wf 2)
    (f : Bool → Bool → Bool → Bool → Bool → Bool × Bool × Bool × Bool × Bool)
    (hf : ∀ s cx cz tx tz, gate_col2 a b c d s cx cz tx tz = f s cx cz tx tz)
    (hf0 : f false false false false false = (false, false, false, false, false))
    (t : Tableau) (hz : t.zero_padding) (q1 q2 : Nat) (hq1 : q1 < t.num_qubits)
    (hq2 : q2 < t.num_qubits) (hne : q1 ≠ q2) (t1 : Tableau)
    (hn : t1.num_qubits = t.num_qubits) (hout : t1.outside = t.outside)
    (hobs : ∀ (h : Bool) (i : Nat), i < ceil256 t.num_qubits →
      t1.obs h i = (t.obs h i).col2 f q1 q2) :
    t1 = t.inplace_scatter_append (tableau2 a b c d) [q1, q2] := by
  have hfe : gate_col2 a b c d = f := by
    funext s cx cz tx tz; exact hf s cx cz tx tz
  obtain ⟨l1, l2, l3⟩ := scatter_append2_loop a b c d ha hb hc hd t q1 q2 (lt_ceil hq1)
    (lt_ceil hq2) hne t.num_qubits (le_refl _)
  apply Tableau.ext_obs
  · rw [hout]
    exact l2.symm
  · intro h i hi
    rw [hn] at hi
    rw [hobs h i hi]
    show _ = (for_loop _ t.num_qubits t).obs h i
    rw [l3 h i hi, hfe]
    by_cases e : i < t.num_qubits
    · rw [if_pos e]
    · rw [if_neg e]
      have hr := (zero_padding_iff t).1 hz h i hi
      exact col2_zero_row f hf0 q1 q2 _ (hr.1 (by omega)) (hr.2 q1 (Or.inl (by omega))).1
        (hr.2 q1 (Or.inl (by omega))).2 (hr.2 q2 (Or.inl (by omega))).1
        (hr.2 q2 (Or.inl (by omega))).2

theorem lit2_mul_phase (k : Nat) (s x0 z0 x1 z1 s' x0' z0' x1' z1' : Bool) :
    (pauli_lit2 s x0 z0 x1 z1).mul_phase k (pauli_lit2 s' x0' z0' x1' z1')
      = pauli_lit2 ((s ^^ s') ^^
          ((k + (log_i_term x0 z0 x0' z0' + log_i_term x1 z1 x1' z1') % 4) % 256 &&& 2 != 0))
          (x0 ^^ x0') (z0 ^^ z0') (x1 ^^ x1') (z1 ^^ z1') := by
  unfold PauliStringVal.mul_phase
  rw [lit2_mul]
  rfl

theorem lit2_mul_y (s x0 z0 x1 z1 s' x0' z0' x1' z1' s2 a0 b0 a1 b1 : Bool) :
    (pauli_lit2 s x0 z0 x1 z1).mul_y (pauli_lit2 s' x0' z0' x1' z1') (pauli_lit2 s2 a0 b0 a1 b1)
      = pauli_lit2 (((s ^^ s') ^^ s2) ^^
          ((1 + (log_i_term x0 z0 x0' z0' + log_i_term x1 z1 x1' z1') % 4
            + (log_i_term (x0 ^^ x0') (z0 ^^ z0') a0 b0
              + log_i_term (x1 ^^ x1') (z1 ^^ z1') a1 b1) % 4) % 256 &&& 2 != 0))
          ((x0 ^^ x0') ^^ a0) ((z0 ^^ z0') ^^ b0) ((x1 ^^ x1') ^^ a1) ((z1 ^^ z1') ^^ b1) := by
  unfold PauliStringVal.mul_y
  rw [lit2_mul]
  dsimp only
  rw [lit2_mul]
  rfl

theorem identity2_lit : PauliStringVal.identity 2 = pauli_lit2 false false false false false := by
  apply PauliStringVal.ext_iff4
  · rfl
  · rfl
  · intro k; rw [lit2_x]; simp; rfl
  · intro k; rw [lit2_z]; simp; rfl

theorem gate_col2_CX (s cx cz tx tz : Bool) :
    gate_col2 (pauli_lit2 false true false true false) (pauli_lit2 false false true false false)
        (pauli_lit2 false false false true false) (pauli_lit2 false false true false true)
        s cx cz tx tz
      = col_CX s cx cz tx tz := by
  unfold gate_col2 lit_out2
  cases cx <;> cases cz <;> cases tx <;> cases tz <;>
    simp only [if_true, if_false, Bool.false_eq_true, identity2_lit, lit2_mul_phase,
      lit2_mul_y] <;>
    cases s <;> decide

theorem append_CX_eq_scatter (t : Tableau) (hz : t.zero_padding) (c tg : Nat)
    (hc : c < t.num_qubits) (htg : tg < t.num_qubits) (hne : c ≠ tg) :
    ((BlockTransposedTableau.ctor t).append_CX c tg).dtor
      = t.inplace_scatter_append
          (tableau2 (pauli_lit2 false true false true false)
            (pauli_lit2 false false true false false)
            (pauli_lit2 false false false true false)
            (pauli_lit2 false false true false true)) [c, tg] :=
  scatter_append2 _ _ _ _ (lit2_wf _ _ _ _ _) (lit2_wf _ _ _ _ _) (lit2_wf _ _ _ _ _)
    (lit2_wf _ _ _ _ _) col_CX gate_col2_CX rfl t hz c tg hc htg hne _ rfl
    (append_CX_dtor t c tg (lt_ceil hc) (lt_ceil htg) hne).1
    (append_CX_dtor t c tg (lt_ceil hc) (lt_ceil htg) hne).2

/-! ## Row-major and column-major operations -/

/-! ## Column operations respect products of rows -/

theorem col_H_respects_mul : col_respects_mul col_H := by decide

theorem col_H_YZ_respects_mul : col_respects_mul col_H_YZ := by decide

theorem col_X_respects_mul : col_respects_mul col_X := by decide

theorem col_H_respects_neg : col_respects_neg col_H := by decide

theorem col_H_YZ_respects_neg : col_respects_neg col_H_YZ := by decide

theorem col_X_respects_neg : col_respects_neg col_X := by decide

theorem sum_below_split (f : Nat → Nat) (q m : Nat) (hq : q < m) :
    sum_below f m = sum_below (fun k => if k = q then 0 else f k) m + f q := by
  induction m with
  | zero => omega
  | succ m ih =>
    simp only [sum_below]
    by_cases e : q = m
    · subst e
      have e1 : sum_below (fun k => if k = q then 0 else f k) q = sum_below f q :=
        sum_below_congr q (fun k hk => if_neg (by omega))
      rw [if_pos rfl, e1]
      omega
    · rw [ih (by omega), if_neg (fun h => e h.symm)]
      omega

/-- The `log_i` of a product as the sum of the contributions of the columns. -/
theorem log_i_eq_sum (a b : PauliStringVal) :
    (a.inplace_right_mul_returning_log_i_scalar b).2
      = sum_below (fun k => log_i_term (a.x_data k) (a.z_data k) (b.x_data k) (b.z_data k))
          (ceil256 a.size) % 4 := by
  simp only [PauliStringVal.inplace_right_mul_returning_log_i_scalar, log_i_term]
  rw [popcount_eq_sum, popcount_eq_sum, ← sum_below_mul, ← sum_below_add]


theorem phase_bit_mod (c a b : Nat) (h : a % 4 = b % 4) (ha : a < 4) :
    phase_bit c a = phase_bit c (b % 4) := by
  rw [← h, Nat.mod_eq_of_lt ha]

/-- A column operation that respects products at one column respects the
multiply-then-toggle pattern on whole rows. -/
theorem col1_mul_phase (f : Bool → Bool → Bool → Bool × Bool × Bool) (hf : col_respects_mul f)
    (c : Nat) (hc : c < 4) (a b : PauliStringVal) (q : Nat) (hq : q < ceil256 a.size) :
    (a.mul_phase c b).col1 f q = (a.col1 f q).mul_phase c (b.col1 f q) := by
  have La := log_i_eq_sum a b
  have Lb := log_i_eq_sum (a.col1 f q) (b.col1 f q)
  rw [sum_below_split _ q _ hq] at La
  have hq2 : q < ceil256 (a.col1 f q).size := hq
  rw [sum_below_split _ q _ hq2] at Lb
  have hrest : sum_below (fun k => if k = q then 0 else
        log_i_term ((a.col1 f q).x_data k) ((a.col1 f q).z_data k) ((b.col1 f q).x_data k)
          ((b.col1 f q).z_data k)) (ceil256 (a.col1 f q).size)
      = sum_below (fun k => if k = q then 0 else
        log_i_term (a.x_data k) (a.z_data k) (b.x_data k) (b.z_data k)) (ceil256 a.size) := by
    apply sum_below_congr
    intro k _
    by_cases e : k = q
    · rw [if_pos e, if_pos e]
    · rw [if_neg e, if_neg e]
      show log_i_term (if k = q then _ else _) (if k = q then _ else _) (if k = q then _ else _)
        (if k = q then _ else _) = _
      rw [if_neg e, if_neg e, if_neg e, if_neg e]
  rw [hrest] at Lb
  generalize sum_below (fun k => if k = q then 0 else
    log_i_term (a.x_data k) (a.z_data k) (b.x_data k) (b.z_data k)) (ceil256 a.size) = R at La Lb
  have key := hf ⟨c, hc⟩ ⟨R % 4, Nat.mod_lt _ (by omega)⟩ a.val_sign (a.x_data q) (a.z_data q)
    b.val_sign (b.x_data q) (b.z_data q)
  simp only at key
  have e1 : (R % 4 + log_i_term (a.x_data q) (a.z_data q) (b.x_data q) (b.z_data q)) % 4
      = (a.inplace_right_mul_returning_log_i_scalar b).2 := by
    rw [La]; omega
  have e2 : (R % 4 + log_i_term (f a.val_sign (a.x_data q) (a.z_data q)).2.1
        (f a.val_sign (a.x_data q) (a.z_data q)).2.2 (f b.val_sign (b.x_data q) (b.z_data q)).2.1
        (f b.val_sign (b.x_data q) (b.z_data q)).2.2) % 4
      = ((a.col1 f q).inplace_right_mul_returning_log_i_scalar (b.col1 f q)).2 := by
    rw [Lb]
    show _ = (R + log_i_term (if q = q then _ else _) (if q = q then _ else _)
      (if q = q then _ else _) (if q = q then _ else _)) % 4
    rw [if_pos rfl, if_pos rfl, if_pos rfl, if_pos rfl]
    omega
  rw [e1, e2] at key
  have k1 := congrArg Prod.fst key
  have k2 := congrArg (fun p => p.2.1) key
  have k3 := congrArg (fun p => p.2.2) key
  simp only at k1 k2 k3
  apply PauliStringVal.ext_iff4
  · rfl
  · exact k1
  · intro k
    show (if k = q then (f _ _ _).2.1 else _) = ((if k = q then _ else _) ^^ (if k = q then _ else _))
    by_cases e : k = q
    · rw [if_pos e, if_pos e, if_pos e]
      exact k2
    · rw [if_neg e, if_neg e, if_neg e]
      rfl
  · intro k
    show (if k = q then (f _ _ _).2.2 else _) = ((if k = q then _ else _) ^^ (if k = q then _ else _))
    by_cases e : k = q
    · rw [if_pos e, if_pos e, if_pos e]
      exact k3
    · rw [if_neg e, if_neg e, if_neg e]
      rfl

theorem col1_neg (f : Bool → Bool → Bool → Bool × Bool × Bool) (hf : col_respects_neg f)
    (a : PauliStringVal) (q : Nat) : a.neg.col1 f q = (a.col1 f q).neg := by
  have key := hf a.val_sign (a.x_data q) (a.z_data q)
  have k1 := congrArg Prod.fst key
  have k2 := congrArg (fun p => p.2.1) key
  have k3 := congrArg (fun p => p.2.2) key
  simp only at k1 k2 k3
  apply PauliStringVal.ext_iff4
  · rfl
  · exact k1
  · intro k
    show (if k = q then (f _ _ _).2.1 else _) = (if k = q then _ else _)
    by_cases e : k = q
    · rw [if_pos e, if_pos e]; exact k2
    · rw [if_neg e, if_neg e]; rfl
  · intro k
    show (if k = q then (f _ _ _).2.2 else _) = (if k = q then _ else _)
    by_cases e : k = q
    · rw [if_pos e, if_pos e]; exact k3
    · rw [if_neg e, if_neg e]; rfl

theorem col_CX_sign_linear : col2_sign_linear col_CX := by decide

theorem col_CX_respects_mul : col2_respects_mul col_CX := by decide


theorem col_CX_respects_neg (s x z u w : Bool) :
    col_CX (!s) x z u w = (!(col_CX s x z u w).1, (col_CX s x z u w).2) := by
  revert s x z u w; decide

theorem phase_bit_shift (c R T : Nat) (hc : c < 4) (hT : T < 4) :
    phase_bit c ((R + T) % 4) = phase_bit ((c + R) % 4) T := by
  have hR : R % 4 < 4 := Nat.mod_lt _ (by omega)
  have e1 : (R + T) % 4 = (R % 4 + T) % 4 := by omega
  have e2 : (c + R) % 4 = (c + R % 4) % 4 := by omega
  rw [e1, e2]
  generalize R % 4 = r at hR
  unfold phase_bit
  interval_cases c <;> interval_cases r <;> interval_cases T <;> rfl

theorem bool_sign_cancel (sa sb fa fb pb pb1 g : Bool) (h : (pb ^^ g) = ((fa ^^ fb) ^^ pb1)) :
    (((sa ^^ sb) ^^ pb) ^^ g) = (((sa ^^ fa) ^^ (sb ^^ fb)) ^^ pb1) := by
  revert h
  cases sa <;> cases sb <;> cases fa <;> cases fb <;> cases pb <;> cases pb1 <;> cases g <;> decide

theorem sum_below_split2 (f : Nat → Nat) (c tg m : Nat) (hc : c < m) (htg : tg < m)
    (hne : c ≠ tg) :
    sum_below f m = sum_below (fun k => if k = c ∨ k = tg then 0 else f k) m + f c + f tg := by
  rw [sum_below_split f c m hc, sum_below_split (fun k => if k = c then 0 else f k) tg m htg,
    if_neg (fun h => hne h.symm)]
  have e : sum_below (fun k => if k = tg then 0 else if k = c then 0 else f k) m
      = sum_below (fun k => if k = c ∨ k = tg then 0 else f k) m := by
    apply sum_below_congr
    intro k _
    by_cases e1 : k = tg
    · rw [if_pos e1, if_pos (Or.inr e1)]
    · rw [if_neg e1]
      by_cases e2 : k = c
      · rw [if_pos e2, if_pos (Or.inl e2)]
      · rw [if_neg e2, if_neg (by tauto)]
  rw [e]
  omega

/-- A column operation on two columns that respects products at the two columns
respects the multiply-then-toggle pattern on whole rows. -/
theorem col2_mul_phase (f : Bool → Bool → Bool → Bool → Bool → Bool × Bool × Bool × Bool × Bool)
    (hl : col2_sign_linear f) (hf : col2_respects_mul f)
    (c : Nat) (hc : c < 4) (a b : PauliStringVal) (q1 q2 : Nat) (hq1 : q1 < ceil256 a.size)
    (hq2 : q2 < ceil256 a.size) (hne : q1 ≠ q2) :
    (a.mul_phase c b).col2 f q1 q2 = (a.col2 f q1 q2).mul_phase c (b.col2 f q1 q2) := by
  have hne2 : q2 ≠ q1 := fun h => hne h.symm
  have La := log_i_eq_sum a b
  have Lb := log_i_eq_sum (a.col2 f q1 q2) (b.col2 f q1 q2)
  rw [sum_below_split2 _ q1 q2 _ hq1 hq2 hne] at La
  have hq1b : q1 < ceil256 (a.col2 f q1 q2).size := hq1
  have hq2b : q2 < ceil256 (a.col2 f q1 q2).size := hq2
  rw [sum_below_split2 _ q1 q2 _ hq1b hq2b hne] at Lb
  have hrest : sum_below (fun k => if k = q1 ∨ k = q2 then 0 else
        log_i_term ((a.col2 f q1 q2).x_data k) ((a.col2 f q1 q2).z_data k)
          ((b.col2 f q1 q2).x_data k) ((b.col2 f q1 q2).z_data k))
          (ceil256 (a.col2 f q1 q2).size)
      = sum_below (fun k => if k = q1 ∨ k = q2 then 0 else
        log_i_term (a.x_data k) (a.z_data k) (b.x_data k) (b.z_data k)) (ceil256 a.size) := by
    apply sum_below_congr
    intro k _
    by_cases e : k = q1 ∨ k = q2
    · rw [if_pos e, if_pos e]
    · rw [if_neg e, if_neg e]
      have e1 : k ≠ q1 := fun h => e (Or.inl h)
      have e2 : k ≠ q2 := fun h => e (Or.inr h)
      show log_i_term (if k = q1 then _ else if k = q2 then _ else _)
        (if k = q1 then _ else if k = q2 then _ else _)
        (if k = q1 then _ else if k = q2 then _ else _)
        (if k = q1 then _ else if k = q2 then _ else _) = _
      rw [if_neg e1, if_neg e2, if_neg e1, if_neg e2, if_neg e1, if_neg e2, if_neg e1, if_neg e2]
  rw [hrest] at Lb
  generalize sum_below (fun k => if k = q1 ∨ k = q2 then 0 else
    log_i_term (a.x_data k) (a.z_data k) (b.x_data k) (b.z_data k)) (ceil256 a.size) = R at La Lb
  -- the bits of the two results at the two columns
  have x1 : ∀ v : PauliStringVal, (v.col2 f q1 q2).x_data q1
      = (f v.val_sign (v.x_data q1) (v.z_data q1) (v.x_data q2) (v.z_data q2)).2.1 := by
    intro v
    show (if q1 = q1 then _ else _) = _
    rw [if_pos rfl]
  have z1 : ∀ v : PauliStringVal, (v.col2 f q1 q2).z_data q1
      = (f v.val_sign (v.x_data q1) (v.z_data q1) (v.x_data q2) (v.z_data q2)).2.2.1 := by
    intro v
    show (if q1 = q1 then _ else _) = _
    rw [if_pos rfl]
  have x2 : ∀ v : PauliStringVal, (v.col2 f q1 q2).x_data q2
      = (f v.val_sign (v.x_data q1) (v.z_data q1) (v.x_data q2) (v.z_data q2)).2.2.2.1 := by
    intro v
    show (if q2 = q1 then _ else if q2 = q2 then _ else _) = _
    rw [if_neg hne2, if_pos rfl]
  have z2 : ∀ v : PauliStringVal, (v.col2 f q1 q2).z_data q2
      = (f v.val_sign (v.x_data q1) (v.z_data q1) (v.x_data q2) (v.z_data q2)).2.2.2.2 := by
    intro v
    show (if q2 = q1 then _ else if q2 = q2 then _ else _) = _
    rw [if_neg hne2, if_pos rfl]
  rw [x1, z1, x1, z1, x2, z2, x2, z2] at Lb
  have fa := hl a.val_sign (a.x_data q1) (a.z_data q1) (a.x_data q2) (a.z_data q2)
  have fb := hl b.val_sign (b.x_data q1) (b.z_data q1) (b.x_data q2) (b.z_data q2)
  have key := hf ⟨(c + R) % 4, Nat.mod_lt _ (by omega)⟩ (a.x_data q1) (a.z_data q1)
    (a.x_data q2) (a.z_data q2) (b.x_data q1) (b.z_data q1) (b.x_data q2) (b.z_data q2)
  simp only at key
  rw [fa, fb] at Lb
  simp only at Lb
  have lt1 := Nat.mod_lt (log_i_term (a.x_data q1) (a.z_data q1) (b.x_data q1) (b.z_data q1)
    + log_i_term (a.x_data q2) (a.z_data q2) (b.x_data q2) (b.z_data q2)) (show 0 < 4 by omega)
  rw [← phase_bit_shift c R _ hc lt1] at key
  have e1 : (R + (log_i_term (a.x_data q1) (a.z_data q1) (b.x_data q1) (b.z_data q1)
      + log_i_term (a.x_data q2) (a.z_data q2) (b.x_data q2) (b.z_data q2)) % 4) % 4
      = (a.inplace_right_mul_returning_log_i_scalar b).2 := by
    rw [La]; omega
  rw [e1] at key
  generalize hT : (log_i_term (f false (a.x_data q1) (a.z_data q1) (a.x_data q2) (a.z_data q2)).2.1
        (f false (a.x_data q1) (a.z_data q1) (a.x_data q2) (a.z_data q2)).2.2.1
        (f false (b.x_data q1) (b.z_data q1) (b.x_data q2) (b.z_data q2)).2.1
        (f false (b.x_data q1) (b.z_data q1) (b.x_data q2) (b.z_data q2)).2.2.1
      + log_i_term (f false (a.x_data q1) (a.z_data q1) (a.x_data q2) (a.z_data q2)).2.2.2.1
        (f false (a.x_data q1) (a.z_data q1) (a.x_data q2) (a.z_data q2)).2.2.2.2
        (f false (b.x_data q1) (b.z_data q1) (b.x_data q2) (b.z_data q2)).2.2.2.1
        (f false (b.x_data q1) (b.z_data q1) (b.x_data q2) (b.z_data q2)).2.2.2.2) = T
      at key
  have lt2 := Nat.mod_lt T (show 0 < 4 by omega)
  rw [← phase_bit_shift c R _ hc lt2] at key
  have e2 : (R + T % 4) % 4
      = ((a.col2 f q1 q2).inplace_right_mul_returning_log_i_scalar (b.col2 f q1 q2)).2 := by
    rw [Lb, ← hT]; omega
  rw [e2] at key
  have hx := hl (phase_bit c (a.inplace_right_mul_returning_log_i_scalar b).2)
    (a.x_data q1 ^^ b.x_data q1) (a.z_data q1 ^^ b.z_data q1) (a.x_data q2 ^^ b.x_data q2)
    (a.z_data q2 ^^ b.z_data q2)
  rw [hx] at key
  have hy := hl ((a.val_sign ^^ b.val_sign)
      ^^ phase_bit c (a.inplace_right_mul_returning_log_i_scalar b).2)
    (a.x_data q1 ^^ b.x_data q1) (a.z_data q1 ^^ b.z_data q1) (a.x_data q2 ^^ b.x_data q2)
    (a.z_data q2 ^^ b.z_data q2)
  have k1 := congrArg Prod.fst key
  have k2 := congrArg (fun p => p.2.1) key
  have k3 := congrArg (fun p => p.2.2.1) key
  have k4 := congrArg (fun p => p.2.2.2.1) key
  have k5 := congrArg (fun p => p.2.2.2.2) key
  simp only at k1 k2 k3 k4 k5
  have s1 := congrArg Prod.fst hy
  have s2 := congrArg (fun p => p.2.1) hy
  have s3 := congrArg (fun p => p.2.2.1) hy
  have s4 := congrArg (fun p => p.2.2.2.1) hy
  have s5 := congrArg (fun p => p.2.2.2.2) hy
  simp only at s1 s2 s3 s4 s5
  have a1 := congrArg Prod.fst fa
  have a2 := congrArg (fun p => p.2.1) fa
  have a3 := congrArg (fun p => p.2.2.1) fa
  have a4 := congrArg (fun p => p.2.2.2.1) fa
  have a5 := congrArg (fun p => p.2.2.2.2) fa
  have b1 := congrArg Prod.fst fb
  have b2 := congrArg (fun p => p.2.1) fb
  have b3 := congrArg (fun p => p.2.2.1) fb
  have b4 := congrArg (fun p => p.2.2.2.1) fb
  have b5 := congrArg (fun p => p.2.2.2.2) fb
  simp only at a1 a2 a3 a4 a5 b1 b2 b3 b4 b5
  have cx : ∀ (v : PauliStringVal) (k : Nat), (v.col2 f q1 q2).x_data k
      = if k = q1 then (f v.val_sign (v.x_data q1) (v.z_data q1) (v.x_data q2) (v.z_data q2)).2.1
        else if k = q2 then
          (f v.val_sign (v.x_data q1) (v.z_data q1) (v.x_data q2) (v.z_data q2)).2.2.2.1
        else v.x_data k := fun _ _ => rfl
  have cz : ∀ (v : PauliStringVal) (k : Nat), (v.col2 f q1 q2).z_data k
      = if k = q1 then (f v.val_sign (v.x_data q1) (v.z_data q1) (v.x_data q2) (v.z_data q2)).2.2.1
        else if k = q2 then
          (f v.val_sign (v.x_data q1) (v.z_data q1) (v.x_data q2) (v.z_data q2)).2.2.2.2
        else v.z_data k := fun _ _ => rfl
  have cs : ∀ (v : PauliStringVal), (v.col2 f q1 q2).val_sign
      = (f v.val_sign (v.x_data q1) (v.z_data q1) (v.x_data q2) (v.z_data q2)).1 := fun _ => rfl
  have ms : (a.mul_phase c b).val_sign = ((a.val_sign ^^ b.val_sign)
      ^^ phase_bit c (a.inplace_right_mul_returning_log_i_scalar b).2) := rfl
  have ms2 : ((a.col2 f q1 q2).mul_phase c (b.col2 f q1 q2)).val_sign
      = (((a.col2 f q1 q2).val_sign ^^ (b.col2 f q1 q2).val_sign)
      ^^ phase_bit c ((a.col2 f q1 q2).inplace_right_mul_returning_log_i_scalar
        (b.col2 f q1 q2)).2) := rfl
  apply PauliStringVal.ext_iff4
  · rfl
  · rw [cs, ms2, cs, cs, ms, mul_phase_x, mul_phase_x, mul_phase_z, mul_phase_z, s1, a1, b1]
    exact bool_sign_cancel _ _ _ _ _ _ _ k1
  · intro k
    simp only [cx, mul_phase_x, mul_phase_z, ms]
    by_cases e1 : k = q1
    · rw [if_pos e1, if_pos e1, if_pos e1]
      exact (s2.trans k2).trans (by rw [a2, b2])
    · rw [if_neg e1, if_neg e1, if_neg e1]
      by_cases e2 : k = q2
      · rw [if_pos e2, if_pos e2, if_pos e2]
        exact (s4.trans k4).trans (by rw [a4, b4])
      · rw [if_neg e2, if_neg e2, if_neg e2]
  · intro k
    simp only [cz, mul_phase_x, mul_phase_z, ms]
    by_cases e1 : k = q1
    · rw [if_pos e1, if_pos e1, if_pos e1]
      exact (s3.trans k3).trans (by rw [a3, b3])
    · rw [if_neg e1, if_neg e1, if_neg e1]
      by_cases e2 : k = q2
      · rw [if_pos e2, if_pos e2, if_pos e2]
        exact (s5.trans k5).trans (by rw [a5, b5])
      · rw [if_neg e2, if_neg e2, if_neg e2]

theorem col2_neg (f : Bool → Bool → Bool → Bool → Bool → Bool × Bool × Bool × Bool × Bool)
    (hl : col2_sign_linear f) (a : PauliStringVal) (q1 q2 : Nat) :
    a.neg.col2 f q1 q2 = (a.col2 f q1 q2).neg := by
  have fa := hl a.val_sign (a.x_data q1) (a.z_data q1) (a.x_data q2) (a.z_data q2)
  have fb := hl (!a.val_sign) (a.x_data q1) (a.z_data q1) (a.x_data q2) (a.z_data q2)
  have e : f (!a.val_sign) (a.x_data q1) (a.z_data q1) (a.x_data q2) (a.z_data q2)
      = (!(f a.val_sign (a.x_data q1) (a.z_data q1) (a.x_data q2) (a.z_data q2)).1,
        (f a.val_sign (a.x_data q1) (a.z_data q1) (a.x_data q2) (a.z_data q2)).2) := by
    rw [fb, fa]
    cases a.val_sign <;> cases (f false (a.x_data q1) (a.z_data q1) (a.x_data q2)
      (a.z_data q2)).1 <;> rfl
  apply PauliStringVal.ext_iff4
  · rfl
  · show (f (!a.val_sign) (a.x_data q1) (a.z_data q1) (a.x_data q2) (a.z_data q2)).1
      = !(f a.val_sign (a.x_data q1) (a.z_data q1) (a.x_data q2) (a.z_data q2)).1
    rw [e]
  · intro k
    show (if k = q1 then
        (f (!a.val_sign) (a.x_data q1) (a.z_data q1) (a.x_data q2) (a.z_data q2)).2.1
      else if k = q2 then
        (f (!a.val_sign) (a.x_data q1) (a.z_data q1) (a.x_data q2) (a.z_data q2)).2.2.2.1
      else a.x_data k)
      = (if k = q1 then (f a.val_sign (a.x_data q1) (a.z_data q1) (a.x_data q2) (a.z_data q2)).2.1
        else if k = q2 then
          (f a.val_sign (a.x_data q1) (a.z_data q1) (a.x_data q2) (a.z_data q2)).2.2.2.1
        else a.x_data k)
    rw [e]
  · intro k
    show (if k = q1 then
        (f (!a.val_sign) (a.x_data q1) (a.z_data q1) (a.x_data q2) (a.z_data q2)).2.2.1
      else if k = q2 then
        (f (!a.val_sign) (a.x_data q1) (a.z_data q1) (a.x_data q2) (a.z_data q2)).2.2.2.2
      else a.z_data k)
      = (if k = q1 then
          (f a.val_sign (a.x_data q1) (a.z_data q1) (a.x_data q2) (a.z_data q2)).2.2.1
        else if k = q2 then
          (f a.val_sign (a.x_data q1) (a.z_data q1) (a.x_data q2) (a.z_data q2)).2.2.2.2
        else a.z_data k)
    rw [e]

/-! ## Row-major operations commute with operations on the rows -/

section hom
variable (A : Tableau → Tableau) (C : PauliStringVal → PauliStringVal) (n : Nat)
  (hA : acts_on_rows A C n) (hC : row_hom C n)
include hA hC

theorem hom_num_qubits (t : Tableau) (hn : t.num_qubits = n) : (A t).num_qubits = n := by
  have e : (A t).outside.num_qubits = t.outside.num_qubits := by rw [(hA t hn).1]
  exact e.trans hn

theorem hom_with_obs (t : Tableau) (hn : t.num_qubits = n) (h : Bool) (q : Nat)
    (hq : q < ceil256 n) (v : PauliStringVal) (hv : v.wf n) :
    A (t.with_obs h q v) = (A t).with_obs h q (C v) := by
  have n1 := hom_num_qubits A C n hA hC t hn
  have hn2 : (t.with_obs h q v).num_qubits = n := hn
  have n2 := hom_num_qubits A C n hA hC _ hn2
  have hqt : q < ceil256 t.num_qubits := by rw [hn]; exact hq
  have hqa : q < ceil256 (A t).num_qubits := by rw [n1]; exact hq
  apply Tableau.ext_obs
  · rw [(hA _ hn2).1, outside_with_obs t h q v hqt, outside_with_obs _ h q _ hqa, (hA t hn).1]
  · intro h1 i hi
    rw [n2] at hi
    rw [(hA _ hn2).2 h1 i hi, obs_with_obs t h q v hqt h1 i (by rw [hn]; exact hi),
      obs_with_obs _ h q _ hqa h1 i (by rw [n1]; exact hi), n1, hn, clip_of_wf hv,
      clip_of_wf (hC.1 v hv), (hA t hn).2 h1 i hi]
    split <;> rfl

theorem hom_with_obs2 (t : Tableau) (hn : t.num_qubits = n) (h1 h2 : Bool) (q1 q2 : Nat)
    (hq1 : q1 < ceil256 n) (hq2 : q2 < ceil256 n) (v1 v2 : PauliStringVal) (hv1 : v1.wf n)
    (hv2 : v2.wf n) :
    A ((t.with_obs h1 q1 v1).with_obs h2 q2 v2)
      = ((A t).with_obs h1 q1 (C v1)).with_obs h2 q2 (C v2) := by
  rw [hom_with_obs A C n hA hC (t.with_obs h1 q1 v1) hn h2 q2 hq2 v2 hv2,
    hom_with_obs A C n hA hC t hn h1 q1 hq1 v1 hv1]

theorem hom_prepend_H (t : Tableau) (hn : t.num_qubits = n) (q : Nat) (hq : q < ceil256 n) :
    A (t.prepend_H q) = (A t).prepend_H q := by
  have w : ∀ h i, (t.obs h i).wf n := fun h i => hn ▸ obs_wf t h i
  rw [prepend_H_eq, prepend_H_eq, hom_with_obs2 A C n hA hC t hn _ _ _ _ hq hq _ _ (w _ _) (w _ _),
    (hA t hn).2 true q hq, (hA t hn).2 false q hq]

theorem hom_prepend_X (t : Tableau) (hn : t.num_qubits = n) (q : Nat) (hq : q < ceil256 n) :
    A (t.prepend_X q) = (A t).prepend_X q := by
  have w : ∀ h i, (t.obs h i).wf n := fun h i => hn ▸ obs_wf t h i
  have n1 := hom_num_qubits A C n hA hC t hn
  rw [prepend_X_eq t q (by rw [hn]; exact hq), prepend_X_eq _ q (by rw [n1]; exact hq),
    hom_with_obs A C n hA hC t hn _ _ hq _ (neg_wf (w _ _)), (hA t hn).2 _ _ hq, hC.2.2]

theorem hom_prepend_H_YZ (t : Tableau) (hn : t.num_qubits = n) (q : Nat) (hq : q < ceil256 n) :
    A (t.prepend_H_YZ q) = (A t).prepend_H_YZ q := by
  have w : ∀ h i, (t.obs h i).wf n := fun h i => hn ▸ obs_wf t h i
  have n1 := hom_num_qubits A C n hA hC t hn
  rw [prepend_H_YZ_eq t q (by rw [hn]; exact hq), prepend_H_YZ_eq _ q (by rw [n1]; exact hq),
    hom_with_obs2 A C n hA hC t hn _ _ _ _ hq hq _ _ (mul_phase_wf (w _ _) (w _ _))
      (neg_wf (w _ _)),
    (hA t hn).2 true q hq, (hA t hn).2 false q hq, hC.2.2, hC.2.1 3 (by omega) _ _ (w _ _)]

theorem hom_prepend_CX (t : Tableau) (hn : t.num_qubits = n) (c tg : Nat) (hc : c < ceil256 n)
    (htg : tg < ceil256 n) :
    A (t.prepend_CX c tg) = (A t).prepend_CX c tg := by
  have w : ∀ h i, (t.obs h i).wf n := fun h i => hn ▸ obs_wf t h i
  have n1 := hom_num_qubits A C n hA hC t hn
  rw [prepend_CX_eq t c tg (by rw [hn]; exact hc) (by rw [hn]; exact htg),
    prepend_CX_eq _ c tg (by rw [n1]; exact hc) (by rw [n1]; exact htg),
    hom_with_obs2 A C n hA hC t hn _ _ _ _ htg hc _ _ (mul_phase_wf (w _ _) (w _ _))
      (mul_phase_wf (w _ _) (w _ _)),
    (hA t hn).2 true c hc, (hA t hn).2 true tg htg, (hA t hn).2 false c hc,
    (hA t hn).2 false tg htg, hC.2.1 0 (by omega) _ _ (w _ _), hC.2.1 0 (by omega) _ _ (w _ _)]

end hom


/-! ## Column-major operations act on the rows -/

theorem col1_wf (f : Bool → Bool → Bool → Bool × Bool × Bool) (q n : Nat) (hq : q < ceil256 n)
    (v : PauliStringVal) (hv : v.wf n) : (v.col1 f q).wf n := by
  refine ⟨hv.1, fun k hk => ?_⟩
  have e : k ≠ q := by omega
  constructor
  · show (if k = q then _ else v.x_data k) = false
    rw [if_neg e]
    exact (hv.2 k hk).1
  · show (if k = q then _ else v.z_data k) = false
    rw [if_neg e]
    exact (hv.2 k hk).2

theorem col2_wf (f : Bool → Bool → Bool → Bool → Bool → Bool × Bool × Bool × Bool × Bool)
    (c tg n : Nat) (hc : c < ceil256 n) (htg : tg < ceil256 n)
    (v : PauliStringVal) (hv : v.wf n) : (v.col2 f c tg).wf n := by
  refine ⟨hv.1, fun k hk => ?_⟩
  have e : k ≠ c := by omega
  have e1 : k ≠ tg := by omega
  constructor
  · show (if k = c then _ else if k = tg then _ else v.x_data k) = false
    rw [if_neg e, if_neg e1]
    exact (hv.2 k hk).1
  · show (if k = c then _ else if k = tg then _ else v.z_data k) = false
    rw [if_neg e, if_neg e1]
    exact (hv.2 k hk).2

theorem col1_hom (f : Bool → Bool → Bool → Bool × Bool × Bool) (hm : col_respects_mul f)
    (hg : col_respects_neg f) (q n : Nat) (hq : q < ceil256 n) :
    row_hom (PauliStringVal.col1 f q) n :=
  ⟨col1_wf f q n hq, fun c hc a b ha => col1_mul_phase f hm c hc a b q (by rw [ha.1]; exact hq),
    fun a => col1_neg f hg a q⟩

theorem col2_hom (f : Bool → Bool → Bool → Bool → Bool → Bool × Bool × Bool × Bool × Bool)
    (hl : col2_sign_linear f) (hm : col2_respects_mul f) (c tg n : Nat) (hc : c < ceil256 n)
    (htg : tg < ceil256 n) (hne : c ≠ tg) :
    row_hom (PauliStringVal.col2 f c tg) n :=
  ⟨col2_wf f c tg n hc htg, fun k hk a b ha =>
    col2_mul_phase f hl hm k hk a b c tg (by rw [ha.1]; exact hc) (by rw [ha.1]; exact htg) hne,
    fun a => col2_neg f hl a c tg⟩

theorem targets_getD_one {g : Gate} {n : Nat} {targets : List Nat}
    (h : g.valid_targets n targets) (ha : g.arity = 1) : targets.getD 0 0 < n := by
  obtain ⟨h1, h2, _⟩ := h
  rw [ha] at h1
  match targets, h1, h2 with
  | [a], _, h2 => exact h2 a (List.mem_singleton.2 rfl)

theorem targets_getD_two {g : Gate} {n : Nat} {targets : List Nat}
    (h : g.valid_targets n targets) (ha : g.arity = 2) :
    targets.getD 0 0 < n ∧ targets.getD 1 0 < n ∧ targets.getD 0 0 ≠ targets.getD 1 0 := by
  obtain ⟨h1, h2, h3⟩ := h
  rw [ha] at h1
  match targets, h1, h2, h3 with
  | [a, b], _, h2, h3 =>
    refine ⟨h2 a (by simp), h2 b (by simp), ?_⟩
    intro e
    have e1 : a = b := e
    rw [e1] at h3
    simp at h3

theorem column_gate_hom (g : ColumnGate) (n : Nat) (targets : List Nat)
    (h : g.gate.valid_targets n targets) : row_hom (g.col targets) n := by
  cases g with
  | CX =>
    obtain ⟨h1, h2, h3⟩ := targets_getD_two h rfl
    exact col2_hom col_CX col_CX_sign_linear col_CX_respects_mul _ _ n (lt_ceil h1) (lt_ceil h2) h3
  | H_YZ =>
    exact col1_hom col_H_YZ col_H_YZ_respects_mul col_H_YZ_respects_neg _ n
      (lt_ceil (targets_getD_one h rfl))
  | H =>
    exact col1_hom col_H col_H_respects_mul col_H_respects_neg _ n
      (lt_ceil (targets_getD_one h rfl))
  | X =>
    exact col1_hom col_X col_X_respects_mul col_X_respects_neg _ n
      (lt_ceil (targets_getD_one h rfl))

theorem column_gate_acts (g : ColumnGate) (n : Nat) (targets : List Nat)
    (h : g.gate.valid_targets n targets) :
    acts_on_rows (fun t => ((BlockTransposedTableau.ctor t).append_gate g targets).dtor)
      (g.col targets) n := by
  intro t hn
  subst hn
  cases g with
  | CX =>
    obtain ⟨h1, h2, h3⟩ := targets_getD_two h rfl
    exact append_CX_dtor t _ _ (lt_ceil h1) (lt_ceil h2) h3
  | H_YZ => exact append_H_YZ_dtor t _ (lt_ceil (targets_getD_one h rfl))
  | H => exact append_H_dtor t _ (lt_ceil (targets_getD_one h rfl))
  | X => exact append_X_dtor t _ (lt_ceil (targets_getD_one h rfl))

/-- Opening a scope on the tableau a scope leaves behind gives back the scope. -/
theorem ctor_dtor_scope (b : BlockTransposedTableau) : BlockTransposedTableau.ctor b.dtor = b := by
  have h := transpose_transpose b.tableau.data_x2x_z2x_x2z_z2z b.tableau.data_num_bits
    (data_num_bits_mod b.tableau)
  cases b with
  | mk t =>
    cases t with
    | mk n d s =>
      show BlockTransposedTableau.mk (Tableau.mk n (transpose_bit_matrix_256x256blocks
        (transpose_bit_matrix_256x256blocks d (Tableau.mk n d s).data_num_bits)
        (Tableau.mk n d s).data_num_bits) s) = _
      rw [h]

theorem append_all_append (b : BlockTransposedTableau) (l1 l2 : List (ColumnGate × List Nat)) :
    b.append_all (l1 ++ l2) = (b.append_all l1).append_all l2 := by
  induction l1 generalizing b with
  | nil => rfl
  | cons p rest ih => exact ih _

theorem append_all_snoc (t : Tableau) (l : List (ColumnGate × List Nat)) (g : ColumnGate)
    (targets : List Nat) :
    ((BlockTransposedTableau.ctor t).append_all (l ++ [(g, targets)])).dtor
      = ((BlockTransposedTableau.ctor
          ((BlockTransposedTableau.ctor t).append_all l).dtor).append_gate g targets).dtor := by
  rw [append_all_append, ctor_dtor_scope]
  rfl

theorem hom_prepend_gate (A : Tableau → Tableau) (C : PauliStringVal → PauliStringVal) (n : Nat)
    (hA : acts_on_rows A C n) (hC : row_hom C n) (t : Tableau) (hn : t.num_qubits = n)
    (g : ColumnGate) (targets : List Nat) (h : g.gate.valid_targets n targets) :
    A (t.prepend_gate g.gate targets) = (A t).prepend_gate g.gate targets := by
  cases g with
  | CX =>
    obtain ⟨h1, h2, _⟩ := targets_getD_two h rfl
    exact hom_prepend_CX A C n hA hC t hn _ _ (lt_ceil h1) (lt_ceil h2)
  | H_YZ => exact hom_prepend_H_YZ A C n hA hC t hn _ (lt_ceil (targets_getD_one h rfl))
  | H => exact hom_prepend_H A C n hA hC t hn _ (lt_ceil (targets_getD_one h rfl))
  | X => exact hom_prepend_X A C n hA hC t hn _ (lt_ceil (targets_getD_one h rfl))

theorem prepend_column_gate_num_qubits (t : Tableau) (n : Nat) (hn : t.num_qubits = n)
    (g : ColumnGate) (targets : List Nat) (h : g.gate.valid_targets n targets) :
    (t.prepend_gate g.gate targets).num_qubits = n := by
  subst hn
  cases g with
  | CX =>
    obtain ⟨h1, h2, _⟩ := targets_getD_two h rfl
    show (t.prepend_CX _ _).num_qubits = _
    rw [prepend_CX_eq t _ _ (lt_ceil h1) (lt_ceil h2)]
    rfl
  | H_YZ => exact prepend_H_YZ_num_qubits t _ (lt_ceil (targets_getD_one h rfl))
  | H =>
    show (t.prepend_H _).num_qubits = _
    rw [prepend_H_eq]
    rfl
  | X =>
    show (t.prepend_X _).num_qubits = _
    rw [prepend_X_eq t _ (lt_ceil (targets_getD_one h rfl))]
    rfl

theorem hom_prepend_all (A : Tableau → Tableau) (C : PauliStringVal → PauliStringVal) (n : Nat)
    (hA : acts_on_rows A C n) (hC : row_hom C n) (l : List (ColumnGate × List Nat))
    (hl : ∀ p ∈ l, p.1.gate.valid_targets n p.2) (t : Tableau) (hn : t.num_qubits = n) :
    A (t.prepend_all (l.map (fun p => (p.1.gate, p.2))))
      = (A t).prepend_all (l.map (fun p => (p.1.gate, p.2))) := by
  induction l generalizing t with
  | nil => rfl
  | cons p rest ih =>
    have hp := hl p (List.mem_cons_self _ _)
    show A ((t.prepend_gate p.1.gate p.2).prepend_all _)
      = ((A t).prepend_gate p.1.gate p.2).prepend_all _
    rw [ih (fun p1 h1 => hl p1 (List.mem_cons_of_mem _ h1)) _
      (prepend_column_gate_num_qubits t n hn p.1 p.2 hp),
      hom_prepend_gate A C n hA hC t hn p.1 p.2 hp]

/-! ## The operations on the identity tableau -/

theorem ctor_obs_eq (n : Nat) (h : Bool) (i : Nat) (hi : i < ceil256 n) :
    (Tableau.ctor n).obs h i = unit_row n h i := by
  apply PauliStringVal.ext_iff4
  · exact obs_size _ _ _
  · exact ctor_obs_sign n h i
  · intro k
    rw [obs_x, ctor_num_qubits]
    show _ = (decide (k = i) && !h && decide (i < n))
    by_cases hk : k < ceil256 n
    · rw [ctor_bit n i k _ hi hk]
      cases h <;> simp [hk, X2X_QUAD, Z2Z_QUAD, eq_comm, and_comm]
    · have : k ≠ i := by omega
      simp [hk, this]
  · intro k
    rw [obs_z, ctor_num_qubits]
    show _ = (decide (k = i) && h && decide (i < n))
    by_cases hk : k < ceil256 n
    · rw [ctor_bit n i k _ hi hk]
      cases h <;> simp [hk, X2X_QUAD, Z2Z_QUAD, eq_comm, and_comm]
    · have : k ≠ i := by omega
      simp [hk, this]

theorem unit_row_wf (n : Nat) (h : Bool) (i : Nat) (hi : i < ceil256 n) : (unit_row n h i).wf n := by
  rw [← ctor_obs_eq n h i hi]
  exact obs_wf _ _ _

theorem identity_prepend_H (n q : Nat) (hq : q < n) :
    (Tableau.ctor n).prepend_H q = ((BlockTransposedTableau.ctor (Tableau.ctor n)).append_H q).dtor := by
  have hqc := lt_ceil hq
  obtain ⟨a1, a2⟩ := append_H_dtor (Tableau.ctor n) q hqc
  have hq1 : q < ceil256 (Tableau.ctor n).num_qubits := hqc
  have hq2 : q < ceil256 ((Tableau.ctor n).with_obs false q
      ((Tableau.ctor n).obs true q)).num_qubits := hqc
  apply Tableau.ext_obs
  · rw [a1, prepend_H_eq, outside_with_obs _ _ _ _ hq2, outside_with_obs _ _ _ _ hq1]
  · intro h i hi
    have hi1 : i < ceil256 n := by
      rw [prepend_H_eq] at hi
      exact hi
    have hi2 : i < ceil256 (Tableau.ctor n).num_qubits := hi1
    have hi3 : i < ceil256 ((Tableau.ctor n).with_obs false q
      ((Tableau.ctor n).obs true q)).num_qubits := hi1
    rw [a2 h i hi1, prepend_H_eq, obs_with_obs _ _ _ _ hq2 _ _ hi3,
      obs_with_obs _ _ _ _ hq1 _ _ hi2, with_obs_num_qubits, ctor_num_qubits,
      ctor_obs_eq n _ _ hqc, ctor_obs_eq n _ _ hqc, ctor_obs_eq n _ _ hi1,
      clip_of_wf (unit_row_wf n _ _ hqc), clip_of_wf (unit_row_wf n _ _ hqc)]
    apply PauliStringVal.ext_iff4
    · split
      · rfl
      · split <;> rfl
    · cases h <;> by_cases e : i = q <;>
        simp [unit_row, PauliStringVal.col1, col_H, e, hq]
    · intro k
      cases h <;> by_cases e : i = q <;> by_cases e1 : k = q <;>
        simp [unit_row, PauliStringVal.col1, col_H, e, e1, hq] <;> omega
    · intro k
      cases h <;> by_cases e : i = q <;> by_cases e1 : k = q <;>
        simp [unit_row, PauliStringVal.col1, col_H, e, e1, hq] <;> omega


theorem identity_prepend_X (n q : Nat) (hq : q < n) :
    (Tableau.ctor n).prepend_X q = ((BlockTransposedTableau.ctor (Tableau.ctor n)).append_X q).dtor := by
  have hqc := lt_ceil hq
  obtain ⟨a1, a2⟩ := append_X_dtor (Tableau.ctor n) q hqc
  have hq1 : q < ceil256 (Tableau.ctor n).num_qubits := hqc
  apply Tableau.ext_obs
  · rw [a1, prepend_X_eq _ _ hq1, outside_with_obs _ _ _ _ hq1]
  · intro h i hi
    have hi1 : i < ceil256 n := by
      rw [prepend_X_eq _ _ hq1] at hi
      exact hi
    have hi2 : i < ceil256 (Tableau.ctor n).num_qubits := hi1
    rw [a2 h i hi1, prepend_X_eq _ _ hq1, obs_with_obs _ _ _ _ hq1 _ _ hi2, ctor_num_qubits,
      ctor_obs_eq n _ _ hqc, ctor_obs_eq n _ _ hi1,
      clip_of_wf (neg_wf (unit_row_wf n _ _ hqc))]
    apply PauliStringVal.ext_iff4
    · split <;> rfl
    · cases h <;> by_cases e : i = q <;>
        simp [unit_row, PauliStringVal.col1, col_X, PauliStringVal.neg, e, hq] <;> omega
    · intro k
      cases h <;> by_cases e : i = q <;> by_cases e1 : k = q <;>
        simp [unit_row, PauliStringVal.col1, col_X, PauliStringVal.neg, e, e1, hq] <;> omega
    · intro k
      cases h <;> by_cases e : i = q <;> by_cases e1 : k = q <;>
        simp [unit_row, PauliStringVal.col1, col_X, PauliStringVal.neg, e, e1, hq] <;> omega

theorem mul_phase_sign (c : Nat) (a b : PauliStringVal) :
    (a.mul_phase c b).val_sign
      = ((a.val_sign ^^ b.val_sign)
          ^^ phase_bit c (a.inplace_right_mul_returning_log_i_scalar b).2) := rfl

theorem log_i_single (a b : PauliStringVal) (q : Nat) (hq : q < ceil256 a.size)
    (h : ∀ k, k ≠ q → log_i_term (a.x_data k) (a.z_data k) (b.x_data k) (b.z_data k) = 0) :
    (a.inplace_right_mul_returning_log_i_scalar b).2
      = log_i_term (a.x_data q) (a.z_data q) (b.x_data q) (b.z_data q) % 4 := by
  rw [log_i_eq_sum, sum_below_single hq h]

theorem unit_log_i_zx (n q : Nat) (hq : q < n) :
    ((unit_row n true q).inplace_right_mul_returning_log_i_scalar (unit_row n false q)).2 = 1 := by
  rw [log_i_single _ _ q (lt_ceil hq)]
  · simp [unit_row, hq]
    rfl
  · intro k hk
    simp [unit_row, hk]
    rfl

theorem log_i_term_xx (z1 z2 : Bool) : log_i_term false z1 false z2 = 0 := by
  cases z1 <;> cases z2 <;> rfl

theorem log_i_term_zz (x1 x2 : Bool) : log_i_term x1 false x2 false = 0 := by
  cases x1 <;> cases x2 <;> rfl

theorem unit_log_i_same (n : Nat) (h : Bool) (q1 q2 : Nat) (hq1 : q1 < n) :
    ((unit_row n h q1).inplace_right_mul_returning_log_i_scalar (unit_row n h q2)).2 = 0 := by
  have key : ∀ k, log_i_term ((unit_row n h q1).x_data k) ((unit_row n h q1).z_data k)
      ((unit_row n h q2).x_data k) ((unit_row n h q2).z_data k) = 0 := by
    intro k
    cases h
    · simp only [unit_row, Bool.and_false, Bool.false_and]
      exact log_i_term_zz _ _
    · simp only [unit_row, Bool.not_true, Bool.and_false, Bool.false_and]
      exact log_i_term_xx _ _
  rw [log_i_single _ _ q1 (lt_ceil hq1) (fun k _ => key k), key]

theorem unit_mul_zx (n q : Nat) (hq : q < n) :
    (unit_row n true q).mul_phase 3 (unit_row n false q)
      = { size := n, val_sign := false, x_data := fun k => decide (k = q),
          z_data := fun k => decide (k = q) } := by
  apply PauliStringVal.ext_iff4
  · rfl
  · rw [mul_phase_sign, unit_log_i_zx n q hq]
    rfl
  · intro k
    rw [mul_phase_x]
    simp [unit_row, hq]
  · intro k
    rw [mul_phase_z]
    simp [unit_row, hq]

theorem unit_mul_same (n : Nat) (h : Bool) (q1 q2 : Nat) (hq1 : q1 < n) (hq2 : q2 < n) :
    (unit_row n h q1).mul_phase 0 (unit_row n h q2)
      = { size := n, val_sign := false,
          x_data := fun k => (decide (k = q1) ^^ decide (k = q2)) && !h,
          z_data := fun k => (decide (k = q1) ^^ decide (k = q2)) && h } := by
  apply PauliStringVal.ext_iff4
  · rfl
  · rw [mul_phase_sign, unit_log_i_same n h q1 q2 hq1]
    rfl
  · intro k
    rw [mul_phase_x]
    cases h <;> simp [unit_row, hq1, hq2]
  · intro k
    rw [mul_phase_z]
    cases h <;> simp [unit_row, hq1, hq2]

theorem identity_prepend_H_YZ (n q : Nat) (hq : q < n) :
    (Tableau.ctor n).prepend_H_YZ q
      = ((BlockTransposedTableau.ctor (Tableau.ctor n)).append_H_YZ q).dtor := by
  have hqc := lt_ceil hq
  obtain ⟨a1, a2⟩ := append_H_YZ_dtor (Tableau.ctor n) q hqc
  have hq1 : q < ceil256 (Tableau.ctor n).num_qubits := hqc
  have hq2 : q < ceil256 ((Tableau.ctor n).with_obs true q (((Tableau.ctor n).obs true q).mul_phase 3
      ((Tableau.ctor n).obs false q))).num_qubits := hqc
  apply Tableau.ext_obs
  · rw [a1, prepend_H_YZ_eq _ _ hq1, outside_with_obs _ _ _ _ hq2, outside_with_obs _ _ _ _ hq1]
  · intro h i hi
    have hi1 : i < ceil256 n := by
      rw [prepend_H_YZ_eq _ _ hq1] at hi
      exact hi
    have hi2 : i < ceil256 (Tableau.ctor n).num_qubits := hi1
    have hi3 : i < ceil256 ((Tableau.ctor n).with_obs true q
      (((Tableau.ctor n).obs true q).mul_phase 3 ((Tableau.ctor n).obs false q))).num_qubits := hi1
    rw [a2 h i hi1, prepend_H_YZ_eq _ _ hq1, obs_with_obs _ _ _ _ hq2 _ _ hi3,
      obs_with_obs _ _ _ _ hq1 _ _ hi2, with_obs_num_qubits, ctor_num_qubits,
      ctor_obs_eq n _ _ hqc, ctor_obs_eq n _ _ hqc, ctor_obs_eq n _ _ hi1,
      clip_of_wf (neg_wf (unit_row_wf n _ _ hqc)),
      clip_of_wf (mul_phase_wf (unit_row_wf n _ _ hqc) (unit_row_wf n _ _ hqc)),
      unit_mul_zx n q hq]
    apply PauliStringVal.ext_iff4
    · split
      · rfl
      · split <;> rfl
    · cases h <;> by_cases e : i = q <;>
        simp [unit_row, PauliStringVal.col1, col_H_YZ, PauliStringVal.neg, e, hq] <;> omega
    · intro k
      cases h <;> by_cases e : i = q <;> by_cases e1 : k = q <;>
        simp [unit_row, PauliStringVal.col1, col_H_YZ, PauliStringVal.neg, e, e1, hq]
          <;> omega
    · intro k
      cases h <;> by_cases e : i = q <;> by_cases e1 : k = q <;>
        simp [unit_row, PauliStringVal.col1, col_H_YZ, PauliStringVal.neg, e, e1, hq]
          <;> omega


theorem identity_prepend_CX (n c tg : Nat) (hc : c < n) (htg : tg < n) (hne : c ≠ tg) :
    (Tableau.ctor n).prepend_CX c tg
      = ((BlockTransposedTableau.ctor (Tableau.ctor n)).append_CX c tg).dtor := by
  have hcc := lt_ceil hc
  have htc := lt_ceil htg
  obtain ⟨a1, a2⟩ := append_CX_dtor (Tableau.ctor n) c tg hcc htc hne
  have hc1 : c < ceil256 (Tableau.ctor n).num_qubits := hcc
  have ht1 : tg < ceil256 (Tableau.ctor n).num_qubits := htc
  have hc2 : c < ceil256 ((Tableau.ctor n).with_obs true tg
      (((Tableau.ctor n).obs true tg).mul_phase 0 ((Tableau.ctor n).obs true c))).num_qubits := hcc
  apply Tableau.ext_obs
  · rw [a1, prepend_CX_eq _ _ _ hc1 ht1, outside_with_obs _ _ _ _ hc2,
      outside_with_obs _ _ _ _ ht1]
  · intro h i hi
    have hi1 : i < ceil256 n := by
      rw [prepend_CX_eq _ _ _ hc1 ht1] at hi
      exact hi
    have hi2 : i < ceil256 (Tableau.ctor n).num_qubits := hi1
    have hi3 : i < ceil256 ((Tableau.ctor n).with_obs true tg
      (((Tableau.ctor n).obs true tg).mul_phase 0 ((Tableau.ctor n).obs true c))).num_qubits := hi1
    rw [a2 h i hi1, prepend_CX_eq _ _ _ hc1 ht1, obs_with_obs _ _ _ _ hc2 _ _ hi3,
      obs_with_obs _ _ _ _ ht1 _ _ hi2, with_obs_num_qubits, ctor_num_qubits,
      ctor_obs_eq n _ _ hcc, ctor_obs_eq n _ _ hcc, ctor_obs_eq n _ _ htc, ctor_obs_eq n _ _ htc,
      ctor_obs_eq n _ _ hi1,
      clip_of_wf (mul_phase_wf (unit_row_wf n _ _ hcc) (unit_row_wf n _ _ htc)),
      clip_of_wf (mul_phase_wf (unit_row_wf n _ _ htc) (unit_row_wf n _ _ hcc)),
      unit_mul_same n _ _ _ hc htg, unit_mul_same n _ _ _ htg hc]
    have hne2 : tg ≠ c := fun e => hne e.symm
    have sw : ∀ a b : Nat, decide (a = b) = decide (b = a) := fun a b => by
      simp only [eq_comm]
    apply PauliStringVal.ext_iff4
    · split
      · rfl
      · split <;> rfl
    · cases h <;> by_cases e : i = c <;> by_cases e2 : i = tg <;>
        simp [unit_row, PauliStringVal.col2, col_CX, e, e2, hc, htg, hne, hne2, sw c i, sw tg i] <;> omega
    · intro k
      cases h <;> by_cases e : i = c <;> by_cases e2 : i = tg <;> by_cases e1 : k = c <;>
        by_cases e3 : k = tg <;>
        simp [unit_row, PauliStringVal.col2, col_CX, e, e1, e2, e3, hc, htg, hne, hne2, sw c i, sw tg i] <;> omega
    · intro k
      cases h <;> by_cases e : i = c <;> by_cases e2 : i = tg <;> by_cases e1 : k = c <;>
        by_cases e3 : k = tg <;>
        simp [unit_row, PauliStringVal.col2, col_CX, e, e1, e2, e3, hc, htg, hne, hne2, sw c i, sw tg i] <;> omega

theorem identity_prepend_gate (n : Nat) (g : ColumnGate) (targets : List Nat)
    (h : g.gate.valid_targets n targets) :
    (Tableau.ctor n).prepend_gate g.gate targets
      = ((BlockTransposedTableau.ctor (Tableau.ctor n)).append_gate g targets).dtor := by
  cases g with
  | CX =>
    obtain ⟨h1, h2, h3⟩ := targets_getD_two h rfl
    exact identity_prepend_CX n _ _ h1 h2 h3
  | H_YZ => exact identity_prepend_H_YZ n _ (targets_getD_one h rfl)
  | H => exact identity_prepend_H n _ (targets_getD_one h rfl)
  | X => exact identity_prepend_X n _ (targets_getD_one h rfl)

/-- On the identity tableau, prepending a sequence of gates row-major gives the
tableau that appending the reversed sequence inside a scope gives. -/
theorem dual_layout_ctor (n : Nat) (l : List (ColumnGate × List Nat))
    (hl : ∀ p ∈ l, p.1.gate.valid_targets n p.2) :
    (Tableau.ctor n).prepend_all (l.map (fun p => (p.1.gate, p.2)))
      = ((BlockTransposedTableau.ctor (Tableau.ctor n)).append_all l.reverse).dtor := by
  induction l with
  | nil => exact (ctor_dtor _).symm
  | cons p rest ih =>
    have hp := hl p (List.mem_cons_self _ _)
    have ih1 := ih (fun p1 h1 => hl p1 (List.mem_cons_of_mem _ h1))
    rw [List.reverse_cons, append_all_snoc, ← ih1]
    show ((Tableau.ctor n).prepend_gate p.1.gate p.2).prepend_all _ = _
    rw [identity_prepend_gate n p.1 p.2 hp]
    exact (hom_prepend_all
      (fun t => ((BlockTransposedTableau.ctor t).append_gate p.1 p.2).dtor) (p.1.col p.2) n
      (column_gate_acts p.1 n p.2 hp) (column_gate_hom p.1 n p.2 hp) rest
      (fun p1 h1 => hl p1 (List.mem_cons_of_mem _ h1)) (Tableau.ctor n) rfl).symm

/-- After `prepend_H_YZ(0)` on the one-qubit identity, `prepend_H(0)` leaves
`Y` as the X observable and `append_H(0)` leaves `-Z`: the x bit differs. -/
theorem dual_layout_differs :
    (((Tableau.ctor 1).prepend_H_YZ 0).prepend_H 0).obs false 0
      ≠ ((BlockTransposedTableau.ctor ((Tableau.ctor 1).prepend_H_YZ 0)).append_H 0).dtor.obs
          false 0 := by
  have h0 : (0 : Nat) < ceil256 1 := by rw [ceil256_one]; omega
  have h1 : (0 : Nat) < ceil256 (Tableau.ctor 1).num_qubits := by
    rw [ctor_num_qubits]; exact h0
  have h2 : (0 : Nat) < ceil256 ((Tableau.ctor 1).with_obs true 0
      (((Tableau.ctor 1).obs true 0).mul_phase 3 ((Tableau.ctor 1).obs false 0))).num_qubits := by
    rw [with_obs_num_qubits]; exact h1
  have hn : ((Tableau.ctor 1).prepend_H_YZ 0).num_qubits = 1 :=
    prepend_H_YZ_num_qubits _ _ h1
  have h3 : (0 : Nat) < ceil256 ((Tableau.ctor 1).prepend_H_YZ 0).num_qubits := by
    rw [hn]; exact h0
  have h4 : (0 : Nat) < ceil256 (((Tableau.ctor 1).prepend_H_YZ 0).with_obs false 0
      (((Tableau.ctor 1).prepend_H_YZ 0).obs true 0)).num_qubits := by
    rw [with_obs_num_qubits]; exact h3
  have ez : ((Tableau.ctor 1).prepend_H_YZ 0).obs true 0
      = { size := 1, val_sign := false, x_data := fun k => decide (k = 0),
          z_data := fun k => decide (k = 0) } := by
    rw [prepend_H_YZ_eq _ _ h1, obs_with_obs _ _ _ _ h2 _ _ h2, if_neg (by simp),
      obs_with_obs _ _ _ _ h1 _ _ h1, if_pos ⟨rfl, rfl⟩, ctor_obs_eq 1 _ _ h0,
      ctor_obs_eq 1 _ _ h0, ctor_num_qubits,
      clip_of_wf (mul_phase_wf (unit_row_wf 1 _ _ h0) (unit_row_wf 1 _ _ h0)),
      unit_mul_zx 1 0 (by omega)]
  have ex : ((Tableau.ctor 1).prepend_H_YZ 0).obs false 0 = (unit_row 1 false 0).neg := by
    rw [prepend_H_YZ_eq _ _ h1, obs_with_obs _ _ _ _ h2 _ _ h2, if_pos ⟨rfl, rfl⟩,
      ctor_obs_eq 1 _ _ h0, with_obs_num_qubits, ctor_num_qubits,
      clip_of_wf (neg_wf (unit_row_wf 1 _ _ h0))]
  have hz : (unit_row 1 true 0).wf 1 := unit_row_wf 1 _ _ h0
  rw [(append_H_dtor _ 0 h3).2 false 0 h3, prepend_H_eq, obs_with_obs _ _ _ _ h4 _ _ h4,
    if_neg (by simp), obs_with_obs _ _ _ _ h3 _ _ h3, if_pos ⟨rfl, rfl⟩, ez, ex]
  intro e
  have e1 := congrArg (fun v => v.x_data 0) e
  revert e1
  simp [PauliStringVal.clip, PauliStringVal.col1, col_H, unit_row, PauliStringVal.neg, hn,
    ceil256_one]


theorem dual_layout_counterexample_valid : ((Tableau.identity 1).prepend_H_YZ 0).valid :=
  valid_prepend_H_YZ (Tableau.ctor 1) 0 (by rw [ctor_num_qubits]; omega) (ctor_valid 1)

theorem dual_layout_counterexample_padding :
    ((Tableau.identity 1).prepend_H_YZ 0).zero_padding :=
  zero_padding_prepend_H_YZ (Tableau.ctor 1) (zero_padding_ctor 1) 0
    (by rw [ctor_num_qubits]; omega)

/-! ## The frame of `inplace_scatter_prepend` -/

theorem collect_eq {α : Type} (f : Nat → α) (m : Nat) :
    for_loop (fun q (acc : List α) => acc ++ [f q]) m [] = (List.range m).map f := by
  induction m with
  | zero => rfl
  | succ m ih => rw [for_loop_succ, ih, List.range_succ, List.map_append, List.map_singleton]

theorem collect_getD {α : Type} (f : Nat → α) (m k : Nat) (hk : k < m) (d : α) :
    (for_loop (fun q (acc : List α) => acc ++ [f q]) m []).getD k d = f k := by
  rw [collect_eq, List.getD_eq_getElem _ _ (by simpa using hk)]
  simp

theorem start_wf (n : Nat) (s : Bool) : (PauliStringVal.start n s).wf n :=
  ⟨rfl, fun _ _ => ⟨rfl, rfl⟩⟩

theorem scatter_eval_wf (t : Tableau) (v : PauliStringVal) (idx : List Nat) :
    (t.scatter_eval v idx).wf t.num_qubits := by
  rw [scatter_eval_start]
  apply loop_inv (t.scatter_eval_step v idx) (fun r => r.wf t.num_qubits) v.size _
    (start_wf _ _)
  intro k r _ hr
  rw [scatter_eval_step_eq]
  split
  · split
    · exact mul_y_wf hr (obs_wf _ _ _) (obs_wf _ _ _)
    · exact mul_phase_wf hr (obs_wf _ _ _)
  · split
    · exact mul_phase_wf hr (obs_wf _ _ _)
    · exact hr

/-- The second loop of `inplace_scatter_prepend`, with the rows it writes given
as functions of the index. -/
theorem overwrite_loop (t : Tableau) (tg : Nat → Nat) (X Z : Nat → PauliStringVal) (m : Nat)
    (hlt : ∀ k, k < m → tg k < ceil256 t.num_qubits)
    (hne : ∀ j k, j < k → k < m → tg j ≠ tg k) :
    ∀ j, j ≤ m →
      (for_loop (fun q t1 => (t1.with_obs false (tg q) (X q)).with_obs true (tg q) (Z q)) j
        t).num_qubits = t.num_qubits ∧
      (for_loop (fun q t1 => (t1.with_obs false (tg q) (X q)).with_obs true (tg q) (Z q)) j
        t).outside = t.outside ∧
      (∀ (h : Bool) (r : Nat), r < ceil256 t.num_qubits → (∀ k, k < j → tg k ≠ r) →
        (for_loop (fun q t1 => (t1.with_obs false (tg q) (X q)).with_obs true (tg q) (Z q)) j
          t).obs h r = t.obs h r) ∧
      (∀ (h : Bool) (k : Nat), k < j →
        (for_loop (fun q t1 => (t1.with_obs false (tg q) (X q)).with_obs true (tg q) (Z q)) j
          t).obs h (tg k) = (if h then Z k else X k).clip t.num_qubits) := by
  intro j
  induction j with
  | zero =>
    intro _
    exact ⟨rfl, rfl, fun _ _ _ _ => rfl, fun _ k hk => absurd hk (Nat.not_lt_zero k)⟩
  | succ j ih =>
    intro hj
    obtain ⟨i1, i2, i3, i4⟩ := ih (by omega)
    rw [for_loop_succ]
    generalize for_loop (fun q t1 => (t1.with_obs false (tg q) (X q)).with_obs true (tg q) (Z q))
      j t = L at i1 i2 i3 i4
    have hq : tg j < ceil256 L.num_qubits := by rw [i1]; exact hlt j (by omega)
    have hq1 : tg j < ceil256 (L.with_obs false (tg j) (X j)).num_qubits := by
      rw [with_obs_num_qubits]; exact hq
    have key : ∀ (h : Bool) (r : Nat), r < ceil256 t.num_qubits →
        ((L.with_obs false (tg j) (X j)).with_obs true (tg j) (Z j)).obs h r
          = if h = true ∧ r = tg j then (Z j).clip t.num_qubits
            else if h = false ∧ r = tg j then (X j).clip t.num_qubits else L.obs h r := by
      intro h r hr
      have hr0 : r < ceil256 L.num_qubits := by rw [i1]; exact hr
      have hr1 : r < ceil256 (L.with_obs false (tg j) (X j)).num_qubits := by
        rw [with_obs_num_qubits]; exact hr0
      rw [obs_with_obs _ _ _ _ hq1 _ _ hr1, obs_with_obs _ _ _ _ hq _ _ hr0, with_obs_num_qubits,
        i1]
    refine ⟨?_, ?_, ?_, ?_⟩
    · rw [with_obs_num_qubits, with_obs_num_qubits, i1]
    · rw [outside_with_obs _ _ _ _ hq1, outside_with_obs _ _ _ _ hq, i2]
    · intro h r hr hk
      have e : r ≠ tg j := fun e => hk j (by omega) e.symm
      rw [key h r hr, if_neg (fun c => e c.2), if_neg (fun c => e c.2)]
      exact i3 h r hr (fun k hk1 => hk k (by omega))
    · intro h k hk
      rw [key h (tg k) (hlt k (by omega))]
      by_cases e : k = j
      · subst e
        cases h
        · rw [if_neg (by simp), if_pos ⟨rfl, rfl⟩]
          rfl
        · rw [if_pos ⟨rfl, rfl⟩]
          rfl
      · have hkj : k < j := by omega
        have e1 : tg k ≠ tg j := hne k j hkj (by omega)
        rw [if_neg (fun c => e1 c.2), if_neg (fun c => e1 c.2)]
        exact i4 h k hkj

theorem scatter_prepend_loop (t operation : Tableau) (target_qubits : List Nat) :
    t.inplace_scatter_prepend operation target_qubits
      = for_loop (fun q t1 =>
          (t1.with_obs false (target_qubits.getD q 0)
            ((for_loop (fun q acc =>
              acc ++ [t.scatter_eval (operation.load (operation.x_obs_ptr q)) target_qubits])
              operation.num_qubits []).getD q (PauliStringVal.identity 0))).with_obs true
            (target_qubits.getD q 0)
            ((for_loop (fun q acc =>
              acc ++ [t.scatter_eval (operation.load (operation.z_obs_ptr q)) target_qubits])
              operation.num_qubits []).getD q (PauliStringVal.identity 0)))
          operation.num_qubits t := by
  simp only [Tableau.inplace_scatter_prepend, x_obs_ptr_eq, z_obs_ptr_eq, store_eq_with_obs,
    with_obs_num_qubits]

/-- What `inplace_scatter_prepend` leaves in the rows of the tableau. -/
theorem scatter_prepend_frame (t operation : Tableau) (target_qubits : List Nat)
    (hlen : target_qubits.length = operation.num_qubits)
    (hlt : ∀ q ∈ target_qubits, q < t.num_qubits) (hnd : target_qubits.Nodup) :
    (t.inplace_scatter_prepend operation target_qubits).num_qubits = t.num_qubits ∧
    (t.inplace_scatter_prepend operation target_qubits).outside = t.outside ∧
    (∀ (h : Bool) (r : Nat), r < ceil256 t.num_qubits → r ∉ target_qubits →
      (t.inplace_scatter_prepend operation target_qubits).obs h r = t.obs h r) ∧
    (∀ (h : Bool) (k : Nat), k < operation.num_qubits →
      (t.inplace_scatter_prepend operation target_qubits).obs h (target_qubits.getD k 0)
        = t.scatter_eval (operation.obs h k) target_qubits) := by
  rw [scatter_prepend_loop]
  obtain ⟨i1, i2, i3, i4⟩ := overwrite_loop t (fun q => target_qubits.getD q 0) _ _
    operation.num_qubits
    (fun k hk => lt_ceil (getD_lt target_qubits _ hlt k (by omega)))
    (fun j k hjk hk => getD_ne_of_nodup target_qubits hnd j k hjk (by omega))
    operation.num_qubits (Nat.le_refl _)
  refine ⟨i1, i2, ?_, ?_⟩
  · intro h r hr hmem
    apply i3 h r hr
    intro k hk e
    apply hmem
    rw [← e, List.getD_eq_getElem _ _ (by omega)]
    exact List.getElem_mem _
  · intro h k hk
    rw [i4 h k hk]
    cases h
    · simp only [Bool.false_eq_true, if_false]
      rw [collect_getD (fun q => t.scatter_eval (operation.load (operation.x_obs_ptr q))
        target_qubits) _ k hk, clip_of_wf (scatter_eval_wf _ _ _), x_obs_ptr_eq]
      rfl
    · simp only [if_true]
      rw [collect_getD (fun q => t.scatter_eval (operation.load (operation.z_obs_ptr q))
        target_qubits) _ k hk, clip_of_wf (scatter_eval_wf _ _ _), z_obs_ptr_eq]
      rfl

/-! ## Squares of the square-root operations -/

theorem mul_phase_neg_right (c : Nat) (a b : PauliStringVal) :
    a.mul_phase c b.neg = (a.mul_phase c b).neg := by
  apply PauliStringVal.ext_iff4
  · rfl
  · have e : (a.inplace_right_mul_returning_log_i_scalar b.neg).2
        = (a.inplace_right_mul_returning_log_i_scalar b).2 := rfl
    show xor (xor a.val_sign (!b.val_sign))
        ((c + (a.inplace_right_mul_returning_log_i_scalar b.neg).2) % 256 &&& 2 != 0)
      = !(xor (xor a.val_sign b.val_sign)
        ((c + (a.inplace_right_mul_returning_log_i_scalar b).2) % 256 &&& 2 != 0))
    rw [e]
    generalize a.val_sign = u
    generalize b.val_sign = v
    generalize ((c + (a.inplace_right_mul_returning_log_i_scalar b).2) % 256 &&& 2 != 0) = w
    cases u <;> cases v <;> cases w <;> rfl
  · intro k; rfl
  · intro k; rfl

/-- `i^c (i^c A B) B = -A` for odd `c` and anticommuting rows. -/
theorem mul_mul_eq_neg (t : Tableau) (ha : Bool) (qa : Nat) (hb : Bool) (qb : Nat) (c : Nat)
    (hc : c = 1 ∨ c = 3) (hanti : (t.row ha qa).anti (t.row hb qb) = true) :
    ((t.obs ha qa).mul_phase c (t.obs hb qb)).mul_phase c (t.obs hb qb) = (t.obs ha qa).neg := by
  have h := mul_mul_neg_cancel t ha qa hb qb c hc hanti
  rw [mul_phase_neg_right] at h
  rw [← h, neg_neg, h]

/-- Multiplying a row twice by its partner, as `prepend_SQRT_X`, `prepend_SQRT_X_DAG`,
`prepend_SQRT_Z` and `prepend_SQRT_Z_DAG` do, toggles its sign. -/
theorem mul_twice (t : Tableau) (hv : t.valid) (c : Nat) (hc : c = 1 ∨ c = 3) (h : Bool) (q : Nat)
    (hq : q < t.num_qubits) :
    (t.with_obs h q ((t.obs h q).mul_phase c (t.obs (!h) q))).with_obs h q
        (((t.with_obs h q ((t.obs h q).mul_phase c (t.obs (!h) q))).obs h q).mul_phase c
          ((t.with_obs h q ((t.obs h q).mul_phase c (t.obs (!h) q))).obs (!h) q))
      = t.with_obs h q (t.obs h q).neg := by
  have hqc := lt_ceil hq
  have hanti : (t.row h q).anti (t.row (!h) q) = true := by
    cases h
    · exact anti_xz t hv q hq
    · exact anti_zx t hv q hq
  rw [with_obs_with_obs t h q _ _ hqc, obs_with_obs t h q _ hqc h q hqc, if_pos ⟨rfl, rfl⟩,
    obs_with_obs t h q _ hqc (!h) q hqc, if_neg (by cases h <;> simp),
    clip_of_wf (mul_phase_wf (obs_wf _ _ _) (obs_wf _ _ _)),
    mul_mul_eq_neg t h q (!h) q c hc hanti]

theorem prepend_SQRT_X_twice (t : Tableau) (hv : t.valid) (q : Nat) (hq : q < t.num_qubits) :
    (t.prepend_SQRT_X q).prepend_SQRT_X q = t.prepend_X q := by
  have hqc := lt_ceil hq
  rw [prepend_SQRT_X_eq _ q (by rw [prepend_SQRT_X_eq t q hqc]; exact hqc),
    prepend_SQRT_X_eq t q hqc, prepend_X_eq t q hqc]
  exact mul_twice t hv 1 (Or.inl rfl) true q hq

theorem prepend_SQRT_X_DAG_twice (t : Tableau) (hv : t.valid) (q : Nat) (hq : q < t.num_qubits) :
    (t.prepend_SQRT_X_DAG q).prepend_SQRT_X_DAG q = t.prepend_X q := by
  have hqc := lt_ceil hq
  rw [prepend_SQRT_X_DAG_eq _ q (by rw [prepend_SQRT_X_DAG_eq t q hqc]; exact hqc),
    prepend_SQRT_X_DAG_eq t q hqc, prepend_X_eq t q hqc]
  exact mul_twice t hv 3 (Or.inr rfl) true q hq

theorem prepend_SQRT_Z_twice (t : Tableau) (hv : t.valid) (q : Nat) (hq : q < t.num_qubits) :
    (t.prepend_SQRT_Z q).prepend_SQRT_Z q = t.prepend_Z q := by
  have hqc := lt_ceil hq
  rw [prepend_SQRT_Z_eq _ q (by rw [prepend_SQRT_Z_eq t q hqc]; exact hqc),
    prepend_SQRT_Z_eq t q hqc, prepend_Z_eq t q hqc]
  exact mul_twice t hv 1 (Or.inl rfl) false q hq

theorem prepend_SQRT_Z_DAG_twice (t : Tableau) (hv : t.valid) (q : Nat) (hq : q < t.num_qubits) :
    (t.prepend_SQRT_Z_DAG q).prepend_SQRT_Z_DAG q = t.prepend_Z q := by
  have hqc := lt_ceil hq
  rw [prepend_SQRT_Z_DAG_eq _ q (by rw [prepend_SQRT_Z_DAG_eq t q hqc]; exact hqc),
    prepend_SQRT_Z_DAG_eq t q hqc, prepend_Z_eq t q hqc]
  exact mul_twice t hv 3 (Or.inr rfl) false q hq

theorem prepend_SQRT_Y_twice (t : Tableau) (q : Nat) (hq : q < t.num_qubits) :
    (t.prepend_SQRT_Y q).prepend_SQRT_Y q = t.prepend_Y q := by
  have hqc := lt_ceil hq
  rw [prepend_SQRT_Y_eq _ q (by rw [prepend_SQRT_Y_eq t q hqc]; exact hqc),
    prepend_SQRT_Y_eq t q hqc, prepend_Y_eq t q hqc]
  apply Tableau.ext_obs
  · simp only [outside_with_obs, with_obs_num_qubits, hqc]
  · intro h1 q1 hq1
    simp only [with_obs_num_qubits] at hq1
    simp only [obs_with_obs, with_obs_num_qubits, hqc, hq1, clip_of_wf, mul_phase_wf, obs_wf,
      neg_wf, and_self, if_true, Bool.false_eq_true, Bool.true_eq_false, false_and, and_false,
      if_false]
    cases h1 <;> simp only [Bool.false_eq_true, Bool.true_eq_false, false_and, true_and,
      if_false, if_true] <;> (try split_ifs) <;> (try subst_vars) <;> (try rfl)

theorem prepend_SQRT_Y_DAG_twice (t : Tableau) (q : Nat) (hq : q < t.num_qubits) :
    (t.prepend_SQRT_Y_DAG q).prepend_SQRT_Y_DAG q = t.prepend_Y q := by
  have hqc := lt_ceil hq
  rw [prepend_SQRT_Y_DAG_eq _ q (by rw [prepend_SQRT_Y_DAG_eq t q hqc]; exact hqc),
    prepend_SQRT_Y_DAG_eq t q hqc, prepend_Y_eq t q hqc]
  apply Tableau.ext_obs
  · simp only [outside_with_obs, with_obs_num_qubits, hqc]
  · intro h1 q1 hq1
    simp only [with_obs_num_qubits] at hq1
    simp only [obs_with_obs, with_obs_num_qubits, hqc, hq1, clip_of_wf, mul_phase_wf, obs_wf,
      neg_wf, and_self, if_true, Bool.false_eq_true, Bool.true_eq_false, false_and, and_false,
      if_false]
    cases h1 <;> simp only [Bool.false_eq_true, Bool.true_eq_false, false_and, true_and,
      if_false, if_true] <;> (try split_ifs) <;> (try subst_vars) <;> (try rfl)

theorem prepend_X_then_Z (t : Tableau) (q : Nat) (hq : q < t.num_qubits) :
    (t.prepend_X q).prepend_Z q = t.prepend_Y q := by
  have hqc := lt_ceil hq
  rw [prepend_Z_eq _ q (by rw [prepend_X_eq t q hqc]; exact hqc),
    prepend_X_eq t q hqc, prepend_Y_eq t q hqc]
  apply Tableau.ext_obs
  · simp only [outside_with_obs, with_obs_num_qubits, hqc]
  · intro h1 q1 hq1
    simp only [with_obs_num_qubits] at hq1
    simp only [obs_with_obs, with_obs_num_qubits, hqc, hq1, clip_of_wf, mul_phase_wf, obs_wf,
      neg_wf, and_self, if_true, Bool.false_eq_true, Bool.true_eq_false, false_and, and_false,
      if_false]
    cases h1 <;> simp only [Bool.false_eq_true, Bool.true_eq_false, false_and, true_and,
      if_false, if_true] <;> (try split_ifs) <;> (try subst_vars) <;> (try rfl)

/-! ## The claims -/

/-- C1: the identity tableau of every size satisfies `satisfies_invariants`; each
row-major gate operation, on distinct targets below `n`, maps a tableau that
satisfies `satisfies_invariants` to one that satisfies it; hence so does every
tableau reached from the identity by a sequence of these operations. -/
theorem C1_invariants_preserved :
    (∀ n : Nat, (Tableau.identity n).satisfies_invariants = true) ∧
    (∀ (t : Tableau) (g : Gate) (targets : List Nat),
      g.valid_targets t.num_qubits targets → t.satisfies_invariants = true →
        (t.prepend_gate g targets).satisfies_invariants = true) ∧
    (∀ (n : Nat) (ops : List (Gate × List Nat)),
      (∀ op ∈ ops, op.1.valid_targets n op.2) →
        ((Tableau.identity n).prepend_all ops).satisfies_invariants = true) := by
  refine ⟨fun n => (satisfies_invariants_iff _).2 (ctor_valid n), ?_, ?_⟩
  · intro t g targets h hv
    exact (satisfies_invariants_iff _).2
      (valid_prepend_gate t g targets h ((satisfies_invariants_iff _).1 hv))
  · intro n ops h
    exact (satisfies_invariants_iff _).2 (valid_prepend_all ops (Tableau.identity n) h (ctor_valid n))

/-- Witness of C1: a Bell-pair circuit followed by a Y-controlled gate and a
square root, applied to the identity on three qubits. -/
theorem C1_invariants_preserved_witness :
    (Gate.CY.valid_targets (Tableau.identity 3).num_qubits [2, 0] ∧
      (Tableau.identity 3).satisfies_invariants = true ∧
      ((Tableau.identity 3).prepend_gate Gate.CY [2, 0]).satisfies_invariants = true) ∧
    ((∀ op ∈ [(Gate.H, [0]), (Gate.CX, [0, 1]), (Gate.CY, [1, 2]), (Gate.SQRT_X_DAG, [2])],
        op.1.valid_targets 3 op.2) ∧
      ((Tableau.identity 3).prepend_all
        [(Gate.H, [0]), (Gate.CX, [0, 1]), (Gate.CY, [1, 2]), (Gate.SQRT_X_DAG, [2])]
        ).satisfies_invariants = true) :=
  ⟨⟨by decide, C1_invariants_preserved.1 3,
      C1_invariants_preserved.2.1 (Tableau.identity 3) Gate.CY [2, 0] (by decide)
        (C1_invariants_preserved.1 3)⟩,
    ⟨by decide, C1_invariants_preserved.2.2 3 _ (by decide)⟩⟩

/-- C9: the freshly constructed tableau (and `Tableau::identity`) holds `+X_q` as
the X observable and `+Z_q` as the Z observable of every qubit `q < n`, all signs
are `+`, and the only set bits of the storage are the diagonal bits of the X→X
and Z→Z quadrants. -/
theorem C9_identity_observables (n : Nat) :
    Tableau.identity n = Tableau.ctor n ∧
    (∀ q, q < n →
      (∀ k, ((Tableau.ctor n).load ((Tableau.ctor n).x_obs_ptr q)).x_data k = decide (k = q)) ∧
      (∀ k, ((Tableau.ctor n).load ((Tableau.ctor n).x_obs_ptr q)).z_data k = false) ∧
      ((Tableau.ctor n).load ((Tableau.ctor n).x_obs_ptr q)).val_sign = false ∧
      (∀ k, ((Tableau.ctor n).load ((Tableau.ctor n).z_obs_ptr q)).z_data k = decide (k = q)) ∧
      (∀ k, ((Tableau.ctor n).load ((Tableau.ctor n).z_obs_ptr q)).x_data k = false) ∧
      ((Tableau.ctor n).load ((Tableau.ctor n).z_obs_ptr q)).val_sign = false) ∧
    (∀ a, (Tableau.ctor n).data_sign_x_z a = false) ∧
    (∀ a, (Tableau.ctor n).data_x2x_z2x_x2z_z2z a = true ↔
      ∃ q, q < n ∧
        (a = bit_address q q n X2X_QUAD false ∨ a = bit_address q q n Z2Z_QUAD false)) := by
  refine ⟨rfl, ?_, fun a => rfl, ctor_data n⟩
  intro q hq
  simp only [x_obs_ptr_eq, z_obs_ptr_eq, load_obs]
  refine ⟨?_, ?_, ctor_obs_sign n false q, ?_, ?_, ctor_obs_sign n true q⟩
  · intro k; rw [ctor_obs_x n false q k hq]; simp
  · intro k; rw [ctor_obs_z n false q k hq]; simp
  · intro k; rw [ctor_obs_z n true q k hq]; simp
  · intro k; rw [ctor_obs_x n true q k hq]; simp

/-- Witness of C9: qubit 1 of the three-qubit identity tableau. -/
theorem C9_identity_observables_witness :
    (1 < 3) ∧
    (∀ k, ((Tableau.ctor 3).load ((Tableau.ctor 3).x_obs_ptr 1)).x_data k = decide (k = 1)) ∧
    (∀ k, ((Tableau.ctor 3).load ((Tableau.ctor 3).z_obs_ptr 1)).z_data k = decide (k = 1)) :=
  ⟨by decide, ((C9_identity_observables 3).2.1 1 (by decide)).1,
    ((C9_identity_observables 3).2.1 1 (by decide)).2.2.2.1⟩

/-- C2: on a tableau that satisfies `satisfies_invariants`, the specialised
row-major operation of every named gate, on distinct targets below `n`, gives
the same tableau (every bit and every sign) as `inplace_scatter_prepend` of the
gate's entry in `GATE_TABLEAUS`; this covers `prepend_CY`, composed of
`prepend_H_YZ`, `prepend_CZ`, `prepend_H_YZ`. -/
theorem C2_prepend_equals_scatter_prepend (t : Tableau) (g : Gate) (targets : List Nat)
    (h : g.valid_targets t.num_qubits targets) (hv : t.satisfies_invariants = true) :
    ∃ op, GATE_TABLEAUS g.name = some op ∧
      t.prepend_gate g targets = t.inplace_scatter_prepend op targets :=
  prepend_gate_eq_scatter t g targets h ((satisfies_invariants_iff t).1 hv)

/-- Witness of C2: `prepend_CY(0, 1)` on the two-qubit identity tableau. -/
theorem C2_prepend_equals_scatter_prepend_witness :
    Gate.CY.valid_targets (Tableau.identity 2).num_qubits [0, 1] ∧
    (Tableau.identity 2).satisfies_invariants = true ∧
    ∃ op, GATE_TABLEAUS Gate.CY.name = some op ∧
      (Tableau.identity 2).prepend_gate Gate.CY [0, 1]
        = (Tableau.identity 2).inplace_scatter_prepend op [0, 1] :=
  ⟨by decide, (satisfies_invariants_iff _).2 (ctor_valid 2),
    C2_prepend_equals_scatter_prepend (Tableau.identity 2) Gate.CY [0, 1] (by decide)
      ((satisfies_invariants_iff _).2 (ctor_valid 2))⟩

/-- C4: inverse law.  On a tableau that satisfies `satisfies_invariants`, applying
the row-major operation of a gate and then that of its adjoint, on the same
distinct targets below `n`, gives back the same tableau, every bit and every
sign: each square root followed by its `_DAG` and conversely, and each
self-adjoint operation applied twice. -/
theorem C4_inverse_law (t : Tableau) (g : Gate) (targets : List Nat)
    (h : g.valid_targets t.num_qubits targets) (hv : t.satisfies_invariants = true) :
    (t.prepend_gate g targets).prepend_gate g.adjoint targets = t :=
  prepend_gate_adjoint t g targets h ((satisfies_invariants_iff t).1 hv)

/-- Witness of C4: `prepend_SQRT_X_DAG(1)` undone by `prepend_SQRT_X(1)` on the
two-qubit identity tableau. -/
theorem C4_inverse_law_witness :
    Gate.SQRT_X_DAG.valid_targets (Tableau.identity 2).num_qubits [1] ∧
    (Tableau.identity 2).satisfies_invariants = true ∧
    ((Tableau.identity 2).prepend_gate Gate.SQRT_X_DAG [1]).prepend_gate Gate.SQRT_X [1]
      = Tableau.identity 2 :=
  ⟨by decide, (satisfies_invariants_iff _).2 (ctor_valid 2),
    C4_inverse_law (Tableau.identity 2) Gate.SQRT_X_DAG [1] (by decide)
      ((satisfies_invariants_iff _).2 (ctor_valid 2))⟩

/-- C10: for every `n`, quadrant and `input_qubit`, `output_qubit` below
`ceil256 n`, the transposed address lies in the same 256x256 tile as the
row-major address and is that address with the two 8-bit halves of the offset
inside the tile exchanged; for the four quadrants, after every tile of the
storage has been transposed the bit at the transposed address is the bit that
was at the row-major address; and inside a `BlockTransposedTableau` scope
`z_obs_x_bit(i, o)` and `z_obs_z_bit(i, o)` are the x bit and the z bit at
position `o` of the row-major `z_obs(i)`. -/
theorem C10_transposed_address (n quad i o : Nat) (hi : i < ceil256 n) (ho : o < ceil256 n) :
    bit_address i o n quad true / 65536 = bit_address i o n quad false / 65536 ∧
    bit_address i o n quad true % 65536
      = bit_address i o n quad false % 256 * 256 + bit_address i o n quad false / 256 % 256 ∧
    (quad < 4 → ∀ d : Nat → Bool,
      get_bit (transpose_bit_matrix_256x256blocks d (ceil256 n * ceil256 n * 4))
          (bit_address i o n quad true)
        = get_bit d (bit_address i o n quad false)) ∧
    (∀ t : Tableau, t.num_qubits = n →
      (BlockTransposedTableau.ctor t).z_obs_x_bit i o = (t.load (t.z_obs_ptr i)).x_data o ∧
      (BlockTransposedTableau.ctor t).z_obs_z_bit i o = (t.load (t.z_obs_ptr i)).z_data o) := by
  refine ⟨(bit_address_transposed i o n quad).1, (bit_address_transposed i o n quad).2.1,
    fun hq d => transpose_at d i o n quad hi ho hq, ?_⟩
  intro t ht
  subst ht
  exact ⟨ctor_z_obs_x_bit t i o hi ho, ctor_z_obs_z_bit t i o hi ho⟩

/-- Witness of C10: input qubit 257 and output qubit 2 of the Z→X quadrant of a
300-qubit tableau (two tiles per side). -/
theorem C10_transposed_address_witness :
    257 < ceil256 300 ∧ 2 < ceil256 300 ∧
    bit_address 257 2 300 Z2X_QUAD true / 65536 = bit_address 257 2 300 Z2X_QUAD false / 65536 ∧
    (∀ t : Tableau, t.num_qubits = 300 →
      (BlockTransposedTableau.ctor t).z_obs_x_bit 257 2
        = (t.load (t.z_obs_ptr 257)).x_data 2) :=
  ⟨by decide, by decide,
    (C10_transposed_address 300 Z2X_QUAD 257 2 (by decide) (by decide)).1,
    fun t ht =>
      ((C10_transposed_address 300 Z2X_QUAD 257 2 (by decide) (by decide)).2.2.2 t ht).1⟩

/-- C7: applying a tableau to a Pauli string.  For every tableau and every
`q < n`, `T(+X_q)` is `x_obs(q)`, `T(+Z_q)` is `z_obs(q)` and `T(+Y_q)` is
`eval_y_obs(q)`, bits and sign; `T(-p)` is `T(p)` with the sign flipped; and the
identity tableau maps every Pauli string of length `n` to itself.  None of this
needs the invariants. -/
theorem C7_call_evaluates (t : Tableau) :
    (∀ q, q < t.num_qubits →
      t.call ((PauliStringVal.identity t.num_qubits).set_x_bit q true)
        = t.load (t.x_obs_ptr q) ∧
      t.call ((PauliStringVal.identity t.num_qubits).set_z_bit q true)
        = t.load (t.z_obs_ptr q) ∧
      t.call (((PauliStringVal.identity t.num_qubits).set_x_bit q true).set_z_bit q true)
        = t.eval_y_obs q) ∧
    (∀ p : PauliStringVal, t.call p.neg = (t.call p).neg) ∧
    (∀ p : PauliStringVal, p.is_string t.num_qubits →
      (Tableau.identity t.num_qubits).call p = p) :=
  ⟨fun q hq => ⟨call_X t q hq, call_Z t q hq, call_Y t q hq⟩, call_neg t,
    fun p hp => identity_call t.num_qubits p hp⟩

/-- Witness of C7: qubit 1 of the tableau of `H` on qubit 1 of three, and the
string `Y_1` under the identity on three qubits. -/
theorem C7_call_evaluates_witness :
    (1 < ((Tableau.identity 3).prepend_H 1).num_qubits ∧
      ((Tableau.identity 3).prepend_H 1).call
          (((PauliStringVal.identity ((Tableau.identity 3).prepend_H 1).num_qubits).set_x_bit
            1 true).set_z_bit 1 true)
        = ((Tableau.identity 3).prepend_H 1).eval_y_obs 1) ∧
    ((((PauliStringVal.identity 3).set_x_bit 1 true).set_z_bit 1 true).is_string
        (Tableau.identity 3).num_qubits ∧
      (Tableau.identity (Tableau.identity 3).num_qubits).call
          (((PauliStringVal.identity 3).set_x_bit 1 true).set_z_bit 1 true)
        = ((PauliStringVal.identity 3).set_x_bit 1 true).set_z_bit 1 true) :=
  ⟨⟨by decide, ((C7_call_evaluates ((Tableau.identity 3).prepend_H 1)).1 1 (by decide)).2.2⟩,
    ⟨single_is_string 3 1 true true (by decide),
      (C7_call_evaluates (Tableau.identity 3)).2.2 _
        (single_is_string 3 1 true true (by decide))⟩⟩

/-- C8: conjugation by a tableau that satisfies `satisfies_invariants` is a group
homomorphism on the Pauli strings of length `n`: `T(p)` commutes with `T(q)`
exactly when `p` commutes with `q`, and when they commute
`T(p * q) = T(p) * T(q)`, sign included. -/
theorem C8_call_homomorphism (t : Tableau) (p q : PauliStringVal)
    (hv : t.satisfies_invariants = true)
    (hp : p.is_string t.num_qubits) (hq : q.is_string t.num_qubits) :
    (t.call p).commutes (t.call q) = p.commutes q ∧
    (p.commutes q = true → t.call (p.mul_assign q) = (t.call p).mul_assign (t.call q)) :=
  ⟨call_commutes t ((satisfies_invariants_iff t).1 hv) p q hp hq,
    call_mul t ((satisfies_invariants_iff t).1 hv) p q hp hq⟩

/-- Witness of C8: the strings `X_0` and `X_1` under the tableau of `CX(0, 1)`
on two qubits. -/
theorem C8_call_homomorphism_witness :
    ((Tableau.identity 2).prepend_gate Gate.CX [0, 1]).satisfies_invariants = true ∧
    (((PauliStringVal.identity 2).set_x_bit 0 true).set_z_bit 0 false).is_string
      ((Tableau.identity 2).prepend_gate Gate.CX [0, 1]).num_qubits ∧
    (((PauliStringVal.identity 2).set_x_bit 1 true).set_z_bit 1 false).is_string
      ((Tableau.identity 2).prepend_gate Gate.CX [0, 1]).num_qubits ∧
    (((PauliStringVal.identity 2).set_x_bit 0 true).set_z_bit 0 false).commutes
      (((PauliStringVal.identity 2).set_x_bit 1 true).set_z_bit 1 false) = true ∧
    ((Tableau.identity 2).prepend_gate Gate.CX [0, 1]).call
        ((((PauliStringVal.identity 2).set_x_bit 0 true).set_z_bit 0 false).mul_assign
          (((PauliStringVal.identity 2).set_x_bit 1 true).set_z_bit 1 false))
      = (((Tableau.identity 2).prepend_gate Gate.CX [0, 1]).call
          (((PauliStringVal.identity 2).set_x_bit 0 true).set_z_bit 0 false)).mul_assign
        (((Tableau.identity 2).prepend_gate Gate.CX [0, 1]).call
          (((PauliStringVal.identity 2).set_x_bit 1 true).set_z_bit 1 false)) :=
  have hv : ((Tableau.identity 2).prepend_gate Gate.CX [0, 1]).satisfies_invariants = true :=
    (satisfies_invariants_iff _).2
      (valid_prepend_gate _ Gate.CX [0, 1] (by decide) (ctor_valid 2))
  have hn : ((Tableau.identity 2).prepend_gate Gate.CX [0, 1]).num_qubits = 2 :=
    prepend_gate_num_qubits _ Gate.CX [0, 1] (by decide)
  have hp := single_is_string 2 0 true false (by decide)
  have hq := single_is_string 2 1 true false (by decide)
  have hc := commutes_of_no_z
    (((PauliStringVal.identity 2).set_x_bit 0 true).set_z_bit 0 false)
    (((PauliStringVal.identity 2).set_x_bit 1 true).set_z_bit 1 false)
    (fun k => by simp [set_z_z, set_x_z, identity_z])
    (fun k => by simp [set_z_z, set_x_z, identity_z])
  ⟨hv, hn ▸ hp, hn ▸ hq, hc,
    (C8_call_homomorphism _ _ _ hv (hn ▸ hp) (hn ▸ hq)).2 hc⟩

/-- C11 fails for large `n`: with `n = 2^32` (so `M = 2^32`) the triples
`(0, 0, 1)` and `(0, 0, 0)` are in range and different, yet `quadrant * m * m`
wraps to 0 in `size_t` and both get the address 0; and with `n = 2^31` the
number of bits the constructor allocates, `M * M * 4`, wraps to 0, so no
address is below it. -/
theorem C11_counterexample :
    (0 < ceil256 (2 ^ 32) ∧ 1 < 4 ∧ (0, 0, 1) ≠ (0, 0, 0)) ∧
    bit_address_size_t 0 0 (2 ^ 32) 1 false = bit_address_size_t 0 0 (2 ^ 32) 0 false ∧
    (0 < ceil256 (2 ^ 31) ∧ data_num_bits_size_t (2 ^ 31) = 0 ∧
      ¬ bit_address_size_t 0 0 (2 ^ 31) 0 false < data_num_bits_size_t (2 ^ 31)) := by
  have e : data_num_bits_size_t (2 ^ 31) = 0 := by
    unfold data_num_bits_size_t
    rw [ceil256_two_pow_31]
    norm_num
  refine ⟨⟨by rw [ceil256_two_pow_32]; norm_num, by norm_num, by decide⟩,
    by rw [bit_address_size_t_wraps, bit_address_size_t_wraps],
    by rw [ceil256_two_pow_31]; norm_num, e, by rw [e]; exact Nat.not_lt_zero _⟩

/-- C11, amended: for every `n` whose allocation size `4 * M * M` (with
`M = ceil256 n`) is below `2^64`, every input and output qubit below `M`, every
quadrant below 4 and either layout, `bit_address` computed in 64-bit `size_t`
arithmetic does not wrap, is below `4 * M * M`, which is the number of bits the
constructor allocates, and for a fixed layout two different triples of input,
output and quadrant get different addresses. -/
theorem C11_bit_address_safe (n : Nat) (transposed : Bool) (i o quad i1 o1 quad1 : Nat)
    (hn : 4 * ceil256 n * ceil256 n < 2 ^ 64)
    (hi : i < ceil256 n) (ho : o < ceil256 n) (hq : quad < 4)
    (hi1 : i1 < ceil256 n) (ho1 : o1 < ceil256 n) (hq1 : quad1 < 4) :
    bit_address_size_t i o n quad transposed = bit_address i o n quad transposed ∧
    bit_address_size_t i o n quad transposed < 4 * ceil256 n * ceil256 n ∧
    data_num_bits_size_t n = 4 * ceil256 n * ceil256 n ∧
    bit_address_size_t i o n quad transposed < data_num_bits_size_t n ∧
    (bit_address_size_t i o n quad transposed = bit_address_size_t i1 o1 n quad1 transposed →
      i = i1 ∧ o = o1 ∧ quad = quad1) := by
  have hb : ∀ a b q, a < ceil256 n → b < ceil256 n → q < 4 →
      bit_address a b n q transposed < ceil256 n * ceil256 n * 4 := by
    intro a b q ha hb hq
    cases transposed
    · exact bit_address_lt ha hb hq
    · exact bit_address_true_lt ha hb hq
  have hm : ceil256 n < 2 ^ 64 := by
    generalize ceil256 n = m at hn
    nlinarith
  have hlt : ceil256 n * ceil256 n * 4 = 4 * ceil256 n * ceil256 n := by ring
  have e := bit_address_size_t_eq i o n quad transposed hm (by have := hb i o quad hi ho hq; omega)
  have e1 := bit_address_size_t_eq i1 o1 n quad1 transposed hm
    (by have := hb i1 o1 quad1 hi1 ho1 hq1; omega)
  have ed := data_num_bits_size_t_eq n hn
  refine ⟨e, ?_, ed, ?_, ?_⟩
  · rw [e, ← hlt]; exact hb i o quad hi ho hq
  · rw [e, ed, ← hlt]; exact hb i o quad hi ho hq
  · rw [e, e1]
    cases transposed
    · exact bit_address_inj hi ho hi1 ho1
    · exact bit_address_true_inj hi ho hi1 ho1

/-- Witness of C11: two bits of the transposed layout of a 300-qubit tableau. -/
theorem C11_bit_address_safe_witness :
    (4 * ceil256 300 * ceil256 300 < 2 ^ 64 ∧ 257 < ceil256 300 ∧ 2 < ceil256 300 ∧ 3 < 4 ∧
      2 < ceil256 300 ∧ 257 < ceil256 300 ∧ 3 < 4) ∧
    bit_address_size_t 257 2 300 3 true < 4 * ceil256 300 * ceil256 300 ∧
    (bit_address_size_t 257 2 300 3 true = bit_address_size_t 2 257 300 3 true →
      257 = 2 ∧ 2 = 257 ∧ 3 = 3) :=
  ⟨by decide,
    (C11_bit_address_safe 300 true 257 2 3 2 257 3 (by decide) (by decide) (by decide)
      (by decide) (by decide) (by decide) (by decide)).2.1,
    (C11_bit_address_safe 300 true 257 2 3 2 257 3 (by decide) (by decide) (by decide)
      (by decide) (by decide) (by decide) (by decide)).2.2.2.2⟩

/-- C12: opening a `BlockTransposedTableau` scope over a tableau and closing it
with no operation in between gives back the same tableau, every quadrant bit and
every sign: `blockwise_transpose` applied twice is the identity on the storage,
and it leaves the sign vector alone. -/
theorem C12_scope_roundtrip (t : Tableau) :
    (BlockTransposedTableau.ctor t).dtor = t ∧
    (∀ b : BlockTransposedTableau,
      b.blockwise_transpose.blockwise_transpose.tableau.data_x2x_z2x_x2z_z2z
        = b.tableau.data_x2x_z2x_x2z_z2z) ∧
    (∀ b : BlockTransposedTableau,
      b.blockwise_transpose.tableau.data_sign_x_z = b.tableau.data_sign_x_z ∧
      b.blockwise_transpose.tableau.num_qubits = b.tableau.num_qubits) :=
  ⟨ctor_dtor t,
    fun b => transpose_transpose _ _ (data_num_bits_mod b.tableau),
    fun _ => ⟨rfl, rfl⟩⟩

/-- C15: `main` exits with failure whenever `-repl` is given together with a shot
count other than 1, or with a format other than `01`, or with `-frame0`; without
`-repl` none of these three checks fails, whatever the shot count, the format
and `-frame0` are. -/
theorem C15_repl_checks (c : CommandLine) :
    (c.repl = true →
      ((c.shots ≠ .absent ∧ c.shots ≠ .value 1) ∨
        (c.format ≠ none ∧ c.format ≠ some "01") ∨ c.frame0 = true) →
      (main c).is_failure = true) ∧
    (c.repl = false →
      main c ≠ .multiple_samples_and_interactive ∧ main c ≠ .binary_format_and_repl ∧
      main c ≠ .repl_and_frame0) := by
  constructor
  · intro hr hbad
    unfold main
    rcases find_enum_format c.format with hf | ⟨hf, hg⟩ | ⟨hf, hg⟩ | ⟨hf, hg⟩ <;>
      rcases main_samples_cases c with hm | ⟨hm, hv⟩ | ⟨v, hm, hv, hsv⟩ <;>
      simp only [hf, hm, hr] <;>
      (try rfl) <;>
      cases hfr : c.frame0 <;> cases h1 : (c.out_path.isSome && !c.out_opens) <;>
      simp [format_values, Outcome.is_failure, hv] <;>
      (rcases hbad with ⟨a1, a2⟩ | ⟨a1, a2⟩ | a1 <;> simp_all)
  · intro hr
    unfold main
    cases find_enum_argument 0 format_names c.format with
    | none => simp
    | some index =>
      cases main_samples c with
      | none => simp
      | some samples =>
        simp only [hr]
        cases c.frame0 <;> cases (c.out_path.isSome && !c.out_opens) <;> simp <;>
          split_ifs <;> simp

/-- Witness of C15: `-repl -format b8` exits with failure. -/
theorem C15_repl_checks_witness :
    (main
      { format := some "b8", repl := true, frame0 := false, shots := .absent,
        out_path := none, out_opens := true }).is_failure = true :=
  (C15_repl_checks
    { format := some "b8", repl := true, frame0 := false, shots := .absent,
      out_path := none, out_opens := true }).1 rfl (Or.inr (Or.inl ⟨by decide, by decide⟩))


/-- C16, as amended: `main` accepts a `-shots` value `N` exactly when
`0 <= N <= 2^30` (the bounds it passes to `find_int_argument` are 0 and
`1 << 30`), it exits with failure for every other value, and it uses 1 when
`-shots` is absent. -/
theorem C16_shots_range (c : CommandLine) :
    (∀ N : Int, c.shots = .value N →
      (main_samples c = some N ↔ 0 ≤ N ∧ N ≤ 2 ^ 30) ∧
      (¬ (0 ≤ N ∧ N ≤ 2 ^ 30) → main c = .bad_argument)) ∧
    (c.shots = .absent → main_samples c = some 1) := by
  have e : ((1 <<< 30 : Nat) : Int) = 2 ^ 30 := by decide
  constructor
  · intro N hN
    have hs : main_samples c = if N < 0 ∨ 2 ^ 30 < N then none else some N := by
      unfold main_samples find_int_argument
      rw [hN, e]
    constructor
    · rw [hs]
      by_cases h : N < 0 ∨ 2 ^ 30 < N
      · rw [if_pos h]
        constructor
        · intro h1; cases h1
        · intro h1; omega
      · rw [if_neg h]
        constructor
        · intro _; omega
        · intro _; rfl
    · intro h
      have h1 : N < 0 ∨ 2 ^ 30 < N := by omega
      rw [if_pos h1] at hs
      unfold main
      cases find_enum_argument 0 format_names c.format with
      | none => rfl
      | some index => simp only [hs]
  · intro h
    unfold main_samples find_int_argument
    rw [h]
    decide

/-- Witness of C16: `-shots 5` is accepted. -/
theorem C16_shots_range_witness :
    main_samples
      { format := none, repl := false, frame0 := false, shots := .value 5,
        out_path := none, out_opens := true } = some 5 :=
  (((C16_shots_range
    { format := none, repl := false, frame0 := false, shots := .value 5,
      out_path := none, out_opens := true }).1 5 rfl).1).2 ⟨by decide, by decide⟩

/-- Counterexample to C16 as stated: `-shots 0` is accepted, and `main` goes on
to sample with zero shots. -/
theorem C16_counterexample :
    main_samples
      { format := none, repl := false, frame0 := false, shots := .value 0,
        out_path := none, out_opens := true } = some 0 ∧
    main
      { format := none, repl := false, frame0 := false, shots := .value 0,
        out_path := none, out_opens := true }
      = .reference_sample_out 0 SampleFormat.SAMPLE_FORMAT_01 ∧
    ¬ ((1 : Int) ≤ 0) := by
  decide

/-- C14: every tableau in `GATE_TABLEAUS` satisfies `satisfies_invariants`; the
single-qubit entries hold the images of X and Z that the gate table lists; and
the aliases are equal tableaux (`S` and `SQRT_Z`, `S_DAG` and `SQRT_Z_DAG`,
`H_XZ` and `H`, `CNOT` and `CX`). -/
theorem C14_gate_table :
    (∀ (name : String) (t : Tableau), GATE_TABLEAUS name = some t →
      t.satisfies_invariants = true) ∧
    (∀ e ∈ single_qubit_table, ∃ t, GATE_TABLEAUS e.1 = some t ∧ t.num_qubits = 1 ∧
      t.load (t.x_obs_ptr 0) = pauli_lit1 e.2.1.1 e.2.1.2.1 e.2.1.2.2 ∧
      t.load (t.z_obs_ptr 0) = pauli_lit1 e.2.2.1 e.2.2.2.1 e.2.2.2.2) ∧
    ((∃ t, GATE_TABLEAUS "S" = some t ∧ GATE_TABLEAUS "SQRT_Z" = some t) ∧
      (∃ t, GATE_TABLEAUS "S_DAG" = some t ∧ GATE_TABLEAUS "SQRT_Z_DAG" = some t) ∧
      (∃ t, GATE_TABLEAUS "H_XZ" = some t ∧ GATE_TABLEAUS "H" = some t) ∧
      (∃ t, GATE_TABLEAUS "CNOT" = some t ∧ GATE_TABLEAUS "CX" = some t)) :=
  ⟨fun name t h => (satisfies_invariants_iff t).2 (gate_table_valid name t h),
    single_qubit_table_holds,
    ⟨_, GATE_S, GATE_SQRT_Z⟩, ⟨_, GATE_S_DAG, GATE_SQRT_Z_DAG⟩, ⟨_, GATE_H_XZ, GATE_H⟩,
    ⟨_, GATE_CNOT, GATE_CX⟩⟩

/-- Witness of C14: the entry `SWAP` satisfies the invariants, and the row of
`SQRT_Y` in the table. -/
theorem C14_gate_table_witness :
    (∃ t, GATE_TABLEAUS "SWAP" = some t ∧ t.satisfies_invariants = true) ∧
    (("SQRT_Y", (true, false, true), (false, true, false)) ∈ single_qubit_table ∧
      ∃ t, GATE_TABLEAUS "SQRT_Y" = some t ∧ t.num_qubits = 1 ∧
        t.load (t.x_obs_ptr 0) = pauli_lit1 true false true ∧
        t.load (t.z_obs_ptr 0) = pauli_lit1 false true false) :=
  ⟨⟨_, GATE_SWAP, C14_gate_table.1 "SWAP" _ GATE_SWAP⟩,
    ⟨by decide,
      C14_gate_table.2.1 ("SQRT_Y", (true, false, true), (false, true, false)) (by decide)⟩⟩

/-- C20: on a tableau that satisfies `satisfies_invariants` the phase assertions
hold.  (a) In `prepend_CX(c, t)` and `prepend_CZ(c, t)` with `c != t` below `n`
the parity assertion of both multiplications holds (and the assertion of `*=`
holds exactly when its operands commute); (b) the assertion of `eval_y_obs(q)`
holds; (c) every assertion of `scatter_eval` holds when the scattered indices
are pairwise distinct and below `n`; (d) the phase `m` computed by
`prepend_SQRT_X`, `prepend_SQRT_X_DAG`, `prepend_SQRT_Z`, `prepend_SQRT_Z_DAG`,
`prepend_H_XY` and `prepend_H_YZ` is even. -/
theorem C20_phase_assertions (t : Tableau) (hv : t.satisfies_invariants = true) :
    (∀ c tg, c < t.num_qubits → tg < t.num_qubits → c ≠ tg →
      (t.mul_assign_assertion (t.z_obs_ptr tg) (t.z_obs_ptr c) = true ∧
        (t.mul_assign (t.z_obs_ptr tg) (t.z_obs_ptr c)).mul_assign_assertion
          ((t.mul_assign (t.z_obs_ptr tg) (t.z_obs_ptr c)).x_obs_ptr c)
          ((t.mul_assign (t.z_obs_ptr tg) (t.z_obs_ptr c)).x_obs_ptr tg) = true) ∧
      (t.mul_assign_assertion (t.x_obs_ptr tg) (t.z_obs_ptr c) = true ∧
        (t.mul_assign (t.x_obs_ptr tg) (t.z_obs_ptr c)).mul_assign_assertion
          ((t.mul_assign (t.x_obs_ptr tg) (t.z_obs_ptr c)).x_obs_ptr c)
          ((t.mul_assign (t.x_obs_ptr tg) (t.z_obs_ptr c)).z_obs_ptr tg) = true)) ∧
    (∀ a b : PauliStringVal, a.mul_assign_assertion b = a.commutes b) ∧
    (∀ q, q < t.num_qubits → t.eval_y_obs_assertion q = true) ∧
    (∀ (v : PauliStringVal) (idx : List Nat), v.size = idx.length →
      (∀ q ∈ idx, q < t.num_qubits) → idx.Nodup → t.scatter_eval_assertions v idx = true) ∧
    (∀ q, q < t.num_qubits →
      t.phase_m 1 (t.z_obs_ptr q) (t.x_obs_ptr q) % 2 = 0 ∧
      t.phase_m 3 (t.z_obs_ptr q) (t.x_obs_ptr q) % 2 = 0 ∧
      t.phase_m 1 (t.x_obs_ptr q) (t.z_obs_ptr q) % 2 = 0 ∧
      t.phase_m 3 (t.x_obs_ptr q) (t.z_obs_ptr q) % 2 = 0) := by
  have hval := (satisfies_invariants_iff t).1 hv
  refine ⟨fun c tg hc htg hne => ⟨prepend_CX_assertions t hval c tg hc htg hne,
    prepend_CZ_assertions t hval c tg hc htg hne⟩, mul_assign_assertion_eq,
    fun q hq => eval_y_obs_assertion_holds t hval q hq,
    fun v idx hlen hidx hnd => scatter_eval_assertions_hold t hval v idx hidx hnd hlen, ?_⟩
  intro q hq
  simp only [x_obs_ptr_eq, z_obs_ptr_eq]
  refine ⟨?_, ?_, ?_, ?_⟩
  · exact phase_m_even t 1 true q false q (by rw [anti_zx t hval q hq]; rfl)
  · exact phase_m_even t 3 true q false q (by rw [anti_zx t hval q hq]; rfl)
  · exact phase_m_even t 1 false q true q (by rw [anti_xz t hval q hq]; rfl)
  · exact phase_m_even t 3 false q true q (by rw [anti_xz t hval q hq]; rfl)

/-- Witness of C20: the assertion of `eval_y_obs(1)` and the phase of
`prepend_SQRT_X(1)` on the tableau of `CX(0, 1)` on two qubits. -/
theorem C20_phase_assertions_witness :
    ((Tableau.identity 2).prepend_gate Gate.CX [0, 1]).satisfies_invariants = true ∧
    1 < ((Tableau.identity 2).prepend_gate Gate.CX [0, 1]).num_qubits ∧
    ((Tableau.identity 2).prepend_gate Gate.CX [0, 1]).eval_y_obs_assertion 1 = true ∧
    ((Tableau.identity 2).prepend_gate Gate.CX [0, 1]).phase_m 1
        (((Tableau.identity 2).prepend_gate Gate.CX [0, 1]).z_obs_ptr 1)
        (((Tableau.identity 2).prepend_gate Gate.CX [0, 1]).x_obs_ptr 1) % 2 = 0 :=
  have hv : ((Tableau.identity 2).prepend_gate Gate.CX [0, 1]).satisfies_invariants = true :=
    (satisfies_invariants_iff _).2
      (valid_prepend_gate _ Gate.CX [0, 1] (by decide) (ctor_valid 2))
  have hn : 1 < ((Tableau.identity 2).prepend_gate Gate.CX [0, 1]).num_qubits := by
    rw [prepend_gate_num_qubits _ Gate.CX [0, 1] (by decide)]; decide
  ⟨hv, hn, (C20_phase_assertions _ hv).2.2.1 1 hn,
    ((C20_phase_assertions _ hv).2.2.2.2 1 hn).1⟩

/-- C17: the draw `u = 0` defeats the bound `0 <= k < m`.  With one index
remaining (`n = 1`) the draw `u = 0` gives `k = 2`, which `2 * m - k - 1` turns
into `2^64 - 1` in `size_t` arithmetic; the selection `remaining_indices[k]` is
then out of range and `sample_qmallows` returns no permutation. -/
theorem C17_qmallows_zero_draw :
    qmallows_k 1 0 = 2 ∧ qmallows_index 1 0 = 2 ^ 64 - 1 ∧
    [0].get? (qmallows_index 1 0) = none ∧
    sample_qmallows 1 (fun _ => 0) = none := by
  refine ⟨qmallows_k_zero 1 (by norm_num), qmallows_index_zero 1 (by norm_num) (by norm_num), ?_,
    sample_qmallows_zero 1 _ (by norm_num) (by norm_num) rfl⟩
  rw [qmallows_index_zero 1 (by norm_num) (by norm_num)]
  rfl

/-- C19: in `random_stabilizer_tableau_raw`, for every Hadamard vector, every
permutation and every choice of the random bits: `symmetric_m` is symmetric, its
entry `(r, c)` with `r > c` is the drawn bit where the mask rule holds and 0
where it does not, and its diagonal entry `(c, c)` is the drawn bit where
`h[c] = 1` and 0 where `h[c] = 0`; `lower_m` is lower triangular with unit
diagonal and its entry `(r, c)` with `r > c` is the drawn bit where its mask rule
holds and 0 where it does not; `symmetric` is symmetric and `lower` is lower
triangular with unit diagonal, their free entries being the drawn bits. -/
theorem C19_mask_rules (n : Nat) (hada : List Bool) (perm : List Nat) (d : Draws) :
    (∀ r c, (raw_symmetric_m n hada perm d).get r c = (raw_symmetric_m n hada perm d).get c r) ∧
    (∀ r c, c < r → r < n →
      (mask_symmetric_m hada perm r c = false → (raw_symmetric_m n hada perm d).get r c = false) ∧
      (mask_symmetric_m hada perm r c = true →
        (raw_symmetric_m n hada perm d).get r c = d.symmetric_m r c)) ∧
    (∀ c, c < n →
      (hada.getD c false = false → (raw_symmetric_m n hada perm d).get c c = false) ∧
      (hada.getD c false = true → (raw_symmetric_m n hada perm d).get c c = d.symmetric_m c c)) ∧
    (∀ r c, r < c → (raw_lower_m n hada perm d).get r c = false) ∧
    (∀ r, r < n → (raw_lower_m n hada perm d).get r r = true) ∧
    (∀ r c, c < r → r < n →
      (mask_lower_m hada perm r c = false → (raw_lower_m n hada perm d).get r c = false) ∧
      (mask_lower_m hada perm r c = true →
        (raw_lower_m n hada perm d).get r c = d.lower_m r c)) ∧
    (∀ r c, (raw_symmetric n d).get r c = (raw_symmetric n d).get c r) ∧
    (∀ r c, c ≤ r → r < n → (raw_symmetric n d).get r c = d.symmetric r c) ∧
    (∀ r c, r < c → (raw_lower n d).get r c = false) ∧
    (∀ r, r < n → (raw_lower n d).get r r = true) ∧
    (∀ r c, c < r → r < n → (raw_lower n d).get r c = d.lower r c) := by
  simp only [BitMat.get]
  refine ⟨?_, ?_, ?_, ?_, ?_, ?_, ?_, ?_, ?_, ?_, ?_⟩
  · intro r c
    rw [raw_symmetric_m_data, raw_symmetric_m_data]
    exact fill_symmetric_symm n (fun col => d.symmetric_m col col && hada.getD col false)
      (fun row col => mask_symmetric_m hada perm row col && d.symmetric_m row col) r c
  · intro r c hc hr
    rw [raw_symmetric_m_data, if_pos ⟨hr, by omega⟩, if_neg (by omega), if_pos hc]
    constructor
    · intro h; rw [h]; rfl
    · intro h; rw [h]; rfl
  · intro c hc
    rw [raw_symmetric_m_data, if_pos ⟨hc, hc⟩, if_pos rfl]
    constructor
    · intro h; rw [h]; simp
    · intro h; rw [h]; simp
  · intro r c h
    rw [raw_lower_m_data, if_neg (by omega)]
    simp
    omega
  · intro r h
    rw [raw_lower_m_data, if_neg (by omega)]
    simp [h]
  · intro r c hc hr
    rw [raw_lower_m_data, if_pos ⟨hc, hr⟩]
    constructor
    · intro h; rw [h]; rfl
    · intro h; rw [h]; rfl
  · intro r c
    rw [raw_symmetric_data, raw_symmetric_data]
    exact fill_symmetric_symm n (fun col => d.symmetric col col) d.symmetric r c
  · intro r c hc hr
    rw [raw_symmetric_data, if_pos ⟨hr, by omega⟩]
    by_cases e : r = c
    · subst e; rw [if_pos rfl]
    · rw [if_neg e, if_pos (by omega)]
  · intro r c h
    rw [raw_lower_data, if_neg (by omega)]
    simp
    omega
  · intro r h
    rw [raw_lower_data, if_neg (by omega)]
    simp [h]
  · intro r c hc hr
    rw [raw_lower_data, if_pos ⟨hc, hr⟩]

/-- C6 fails on the code for the draw `u = 0`: with `n = 1` the call
`sample_qmallows(1)` selects `remaining_indices[2^64 - 1]`, out of range, so
neither `random_stabilizer_tableau_raw(1)` nor `Tableau::random(1)` returns a
tableau, whatever the random bits are (here all 0). -/
theorem C6_random_zero_draw :
    sample_qmallows 1 (fun _ => 0) = none ∧
    random_stabilizer_tableau_raw 1
      { uni := fun _ => 0, symmetric := fun _ _ => false, symmetric_m := fun _ _ => false,
        lower := fun _ _ => false, lower_m := fun _ _ => false, sign_x := fun _ => false,
        sign_z := fun _ => false } = none ∧
    Tableau.random 1
      { uni := fun _ => 0, symmetric := fun _ _ => false, symmetric_m := fun _ _ => false,
        lower := fun _ _ => false, lower_m := fun _ _ => false, sign_x := fun _ => false,
        sign_z := fun _ => false } = none := by
  have h : sample_qmallows 1 (fun _ => 0) = none :=
    sample_qmallows_zero 1 _ (by norm_num) (by norm_num) rfl
  refine ⟨h, ?_, ?_⟩
  · unfold random_stabilizer_tableau_raw
    rw [h]
    rfl
  · unfold Tableau.random random_stabilizer_tableau_raw
    rw [h]
    rfl

/-- C13: padding stays zero.  The constructor and `Tableau::random` produce
tableaux with zero padding, and if every padding bit of a tableau is zero (each
quadrant bit whose input or output index is at least `n`, each sign bit at an
index at least `n` within the X half and within the Z half of the sign vector)
then it is still zero after every `prepend_*` operation on qubits below `n` and,
once the scope is closed, after `append_H`, `append_H_YZ`, `append_X` and
`append_CX` on qubits below `n`. -/
theorem C13_padding_stays_zero :
    (∀ n, (Tableau.ctor n).zero_padding) ∧
    (∀ n raw d, (Tableau.random_of n raw d).zero_padding) ∧
    (∀ n d t, Tableau.random n d = some t → t.zero_padding) ∧
    ∀ t : Tableau, t.zero_padding →
      (∀ q, q < t.num_qubits →
        (t.prepend_H q).zero_padding ∧ (t.prepend_H_XY q).zero_padding ∧
        (t.prepend_H_YZ q).zero_padding ∧ (t.prepend_X q).zero_padding ∧
        (t.prepend_Y q).zero_padding ∧ (t.prepend_Z q).zero_padding ∧
        (t.prepend_SQRT_X q).zero_padding ∧ (t.prepend_SQRT_X_DAG q).zero_padding ∧
        (t.prepend_SQRT_Y q).zero_padding ∧ (t.prepend_SQRT_Y_DAG q).zero_padding ∧
        (t.prepend_SQRT_Z q).zero_padding ∧ (t.prepend_SQRT_Z_DAG q).zero_padding ∧
        ((BlockTransposedTableau.ctor t).append_H q).dtor.zero_padding ∧
        ((BlockTransposedTableau.ctor t).append_H_YZ q).dtor.zero_padding ∧
        ((BlockTransposedTableau.ctor t).append_X q).dtor.zero_padding) ∧
      (∀ c tg, c < t.num_qubits → tg < t.num_qubits →
        (t.prepend_CX c tg).zero_padding ∧ (t.prepend_CY c tg).zero_padding ∧
        (t.prepend_CZ c tg).zero_padding ∧
        ((BlockTransposedTableau.ctor t).append_CX c tg).dtor.zero_padding) := by
  refine ⟨zero_padding_ctor, random_of_zero_padding, ?_, ?_⟩
  · intro n d t h
    unfold Tableau.random at h
    cases hr : random_stabilizer_tableau_raw n d with
    | none => rw [hr] at h; cases h
    | some raw =>
      rw [hr] at h
      injection h with h
      rw [← h]
      exact random_of_zero_padding n raw d
  · intro t hz
    constructor
    · intro q hq
      exact ⟨zero_padding_prepend_H t hz q hq, zero_padding_prepend_H_XY t hz q hq,
        zero_padding_prepend_H_YZ t hz q hq, zero_padding_prepend_X t hz q hq,
        zero_padding_prepend_Y t hz q hq, zero_padding_prepend_Z t hz q hq,
        zero_padding_prepend_SQRT_X t hz q hq, zero_padding_prepend_SQRT_X_DAG t hz q hq,
        zero_padding_prepend_SQRT_Y t hz q hq, zero_padding_prepend_SQRT_Y_DAG t hz q hq,
        zero_padding_prepend_SQRT_Z t hz q hq, zero_padding_prepend_SQRT_Z_DAG t hz q hq,
        zero_padding_append_H t hz q hq, zero_padding_append_H_YZ t hz q hq,
        zero_padding_append_X t hz q hq⟩
    · intro c tg hc htg
      exact ⟨zero_padding_prepend_CX t hz c tg hc htg, zero_padding_prepend_CY t hz c tg hc htg,
        zero_padding_prepend_CZ t hz c tg hc htg, zero_padding_append_CX t hz c tg hc htg⟩

/-- Witness of C13: the identity tableau on three qubits has zero padding and
keeps it under `prepend_CX(0, 2)` and under `append_CX(0, 2)`. -/
theorem C13_padding_stays_zero_witness :
    (Tableau.ctor 3).zero_padding ∧ 0 < (Tableau.ctor 3).num_qubits ∧
    2 < (Tableau.ctor 3).num_qubits ∧
    ((Tableau.ctor 3).prepend_CX 0 2).zero_padding ∧
    ((BlockTransposedTableau.ctor (Tableau.ctor 3)).append_CX 0 2).dtor.zero_padding :=
  ⟨C13_padding_stays_zero.1 3, by decide, by decide,
    ((C13_padding_stays_zero.2.2.2 (Tableau.ctor 3) (C13_padding_stays_zero.1 3)).2 0 2
      (by decide) (by decide)).1,
    ((C13_padding_stays_zero.2.2.2 (Tableau.ctor 3) (C13_padding_stays_zero.1 3)).2 0 2
      (by decide) (by decide)).2.2.2⟩

/-- C3: for every tableau with zero padding and each column gate `H`, `H_YZ`,
`X` on a qubit below `n` and `CX` on distinct qubits below `n`: opening a
`BlockTransposedTableau` scope, calling `append_G` and closing the scope yields
the same tableau as `inplace_scatter_append(GATE_TABLEAUS[G], targets)`, and
every stored X and Z observable has the gate applied to its Pauli at the target
qubit(s), the sign being flipped exactly when that conjugation contributes a
minus sign (`col_H`, `col_H_YZ`, `col_X`, `col_CX` give the new sign and bits of
a row from the old ones). -/
theorem C3_append_equals_scatter_append (t : Tableau) (hz : t.zero_padding) :
    (∀ q, q < t.num_qubits →
      (∃ g, GATE_TABLEAUS "H" = some g ∧
        ((BlockTransposedTableau.ctor t).append_H q).dtor = t.inplace_scatter_append g [q]) ∧
      (∃ g, GATE_TABLEAUS "H_YZ" = some g ∧
        ((BlockTransposedTableau.ctor t).append_H_YZ q).dtor = t.inplace_scatter_append g [q]) ∧
      (∃ g, GATE_TABLEAUS "X" = some g ∧
        ((BlockTransposedTableau.ctor t).append_X q).dtor = t.inplace_scatter_append g [q]) ∧
      ∀ (h : Bool) (i : Nat), i < t.num_qubits →
        ((BlockTransposedTableau.ctor t).append_H q).dtor.obs h i = (t.obs h i).col1 col_H q ∧
        ((BlockTransposedTableau.ctor t).append_H_YZ q).dtor.obs h i
          = (t.obs h i).col1 col_H_YZ q ∧
        ((BlockTransposedTableau.ctor t).append_X q).dtor.obs h i = (t.obs h i).col1 col_X q) ∧
    (∀ c tg, c < t.num_qubits → tg < t.num_qubits → c ≠ tg →
      (∃ g, GATE_TABLEAUS "CX" = some g ∧
        ((BlockTransposedTableau.ctor t).append_CX c tg).dtor
          = t.inplace_scatter_append g [c, tg]) ∧
      ∀ (h : Bool) (i : Nat), i < t.num_qubits →
        ((BlockTransposedTableau.ctor t).append_CX c tg).dtor.obs h i
          = (t.obs h i).col2 col_CX c tg) := by
  constructor
  · intro q hq
    refine ⟨⟨_, GATE_H, append_H_eq_scatter t hz q hq⟩,
      ⟨_, GATE_H_YZ, append_H_YZ_eq_scatter t hz q hq⟩,
      ⟨_, GATE_X, append_X_eq_scatter t hz q hq⟩, ?_⟩
    intro h i hi
    exact ⟨(append_H_dtor t q (lt_ceil hq)).2 h i (lt_ceil hi),
      (append_H_YZ_dtor t q (lt_ceil hq)).2 h i (lt_ceil hi),
      (append_X_dtor t q (lt_ceil hq)).2 h i (lt_ceil hi)⟩
  · intro c tg hc htg hne
    refine ⟨⟨_, GATE_CX, append_CX_eq_scatter t hz c tg hc htg hne⟩, ?_⟩
    intro h i hi
    exact (append_CX_dtor t c tg (lt_ceil hc) (lt_ceil htg) hne).2 h i (lt_ceil hi)

/-- Witness of C3: `append_CX(0, 2)` on the tableau of `H` on qubit 2 of three
qubits. -/
theorem C3_append_equals_scatter_append_witness :
    ((Tableau.ctor 3).prepend_H 2).zero_padding ∧
    0 < ((Tableau.ctor 3).prepend_H 2).num_qubits ∧ 2 < ((Tableau.ctor 3).prepend_H 2).num_qubits ∧
    (0 : Nat) ≠ 2 ∧
    ∃ g, GATE_TABLEAUS "CX" = some g ∧
      ((BlockTransposedTableau.ctor ((Tableau.ctor 3).prepend_H 2)).append_CX 0 2).dtor
        = ((Tableau.ctor 3).prepend_H 2).inplace_scatter_append g [0, 2] :=
  have hz : ((Tableau.ctor 3).prepend_H 2).zero_padding :=
    zero_padding_prepend_H _ (zero_padding_ctor 3) 2 (by decide)
  ⟨hz, by decide, by decide, by decide,
    ((C3_append_equals_scatter_append _ hz).2 0 2 (by decide) (by decide) (by decide)).1⟩

/-- C5 fails: on the valid tableau left by `prepend_H_YZ(0)` on the one-qubit
identity, prepending `H` on qubit 0 and appending `H` on qubit 0 inside a scope
give different tableaus. -/
theorem C5_counterexample :
    ((Tableau.identity 1).prepend_H_YZ 0).valid ∧
    ((Tableau.identity 1).prepend_H_YZ 0).zero_padding ∧
    ColumnGate.H.gate.valid_targets 1 [0] ∧
    ((Tableau.identity 1).prepend_H_YZ 0).prepend_all
        ([(ColumnGate.H, [0])].map (fun p => (p.1.gate, p.2)))
      ≠ ((BlockTransposedTableau.ctor ((Tableau.identity 1).prepend_H_YZ 0)).append_all
          [(ColumnGate.H, [0])].reverse).dtor :=
  ⟨dual_layout_counterexample_valid, dual_layout_counterexample_padding, by decide,
    fun e => dual_layout_differs (congrArg (fun t => t.obs false 0) e)⟩

/-- C5, amended: on the identity tableau of any size, calling the prepend
operations of a sequence of gates (H, H_YZ, X on a qubit below n, CX on two
different qubits below n) in order gives the same tableau as opening a
`BlockTransposedTableau` scope, calling the append operations of the sequence
in reverse order, and closing the scope. -/
theorem C5_dual_layout_identity (n : Nat) (sigma : List (ColumnGate × List Nat))
    (h : ∀ p ∈ sigma, p.1.gate.valid_targets n p.2) :
    (Tableau.identity n).prepend_all (sigma.map (fun p => (p.1.gate, p.2)))
      = ((BlockTransposedTableau.ctor (Tableau.identity n)).append_all sigma.reverse).dtor :=
  dual_layout_ctor n sigma h

theorem C5_dual_layout_identity_witness :
    (∀ p ∈ [(ColumnGate.H, [0]), (ColumnGate.CX, [0, 1]), (ColumnGate.H_YZ, [1]),
        (ColumnGate.X, [0])], p.1.gate.valid_targets 2 p.2) ∧
    (Tableau.identity 2).prepend_all
        ([(ColumnGate.H, [0]), (ColumnGate.CX, [0, 1]), (ColumnGate.H_YZ, [1]),
          (ColumnGate.X, [0])].map (fun p => (p.1.gate, p.2)))
      = ((BlockTransposedTableau.ctor (Tableau.identity 2)).append_all
          [(ColumnGate.H, [0]), (ColumnGate.CX, [0, 1]), (ColumnGate.H_YZ, [1]),
            (ColumnGate.X, [0])].reverse).dtor :=
  ⟨by decide, C5_dual_layout_identity 2 _ (by decide)⟩

/-- C21: frame of `inplace_scatter_prepend`.  With pairwise distinct targets
below `n` and an operation of as many qubits as there are targets, the X and
the Z observable of every qubit that is not a target are unchanged, bits and
sign; and for each `k` the new X and Z observable of `target_qubits[k]` are
`scatter_eval` of the X and the Z observable of qubit `k` of the operation,
evaluated on the tableau as it was before the call. -/
theorem C21_scatter_prepend_frame (t operation : Tableau) (target_qubits : List Nat)
    (hlen : target_qubits.length = operation.num_qubits)
    (hlt : ∀ q ∈ target_qubits, q < t.num_qubits) (hnd : target_qubits.Nodup) :
    (∀ r, r < t.num_qubits → r ∉ target_qubits →
      (t.inplace_scatter_prepend operation target_qubits).load
          ((t.inplace_scatter_prepend operation target_qubits).x_obs_ptr r)
        = t.load (t.x_obs_ptr r) ∧
      (t.inplace_scatter_prepend operation target_qubits).load
          ((t.inplace_scatter_prepend operation target_qubits).z_obs_ptr r)
        = t.load (t.z_obs_ptr r)) ∧
    (∀ k, k < operation.num_qubits →
      (t.inplace_scatter_prepend operation target_qubits).load
          ((t.inplace_scatter_prepend operation target_qubits).x_obs_ptr (target_qubits.getD k 0))
        = t.scatter_eval (operation.load (operation.x_obs_ptr k)) target_qubits ∧
      (t.inplace_scatter_prepend operation target_qubits).load
          ((t.inplace_scatter_prepend operation target_qubits).z_obs_ptr (target_qubits.getD k 0))
        = t.scatter_eval (operation.load (operation.z_obs_ptr k)) target_qubits) := by
  obtain ⟨_, _, h3, h4⟩ := scatter_prepend_frame t operation target_qubits hlen hlt hnd
  simp only [x_obs_ptr_eq, z_obs_ptr_eq, load_obs]
  exact ⟨fun r hr hm => ⟨h3 false r (lt_ceil hr) hm, h3 true r (lt_ceil hr) hm⟩,
    fun k hk => ⟨h4 false k hk, h4 true k hk⟩⟩

/-- Witness of C21: the two-qubit identity as operation, prepended on the
targets 2 and 0 of the three-qubit identity tableau. -/
theorem C21_scatter_prepend_frame_witness :
    [2, 0].length = (Tableau.identity 2).num_qubits ∧
    (∀ q ∈ [2, 0], q < (Tableau.identity 3).num_qubits) ∧ [2, 0].Nodup ∧
    (∀ r, r < (Tableau.identity 3).num_qubits → r ∉ [2, 0] →
      ((Tableau.identity 3).inplace_scatter_prepend (Tableau.identity 2) [2, 0]).load
          (((Tableau.identity 3).inplace_scatter_prepend (Tableau.identity 2) [2, 0]).x_obs_ptr r)
        = (Tableau.identity 3).load ((Tableau.identity 3).x_obs_ptr r) ∧
      ((Tableau.identity 3).inplace_scatter_prepend (Tableau.identity 2) [2, 0]).load
          (((Tableau.identity 3).inplace_scatter_prepend (Tableau.identity 2) [2, 0]).z_obs_ptr r)
        = (Tableau.identity 3).load ((Tableau.identity 3).z_obs_ptr r)) ∧
    (∀ k, k < (Tableau.identity 2).num_qubits →
      ((Tableau.identity 3).inplace_scatter_prepend (Tableau.identity 2) [2, 0]).load
          (((Tableau.identity 3).inplace_scatter_prepend (Tableau.identity 2) [2, 0]).x_obs_ptr
            ([2, 0].getD k 0))
        = (Tableau.identity 3).scatter_eval
            ((Tableau.identity 2).load ((Tableau.identity 2).x_obs_ptr k)) [2, 0] ∧
      ((Tableau.identity 3).inplace_scatter_prepend (Tableau.identity 2) [2, 0]).load
          (((Tableau.identity 3).inplace_scatter_prepend (Tableau.identity 2) [2, 0]).z_obs_ptr
            ([2, 0].getD k 0))
        = (Tableau.identity 3).scatter_eval
            ((Tableau.identity 2).load ((Tableau.identity 2).z_obs_ptr k)) [2, 0]) :=
  ⟨rfl, by decide, by decide,
    C21_scatter_prepend_frame (Tableau.identity 3) (Tableau.identity 2) [2, 0] rfl (by decide)
      (by decide)⟩

/-- C22: powers of the square-root operations.  On a tableau that satisfies
`satisfies_invariants`, for every `q` below `n`: `prepend_SQRT_X(q)` applied
twice gives the same tableau as `prepend_X(q)`, `prepend_SQRT_Y(q)` twice the
same as `prepend_Y(q)`, `prepend_SQRT_Z(q)` twice the same as `prepend_Z(q)`,
likewise for `prepend_SQRT_X_DAG`, `prepend_SQRT_Y_DAG` and
`prepend_SQRT_Z_DAG`; and `prepend_X(q)` followed by `prepend_Z(q)` gives the
same tableau as `prepend_Y(q)`. -/
theorem C22_square_root_powers (t : Tableau) (q : Nat) (hv : t.satisfies_invariants = true)
    (hq : q < t.num_qubits) :
    (t.prepend_SQRT_X q).prepend_SQRT_X q = t.prepend_X q ∧
    (t.prepend_SQRT_Y q).prepend_SQRT_Y q = t.prepend_Y q ∧
    (t.prepend_SQRT_Z q).prepend_SQRT_Z q = t.prepend_Z q ∧
    (t.prepend_SQRT_X_DAG q).prepend_SQRT_X_DAG q = t.prepend_X q ∧
    (t.prepend_SQRT_Y_DAG q).prepend_SQRT_Y_DAG q = t.prepend_Y q ∧
    (t.prepend_SQRT_Z_DAG q).prepend_SQRT_Z_DAG q = t.prepend_Z q ∧
    (t.prepend_X q).prepend_Z q = t.prepend_Y q :=
  ⟨prepend_SQRT_X_twice t ((satisfies_invariants_iff t).1 hv) q hq,
    prepend_SQRT_Y_twice t q hq,
    prepend_SQRT_Z_twice t ((satisfies_invariants_iff t).1 hv) q hq,
    prepend_SQRT_X_DAG_twice t ((satisfies_invariants_iff t).1 hv) q hq,
    prepend_SQRT_Y_DAG_twice t q hq,
    prepend_SQRT_Z_DAG_twice t ((satisfies_invariants_iff t).1 hv) q hq,
    prepend_X_then_Z t q hq⟩

/-- Witness of C22: qubit 1 of the two-qubit identity tableau. -/
theorem C22_square_root_powers_witness :
    (Tableau.identity 2).satisfies_invariants = true ∧ 1 < (Tableau.identity 2).num_qubits ∧
    ((Tableau.identity 2).prepend_SQRT_X 1).prepend_SQRT_X 1 = (Tableau.identity 2).prepend_X 1 ∧
    ((Tableau.identity 2).prepend_SQRT_Y 1).prepend_SQRT_Y 1 = (Tableau.identity 2).prepend_Y 1 ∧
    ((Tableau.identity 2).prepend_SQRT_Z 1).prepend_SQRT_Z 1 = (Tableau.identity 2).prepend_Z 1 ∧
    ((Tableau.identity 2).prepend_SQRT_X_DAG 1).prepend_SQRT_X_DAG 1
      = (Tableau.identity 2).prepend_X 1 ∧
    ((Tableau.identity 2).prepend_SQRT_Y_DAG 1).prepend_SQRT_Y_DAG 1
      = (Tableau.identity 2).prepend_Y 1 ∧
    ((Tableau.identity 2).prepend_SQRT_Z_DAG 1).prepend_SQRT_Z_DAG 1
      = (Tableau.identity 2).prepend_Z 1 ∧
    ((Tableau.identity 2).prepend_X 1).prepend_Z 1 = (Tableau.identity 2).prepend_Y 1 :=
  ⟨(satisfies_invariants_iff _).2 (ctor_valid 2), by decide,
    C22_square_root_powers (Tableau.identity 2) 1 ((satisfies_invariants_iff _).2 (ctor_valid 2))
      (by decide)⟩

end Stim

